import Mathlib

/-!
# pntr: intrusive shared / weak pointer control block

A shallow embedding of the control-block data model of `pntr`
(`ControlDataStorage`, `ControlDataUsage`, `ControlDataWeak`, `ControlDataOffset`,
`ControlDataSize`, `ControlDataAlign`, `ControlDataUser`, the counters and the
handle operations that sit on top of them), followed by theorems about it.

Unsigned machine integers of `w` bits are natural numbers below `2 ^ w`; every
store into a counter reduces modulo `2 ^ w`.  Template parameters become fields
of `Config`.  A member of `ControlData` that contains a `PNTR_ASSERT` is given
twice: under its own name as the call with the macro expanded to nothing
(`NDEBUG`, or a macro defined by the user), and under `Assert.` as the call with
the macro active (`assert`, the default of `common.hpp`), where a false condition
ends the program.  The asserted conditions are also stated on their own where a
theorem is about them.
-/

namespace Pntr

/-! ## Machine words -/

/-- The value `std::numeric_limits<T>::max()` of an unsigned type of `w` bits. -/
def numeric_max (w : Nat) : Nat := 2 ^ w - 1

/-- Conversion of a value to an unsigned type of `w` bits. -/
def wrap (w x : Nat) : Nat := x % 2 ^ w

/-- The operator `~x` on a `w` bit operand (the bits above `w` never survive the
conversion back to the `w` bit type). -/
def bnot (w x : Nat) : Nat := numeric_max w ^^^ x

/-- The function `detail::is_power_of_two` of `PntrTypeTraits.hpp`. -/
def is_power_of_two (p_value : Nat) : Bool :=
  p_value != 0 && (p_value &&& (p_value - 1)) == 0

/-- Width of `std::size_t` on the targets considered (LP64 / LLP64). -/
def size_t_bits : Nat := 64

/-! ## CounterThreadUnsafe

The counter cell is its `m_value`; `w` is the width of `t_value`.  Operations
return the result first and the new `m_value` second. -/

namespace CounterThreadUnsafe

/-- Return the current count. -/
def get_count (m_value : Nat) : Nat := m_value

/-- Increment the counter by the given value and return the previous value. -/
def increment (w m_value p_value : Nat) : Nat × Nat :=
  (m_value, wrap w (m_value + p_value))

/-- Decrement the counter by the given value and return the previous value. -/
def decrement (w m_value p_value : Nat) : Nat × Nat :=
  (m_value, wrap w (m_value + (2 ^ w - wrap w p_value)))

/-- If the counter equals `p_expected` replace it with the desired value and return true.
Otherwise save the counter value in `p_expected` and return false.  The result is
`(returned flag, new m_value, new p_expected)`. -/
def compare_exchange_weak (w m_value p_expected p_desired : Nat) : Bool × Nat × Nat :=
  if m_value = p_expected then (true, wrap w p_desired, p_expected)
  else (false, m_value, m_value)

end CounterThreadUnsafe

/-- The loop `while (cond(count) && !counter.compare_exchange_weak(count, desired(count))) {}`.
Returns the counter value and the local `count` at loop exit, or `none` when the
iteration budget is used up before the loop exits. -/
def casLoop (w : Nat) (cond : Nat → Bool) (desired : Nat → Nat) :
    Nat → Nat → Nat → Option (Nat × Nat)
  | 0, _, _ => none
  | fuel + 1, m_value, count =>
    if cond count then
      match CounterThreadUnsafe.compare_exchange_weak w m_value count (desired count) with
      | (true, m_value', count') => some (m_value', count')
      | (false, m_value', count') => casLoop w cond desired fuel m_value' count'
    else some (m_value, count)

/-! ## Configuration (template parameters of `ControlData`) -/

/-- The template argument `t_offset_bits`: a bit count (`NoBits` is `bits 0`) or
`shared_bits`. -/
inductive OffsetBits where
  | bits (n : Nat)
  | shared
deriving DecidableEq, Repr

/-- Template arguments of `ControlData<t_counter, t_storage, t_usage_bits, t_weak_bits,
t_offset_bits, t_size_bits, t_align_bits>`; `storage_bits` is `type_bits<t_storage>()`. -/
structure Config where
  storage_bits : Nat
  usage_bits : Nat
  weak_bits : Nat
  offset_bits : OffsetBits
  size_bits : Nat
  align_bits : Nat
deriving DecidableEq, Repr

/-- The three definitions of `ControlDataStorage`: the primary template (one word),
the specialisation with a separate usage counter, and the specialisation with
separate usage and weak counters. -/
inductive Layout where
  | single
  | separateUsage
  | separateAll
deriving DecidableEq, Repr

/-- The enabling condition of the specialisation "separate usage counter if it is half of
the data size". -/
def Config.matchesSeparateUsage (c : Config) : Bool :=
  c.usage_bits == c.storage_bits / 2 && decide (16 ≤ c.storage_bits)
    && (decide (c.weak_bits < 8) || c.weak_bits != c.storage_bits / 4)

/-- The enabling condition of the specialisation "separate usage and weak counters if
possible". -/
def Config.matchesSeparateAll (c : Config) : Bool :=
  is_power_of_two c.usage_bits && is_power_of_two c.weak_bits && decide (8 ≤ c.weak_bits)
    && decide (c.weak_bits ≤ c.usage_bits)
    && decide (c.usage_bits + c.weak_bits < c.storage_bits)
    && is_power_of_two (c.storage_bits - c.usage_bits - c.weak_bits)

/-- Which definition of `ControlDataStorage` is instantiated. -/
def Config.layout (c : Config) : Layout :=
  if c.matchesSeparateAll then Layout.separateAll
  else if c.matchesSeparateUsage then Layout.separateUsage
  else Layout.single

/-- The constant `s_shared_offset`. -/
def Config.s_shared_offset (c : Config) : Bool :=
  c.offset_bits == OffsetBits.shared

/-- The constant `s_usage_bits`. -/
def Config.s_usage_bits (c : Config) : Nat :=
  match c.layout with
  | Layout.separateUsage => c.storage_bits / 2
  | _ => c.usage_bits

/-- The constant `s_weak_bits`. -/
def Config.s_weak_bits (c : Config) : Nat := c.weak_bits

/-- The constant `s_offset_bits`. -/
def Config.s_offset_bits (c : Config) : Nat :=
  match c.offset_bits with
  | OffsetBits.shared => 0
  | OffsetBits.bits n => n

/-- The constant `s_size_bits`. -/
def Config.s_size_bits (c : Config) : Nat := c.size_bits

/-- The constant `s_align_bits`. -/
def Config.s_align_bits (c : Config) : Nat := c.align_bits

/-- Width of `UsageValueType`. -/
def Config.usage_type_bits (c : Config) : Nat :=
  match c.layout with
  | Layout.single => c.storage_bits
  | Layout.separateUsage => c.storage_bits / 2
  | Layout.separateAll => c.usage_bits

/-- Width of `WeakValueType`. -/
def Config.weak_type_bits (c : Config) : Nat :=
  match c.layout with
  | Layout.single => c.storage_bits
  | Layout.separateUsage => c.storage_bits / 2
  | Layout.separateAll => c.weak_bits

/-- Width of `DataValueType`. -/
def Config.data_type_bits (c : Config) : Nat :=
  match c.layout with
  | Layout.single => c.storage_bits
  | Layout.separateUsage => c.storage_bits / 2
  | Layout.separateAll => c.storage_bits - c.usage_bits - c.weak_bits

/-- Width of `OffsetValueType`. -/
def Config.offset_type_bits (c : Config) : Nat :=
  match c.layout with
  | Layout.single => c.storage_bits
  | Layout.separateUsage => c.storage_bits / 2
  | Layout.separateAll => if c.s_shared_offset then c.usage_type_bits else c.data_type_bits

/-- The constant `s_user_bits`. -/
def Config.s_user_bits (c : Config) : Nat :=
  match c.layout with
  | Layout.single =>
    c.storage_bits - c.s_usage_bits - c.s_weak_bits - c.s_offset_bits - c.s_size_bits
      - c.s_align_bits
  | Layout.separateUsage =>
    c.storage_bits / 2 - c.s_weak_bits - c.s_offset_bits - c.s_size_bits - c.s_align_bits
  | Layout.separateAll => c.data_type_bits - c.s_offset_bits - c.s_size_bits - c.s_align_bits

/-- The constant `s_weak_shift`. -/
def Config.s_weak_shift (c : Config) : Nat :=
  match c.layout with
  | Layout.single => c.s_usage_bits
  | _ => 0

/-- The constant `s_offset_shift`. -/
def Config.s_offset_shift (c : Config) : Nat :=
  match c.layout with
  | Layout.single => c.s_weak_shift + c.s_weak_bits
  | Layout.separateUsage => c.s_weak_bits
  | Layout.separateAll => 0

/-- The constant `s_size_shift`. -/
def Config.s_size_shift (c : Config) : Nat := c.s_offset_shift + c.s_offset_bits

/-- The constant `s_align_shift`. -/
def Config.s_align_shift (c : Config) : Nat := c.s_size_shift + c.s_size_bits

/-- The constant `s_user_shift`. -/
def Config.s_user_shift (c : Config) : Nat := c.s_align_shift + c.s_align_bits

/-- The static assertions of the instantiated classes, together with the requirement
that `t_storage` is one of `std::uint8_t` ... `std::uint64_t` and that `TypeFromBits` is
defined where it is used. -/
def Config.valid (c : Config) : Bool :=
  (c.storage_bits == 8 || c.storage_bits == 16 || c.storage_bits == 32 || c.storage_bits == 64)
    && decide (2 ≤ c.usage_bits)
    && (c.weak_bits == 0 || decide (2 ≤ c.weak_bits))
    && (match c.layout with
        | Layout.single =>
          decide (c.s_usage_bits + c.s_weak_bits + c.s_offset_bits + c.s_size_bits
                    + c.s_align_bits ≤ c.storage_bits)
            && (c.s_usage_bits != c.storage_bits / 2 || decide (c.storage_bits < 16))
        | Layout.separateUsage =>
          decide (c.s_weak_bits + c.s_offset_bits + c.s_size_bits + c.s_align_bits
                    ≤ c.storage_bits / 2)
        | Layout.separateAll =>
          decide (c.s_offset_bits + c.s_size_bits + c.s_align_bits ≤ c.data_type_bits))

/-! ## ControlDataStorage -/

/-- The data members of `ControlDataStorage`.  The primary template has `m_counter`
only, the first specialisation `m_usage_counter` and `m_counter`, the second one
`m_usage_counter`, `m_weak_counter` and `m_data`; members a layout does not have stay
at their initial `0` and are never read. -/
structure ControlData where
  m_counter : Nat
  m_usage_counter : Nat
  m_weak_counter : Nat
  m_data : Nat
deriving DecidableEq, Repr

/-- The accessor `usage_counter()`. -/
def usage_counter (c : Config) (s : ControlData) : Nat :=
  match c.layout with
  | Layout.single => s.m_counter
  | _ => s.m_usage_counter

/-- Store through the reference returned by `usage_counter()`. -/
def set_usage_counter (c : Config) (s : ControlData) (v : Nat) : ControlData :=
  match c.layout with
  | Layout.single => { s with m_counter := v }
  | _ => { s with m_usage_counter := v }

/-- The accessor `weak_counter()`. -/
def weak_counter (c : Config) (s : ControlData) : Nat :=
  match c.layout with
  | Layout.separateAll => s.m_weak_counter
  | _ => s.m_counter

/-- Store through the reference returned by `weak_counter()`. -/
def set_weak_counter (c : Config) (s : ControlData) (v : Nat) : ControlData :=
  match c.layout with
  | Layout.separateAll => { s with m_weak_counter := v }
  | _ => { s with m_counter := v }

/-- The accessor `data()`. -/
def data (c : Config) (s : ControlData) : Nat :=
  match c.layout with
  | Layout.separateAll => s.m_data
  | _ => s.m_counter

/-- Store through the reference returned by `data()`. -/
def set_data (c : Config) (s : ControlData) (v : Nat) : ControlData :=
  match c.layout with
  | Layout.separateAll => { s with m_data := v }
  | _ => { s with m_counter := v }

/-- The constructor `ControlDataStorage(p_usage_init, p_weak_init, p_data_init)`. -/
def ControlDataStorage.init (c : Config) (p_usage_init p_weak_init p_data_init : Nat) :
    ControlData :=
  match c.layout with
  | Layout.single => ⟨p_usage_init ||| p_weak_init ||| p_data_init, 0, 0, 0⟩
  | Layout.separateUsage => ⟨p_weak_init ||| p_data_init, p_usage_init, 0, 0⟩
  | Layout.separateAll => ⟨0, p_usage_init, p_weak_init, p_data_init⟩

/-! ## ControlDataUsage -/

/-- The enumeration `ControlStatus` of `common.hpp`. -/
inductive ControlStatus where
  | e_invalid
  | e_acquired
  | e_shared
deriving DecidableEq, Repr

/-- The constant `s_usage_zero`. -/
def s_usage_zero : Nat := 0

/-- The constant `s_usage_one`. -/
def s_usage_one : Nat := 1

/-- The constant `s_usage_mask`. -/
def Config.s_usage_mask (c : Config) : Nat :=
  numeric_max c.usage_type_bits >>> (c.usage_type_bits - c.s_usage_bits)

/-- The constant `s_uncontrolled`. -/
def Config.s_uncontrolled (c : Config) : Nat := c.s_usage_mask

/-- The constant `s_usage_max`. -/
def Config.s_usage_max (c : Config) : Nat :=
  if c.s_shared_offset then c.s_uncontrolled >>> 1 else c.s_uncontrolled - s_usage_one

/-- Return true if this is not controlled (yet). -/
def is_uncontrolled (c : Config) (s : ControlData) : Bool :=
  (CounterThreadUnsafe.get_count (usage_counter c s) &&& c.s_usage_mask) == c.s_uncontrolled

/-- Return true if this is controlled and not expired (yet). -/
def is_alive (c : Config) (s : ControlData) : Bool :=
  let count := CounterThreadUnsafe.get_count (usage_counter c s) &&& c.s_usage_mask
  decide (s_usage_one ≤ count) && decide (count ≤ c.s_usage_max)

/-- Return maximum usage count value. -/
def get_max_usage_count (c : Config) : Nat := c.s_usage_max

/-- Return the usage count. -/
def use_count (c : Config) (s : ControlData) : Nat :=
  CounterThreadUnsafe.get_count (usage_counter c s) &&& c.s_usage_mask

/-- Increment the usage counter.  This is the call with `PNTR_ASSERT` expanded to nothing;
`Assert.add_ref` is the call with the assertion active. -/
def add_ref (c : Config) (s : ControlData) : ControlData :=
  set_usage_counter c s
    (CounterThreadUnsafe.increment c.usage_type_bits (usage_counter c s) s_usage_one).2

/-- The condition asserted by `add_ref` on the previous usage value. -/
def add_ref_assertion (c : Config) (s : ControlData) : Bool :=
  decide (s_usage_zero < use_count c s) && decide (use_count c s < c.s_usage_max)

/-- Decrement the usage counter and return true if it reaches zero or was invalid.  This
is the call with `PNTR_ASSERT` expanded to nothing (`NDEBUG`, or a macro defined by the
user); `Assert.release` is the call with `PNTR_ASSERT(previous == s_uncontrolled)`
active, which ends the program before the increment that undoes the decrement. -/
def release (c : Config) (s : ControlData) : Bool × ControlData :=
  let r := CounterThreadUnsafe.decrement c.usage_type_bits (usage_counter c s) s_usage_one
  let previous := r.1 &&& c.s_usage_mask
  let s1 := set_usage_counter c s r.2
  if s_usage_one < previous ∧ previous ≤ c.s_usage_max then (false, s1)
  else if previous ≠ s_usage_one then
    -- Undo decrement on invalid counter.
    (true, set_usage_counter c s1
      (CounterThreadUnsafe.increment c.usage_type_bits (usage_counter c s1) s_usage_one).2)
  else (true, s1)

/-- The loop condition and result test `(count & mask) > zero && (count & mask) < max`. -/
def usage_in_range (c : Config) (count : Nat) : Bool :=
  decide (s_usage_zero < (count &&& c.s_usage_mask))
    && decide ((count &&& c.s_usage_mask) < c.s_usage_max)

/-- If the usage counter is uncontrolled: initialise it with its first reference and
return `e_acquired`; zero or max: return `e_invalid`; otherwise increment it and return
`e_shared`.  This is the call with `PNTR_ASSERT` expanded to nothing (`NDEBUG`, or a macro
defined by the user); `Assert.try_control` is the call with
`PNTR_ASSERT((count & s_usage_mask) < s_usage_max)` active. -/
def try_control (c : Config) (fuel : Nat) (s : ControlData) :
    Option (ControlStatus × ControlData) :=
  let count := CounterThreadUnsafe.get_count (usage_counter c s)
  match casLoop c.usage_type_bits (fun k => (k &&& c.s_usage_mask) == c.s_uncontrolled)
      (fun k => (k &&& bnot c.usage_type_bits c.s_usage_mask) ||| s_usage_one)
      fuel (usage_counter c s) count with
  | none => none
  | some (v1, count1) =>
    if (count1 &&& c.s_usage_mask) = c.s_uncontrolled then
      some (ControlStatus.e_acquired, set_usage_counter c s v1)
    else
      match casLoop c.usage_type_bits (usage_in_range c) (fun k => k + s_usage_one)
          fuel v1 count1 with
      | none => none
      | some (v2, count2) =>
        some (if usage_in_range c count2 then ControlStatus.e_shared
              else ControlStatus.e_invalid,
              set_usage_counter c s v2)

/-- Increment the usage counter if it is not zero or max, and return true if it was
incremented.  This is the call with `PNTR_ASSERT` expanded to nothing (`NDEBUG`, or a
macro defined by the user); `Assert.try_add_ref` is the call with
`PNTR_ASSERT((count & s_usage_mask) < s_usage_max)` active. -/
def try_add_ref (c : Config) (fuel : Nat) (s : ControlData) : Option (Bool × ControlData) :=
  let count := CounterThreadUnsafe.get_count (usage_counter c s)
  match casLoop c.usage_type_bits (usage_in_range c) (fun k => k + s_usage_one)
      fuel (usage_counter c s) count with
  | none => none
  | some (v, count1) => some (usage_in_range c count1, set_usage_counter c s v)

/-- Re-initialise the usage counter of an expired object. Return true if it is or was
uncontrolled. -/
def try_revive (c : Config) (fuel : Nat) (s : ControlData) : Option (Bool × ControlData) :=
  let count := CounterThreadUnsafe.get_count (usage_counter c s)
  match casLoop c.usage_type_bits (fun k => (k &&& c.s_usage_mask) == s_usage_zero)
      (fun k => (k &&& bnot c.usage_type_bits c.s_usage_mask) ||| c.s_uncontrolled)
      fuel (usage_counter c s) count with
  | none => none
  | some (v, count1) =>
    some ((count1 &&& c.s_usage_mask) == s_usage_zero
            || (count1 &&& c.s_usage_mask) == c.s_uncontrolled,
          set_usage_counter c s v)

/-! ## ControlDataWeak -/

/-- The constant `s_weak_zero`. -/
def s_weak_zero : Nat := 0

/-- The constant `s_weak_one`. -/
def s_weak_one : Nat := 1

/-- The constant `s_weak_one_shifted`. -/
def Config.s_weak_one_shifted (c : Config) : Nat := s_weak_one <<< c.s_weak_shift

/-- The constant `s_weak_max`. -/
def Config.s_weak_max (c : Config) : Nat :=
  numeric_max c.weak_type_bits >>> (c.weak_type_bits - c.s_weak_bits)

/-- The constant `s_weak_mask`. -/
def Config.s_weak_mask (c : Config) : Nat := c.s_weak_max <<< c.s_weak_shift

/-- The type `SupportsWeak`: false for the `NoBits` specialisation of `ControlDataWeak`,
which declares none of the weak operations below. -/
def Config.SupportsWeak (c : Config) : Bool := c.weak_bits != 0

/-- Return maximum weak count value. -/
def get_max_weak_count (c : Config) : Nat := c.s_weak_max

/-- Return the weak count. -/
def weak_count (c : Config) (s : ControlData) : Nat :=
  (CounterThreadUnsafe.get_count (weak_counter c s) &&& c.s_weak_mask) >>> c.s_weak_shift

/-- Increment the weak counter.  This is the call with `PNTR_ASSERT` expanded to nothing;
`Assert.weak_add_ref` is the call with the assertion active. -/
def weak_add_ref (c : Config) (s : ControlData) : ControlData :=
  set_weak_counter c s
    (CounterThreadUnsafe.increment c.weak_type_bits (weak_counter c s) c.s_weak_one_shifted).2

/-- The condition asserted by `weak_add_ref` on the previous weak value. -/
def weak_add_ref_assertion (c : Config) (s : ControlData) : Bool :=
  decide (weak_count c s < c.s_weak_max)

/-- Decrement the weak counter and return true if it reaches or was zero.  This is the
call with `PNTR_ASSERT` expanded to nothing; `Assert.weak_release` is the call with
`PNTR_ASSERT(previous != s_weak_zero)` active. -/
def weak_release (c : Config) (s : ControlData) : Bool × ControlData :=
  let r := CounterThreadUnsafe.decrement c.weak_type_bits (weak_counter c s) c.s_weak_one_shifted
  let previous := (r.1 &&& c.s_weak_mask) >>> c.s_weak_shift
  let s1 := set_weak_counter c s r.2
  if s_weak_one < previous then (false, s1)
  else if previous = s_weak_zero then
    -- Undo decrement on zero counter.
    (true, set_weak_counter c s1
      (CounterThreadUnsafe.increment c.weak_type_bits (weak_counter c s1)
        c.s_weak_one_shifted).2)
  else (true, s1)

/-! ## ControlDataOffset -/

/-- The constant `s_invalid_offset` of the `SharedBits` specialisation. -/
def s_invalid_offset : Nat := numeric_max size_t_bits

/-- The constant `s_offset_bit` of the `SharedBits` specialisation. -/
def Config.s_offset_bit (c : Config) : Nat := s_usage_one <<< (c.s_usage_bits - 1)

/-- The constant `s_offset_max`, for each of the three definitions of `ControlDataOffset`. -/
def Config.s_offset_max (c : Config) : Nat :=
  match c.offset_bits with
  | OffsetBits.shared => (c.s_offset_bit - s_usage_one) - s_usage_one
  | OffsetBits.bits 0 => 0
  | OffsetBits.bits _ => numeric_max c.offset_type_bits >>> (c.offset_type_bits - c.s_offset_bits)

/-- The constant `s_offset_mask`, for the primary template and the `SharedBits`
specialisation. -/
def Config.s_offset_mask (c : Config) : Nat :=
  match c.offset_bits with
  | OffsetBits.shared => c.s_offset_bit - s_usage_one
  | OffsetBits.bits _ => wrap c.offset_type_bits (c.s_offset_max <<< c.s_offset_shift)

/-- Return maximum offset value. -/
def get_max_offset (c : Config) : Nat := c.s_offset_max

/-- Return the offset value. -/
def get_offset (c : Config) (s : ControlData) : Nat :=
  match c.offset_bits with
  | OffsetBits.shared =>
    let count := CounterThreadUnsafe.get_count (usage_counter c s) &&& c.s_usage_mask
    if count = c.s_uncontrolled ∨ count ≤ c.s_usage_max then s_invalid_offset
    else count &&& c.s_offset_mask
  | OffsetBits.bits 0 => 0
  | OffsetBits.bits _ =>
    (CounterThreadUnsafe.get_count (data c s) &&& c.s_offset_mask) >>> c.s_offset_shift

/-- Try to set the offset value and return true on success. -/
def try_set_offset (c : Config) (fuel : Nat) (p_offset : Nat) (s : ControlData) :
    Option (Bool × ControlData) :=
  match c.offset_bits with
  | OffsetBits.shared =>
    let count := CounterThreadUnsafe.get_count (usage_counter c s)
    if c.s_offset_max < p_offset ∨ (count &&& c.s_usage_mask) = c.s_uncontrolled
        ∨ (s_usage_one ≤ (count &&& c.s_usage_mask)
            ∧ (count &&& c.s_usage_mask) ≤ c.s_usage_max) then
      some (false, s)
    else
      let offset := c.s_offset_bit ||| wrap c.offset_type_bits p_offset
      match casLoop c.usage_type_bits (fun _ => true)
          (fun k => (k &&& bnot c.offset_type_bits c.s_offset_mask) ||| offset)
          fuel (usage_counter c s) count with
      | none => none
      | some (v, _) => some (true, set_usage_counter c s v)
  | OffsetBits.bits 0 => some (p_offset == 0, s)
  | OffsetBits.bits _ =>
    if c.s_offset_max < p_offset then some (false, s)
    else
      let offset := wrap c.offset_type_bits (wrap c.offset_type_bits p_offset <<< c.s_offset_shift)
      let count := CounterThreadUnsafe.get_count (data c s)
      match casLoop c.data_type_bits (fun _ => true)
          (fun k => (k &&& bnot c.offset_type_bits c.s_offset_mask) ||| offset)
          fuel (data c s) count with
      | none => none
      | some (v, _) => some (true, set_data c s v)

/-! ## ControlDataSize -/

/-- The constant `s_size_max` (`s_size_zero` in the `NoBits` specialisation). -/
def Config.s_size_max (c : Config) : Nat :=
  if c.size_bits = 0 then 0
  else numeric_max c.data_type_bits >>> (c.data_type_bits - c.s_size_bits)

/-- The constant `s_size_mask`. -/
def Config.s_size_mask (c : Config) : Nat :=
  wrap c.data_type_bits (wrap c.data_type_bits c.s_size_max <<< c.s_size_shift)

/-- Return maximum size value. -/
def get_max_size (c : Config) : Nat := c.s_size_max

/-- Return the size value. -/
def get_size (c : Config) (s : ControlData) : Nat :=
  if c.size_bits = 0 then 0
  else (CounterThreadUnsafe.get_count (data c s) &&& c.s_size_mask) >>> c.s_size_shift

/-- Try to set the size value and return true on success. -/
def try_set_size (c : Config) (fuel : Nat) (p_size : Nat) (s : ControlData) :
    Option (Bool × ControlData) :=
  if c.size_bits = 0 then some (p_size == 0, s)
  else if c.s_size_max < p_size then some (false, s)
  else
    let size := wrap c.data_type_bits (wrap c.data_type_bits p_size <<< c.s_size_shift)
    let count := CounterThreadUnsafe.get_count (data c s)
    match casLoop c.data_type_bits (fun _ => true)
        (fun k => (k &&& bnot c.data_type_bits c.s_size_mask) ||| size)
        fuel (data c s) count with
    | none => none
    | some (v, _) => some (true, set_data c s v)

/-! ## ControlDataAlign -/

/-- The constant `s_align_max` (`s_align_zero` in the `NoBits` specialisation). -/
def Config.s_align_max (c : Config) : Nat :=
  if c.align_bits = 0 then 0
  else numeric_max c.data_type_bits >>> (c.data_type_bits - c.s_align_bits)

/-- The constant `s_align_mask`. -/
def Config.s_align_mask (c : Config) : Nat :=
  wrap c.data_type_bits (wrap c.data_type_bits c.s_align_max <<< c.s_align_shift)

/-- Return maximum align value. -/
def get_max_align (c : Config) : Nat := c.s_align_max

/-- Return the align value. -/
def get_align (c : Config) (s : ControlData) : Nat :=
  if c.align_bits = 0 then 0
  else (CounterThreadUnsafe.get_count (data c s) &&& c.s_align_mask) >>> c.s_align_shift

/-- Try to set the align value and return true on success. -/
def try_set_align (c : Config) (fuel : Nat) (p_align : Nat) (s : ControlData) :
    Option (Bool × ControlData) :=
  if c.align_bits = 0 then some (p_align == 0, s)
  else if c.s_align_max < p_align then some (false, s)
  else
    let align := wrap c.data_type_bits (wrap c.data_type_bits p_align <<< c.s_align_shift)
    let count := CounterThreadUnsafe.get_count (data c s)
    match casLoop c.data_type_bits (fun _ => true)
        (fun k => (k &&& bnot c.data_type_bits c.s_align_mask) ||| align)
        fuel (data c s) count with
    | none => none
    | some (v, _) => some (true, set_data c s v)

/-! ## ControlDataUser -/

/-- The enabling condition of the specialisation of `ControlDataUser` without user bits. -/
def Config.userNoBits (c : Config) : Bool :=
  c.usage_bits + c.weak_bits + c.size_bits + c.align_bits + c.s_offset_bits == c.storage_bits

/-- The constant `s_user_max` (`s_user_zero` in the specialisation without user bits). -/
def Config.s_user_max (c : Config) : Nat :=
  if c.userNoBits then 0
  else numeric_max c.data_type_bits >>> (c.data_type_bits - c.s_user_bits)

/-- The constant `s_user_mask`. -/
def Config.s_user_mask (c : Config) : Nat := wrap c.data_type_bits (c.s_user_max <<< c.s_user_shift)

/-- Return maximum user value. -/
def get_max_user (c : Config) : Nat := c.s_user_max

/-- Return the user value. -/
def get_user (c : Config) (s : ControlData) : Nat :=
  if c.userNoBits then 0
  else (CounterThreadUnsafe.get_count (data c s) &&& c.s_user_mask) >>> c.s_user_shift

/-- Try to set the user value and return true on success. -/
def try_set_user (c : Config) (fuel : Nat) (p_user : Nat) (s : ControlData) :
    Option (Bool × ControlData) :=
  if c.userNoBits then some (p_user == 0, s)
  else if c.s_user_max < p_user then some (false, s)
  else
    let user := wrap c.data_type_bits (p_user <<< c.s_user_shift)
    let count := CounterThreadUnsafe.get_count (data c s)
    match casLoop c.data_type_bits (fun _ => true)
        (fun k => (k &&& bnot c.data_type_bits c.s_user_mask) ||| user)
        fuel (data c s) count with
    | none => none
    | some (v, _) => some (true, set_data c s v)

/-- The constructor `ControlDataUser(p_user_init)` with the chain of base class
constructors it runs: the user value is shifted into place, `ControlDataWeak` adds the
initial weak count `s_weak_one_shifted` (`0u` without weak bits) and `ControlDataUsage`
the usage value `s_uncontrolled`. -/
def ControlData.init (c : Config) (p_user_init : Nat) : ControlData :=
  let p_data_init :=
    if c.userNoBits then 0
    else wrap c.data_type_bits (wrap c.data_type_bits p_user_init <<< c.s_user_shift)
  let p_weak_init := if c.SupportsWeak then c.s_weak_one_shifted else 0
  ControlDataStorage.init c c.s_uncontrolled p_weak_init p_data_init

/-! ## ControlAlloc, WeakPtr and SharedPtr (the part used by `WeakPtr::lock`) -/

/-- A pointer: `none` is `nullptr`, `some a` the address `a`. -/
abbrev Ptr := Option Nat

/-- The control block stored at each address. -/
abbrev Memory := Nat → ControlData

/-- The class `SharedPtr`: its only data member. -/
structure SharedPtr where
  m_shared : Ptr
deriving DecidableEq, Repr

/-- The class `WeakPtr`: its only data member. -/
structure WeakPtr where
  m_control : Ptr
deriving DecidableEq, Repr

/-- The member `SharedPtr::get`. -/
def SharedPtr.get (p : SharedPtr) : Ptr := p.m_shared

/-- The member `WeakPtr::is_empty`. -/
def WeakPtr.is_empty (p : WeakPtr) : Bool := p.m_control.isNone

/-- The member `ControlAlloc::try_get_shared`: try to increment the usage counter and return
a pointer to the shared object on success.  `cast` is the value of
`static_or_dynamic_cast<t_shared>(t_shared::get_shared_base(*this))`. -/
def ControlAlloc.try_get_shared (c : Config) (fuel : Nat) (cast : Ptr) (ctl : ControlData) :
    Option (Ptr × ControlData) :=
  match try_add_ref c fuel ctl with
  | none => none
  | some (false, ctl') => some (none, ctl')
  | some (true, ctl') => some (cast, ctl')

/-- The private constructor `SharedPtr(t_shared * p_shared, bool p_add_ref)` for a static
type whose `Intruder` base lies at the address of the object, so that the control block
reached through `m_shared` is the one at that address (`SharedPtr.mk_add_ref_via` is the
constructor for any static type). -/
def SharedPtr.mk_add_ref (c : Config) (p_shared : Ptr) (p_add_ref : Bool) (mem : Memory) :
    SharedPtr × Memory :=
  match p_shared with
  | some a => if p_add_ref then (⟨p_shared⟩, Function.update mem a (add_ref c (mem a)))
              else (⟨p_shared⟩, mem)
  | none => (⟨p_shared⟩, mem)

/-- The member `WeakPtr::lock`.  `cast a` is the result of the pointer cast for the control
block at address `a`. -/
def WeakPtr.lock (c : Config) (fuel : Nat) (cast : Nat → Ptr) (w : WeakPtr) (mem : Memory) :
    Option (SharedPtr × Memory) :=
  match w.m_control with
  | none => some (SharedPtr.mk_add_ref c none false mem)
  | some a =>
    match ControlAlloc.try_get_shared c fuel (cast a) (mem a) with
    | none => none
    | some (p, ctl') => some (SharedPtr.mk_add_ref c p false (Function.update mem a ctl'))

/-! ## Sequences of control-block operations -/

/-- The mutating member functions of `ControlData`. -/
inductive Op where
  | try_control
  | try_add_ref
  | add_ref
  | release
  | try_revive
  | weak_add_ref
  | weak_release
  | try_set_offset (p_offset : Nat)
  | try_set_size (p_size : Nat)
  | try_set_align (p_align : Nat)
  | try_set_user (p_user : Nat)
deriving DecidableEq, Repr

/-- The state after one call (the returned value is dropped). -/
def Op.apply (c : Config) (fuel : Nat) (op : Op) (s : ControlData) : Option ControlData :=
  match op with
  | Op.try_control => (Pntr.try_control c fuel s).map Prod.snd
  | Op.try_add_ref => (Pntr.try_add_ref c fuel s).map Prod.snd
  | Op.add_ref => some (Pntr.add_ref c s)
  | Op.release => some (Pntr.release c s).2
  | Op.try_revive => (Pntr.try_revive c fuel s).map Prod.snd
  | Op.weak_add_ref => some (Pntr.weak_add_ref c s)
  | Op.weak_release => some (Pntr.weak_release c s).2
  | Op.try_set_offset p => (Pntr.try_set_offset c fuel p s).map Prod.snd
  | Op.try_set_size p => (Pntr.try_set_size c fuel p s).map Prod.snd
  | Op.try_set_align p => (Pntr.try_set_align c fuel p s).map Prod.snd
  | Op.try_set_user p => (Pntr.try_set_user c fuel p s).map Prod.snd

/-- The state after a sequence of calls. -/
def run (c : Config) (fuel : Nat) : List Op → ControlData → Option ControlData
  | [], s => some s
  | op :: ops, s => (Op.apply c fuel op s).bind (run c fuel ops)

/-- The call `add_ref()` repeated `n` times. -/
def add_ref_n (c : Config) : Nat → ControlData → ControlData
  | 0, s => s
  | n + 1, s => add_ref_n c n (add_ref c s)

/-- The call `release()` repeated `n` times: the returned values in call order and the
final state. -/
def release_n (c : Config) : Nat → ControlData → List Bool × ControlData
  | 0, s => ([], s)
  | n + 1, s =>
    let r := release c s
    let rest := release_n c n r.2
    (r.1 :: rest.1, rest.2)

/-- One revival cycle as an object pool runs it: `try_revive`, then `try_control`, then
`release`.  The result is the state after the cycle, and `none` unless the three calls
returned `true`, `e_acquired` (with use count one afterwards) and `true`. -/
def revive_cycle (c : Config) (fuel : Nat) (s : ControlData) : Option ControlData :=
  match try_revive c fuel s with
  | some (true, s1) =>
    match try_control c fuel s1 with
    | some (ControlStatus.e_acquired, s2) =>
      if use_count c s2 = 1 then
        match release c s2 with
        | (true, s3) => some s3
        | (false, _) => none
      else none
    | _ => none
  | _ => none

/-- The revival cycle repeated `n` times. -/
def revive_cycles (c : Config) (fuel : Nat) : Nat → ControlData → Option ControlData
  | 0, s => some s
  | n + 1, s => (revive_cycle c fuel s).bind (revive_cycles c fuel n)

/-- The operations that test the usage value before they write it, or never write it:
every operation but `add_ref` (which asserts its precondition instead of testing it) and
`try_set_offset`. -/
def Op.checked : Op → Bool
  | Op.add_ref => false
  | Op.try_set_offset _ => false
  | _ => true

/-! ## Predicates used in the statements -/

/-- Every counter holds a value of its unsigned type. -/
def ControlData.wf (c : Config) (s : ControlData) : Prop :=
  usage_counter c s < 2 ^ c.usage_type_bits ∧ weak_counter c s < 2 ^ c.weak_type_bits
    ∧ data c s < 2 ^ c.data_type_bits

instance (c : Config) (s : ControlData) : Decidable (s.wf c) := by
  unfold ControlData.wf
  infer_instance

/-- The weak, offset, size, align and user fields read the same in both states. -/
def sameFields (c : Config) (s s' : ControlData) : Prop :=
  weak_count c s' = weak_count c s ∧ get_offset c s' = get_offset c s
    ∧ get_size c s' = get_size c s ∧ get_align c s' = get_align c s
    ∧ get_user c s' = get_user c s

instance (c : Config) (s s' : ControlData) : Decidable (sameFields c s s') := by
  unfold sameFields
  infer_instance

/-! ## Example configurations and states -/

/-- The configuration `(u08, 8, 0, 0, 0, 0)` of the `ControlData` test. -/
def cfg_u08_8 : Config := ⟨8, 8, 0, OffsetBits.bits 0, 0, 0⟩

/-- The configuration `(u08, 3, 2, 1, 1, 1)` of the `ControlData` test. -/
def cfg_u08_3_2_1_1_1 : Config := ⟨8, 3, 2, OffsetBits.bits 1, 1, 1⟩

/-- The configuration `(u08, 4, 2, sb, 0, 0)` of the `ControlData` test. -/
def cfg_u08_4_2_sb : Config := ⟨8, 4, 2, OffsetBits.shared, 0, 0⟩

/-- A single byte with two usage bits, two weak bits and no offset bits. -/
def cfg_u08_2_2 : Config := ⟨8, 2, 2, OffsetBits.bits 0, 0, 0⟩

/-- A single byte with two usage bits, two weak bits and the offset in the usage bits. -/
def cfg_u08_2_2_sb : Config := ⟨8, 2, 2, OffsetBits.shared, 0, 0⟩

/-- The configuration `(u32, 16, 8, 8, 0, 0)` of the `ControlData` test (separate usage
and weak counters). -/
def cfg_u32_16_8_8 : Config := ⟨32, 16, 8, OffsetBits.bits 8, 0, 0⟩

/-- The configuration `(u16, 8, 4, 4, 0, 0)` of the `ControlData` test (separate usage
counter). -/
def cfg_u16_8_4_4 : Config := ⟨16, 8, 4, OffsetBits.bits 4, 0, 0⟩

/-- The configuration `(u64, 32, 32, sb, 0, 0)` of `IntruderMallocStatic` and of the
`ControlData` test (separate usage counter, offset in the usage bits). -/
def cfg_u64_32_32_sb : Config := ⟨64, 32, 32, OffsetBits.shared, 0, 0⟩

/-- A single byte with three usage bits, two weak bits and no other field. -/
def cfg_u08_3_2 : Config := ⟨8, 3, 2, OffsetBits.bits 0, 0, 0⟩

/-! ## Allocator adapters, `ControlAlloc::dispose` and the handle destructors

One shared object is followed: its control block, the handles that point to it and what
has been done to it so far. -/

/-- What the allocator adapter of a `ControlAlloc` instantiation knows about the managed
object: `t_allocator::SupportsStatic` (always on for `AllocAdaptTyped`, which goes through
`m_function` unconditionally), `is_static_castable<t_shared>` and the value of
`calc_base_offset(shared)`. -/
structure Adapter where
  s_supports_static : Bool
  is_static_castable : Bool
  base_offset : Nat
deriving DecidableEq, Repr

/-- The member `destroy` of the allocator adapters, as far as the control block goes.
With static support it calls `m_function` (set to `destroy_or_deallocate<t_shared>` by
`try_init`) in mode `e_destroy`, which for a type that is not static-castable stores
`calc_base_offset(shared)` with `try_set_offset` before it runs the destructor; in every
other case only the destructor runs. -/
def AllocAdapt.destroy (c : Config) (a : Adapter) (fuel : Nat) (ctl : ControlData) :
    Option ControlData :=
  if a.s_supports_static then
    if a.is_static_castable then some ctl
    else (try_set_offset c fuel a.base_offset ctl).map Prod.snd
  else some ctl

/-- One shared object with its handles: the control block, the number of `SharedPtr` and
of non-empty `WeakPtr` handles that point to it, the number of destructor runs, and for
every call of `ControlAlloc::deallocate` with a non-null control block the use count and
the weak count read at the call. -/
structure System where
  control : ControlData
  shared : Nat
  weak : Nat
  destroyed : Nat
  deallocated : List (Nat × Nat)
deriving DecidableEq, Repr

/-- The member `ControlAlloc::dispose`: destroy the object and, with weak support, release
the weak unit held for the object.  The flag tells whether the returned control pointer is
non-null. -/
def ControlAlloc.dispose (c : Config) (a : Adapter) (fuel : Nat) (σ : System) :
    Option (Bool × System) :=
  match AllocAdapt.destroy c a fuel σ.control with
  | none => none
  | some ctl =>
    if c.SupportsWeak then
      let r := weak_release c ctl
      some (r.1, { σ with control := r.2, destroyed := σ.destroyed + 1 })
    else some (true, { σ with control := ctl, destroyed := σ.destroyed + 1 })

/-- The member `ControlAlloc::deallocate`; `p_control` tells whether the pointer is
non-null. -/
def ControlAlloc.deallocate (c : Config) (p_control : Bool) (σ : System) : System :=
  if p_control then
    { σ with deallocated :=
        σ.deallocated ++ [(use_count c σ.control, weak_count c σ.control)] }
  else σ

/-- The destructor of a non-empty `SharedPtr` to the object. -/
def SharedPtr.destroy (c : Config) (a : Adapter) (fuel : Nat) (σ : System) : Option System :=
  let r := release c σ.control
  let σ1 := { σ with control := r.2, shared := σ.shared - 1 }
  if r.1 then
    match ControlAlloc.dispose c a fuel σ1 with
    | none => none
    | some (p, σ2) => some (ControlAlloc.deallocate c p σ2)
  else some σ1

/-- The destructor of a non-empty `WeakPtr` to the object. -/
def WeakPtr.destroy (c : Config) (σ : System) : System :=
  let r := weak_release c σ.control
  let σ1 := { σ with control := r.2, weak := σ.weak - 1 }
  if r.1 then ControlAlloc.deallocate c true σ1 else σ1

/-- The two kinds of handle. -/
inductive Handle where
  | shared
  | weak
deriving DecidableEq, Repr

/-- Destroy handles to the object in the given order. -/
def destroy_handles (c : Config) (a : Adapter) (fuel : Nat) :
    List Handle → System → Option System
  | [], σ => some σ
  | Handle.shared :: hs, σ => (SharedPtr.destroy c a fuel σ).bind (destroy_handles c a fuel hs)
  | Handle.weak :: hs, σ => destroy_handles c a fuel hs (WeakPtr.destroy c σ)

/-- The member `WeakPtr::use_count`. -/
def WeakPtr.use_count (c : Config) (w : WeakPtr) (mem : Memory) : Nat :=
  match w.m_control with
  | some a => Pntr.use_count c (mem a)
  | none => 0

/-- The member `WeakPtr::weak_count`. -/
def WeakPtr.weak_count (c : Config) (w : WeakPtr) (mem : Memory) : Nat :=
  match w.m_control with
  | some a => Pntr.weak_count c (mem a)
  | none => 0

/-- The member `WeakPtr::expired`. -/
def WeakPtr.expired (c : Config) (w : WeakPtr) (mem : Memory) : Bool :=
  match w.m_control with
  | some a => Pntr.use_count c (mem a) == 0
  | none => false

/-- The member `SharedPtr::use_count`. -/
def SharedPtr.use_count (c : Config) (p : SharedPtr) (mem : Memory) : Nat :=
  match p.m_shared with
  | some a => Pntr.use_count c (mem a)
  | none => 0

/-! ## Handle operations on one object -/

/-- The operations on handles to one object: construct a `SharedPtr` from the raw pointer
(or through `shared_from_this`), copy and destroy a `SharedPtr`, construct a `WeakPtr`
from a `SharedPtr` or through `weak_from_this`, copy and destroy a `WeakPtr`, and `lock`
(the flag tells whether the pointer cast in `try_get_shared` yields a non-null pointer). -/
inductive HandleOp where
  | acquire
  | copy_shared
  | destroy_shared
  | weak_from_shared
  | weak_from_this
  | copy_weak
  | destroy_weak
  | lock (cast_ok : Bool)
deriving DecidableEq, Repr

/-- The handle the operation starts from exists, and the object it is called on does:
copying or destroying a `SharedPtr` and building a `WeakPtr` from one need a `SharedPtr`,
copying, destroying or locking a `WeakPtr` need a `WeakPtr`, and the raw pointer and
`weak_from_this` need an object whose destructor has not run. -/
def System.present (σ : System) : HandleOp → Bool
  | HandleOp.acquire => σ.destroyed == 0
  | HandleOp.copy_shared => decide (0 < σ.shared)
  | HandleOp.destroy_shared => decide (0 < σ.shared)
  | HandleOp.weak_from_shared => decide (0 < σ.shared)
  | HandleOp.weak_from_this => σ.destroyed == 0
  | HandleOp.copy_weak => decide (0 < σ.weak)
  | HandleOp.destroy_weak => decide (0 < σ.weak)
  | HandleOp.lock _ => decide (0 < σ.weak)

/-- The conditions that `add_ref` and `weak_add_ref` assert, for the operations that call
them. -/
def System.asserted (c : Config) (σ : System) : HandleOp → Bool
  | HandleOp.copy_shared => add_ref_assertion c σ.control
  | HandleOp.weak_from_shared => weak_add_ref_assertion c σ.control
  | HandleOp.weak_from_this => weak_add_ref_assertion c σ.control
  | HandleOp.copy_weak => weak_add_ref_assertion c σ.control
  | _ => true

/-- One handle operation.  `acquire` is the constructor `SharedPtr(t_other *)` through
`ControlAlloc::try_control` (the address test passes: the pointer is the object itself),
`lock` is `WeakPtr::lock` through `ControlAlloc::try_get_shared`. -/
def System.step (c : Config) (a : Adapter) (fuel : Nat) (op : HandleOp) (σ : System) :
    Option System :=
  match op with
  | HandleOp.acquire =>
    match try_control c fuel σ.control with
    | none => none
    | some (r, ctl) =>
      some { σ with control := ctl,
                    shared := if r = ControlStatus.e_invalid then σ.shared else σ.shared + 1 }
  | HandleOp.copy_shared =>
    some { σ with control := add_ref c σ.control, shared := σ.shared + 1 }
  | HandleOp.destroy_shared => SharedPtr.destroy c a fuel σ
  | HandleOp.weak_from_shared =>
    some { σ with control := weak_add_ref c σ.control, weak := σ.weak + 1 }
  | HandleOp.weak_from_this =>
    some { σ with control := weak_add_ref c σ.control, weak := σ.weak + 1 }
  | HandleOp.copy_weak =>
    some { σ with control := weak_add_ref c σ.control, weak := σ.weak + 1 }
  | HandleOp.destroy_weak => some (WeakPtr.destroy c σ)
  | HandleOp.lock cast_ok =>
    match ControlAlloc.try_get_shared c fuel (if cast_ok then some 0 else none) σ.control with
    | none => none
    | some (p, ctl) =>
      some { σ with control := ctl,
                    shared := if p.isSome then σ.shared + 1 else σ.shared }

/-- The handle operations in sequence, as long as no block has been deallocated and every
operation has the handle it starts from; `none` otherwise. -/
def System.run (c : Config) (a : Adapter) (fuel : Nat) : List HandleOp → System → Option System
  | [], σ => some σ
  | op :: ops, σ =>
    if σ.deallocated = [] ∧ σ.present op = true then
      (System.step c a fuel op σ).bind (System.run c a fuel ops)
    else none

/-- The same, where moreover every call of `add_ref` and `weak_add_ref` meets the
condition it asserts. -/
def System.run_asserted (c : Config) (a : Adapter) (fuel : Nat) :
    List HandleOp → System → Option System
  | [], σ => some σ
  | op :: ops, σ =>
    if σ.deallocated = [] ∧ σ.present op = true ∧ σ.asserted c op = true then
      (System.step c a fuel op σ).bind (System.run_asserted c a fuel ops)
    else none

/-- A freshly constructed object: the control block built by the constructor of
`Intruder`, no handle, nothing destroyed or deallocated. -/
def System.init (c : Config) (p_user_init : Nat) : System :=
  ⟨ControlData.init c p_user_init, 0, 0, 0, []⟩

/-! ## Construction of handles from a raw pointer and from `this` -/

/-- The control classes `ControlNew` and `ControlAlloc`. -/
inductive ControlKind where
  | control_new
  | control_alloc
deriving DecidableEq, Repr

/-- The member `try_control(t_shared & p_shared)` of `ControlNew` and `ControlAlloc`;
`same_base` is the value of `t_shared::get_shared_base(*this) == &p_shared`, which
`ControlAlloc` tests and `ControlNew` asserts.  The flag in the result tells whether the
returned pointer is `&p_shared` (true) or null. -/
def Control.try_control (c : Config) (fuel : Nat) (kind : ControlKind) (same_base : Bool)
    (ctl : ControlData) : Option (Bool × ControlData) :=
  match kind with
  | ControlKind.control_alloc =>
    if same_base then
      match Pntr.try_control c fuel ctl with
      | none => none
      | some (r, ctl') => some (r != ControlStatus.e_invalid, ctl')
    else some (false, ctl)
  | ControlKind.control_new =>
    match Pntr.try_control c fuel ctl with
    | none => none
    | some (ControlStatus.e_invalid, ctl') => some (false, ctl')
    | some (ControlStatus.e_acquired, ctl') => some (true, ctl')
    | some (ControlStatus.e_shared, ctl') => some (true, ctl')

/-- The member `Intruder::pntr_try_control(t_shared * p_shared)`. -/
def Intruder.pntr_try_control (c : Config) (fuel : Nat) (kind : ControlKind)
    (same_base : Bool) (p_shared : Ptr) (mem : Memory) : Option (Ptr × Memory) :=
  match p_shared with
  | none => some (none, mem)
  | some a =>
    match Control.try_control c fuel kind same_base (mem a) with
    | none => none
    | some (ok, ctl) => some (if ok then some a else none, Function.update mem a ctl)

/-- The constructor `SharedPtr(t_other * p_shared)`. -/
def SharedPtr.from_raw (c : Config) (fuel : Nat) (kind : ControlKind) (same_base : Bool)
    (p_shared : Ptr) (mem : Memory) : Option (SharedPtr × Memory) :=
  match Intruder.pntr_try_control c fuel kind same_base p_shared mem with
  | none => none
  | some (p, mem') => some (⟨p⟩, mem')

/-- The member `Intruder::shared_from_this`.  The pointer handed to the constructor is
`static_cast<PntrSharedBase *>(this)`, which is what `get_shared_base` returns for the
control block stored at the start of the same `Intruder`, so the address test holds. -/
def Intruder.shared_from_this (c : Config) (fuel : Nat) (kind : ControlKind) (this : Nat)
    (mem : Memory) : Option (SharedPtr × Memory) :=
  SharedPtr.from_raw c fuel kind true (some this) mem

/-- The constructor `WeakPtr(ControlType & p_control)`. -/
def WeakPtr.from_control (c : Config) (p_control : Nat) (mem : Memory) : WeakPtr × Memory :=
  (⟨some p_control⟩, Function.update mem p_control (weak_add_ref c (mem p_control)))

/-- The member `Intruder::weak_from_this`. -/
def Intruder.weak_from_this (c : Config) (this : Nat) (mem : Memory) : WeakPtr × Memory :=
  WeakPtr.from_control c this mem

/-- What a constructor may throw. -/
inductive Thrown where
  | bad_weak_ptr
deriving DecidableEq, Repr

/-- The constructor `SharedPtr(WeakPtr<t_other> const & p_weak)`: it throws
`std::bad_weak_ptr` if the weak pointer is empty and goes through `try_get_shared`
otherwise. -/
def SharedPtr.from_weak (c : Config) (fuel : Nat) (cast : Nat → Ptr) (w : WeakPtr)
    (mem : Memory) : Option (Except Thrown (SharedPtr × Memory)) :=
  match w.m_control with
  | none => some (Except.error Thrown.bad_weak_ptr)
  | some a =>
    match ControlAlloc.try_get_shared c fuel (cast a) (mem a) with
    | none => none
    | some (p, ctl') => some (Except.ok (⟨p⟩, Function.update mem a ctl'))

/-! ## Invariants of the handle operations -/

/-- The value the usage bits hold once the object has been destroyed: `destroy` stores
`s_offset_bit | calc_base_offset(shared)` there if the adapter has static support, the
type is not static-castable, the offset shares the usage bits and the offset fits; in
every other case the bits stay at `0`. -/
def Adapter.disposed_usage (c : Config) (a : Adapter) : Nat :=
  if a.s_supports_static = true ∧ a.is_static_castable = false ∧ c.s_shared_offset = true
      ∧ a.base_offset ≤ get_max_offset c then
    2 ^ (c.s_usage_bits - 1) + a.base_offset
  else 0

/-- The counters agree with the handles: while a `SharedPtr` exists the usage is the number
of `SharedPtr` handles and the weak count the number of `WeakPtr` handles plus one, and
nothing has been destroyed or deallocated; once the last `SharedPtr` is gone the destructor
has run once, the weak count is the number of `WeakPtr` handles, and the block has been
deallocated once, with weak count `0`, exactly if no `WeakPtr` is left. -/
def System.owned (c : Config) (a : Adapter) (σ : System) : Prop :=
  σ.control.wf c
    ∧ (0 < σ.shared →
        use_count c σ.control = σ.shared ∧ σ.shared ≤ get_max_usage_count c
        ∧ weak_count c σ.control = σ.weak + 1 ∧ σ.destroyed = 0 ∧ σ.deallocated = [])
    ∧ (σ.shared = 0 →
        use_count c σ.control = a.disposed_usage c ∧ σ.destroyed = 1
        ∧ (0 < σ.weak → weak_count c σ.control = σ.weak ∧ σ.deallocated = [])
        ∧ (σ.weak = 0 → σ.deallocated = [(a.disposed_usage c, 0)]))

/-- The invariant of the handle operations: as long as the destructor has not run, nothing
has been deallocated, the weak count is the number of `WeakPtr` handles plus one, and the
block is either uncontrolled without any `SharedPtr` or alive with at least as many units
of usage as `SharedPtr` handles; once the destructor has run (once), no `SharedPtr` is
left and the block either has not been deallocated and its weak count is the number of
`WeakPtr` handles, at least one, or it has been deallocated once, with weak count `0`. -/
def System.sound (c : Config) (a : Adapter) (σ : System) : Prop :=
  σ.control.wf c
    ∧ (σ.destroyed = 0 ∨ σ.destroyed = 1)
    ∧ (σ.destroyed = 0 →
        σ.deallocated = [] ∧ weak_count c σ.control = σ.weak + 1
        ∧ ((use_count c σ.control = c.s_uncontrolled ∧ σ.shared = 0)
          ∨ (1 ≤ use_count c σ.control ∧ use_count c σ.control ≤ get_max_usage_count c
            ∧ σ.shared ≤ use_count c σ.control)))
    ∧ (σ.destroyed = 1 →
        σ.shared = 0 ∧ use_count c σ.control = a.disposed_usage c
        ∧ ((σ.deallocated = [] ∧ 1 ≤ σ.weak ∧ weak_count c σ.control = σ.weak)
          ∨ (σ.deallocated = [(a.disposed_usage c, 0)] ∧ σ.weak = 0)))

/-! ## Copy, move, casts and owner order of the handles -/

/-- The copy constructor `SharedPtr(SharedPtr const & p_other)` and its templated form:
the new handle, the source (which is not modified) and the memory. -/
def SharedPtr.copy (c : Config) (p_other : SharedPtr) (mem : Memory) :
    SharedPtr × SharedPtr × Memory :=
  match p_other.m_shared with
  | some a => (⟨p_other.m_shared⟩, p_other, Function.update mem a (add_ref c (mem a)))
  | none => (⟨p_other.m_shared⟩, p_other, mem)

/-- The move constructor `SharedPtr(SharedPtr && p_other)` and its templated form: the new
handle, the source afterwards and the memory. -/
def SharedPtr.move (p_other : SharedPtr) (mem : Memory) : SharedPtr × SharedPtr × Memory :=
  (⟨p_other.m_shared⟩, ⟨none⟩, mem)

/-- The private member `SharedPtr::detach`: the pointer it returns and the handle
afterwards. -/
def SharedPtr.detach (p : SharedPtr) : Ptr × SharedPtr := (p.m_shared, ⟨none⟩)

/-- The private constructor `SharedPtr(t_shared * p_shared, bool p_add_ref)` for a static
type `t_shared` of any shape.  The call `m_shared->pntr_add_ref()` runs on the `Intruder`
base of the object, which holds the control block at its start; `to_intruder` is the
implicit conversion `t_shared * → Intruder *` that finds it, and it moves the pointer when
the base does not lie at the address of the `t_shared` (several or virtual bases).
`SharedPtr.mk_add_ref` is the case in which the conversion is the identity. -/
def SharedPtr.mk_add_ref_via (c : Config) (to_intruder : Nat → Nat) (p_shared : Ptr)
    (p_add_ref : Bool) (mem : Memory) : SharedPtr × Memory :=
  match p_shared with
  | some a =>
    if p_add_ref then
      (⟨p_shared⟩, Function.update mem (to_intruder a) (add_ref c (mem (to_intruder a))))
    else (⟨p_shared⟩, mem)
  | none => (⟨p_shared⟩, mem)

/-- The function `dynamic_pointer_cast(SharedPtr<t_other> const &)`; `dyn_cast` is
`dynamic_cast<t_shared *>` and `to_intruder` the conversion `t_shared * → Intruder *`.
The result, the source and the memory. -/
def dynamic_pointer_cast (c : Config) (to_intruder : Nat → Nat) (dyn_cast : Ptr → Ptr)
    (p_other : SharedPtr) (mem : Memory) : SharedPtr × SharedPtr × Memory :=
  let r := SharedPtr.mk_add_ref_via c to_intruder (dyn_cast p_other.get) true mem
  (r.1, p_other, r.2)

/-- The function `dynamic_pointer_cast(SharedPtr<t_other> &&)`. -/
def dynamic_pointer_cast_move (c : Config) (to_intruder : Nat → Nat) (dyn_cast : Ptr → Ptr)
    (p_other : SharedPtr) (mem : Memory) : SharedPtr × SharedPtr × Memory :=
  let shared := dyn_cast p_other.get
  let p_other' := if shared ≠ none then (SharedPtr.detach p_other).2 else p_other
  let r := SharedPtr.mk_add_ref_via c to_intruder shared false mem
  (r.1, p_other', r.2)

/-- The member `SharedPtr::use_count` of a `SharedPtr<t_shared>` whose conversion to
`Intruder *` is `to_intruder`. -/
def SharedPtr.use_count_via (c : Config) (to_intruder : Nat → Nat) (p : SharedPtr)
    (mem : Memory) : Nat :=
  match p.m_shared with
  | some a => Pntr.use_count c (mem (to_intruder a))
  | none => 0

/-- The built-in `<` on two pointers: the null pointer lies below the address of every
object, two object addresses compare as numbers. -/
def ptr_lt : Ptr → Ptr → Bool
  | none, none => false
  | none, some _ => true
  | some _, none => false
  | some a, some b => decide (a < b)

/-- The member `Intruder::pntr_get_owner`: it returns `this`, the address of the
`Intruder` and so of the control block (`offsetof(Intruder, m_control_storage) == 0`). -/
def Intruder.pntr_get_owner (this : Nat) : Ptr := some this

/-- The member `WeakPtr::get_owner`. -/
def WeakPtr.get_owner (w : WeakPtr) : Ptr := w.m_control

/-- The member `SharedPtr::owner_before(SharedPtr<t_other> const &)` of a
`SharedPtr<t_shared>`.  Each call `m_shared->pntr_get_owner()` runs on the `Intruder` base
of the object: `to_intruder` is the conversion `t_shared * → Intruder *` and
`to_intruder_other` the conversion `t_other * → Intruder *`. -/
def SharedPtr.owner_before (to_intruder to_intruder_other : Nat → Nat)
    (p p_other : SharedPtr) : Bool :=
  ptr_lt (match p.m_shared with
          | some a => Intruder.pntr_get_owner (to_intruder a)
          | none => none)
    (match p_other.m_shared with
     | some a => Intruder.pntr_get_owner (to_intruder_other a)
     | none => none)

/-- The member `SharedPtr::owner_before(WeakPtr<t_other> const &)`. -/
def SharedPtr.owner_before_weak (to_intruder : Nat → Nat) (p : SharedPtr)
    (p_other : WeakPtr) : Bool :=
  ptr_lt (match p.m_shared with
          | some a => Intruder.pntr_get_owner (to_intruder a)
          | none => none)
    p_other.get_owner

/-- The member `WeakPtr::owner_before(WeakPtr<t_other> const &)`. -/
def WeakPtr.owner_before (w p_other : WeakPtr) : Bool :=
  ptr_lt w.get_owner p_other.get_owner

/-- The member `WeakPtr::owner_before(SharedPtr<t_other> const &)`; `to_intruder_other` is
the conversion `t_other * → Intruder *`. -/
def WeakPtr.owner_before_shared (to_intruder_other : Nat → Nat) (w : WeakPtr)
    (p_other : SharedPtr) : Bool :=
  ptr_lt w.get_owner
    (match p_other.m_shared with
     | some a => Intruder.pntr_get_owner (to_intruder_other a)
     | none => none)

/-! ## Pointer, size and alignment recovery (`PntrTypeTraits.hpp`)

Addresses and sizes are 64-bit numbers (`std::size_t`, `std::ptrdiff_t`), `unsigned` has
32 bits. -/

/-- The function `detail::log2`, a recursion on `p_power_of_two >> 1` that stops at 1.
The first argument bounds the depth of the recursion; `none` is a recursion that does not
end within it (the argument 0 never reaches 1). -/
def log2 : Nat → Nat → Option Nat
  | 0, _ => none
  | fuel + 1, p_power_of_two =>
    if p_power_of_two = 1 then some 0
    else (log2 fuel (p_power_of_two >>> 1)).map (fun r => wrap 32 (1 + r))

/-- The function `detail::calc_base_offset`; `shared_base` is the pointer `p_shared`
converted to the shared base, `s_alignof_control` is `alignof(PntrControlType)`.  The
difference of the two addresses is taken as a 64-bit two's complement number. -/
def calc_base_offset (s_alignof_control p_shared shared_base : Nat) : Nat :=
  let diff := wrap size_t_bits (shared_base + 2 ^ size_t_bits - p_shared)
  if diff < 2 ^ (size_t_bits - 1) then
    let byte_offset := diff
    if byte_offset % s_alignof_control = 0 then byte_offset / s_alignof_control
    else numeric_max size_t_bits
  else numeric_max size_t_bits

/-- The function `detail::calc_shared_pointer`. -/
def calc_shared_pointer (s_alignof_control p_shared_base p_offset : Nat) : Nat :=
  let byte_offset := wrap size_t_bits (p_offset * s_alignof_control)
  wrap size_t_bits (p_shared_base + 2 ^ size_t_bits - byte_offset)

/-- The condition of the `static_assert` in `detail::calc_base_size_offset`. -/
def calc_base_size_offset_assertion (sizeof_shared sizeof_base alignof_control : Nat) : Bool :=
  wrap size_t_bits (sizeof_shared + 2 ^ size_t_bits - sizeof_base) % alignof_control == 0

/-- The function `detail::calc_base_size_offset`. -/
def calc_base_size_offset (sizeof_shared sizeof_base alignof_control : Nat) : Nat :=
  wrap size_t_bits (sizeof_shared + 2 ^ size_t_bits - sizeof_base) / alignof_control

/-- The function `detail::calc_shared_size`. -/
def calc_shared_size (sizeof_base alignof_control p_size_offset : Nat) : Nat :=
  wrap size_t_bits (sizeof_base + p_size_offset * alignof_control)

/-- The function `detail::calc_base_align_offset`: a difference of two `unsigned`
values. -/
def calc_base_align_offset (fuel alignof_shared alignof_base : Nat) : Option Nat :=
  match log2 fuel alignof_shared, log2 fuel alignof_base with
  | some ls, some lb => some (wrap 32 (ls + 2 ^ 32 - lb))
  | _, _ => none

/-- The function `detail::calc_shared_align`; a shift by 64 or more has no defined
result. -/
def calc_shared_align (fuel alignof_base p_align_offset : Nat) : Option Nat :=
  match log2 fuel alignof_base with
  | some lb =>
    let n := wrap size_t_bits (lb + p_align_offset)
    if n < size_t_bits then some (wrap size_t_bits (1 <<< n)) else none
  | none => none

/-! ## Allocator adapters: `create`, `try_init` and `deallocate`

The adapters are followed through the calls they make on the allocator and on the
object.  The code under `#ifdef _WIN32` is left out. -/

/-- What is known at compile time about the type `t_shared` that is created and its shared
base: sizes and alignments, the alignment of the control class and of `std::max_align_t`,
the distance in bytes from the start of a `t_shared` object to its shared base, and
`is_static_castable<t_shared>`. -/
structure TypeLayout where
  sizeof_shared : Nat
  alignof_shared : Nat
  sizeof_base : Nat
  alignof_base : Nat
  alignof_control : Nat
  alignof_max_align : Nat
  base_delta : Nat
  is_static_castable : Bool
deriving DecidableEq, Repr

/-- The address of the shared base of the `t_shared` object at `p_shared` (the implicit
pointer conversion, and what `get_shared_base` returns for its control block). -/
def TypeLayout.shared_base (t : TypeLayout) (p_shared : Nat) : Nat :=
  wrap size_t_bits (p_shared + t.base_delta)

/-- A call on the allocator or on the object: `allocate` with its arguments, the
constructor of `t_shared` at an address, its destructor, and `deallocate` with the pointer
and its further arguments. -/
inductive Call where
  | allocate (args : List Nat)
  | construct (p : Nat)
  | destroy (p : Nat)
  | deallocate (p : Nat) (args : List Nat)
deriving DecidableEq, Repr

/-- How the call of `allocate` ends: it returns a pointer (possibly null) or throws. -/
inductive Allocation where
  | returns (storage : Ptr)
  | throws
deriving DecidableEq, Repr

/-- What `create` lets escape: `std::bad_alloc` thrown by `create` itself, the exception
of `allocate`, or the exception of the constructor. -/
inductive Raised where
  | bad_alloc
  | from_allocate
  | from_constructor
deriving DecidableEq, Repr

/-- The function `AllocAdaptPointer::create`: the calls made, and the pointer returned or
the exception that escapes.  `ctor_throws` tells whether the constructor throws. -/
def AllocAdaptPointer.create (t_nothrow : Bool) (t : TypeLayout) (alloc : Allocation)
    (ctor_throws : Bool) : List Call × Except Raised Ptr :=
  let call := Call.allocate [t.sizeof_shared, t.alignof_shared]
  if t_nothrow then
    -- the `try` block with its empty handler: storage, shared and the calls so far
    let r : Ptr × Ptr × List Call :=
      match alloc with
      | Allocation.throws => (none, none, [call])
      | Allocation.returns none => (none, none, [call])
      | Allocation.returns (some st) =>
        if ctor_throws then (some st, none, [call, Call.construct st])
        else (some st, some st, [call, Call.construct st])
    match r.1, r.2.1 with
    | some st, none => (r.2.2 ++ [Call.deallocate st []], Except.ok none)
    | _, shared => (r.2.2, Except.ok shared)
  else
    match alloc with
    | Allocation.throws => ([call], Except.error Raised.from_allocate)
    | Allocation.returns none => ([call], Except.error Raised.bad_alloc)
    | Allocation.returns (some st) =>
      if ctor_throws then
        ([call, Call.construct st, Call.deallocate st []], Except.error Raised.from_constructor)
      else ([call, Call.construct st], Except.ok (some st))

/-- The constant `supports_align` of `AllocAdaptTypeInfo::create` and `try_init`. -/
def AllocAdaptTypeInfo.supports_align (c : Config) (t : TypeLayout) (s_supports_static : Bool)
    (fuel : Nat) : Option Bool :=
  if s_supports_static then some true
  else if get_max_align c ≠ 0 then
    (calc_base_align_offset fuel t.alignof_shared t.alignof_base).map
      (fun o => decide (o ≤ get_max_align c))
  else some false

/-- The constant `align` of `AllocAdaptTypeInfo::create` and `try_init`. -/
def AllocAdaptTypeInfo.align (c : Config) (t : TypeLayout) (s_supports_static : Bool)
    (fuel : Nat) : Option Nat :=
  (AllocAdaptTypeInfo.supports_align c t s_supports_static fuel).map
    (fun b => if b then t.alignof_shared else t.alignof_max_align)

/-- The conditions of the two `static_assert`s of `AllocAdaptTypeInfo::create` and of the
one in `calc_base_size_offset`. -/
def AllocAdaptTypeInfo.create_assertion (c : Config) (t : TypeLayout)
    (s_supports_static : Bool) (fuel : Nat) : Option Bool :=
  (AllocAdaptTypeInfo.supports_align c t s_supports_static fuel).map (fun sa =>
    calc_base_size_offset_assertion t.sizeof_shared t.sizeof_base t.alignof_control
      && (s_supports_static
        || decide (calc_base_size_offset t.sizeof_shared t.sizeof_base t.alignof_control
            ≤ get_max_size c))
      && (sa || (get_max_align c == 0 && !decide (t.alignof_max_align < t.alignof_shared))))

/-- The function `AllocAdaptTypeInfo::create`. -/
def AllocAdaptTypeInfo.create (c : Config) (s_supports_static : Bool) (fuel : Nat)
    (t_nothrow : Bool) (t : TypeLayout) (alloc : Allocation) (ctor_throws : Bool) :
    Option (List Call × Except Raised Ptr) :=
  match AllocAdaptTypeInfo.align c t s_supports_static fuel with
  | none => none
  | some align =>
    let call := Call.allocate [t.sizeof_shared, align]
    if t_nothrow then
      let r : Ptr × Ptr × List Call :=
        match alloc with
        | Allocation.throws => (none, none, [call])
        | Allocation.returns none => (none, none, [call])
        | Allocation.returns (some st) =>
          if ctor_throws then (some st, none, [call, Call.construct st])
          else (some st, some st, [call, Call.construct st])
      match r.1, r.2.1 with
      | some st, none =>
        some (r.2.2 ++ [Call.deallocate st [t.sizeof_shared, align]], Except.ok none)
      | _, shared => some (r.2.2, Except.ok shared)
    else
      match alloc with
      | Allocation.throws => some ([call], Except.error Raised.from_allocate)
      | Allocation.returns none => some ([call], Except.error Raised.bad_alloc)
      | Allocation.returns (some st) =>
        if ctor_throws then
          some ([call, Call.construct st, Call.deallocate st [t.sizeof_shared, align]],
            Except.error Raised.from_constructor)
        else some ([call, Call.construct st], Except.ok (some st))

/-- The function `AllocAdaptTyped::create`, through `std::allocator_traits`. -/
def AllocAdaptTyped.create (t_nothrow : Bool) (alloc : Allocation) (ctor_throws : Bool) :
    List Call × Except Raised Ptr :=
  let call := Call.allocate [1]
  match alloc with
  | Allocation.throws =>
    if t_nothrow then ([call], Except.ok none) else ([call], Except.error Raised.from_allocate)
  | Allocation.returns none => ([call], Except.ok none)
  | Allocation.returns (some st) =>
    if ctor_throws then
      ([call, Call.construct st, Call.deallocate st [1]],
        if t_nothrow then Except.ok none else Except.error Raised.from_constructor)
    else ([call, Call.construct st], Except.ok (some st))

/-- The function `AllocAdaptPointer::try_init` on the object at `p_shared` with control
block `ctl`: the pointer returned, the control block (as it was when the object was
destroyed, if it was) and the calls made. -/
def AllocAdaptPointer.try_init (c : Config) (t : TypeLayout) (s_supports_static : Bool)
    (fuel : Nat) (p_shared : Nat) (ctl : ControlData) :
    Option (Ptr × ControlData × List Call) :=
  let offset :=
    if s_supports_static then
      if t.is_static_castable then 0
      else calc_base_offset t.alignof_control p_shared (t.shared_base p_shared)
    else calc_base_offset t.alignof_control p_shared (t.shared_base p_shared)
  let failed (ctl' : ControlData) : Option (Ptr × ControlData × List Call) :=
    some (none, ctl', [Call.destroy p_shared, Call.deallocate p_shared []])
  if offset ≠ numeric_max size_t_bits then
    if offset ≤ get_max_offset c then
      if s_supports_static then some (some p_shared, ctl, [])
      else
        match try_set_offset c fuel offset ctl with
        | none => none
        | some (true, ctl') => some (some p_shared, ctl', [])
        | some (false, ctl') => failed ctl'
    else failed ctl
  else failed ctl

/-- The function `AllocAdaptTypeInfo::try_init`. -/
def AllocAdaptTypeInfo.try_init (c : Config) (t : TypeLayout) (s_supports_static : Bool)
    (fuel : Nat) (p_shared : Nat) (ctl : ControlData) :
    Option (Ptr × ControlData × List Call) :=
  match AllocAdaptTypeInfo.align c t s_supports_static fuel with
  | none => none
  | some align =>
    let offset :=
      if s_supports_static then
        if t.is_static_castable then 0
        else calc_base_offset t.alignof_control p_shared (t.shared_base p_shared)
      else calc_base_offset t.alignof_control p_shared (t.shared_base p_shared)
    let failed (ctl' : ControlData) : Option (Ptr × ControlData × List Call) :=
      some (none, ctl',
        [Call.destroy p_shared, Call.deallocate p_shared [t.sizeof_shared, align]])
    if offset ≠ numeric_max size_t_bits then
      if offset ≤ get_max_offset c then
        if s_supports_static then some (some p_shared, ctl, [])
        else
          match try_set_offset c fuel offset ctl with
          | none => none
          | some (true, ctl1) =>
            match try_set_size c fuel
                (calc_base_size_offset t.sizeof_shared t.sizeof_base t.alignof_control) ctl1 with
            | none => none
            | some (_, ctl2) =>
              match calc_base_align_offset fuel t.alignof_shared t.alignof_base with
              | none => none
              | some align_offset =>
                match try_set_align c fuel align_offset ctl2 with
                | none => none
                | some (_, ctl3) => some (some p_shared, ctl3, [])
          | some (false, ctl') => failed ctl'
      else failed ctl
    else failed ctl

/-- The function `AllocAdaptTyped::try_init`. -/
def AllocAdaptTyped.try_init (c : Config) (t : TypeLayout) (p_shared : Nat)
    (ctl : ControlData) : Ptr × ControlData × List Call :=
  if t.is_static_castable then (some p_shared, ctl, [])
  else if calc_base_offset t.alignof_control p_shared (t.shared_base p_shared)
      ≤ get_max_offset c then (some p_shared, ctl, [])
  else (none, ctl, [Call.destroy p_shared, Call.deallocate p_shared [1]])

/-- The function `AllocAdaptTypeInfo::deallocate` for the control block `ctl` of the
object whose shared base is at `shared_base`: the call it makes on the allocator.  With
static support it goes through `destroy_or_deallocate<t_shared>` in mode `e_deallocate`,
where `static_cast_shared` is `static_cast<t_shared *>(shared_base)`. -/
def AllocAdaptTypeInfo.deallocate (c : Config) (t : TypeLayout) (s_supports_static : Bool)
    (fuel : Nat) (shared_base static_cast_shared : Nat) (ctl : ControlData) : Option Call :=
  if s_supports_static then
    if t.is_static_castable then
      some (Call.deallocate static_cast_shared [t.sizeof_shared, t.alignof_shared])
    else
      some (Call.deallocate (calc_shared_pointer t.alignof_control shared_base (get_offset c ctl))
        [t.sizeof_shared, t.alignof_shared])
  else
    let offset := get_offset c ctl
    let storage := calc_shared_pointer t.alignof_control shared_base offset
    let size := calc_shared_size t.sizeof_base t.alignof_control (get_size c ctl)
    let align :=
      if get_max_align c = 0 then some t.alignof_max_align
      else calc_shared_align fuel t.alignof_base (get_align c ctl)
    align.map (fun al => Call.deallocate storage [size, al])

/-- The three allocator adapters `ControlAlloc` chooses from, by the shape of
`deallocate` the allocator offers. -/
inductive AdapterKind where
  | pointer
  | type_info
  | typed
deriving DecidableEq, Repr

/-- The member `ControlAlloc::create`, which forwards to the adapter. -/
def ControlAlloc.create (kind : AdapterKind) (c : Config) (s_supports_static : Bool)
    (fuel : Nat) (t_nothrow : Bool) (t : TypeLayout) (alloc : Allocation)
    (ctor_throws : Bool) : Option (List Call × Except Raised Ptr) :=
  match kind with
  | AdapterKind.pointer => some (AllocAdaptPointer.create t_nothrow t alloc ctor_throws)
  | AdapterKind.type_info =>
    AllocAdaptTypeInfo.create c s_supports_static fuel t_nothrow t alloc ctor_throws
  | AdapterKind.typed => some (AllocAdaptTyped.create t_nothrow alloc ctor_throws)

/-- The member `ControlAlloc::try_init`, which forwards to the adapter. -/
def ControlAlloc.try_init (kind : AdapterKind) (c : Config) (t : TypeLayout)
    (s_supports_static : Bool) (fuel : Nat) (p_shared : Nat) (ctl : ControlData) :
    Option (Ptr × ControlData × List Call) :=
  match kind with
  | AdapterKind.pointer => AllocAdaptPointer.try_init c t s_supports_static fuel p_shared ctl
  | AdapterKind.type_info => AllocAdaptTypeInfo.try_init c t s_supports_static fuel p_shared ctl
  | AdapterKind.typed => some (AllocAdaptTyped.try_init c t p_shared ctl)

/-- The member `Intruder::pntr_create_with_allocator`: the calls made, and the object it
returns (its address and its control block, built by the constructor of `Intruder` with
`p_user_init`), null, or the exception that escapes. -/
def Intruder.pntr_create_with_allocator (kind : AdapterKind) (c : Config)
    (s_supports_static : Bool) (fuel : Nat) (t_nothrow : Bool) (t : TypeLayout)
    (alloc : Allocation) (ctor_throws : Bool) (p_user_init : Nat) :
    Option (List Call × Except Raised (Option (Nat × ControlData))) :=
  match ControlAlloc.create kind c s_supports_static fuel t_nothrow t alloc ctor_throws with
  | none => none
  | some (calls, Except.error e) => some (calls, Except.error e)
  | some (calls, Except.ok none) => some (calls, Except.ok none)
  | some (calls, Except.ok (some p)) =>
    match ControlAlloc.try_init kind c t s_supports_static fuel p
        (ControlData.init c p_user_init) with
    | none => none
    | some (none, _, calls') => some (calls ++ calls', Except.ok none)
    | some (some q, ctl, calls') => some (calls ++ calls', Except.ok (some (q, ctl)))

/-- The function `detail::allocate_shared_impl` behind `allocate_shared` (`t_nothrow`
false) and `allocate_shared_nothrow` (true): the calls made by `create` and `try_init`,
and the `SharedPtr` returned together with the object it leaves behind, if any, or the
exception that escapes.  A null pointer passes through `pntr_try_control`, `pntr_dispose`
and `pntr_deallocate` without any call. -/
def allocate_shared_impl (kind : AdapterKind) (c : Config) (a : Adapter) (fuel : Nat)
    (t_nothrow : Bool) (t : TypeLayout) (alloc : Allocation) (ctor_throws : Bool)
    (p_user_init : Nat) : Option (List Call × Except Raised (SharedPtr × Option System)) :=
  match Intruder.pntr_create_with_allocator kind c a.s_supports_static fuel t_nothrow t alloc
      ctor_throws p_user_init with
  | none => none
  | some (calls, Except.error e) => some (calls, Except.error e)
  | some (calls, Except.ok none) => some (calls, Except.ok (⟨none⟩, none))
  | some (calls, Except.ok (some (p, ctl))) =>
    match Control.try_control c fuel ControlKind.control_alloc true ctl with
    | none => none
    | some (true, ctl') => some (calls, Except.ok (⟨some p⟩, some ⟨ctl', 1, 0, 0, []⟩))
    | some (false, ctl') =>
      match ControlAlloc.dispose c a fuel ⟨ctl', 0, 0, 0, []⟩ with
      | none => none
      | some (p_control, σ) =>
        some (calls, Except.ok (⟨none⟩, some (ControlAlloc.deallocate c p_control σ)))

/-- The configuration `(u64, 32, 16, 6, 6, 4)` that the `ControlAlloc` test uses with
`AllocatorMemoryResource<NoStaticSupport>` (separate usage and weak counters). -/
def cfg_u64_32_16_6_6_4 : Config := ⟨64, 32, 16, OffsetBits.bits 6, 6, 4⟩

/-! ## Debug assertions of `try_control` and `try_add_ref` -/

/-- The condition of `PNTR_ASSERT((count & s_usage_mask) < s_usage_max)` in `try_add_ref`,
evaluated on the local `count` when the loop has ended. -/
def try_add_ref_assertion (c : Config) (fuel : Nat) (s : ControlData) : Option Bool :=
  let count := CounterThreadUnsafe.get_count (usage_counter c s)
  match casLoop c.usage_type_bits (usage_in_range c) (fun k => k + s_usage_one)
      fuel (usage_counter c s) count with
  | none => none
  | some (_, count1) => some (decide ((count1 &&& c.s_usage_mask) < c.s_usage_max))

/-- The condition of `PNTR_ASSERT((count & s_usage_mask) < s_usage_max)` in `try_control`,
evaluated on the local `count` when the second loop has ended; `true` when the function
returns `e_acquired` before it reaches the assertion. -/
def try_control_assertion (c : Config) (fuel : Nat) (s : ControlData) : Option Bool :=
  let count := CounterThreadUnsafe.get_count (usage_counter c s)
  match casLoop c.usage_type_bits (fun k => (k &&& c.s_usage_mask) == c.s_uncontrolled)
      (fun k => (k &&& bnot c.usage_type_bits c.s_usage_mask) ||| s_usage_one)
      fuel (usage_counter c s) count with
  | none => none
  | some (v1, count1) =>
    if (count1 &&& c.s_usage_mask) = c.s_uncontrolled then some true
    else
      match casLoop c.usage_type_bits (usage_in_range c) (fun k => k + s_usage_one)
          fuel v1 count1 with
      | none => none
      | some (_, count2) => some (decide ((count2 &&& c.s_usage_mask) < c.s_usage_max))

/-- The operations of the usage life cycle: `try_control`, `try_add_ref`, `release` and
`try_revive`. -/
def Op.lifecycle : Op → Bool
  | Op.try_control => true
  | Op.try_add_ref => true
  | Op.release => true
  | Op.try_revive => true
  | _ => false

/-- The operations of the usage life cycle together with `try_set_offset`. -/
def Op.lifecycle_offset : Op → Bool
  | Op.try_set_offset _ => true
  | op => op.lifecycle

/-! ## The `Counter` and `ControlData` tests -/

/-- The loop `while (!c.compare_exchange_weak(expected, desired)) {}` of the `Counter`
test: the counter value and `expected` at loop exit. -/
def retry_loop (w fuel m_value p_expected p_desired : Nat) : Option (Nat × Nat) :=
  casLoop w (fun _ => true) (fun _ => p_desired) fuel m_value p_expected

/-- The rows of the `ControlData` test: the template arguments, followed by the widths of
the types the test asserts for `UsageValueType`, `WeakValueType` and `DataValueType`. -/
def tests_ControlData_table : List (Config × Nat × Nat × Nat) :=
  [ (⟨8, 8, 0, OffsetBits.bits 0, 0, 0⟩, 8, 8, 8),
    (⟨8, 5, 3, OffsetBits.bits 0, 0, 0⟩, 8, 8, 8),
    (⟨8, 5, 3, OffsetBits.shared, 0, 0⟩, 8, 8, 8),
    (⟨8, 4, 4, OffsetBits.bits 0, 0, 0⟩, 8, 8, 8),
    (⟨8, 4, 4, OffsetBits.shared, 0, 0⟩, 8, 8, 8),
    (⟨8, 4, 2, OffsetBits.bits 2, 0, 0⟩, 8, 8, 8),
    (⟨8, 4, 2, OffsetBits.shared, 0, 0⟩, 8, 8, 8),
    (⟨8, 3, 2, OffsetBits.bits 1, 1, 1⟩, 8, 8, 8),
    (⟨16, 16, 0, OffsetBits.bits 0, 0, 0⟩, 16, 16, 16),
    (⟨16, 9, 7, OffsetBits.bits 0, 0, 0⟩, 16, 16, 16),
    (⟨16, 9, 7, OffsetBits.shared, 0, 0⟩, 16, 16, 16),
    (⟨16, 8, 8, OffsetBits.bits 0, 0, 0⟩, 8, 8, 8),
    (⟨16, 8, 8, OffsetBits.shared, 0, 0⟩, 8, 8, 8),
    (⟨16, 8, 4, OffsetBits.bits 4, 0, 0⟩, 8, 8, 8),
    (⟨16, 8, 4, OffsetBits.shared, 0, 0⟩, 8, 8, 8),
    (⟨16, 4, 4, OffsetBits.bits 2, 2, 2⟩, 16, 16, 16),
    (⟨32, 32, 0, OffsetBits.bits 0, 0, 0⟩, 32, 32, 32),
    (⟨32, 17, 15, OffsetBits.bits 0, 0, 0⟩, 32, 32, 32),
    (⟨32, 17, 15, OffsetBits.shared, 0, 0⟩, 32, 32, 32),
    (⟨32, 16, 16, OffsetBits.bits 0, 0, 0⟩, 16, 16, 16),
    (⟨32, 16, 16, OffsetBits.shared, 0, 0⟩, 16, 16, 16),
    (⟨32, 16, 8, OffsetBits.bits 8, 0, 0⟩, 16, 8, 8),
    (⟨32, 16, 8, OffsetBits.shared, 0, 0⟩, 16, 8, 8),
    (⟨32, 8, 8, OffsetBits.bits 4, 4, 4⟩, 8, 8, 16),
    (⟨32, 8, 16, OffsetBits.bits 8, 0, 0⟩, 32, 32, 32),
    (⟨64, 64, 0, OffsetBits.bits 0, 0, 0⟩, 64, 64, 64),
    (⟨64, 33, 31, OffsetBits.bits 0, 0, 0⟩, 64, 64, 64),
    (⟨64, 33, 31, OffsetBits.shared, 0, 0⟩, 64, 64, 64),
    (⟨64, 32, 32, OffsetBits.bits 0, 0, 0⟩, 32, 32, 32),
    (⟨64, 32, 32, OffsetBits.shared, 0, 0⟩, 32, 32, 32),
    (⟨64, 32, 16, OffsetBits.bits 16, 0, 0⟩, 32, 16, 16),
    (⟨64, 32, 16, OffsetBits.shared, 0, 0⟩, 32, 16, 16),
    (⟨64, 16, 16, OffsetBits.bits 8, 8, 8⟩, 16, 16, 32),
    (⟨64, 16, 32, OffsetBits.bits 16, 0, 0⟩, 64, 64, 64) ]

/-! ## The calls with `PNTR_ASSERT` active

`common.hpp` defines `PNTR_ASSERT(x_condition)` as `assert(x_condition)` unless the user
defines the macro.  Where `assert` is active a false condition ends the program at that
line; with `NDEBUG` it expands to nothing.  The definitions of `add_ref`, `release`,
`try_control`, `try_add_ref`, `weak_add_ref` and `weak_release` above are the calls with
the macro expanded to nothing; the definitions of this section are the same calls with
the macro active. -/

/-- What a call does where `PNTR_ASSERT` is active: it returns a value, or the program
ends at a failed assertion, with the control block as it is at that line. -/
inductive Outcome (α : Type) where
  | returned (a : α)
  | aborted (s : ControlData)
deriving DecidableEq, Repr

/-- The macro `PNTR_ASSERT(x_condition)` where it is `assert(x_condition)`: with the
control block `s` at that line, the program ends if the condition is false and goes on
with `rest` otherwise. -/
def PNTR_ASSERT {α : Type} (x_condition : Bool) (s : ControlData) (rest : Outcome α) :
    Outcome α :=
  if x_condition then rest else Outcome.aborted s

/-- The value a call returned, passed through `f`. -/
def Outcome.map {α β : Type} (f : α → β) : Outcome α → Outcome β
  | Outcome.returned a => Outcome.returned (f a)
  | Outcome.aborted s => Outcome.aborted s

/-- Increment the usage counter (`PNTR_ASSERT` active). -/
def Assert.add_ref (c : Config) (s : ControlData) : Outcome ControlData :=
  let r := CounterThreadUnsafe.increment c.usage_type_bits (usage_counter c s) s_usage_one
  let previous := r.1 &&& c.s_usage_mask
  let s1 := set_usage_counter c s r.2
  PNTR_ASSERT (decide (s_usage_zero < previous) && decide (previous < c.s_usage_max)) s1
    (Outcome.returned s1)

/-- Decrement the usage counter and return true if it reaches zero or was invalid
(`PNTR_ASSERT` active): on an invalid counter the assertion comes before the increment
that undoes the decrement. -/
def Assert.release (c : Config) (s : ControlData) : Outcome (Bool × ControlData) :=
  let r := CounterThreadUnsafe.decrement c.usage_type_bits (usage_counter c s) s_usage_one
  let previous := r.1 &&& c.s_usage_mask
  let s1 := set_usage_counter c s r.2
  if s_usage_one < previous ∧ previous ≤ c.s_usage_max then Outcome.returned (false, s1)
  else if previous ≠ s_usage_one then
    PNTR_ASSERT (previous == c.s_uncontrolled) s1
      -- Undo decrement on invalid counter.
      (Outcome.returned (true, set_usage_counter c s1
        (CounterThreadUnsafe.increment c.usage_type_bits (usage_counter c s1) s_usage_one).2))
  else Outcome.returned (true, s1)

/-- The member `try_control` (`PNTR_ASSERT` active): the assertion stands after the second
loop, before the status is returned; `e_acquired` is returned before it. -/
def Assert.try_control (c : Config) (fuel : Nat) (s : ControlData) :
    Option (Outcome (ControlStatus × ControlData)) :=
  let count := CounterThreadUnsafe.get_count (usage_counter c s)
  match casLoop c.usage_type_bits (fun k => (k &&& c.s_usage_mask) == c.s_uncontrolled)
      (fun k => (k &&& bnot c.usage_type_bits c.s_usage_mask) ||| s_usage_one)
      fuel (usage_counter c s) count with
  | none => none
  | some (v1, count1) =>
    if (count1 &&& c.s_usage_mask) = c.s_uncontrolled then
      some (Outcome.returned (ControlStatus.e_acquired, set_usage_counter c s v1))
    else
      match casLoop c.usage_type_bits (usage_in_range c) (fun k => k + s_usage_one)
          fuel v1 count1 with
      | none => none
      | some (v2, count2) =>
        some (PNTR_ASSERT (decide ((count2 &&& c.s_usage_mask) < c.s_usage_max))
          (set_usage_counter c s v2)
          (Outcome.returned
            (if usage_in_range c count2 then ControlStatus.e_shared
             else ControlStatus.e_invalid,
             set_usage_counter c s v2)))

/-- The member `try_add_ref` (`PNTR_ASSERT` active): the assertion stands after the loop,
before the result is returned. -/
def Assert.try_add_ref (c : Config) (fuel : Nat) (s : ControlData) :
    Option (Outcome (Bool × ControlData)) :=
  let count := CounterThreadUnsafe.get_count (usage_counter c s)
  match casLoop c.usage_type_bits (usage_in_range c) (fun k => k + s_usage_one)
      fuel (usage_counter c s) count with
  | none => none
  | some (v, count1) =>
    some (PNTR_ASSERT (decide ((count1 &&& c.s_usage_mask) < c.s_usage_max))
      (set_usage_counter c s v)
      (Outcome.returned (usage_in_range c count1, set_usage_counter c s v)))

/-- Increment the weak counter (`PNTR_ASSERT` active). -/
def Assert.weak_add_ref (c : Config) (s : ControlData) : Outcome ControlData :=
  let r := CounterThreadUnsafe.increment c.weak_type_bits (weak_counter c s) c.s_weak_one_shifted
  let previous := (r.1 &&& c.s_weak_mask) >>> c.s_weak_shift
  let s1 := set_weak_counter c s r.2
  PNTR_ASSERT (decide (previous < c.s_weak_max)) s1 (Outcome.returned s1)

/-- Decrement the weak counter and return true if it reaches or was zero (`PNTR_ASSERT`
active): the assertion comes before the increment that undoes the decrement. -/
def Assert.weak_release (c : Config) (s : ControlData) : Outcome (Bool × ControlData) :=
  let r := CounterThreadUnsafe.decrement c.weak_type_bits (weak_counter c s) c.s_weak_one_shifted
  let previous := (r.1 &&& c.s_weak_mask) >>> c.s_weak_shift
  let s1 := set_weak_counter c s r.2
  if s_weak_one < previous then Outcome.returned (false, s1)
  else
    PNTR_ASSERT (previous != s_weak_zero) s1
      (if previous = s_weak_zero then
        -- Undo decrement on zero counter.
        Outcome.returned (true, set_weak_counter c s1
          (CounterThreadUnsafe.increment c.weak_type_bits (weak_counter c s1)
            c.s_weak_one_shifted).2)
      else Outcome.returned (true, s1))

/-- The state after one call where `PNTR_ASSERT` is active (the returned value is
dropped), or the state in which the program ended.  `try_revive` and the `try_set`
members contain no assertion. -/
def Assert.apply (c : Config) (fuel : Nat) (op : Op) (s : ControlData) :
    Option (Outcome ControlData) :=
  match op with
  | Op.try_control => (Pntr.Assert.try_control c fuel s).map (Outcome.map Prod.snd)
  | Op.try_add_ref => (Pntr.Assert.try_add_ref c fuel s).map (Outcome.map Prod.snd)
  | Op.add_ref => some (Pntr.Assert.add_ref c s)
  | Op.release => some (Outcome.map Prod.snd (Pntr.Assert.release c s))
  | Op.try_revive => (Pntr.try_revive c fuel s).map (fun r => Outcome.returned r.2)
  | Op.weak_add_ref => some (Pntr.Assert.weak_add_ref c s)
  | Op.weak_release => some (Outcome.map Prod.snd (Pntr.Assert.weak_release c s))
  | Op.try_set_offset p => (Pntr.try_set_offset c fuel p s).map (fun r => Outcome.returned r.2)
  | Op.try_set_size p => (Pntr.try_set_size c fuel p s).map (fun r => Outcome.returned r.2)
  | Op.try_set_align p => (Pntr.try_set_align c fuel p s).map (fun r => Outcome.returned r.2)
  | Op.try_set_user p => (Pntr.try_set_user c fuel p s).map (fun r => Outcome.returned r.2)

/-- The state after a sequence of calls where `PNTR_ASSERT` is active: the sequence stops
at the first call that ends the program. -/
def Assert.run (c : Config) (fuel : Nat) : List Op → ControlData → Option (Outcome ControlData)
  | [], s => some (Outcome.returned s)
  | op :: ops, s =>
    match Pntr.Assert.apply c fuel op s with
    | none => none
    | some (Outcome.aborted s') => some (Outcome.aborted s')
    | some (Outcome.returned s') => Assert.run c fuel ops s'

/-! # Theorems -/

/-! ## Bit-level lemmas -/

theorem numeric_max_shift (w b : Nat) (h : b ≤ w) : numeric_max w >>> (w - b) = 2 ^ b - 1 := by
  unfold numeric_max
  apply Nat.eq_of_testBit_eq
  intro i
  simp only [Nat.testBit_shiftRight, Nat.testBit_two_pow_sub_one]
  congr 1
  apply propext
  omega

theorem testBit_wrap (w x i : Nat) :
    (wrap w x).testBit i = (decide (i < w) && x.testBit i) := by
  simp [wrap, Nat.testBit_mod_two_pow]

theorem testBit_bnot (w x i : Nat) :
    (bnot w x).testBit i = (decide (i < w) ^^ x.testBit i) := by
  simp [bnot, numeric_max]

theorem testBit_eq_false_of_lt {w x i : Nat} (h : x < 2 ^ w) (hi : w ≤ i) :
    x.testBit i = false :=
  Nat.testBit_lt_two_pow (lt_of_lt_of_le h (Nat.pow_le_pow_right (by norm_num) hi))

theorem wrap_of_lt {w x : Nat} (h : x < 2 ^ w) : wrap w x = x := Nat.mod_eq_of_lt h

theorem wrap_lt (w x : Nat) : wrap w x < 2 ^ w := Nat.mod_lt _ (Nat.two_pow_pos w)

theorem and_bnot_low (w u x : Nat) (hu : u ≤ w) (hx : x < 2 ^ w) :
    x &&& bnot w (2 ^ u - 1) = 2 ^ u * (x / 2 ^ u) := by
  apply Nat.eq_of_testBit_eq
  intro i
  rw [Nat.testBit_mul_pow_two, Nat.testBit_and, testBit_bnot, Nat.testBit_two_pow_sub_one,
    ← Nat.shiftRight_eq_div_pow, Nat.testBit_shiftRight]
  by_cases h1 : u ≤ i
  · have : u + (i - u) = i := by omega
    by_cases h2 : i < w
    · have h3 : ¬ i < u := by omega
      simp [h1, h2, h3, this]
    · have := testBit_eq_false_of_lt hx (Nat.le_of_not_lt h2)
      simp [h1, h2, this]
  · have h3 : i < u := by omega
    have h2 : i < w := by omega
    simp [h1, h2, h3]

theorem split_lt (w u x v : Nat) (hu : u ≤ w) (hx : x < 2 ^ w) (hv : v < 2 ^ u) :
    2 ^ u * (x / 2 ^ u) + v < 2 ^ w := by
  obtain ⟨d, rfl⟩ := Nat.exists_eq_add_of_le hu
  rw [Nat.pow_add] at hx ⊢
  have h1 : x / 2 ^ u < 2 ^ d := Nat.div_lt_of_lt_mul hx
  have h2 : 0 < 2 ^ u := Nat.two_pow_pos u
  calc 2 ^ u * (x / 2 ^ u) + v < 2 ^ u * (x / 2 ^ u) + 2 ^ u := by omega
    _ = 2 ^ u * (x / 2 ^ u + 1) := by ring
    _ ≤ 2 ^ u * 2 ^ d := Nat.mul_le_mul_left _ h1

/-- Replacing the low `u` bits of a `w` bit word by `v`. -/
theorem set_low (w u x v : Nat) (hu : u ≤ w) (hx : x < 2 ^ w) (hv : v < 2 ^ u) :
    wrap w ((x &&& bnot w (2 ^ u - 1)) ||| v) = 2 ^ u * (x / 2 ^ u) + v := by
  rw [and_bnot_low w u x hu hx, ← Nat.mul_add_lt_is_or hv, wrap_of_lt (split_lt w u x v hu hx hv)]

theorem low_div (u h v : Nat) (hv : v < 2 ^ u) : (2 ^ u * h + v) / 2 ^ u = h := by
  rw [Nat.add_comm, Nat.add_mul_div_left _ _ (Nat.two_pow_pos u), Nat.div_eq_of_lt hv,
    Nat.zero_add]

theorem low_mod (u h v : Nat) (hv : v < 2 ^ u) : (2 ^ u * h + v) % 2 ^ u = v := by
  rw [Nat.add_comm, Nat.add_mul_mod_self_left, Nat.mod_eq_of_lt hv]

/-- A field above bit `u` reads the same in two words that agree above bit `u`. -/
theorem read_congr (x y m sh u : Nat) (hsh : u ≤ sh) (h : y / 2 ^ u = x / 2 ^ u) :
    (y &&& m) >>> sh = (x &&& m) >>> sh := by
  apply Nat.eq_of_testBit_eq
  intro i
  have hb : ∀ z : Nat, z.testBit (sh + i) = (z / 2 ^ u).testBit (sh + i - u) := by
    intro z
    rw [← Nat.shiftRight_eq_div_pow, Nat.testBit_shiftRight]
    congr 1
    omega
  simp only [Nat.testBit_shiftRight, Nat.testBit_and, hb x, hb y, h]

/-- Incrementing a word whose low `u` bits are not all set. -/
theorem inc_low (w u x : Nat) (hu : u ≤ w) (hx : x < 2 ^ w) (h : x % 2 ^ u < 2 ^ u - 1) :
    wrap w (x + 1) = x + 1 ∧ (x + 1) % 2 ^ u = x % 2 ^ u + 1
      ∧ (x + 1) / 2 ^ u = x / 2 ^ u := by
  have hp : 0 < 2 ^ u := Nat.two_pow_pos u
  have hd := Nat.div_add_mod x (2 ^ u)
  have h1 : x + 1 = 2 ^ u * (x / 2 ^ u) + (x % 2 ^ u + 1) := by omega
  have hv : x % 2 ^ u + 1 < 2 ^ u := by omega
  refine ⟨?_, ?_, ?_⟩
  · rw [h1]
    exact wrap_of_lt (split_lt w u x _ hu hx hv)
  · rw [h1, low_mod u _ _ hv]
  · rw [h1, low_div u _ _ hv]

/-- Decrementing a word whose low `u` bits are not all clear. -/
theorem dec_low (w u x : Nat) (hw : 0 < w) (hx : x < 2 ^ w) (h : 0 < x % 2 ^ u) :
    wrap w (x + (2 ^ w - wrap w 1)) = x - 1 ∧ (x - 1) % 2 ^ u = x % 2 ^ u - 1
      ∧ (x - 1) / 2 ^ u = x / 2 ^ u := by
  have hp : 0 < 2 ^ u := Nat.two_pow_pos u
  have hd := Nat.div_add_mod x (2 ^ u)
  have h1w : wrap w 1 = 1 := wrap_of_lt (Nat.one_lt_two_pow (Nat.pos_iff_ne_zero.mp hw))
  have hx1 : 1 ≤ x := by
    rcases Nat.eq_zero_or_pos x with h0 | h0
    · rw [h0, Nat.zero_mod] at h; omega
    · exact h0
  have h1 : x - 1 = 2 ^ u * (x / 2 ^ u) + (x % 2 ^ u - 1) := by omega
  have hm := Nat.mod_lt x hp
  have hv : x % 2 ^ u - 1 < 2 ^ u := by omega
  refine ⟨?_, ?_, ?_⟩
  · rw [h1w]
    have : x + (2 ^ w - 1) = (x - 1) + 2 ^ w := by omega
    rw [this]
    unfold wrap
    rw [Nat.add_mod_right]
    exact Nat.mod_eq_of_lt (by omega)
  · rw [h1, low_mod u _ _ hv]
  · rw [h1, low_div u _ _ hv]

/-- A decrement followed by an increment restores the word. -/
theorem dec_inc (w x : Nat) (hw : 0 < w) (hx : x < 2 ^ w) :
    wrap w (wrap w (x + (2 ^ w - wrap w 1)) + 1) = x := by
  have h1w : wrap w 1 = 1 := wrap_of_lt (Nat.one_lt_two_pow (Nat.pos_iff_ne_zero.mp hw))
  have hp : 1 < 2 ^ w := Nat.one_lt_two_pow (Nat.pos_iff_ne_zero.mp hw)
  rw [h1w]
  unfold wrap
  rcases Nat.eq_zero_or_pos x with h0 | h0
  · subst h0
    rw [Nat.zero_add, Nat.mod_eq_of_lt (by omega : 2 ^ w - 1 < 2 ^ w)]
    have : 2 ^ w - 1 + 1 = 2 ^ w := by omega
    rw [this, Nat.mod_self]
  · have : x + (2 ^ w - 1) = (x - 1) + 2 ^ w := by omega
    rw [this, Nat.add_mod_right, Nat.mod_eq_of_lt (by omega : x - 1 < 2 ^ w)]
    have : x - 1 + 1 = x := by omega
    rw [this, Nat.mod_eq_of_lt hx]

/-! ## The compare-and-swap loop -/

theorem casLoop_pos (w : Nat) (cond : Nat → Bool) (desired : Nat → Nat) (fuel v : Nat)
    (h : 0 < fuel) :
    casLoop w cond desired fuel v v = some (if cond v then wrap w (desired v) else v, v) := by
  obtain ⟨n, rfl⟩ := Nat.exists_eq_succ_of_ne_zero (Nat.pos_iff_ne_zero.mp h)
  simp only [casLoop, CounterThreadUnsafe.compare_exchange_weak]
  by_cases h : cond v <;> simp [h]

/-! ## Configuration facts -/

theorem layout_separateUsage {c : Config} (h : c.layout = Layout.separateUsage) :
    c.matchesSeparateUsage = true := by
  unfold Config.layout at h
  by_cases h1 : c.matchesSeparateAll <;> by_cases h2 : c.matchesSeparateUsage <;> simp_all

theorem valid_usage (c : Config) (h : c.valid = true) :
    2 ≤ c.s_usage_bits ∧ c.s_usage_bits ≤ c.usage_type_bits ∧ c.s_usage_bits = c.usage_bits := by
  unfold Config.valid at h
  simp only [Bool.and_eq_true, Bool.or_eq_true, beq_iff_eq, decide_eq_true_eq] at h
  obtain ⟨⟨⟨hS, hu⟩, _⟩, hl⟩ := h
  unfold Config.s_usage_bits Config.usage_type_bits
  cases hL : c.layout with
  | single =>
    simp only [hL, Config.s_usage_bits, Bool.and_eq_true, decide_eq_true_eq] at hl ⊢
    exact ⟨hu, by omega, trivial⟩
  | separateUsage =>
    simp only
    have := layout_separateUsage hL
    unfold Config.matchesSeparateUsage at this
    simp only [Bool.and_eq_true, beq_iff_eq, decide_eq_true_eq] at this
    exact ⟨by omega, by omega, by omega⟩
  | separateAll =>
    simp only
    exact ⟨hu, by omega, trivial⟩

theorem s_usage_mask_eq (c : Config) (h : c.valid = true) :
    c.s_usage_mask = 2 ^ c.s_usage_bits - 1 :=
  numeric_max_shift _ _ (valid_usage c h).2.1

theorem four_le_two_pow {u : Nat} (h : 2 ≤ u) : 4 ≤ 2 ^ u :=
  calc 4 = 2 ^ 2 := by norm_num
    _ ≤ 2 ^ u := Nat.pow_le_pow_right (by norm_num) h

theorem s_usage_max_lt (c : Config) (h : c.valid = true) :
    1 ≤ c.s_usage_max ∧ c.s_usage_max < c.s_uncontrolled := by
  have hu := valid_usage c h
  have h4 := four_le_two_pow hu.1
  unfold Config.s_usage_max Config.s_uncontrolled
  rw [s_usage_mask_eq c h]
  by_cases hs : c.s_shared_offset = true
  · simp only [hs, if_true, Nat.shiftRight_eq_div_pow, pow_one]
    omega
  · simp only [hs, s_usage_one]
    simp only [Bool.false_eq_true, ↓reduceIte]
    omega

/-! ## Reading and writing the usage counter -/

theorem usage_counter_set (c : Config) (s : ControlData) (y : Nat) :
    usage_counter c (set_usage_counter c s y) = y := by
  unfold usage_counter set_usage_counter
  cases c.layout <;> rfl

theorem set_usage_counter_self (c : Config) (s : ControlData) :
    set_usage_counter c s (usage_counter c s) = s := by
  unfold usage_counter set_usage_counter
  cases c.layout <;> rfl

theorem set_usage_counter_set (c : Config) (s : ControlData) (y z : Nat) :
    set_usage_counter c (set_usage_counter c s y) z = set_usage_counter c s z := by
  unfold set_usage_counter
  cases c.layout <;> rfl

theorem use_count_eq (c : Config) (h : c.valid = true) (s : ControlData) :
    use_count c s = usage_counter c s % 2 ^ c.s_usage_bits := by
  unfold use_count CounterThreadUnsafe.get_count
  rw [s_usage_mask_eq c h, Nat.and_pow_two_sub_one_eq_mod]

theorem use_count_set (c : Config) (h : c.valid = true) (s : ControlData) (y : Nat) :
    use_count c (set_usage_counter c s y) = y % 2 ^ c.s_usage_bits := by
  rw [use_count_eq c h, usage_counter_set]

/-- A store to the usage counter that keeps the bits above the usage field leaves the
weak count, size, align and user values as they were. -/
theorem frame_set_usage (c : Config) (s : ControlData) (y : Nat)
    (hy : y / 2 ^ c.s_usage_bits = usage_counter c s / 2 ^ c.s_usage_bits) :
    weak_count c (set_usage_counter c s y) = weak_count c s
      ∧ get_size c (set_usage_counter c s y) = get_size c s
      ∧ get_align c (set_usage_counter c s y) = get_align c s
      ∧ get_user c (set_usage_counter c s y) = get_user c s
      ∧ (c.s_shared_offset = false →
          get_offset c (set_usage_counter c s y) = get_offset c s) := by
  cases hL : c.layout with
  | single =>
    have hx : usage_counter c s = s.m_counter := by simp [usage_counter, hL]
    rw [hx] at hy
    have e1 : c.s_usage_bits ≤ c.s_weak_shift := by simp [Config.s_weak_shift, hL]
    have e2 : c.s_usage_bits ≤ c.s_offset_shift := by
      simp only [Config.s_offset_shift, hL]; omega
    have e3 : c.s_usage_bits ≤ c.s_size_shift := by unfold Config.s_size_shift; omega
    have e4 : c.s_usage_bits ≤ c.s_align_shift := by unfold Config.s_align_shift; omega
    have e5 : c.s_usage_bits ≤ c.s_user_shift := by unfold Config.s_user_shift; omega
    have hw : weak_counter c (set_usage_counter c s y) = y := by
      simp [weak_counter, set_usage_counter, hL]
    have hd : data c (set_usage_counter c s y) = y := by
      simp [data, set_usage_counter, hL]
    have hw0 : weak_counter c s = s.m_counter := by simp [weak_counter, hL]
    have hd0 : data c s = s.m_counter := by simp [data, hL]
    refine ⟨?_, ?_, ?_, ?_, ?_⟩
    · unfold weak_count CounterThreadUnsafe.get_count
      rw [hw, hw0]
      exact read_congr _ _ _ _ _ e1 hy
    · unfold get_size CounterThreadUnsafe.get_count
      rw [hd, hd0, read_congr _ _ _ _ _ e3 hy]
    · unfold get_align CounterThreadUnsafe.get_count
      rw [hd, hd0, read_congr _ _ _ _ _ e4 hy]
    · unfold get_user CounterThreadUnsafe.get_count
      rw [hd, hd0, read_congr _ _ _ _ _ e5 hy]
    · intro hsh
      unfold get_offset CounterThreadUnsafe.get_count
      cases hob : c.offset_bits with
      | shared => simp [Config.s_shared_offset, hob] at hsh
      | bits n =>
        cases n with
        | zero => rfl
        | succ n =>
          simp only
          rw [hd, hd0, read_congr _ _ _ _ _ e2 hy]
  | separateUsage =>
    have hw : weak_counter c (set_usage_counter c s y) = weak_counter c s := by
      simp [weak_counter, set_usage_counter, hL]
    have hd : data c (set_usage_counter c s y) = data c s := by
      simp [data, set_usage_counter, hL]
    refine ⟨?_, ?_, ?_, ?_, ?_⟩
    · unfold weak_count; rw [hw]
    · unfold get_size; rw [hd]
    · unfold get_align; rw [hd]
    · unfold get_user; rw [hd]
    · intro hsh
      unfold get_offset
      cases hob : c.offset_bits with
      | shared => simp [Config.s_shared_offset, hob] at hsh
      | bits n =>
        cases n with
        | zero => rfl
        | succ n => simp only; rw [hd]
  | separateAll =>
    have hw : weak_counter c (set_usage_counter c s y) = weak_counter c s := by
      simp [weak_counter, set_usage_counter, hL]
    have hd : data c (set_usage_counter c s y) = data c s := by
      simp [data, set_usage_counter, hL]
    refine ⟨?_, ?_, ?_, ?_, ?_⟩
    · unfold weak_count; rw [hw]
    · unfold get_size; rw [hd]
    · unfold get_align; rw [hd]
    · unfold get_user; rw [hd]
    · intro hsh
      unfold get_offset
      cases hob : c.offset_bits with
      | shared => simp [Config.s_shared_offset, hob] at hsh
      | bits n =>
        cases n with
        | zero => rfl
        | succ n => simp only; rw [hd]

/-! ## Closed forms of the usage operations -/

theorem try_control_eq (c : Config) (fuel : Nat) (s : ControlData) (hf : 0 < fuel) :
    try_control c fuel s = some (
      if (usage_counter c s &&& c.s_usage_mask) = c.s_uncontrolled then
        (ControlStatus.e_acquired, set_usage_counter c s
          (wrap c.usage_type_bits
            ((usage_counter c s &&& bnot c.usage_type_bits c.s_usage_mask) ||| s_usage_one)))
      else if usage_in_range c (usage_counter c s) = true then
        (ControlStatus.e_shared, set_usage_counter c s
          (wrap c.usage_type_bits (usage_counter c s + s_usage_one)))
      else (ControlStatus.e_invalid, s)) := by
  unfold try_control CounterThreadUnsafe.get_count
  dsimp only
  rw [casLoop_pos _ _ _ _ _ hf]
  by_cases h1 : (usage_counter c s &&& c.s_usage_mask) = c.s_uncontrolled
  · simp [h1]
  · simp only [beq_iff_eq, h1, if_false]
    rw [casLoop_pos _ _ _ _ _ hf]
    by_cases h2 : usage_in_range c (usage_counter c s) = true
    · simp [h2]
    · simp [h2, set_usage_counter_self]

theorem try_add_ref_eq (c : Config) (fuel : Nat) (s : ControlData) (hf : 0 < fuel) :
    try_add_ref c fuel s = some (
      if usage_in_range c (usage_counter c s) = true then
        (true, set_usage_counter c s
          (wrap c.usage_type_bits (usage_counter c s + s_usage_one)))
      else (false, s)) := by
  unfold try_add_ref CounterThreadUnsafe.get_count
  dsimp only
  rw [casLoop_pos _ _ _ _ _ hf]
  by_cases h2 : usage_in_range c (usage_counter c s) = true
  · simp [h2]
  · simp [h2, set_usage_counter_self]

theorem try_revive_eq (c : Config) (fuel : Nat) (s : ControlData) (hf : 0 < fuel) :
    try_revive c fuel s = some (
      if (usage_counter c s &&& c.s_usage_mask) = s_usage_zero then
        (true, set_usage_counter c s
          (wrap c.usage_type_bits
            ((usage_counter c s &&& bnot c.usage_type_bits c.s_usage_mask)
              ||| c.s_uncontrolled)))
      else (decide ((usage_counter c s &&& c.s_usage_mask) = c.s_uncontrolled), s)) := by
  unfold try_revive CounterThreadUnsafe.get_count
  dsimp only
  rw [casLoop_pos _ _ _ _ _ hf]
  by_cases h1 : (usage_counter c s &&& c.s_usage_mask) = s_usage_zero
  · simp [h1]
  · have h2 : ((usage_counter c s &&& c.s_usage_mask) == s_usage_zero) = false := by
      simpa using h1
    simp only [beq_iff_eq, h1, if_false, Bool.false_eq_true, set_usage_counter_self, h2,
      Bool.false_or]
    by_cases h3 : (usage_counter c s &&& c.s_usage_mask) = c.s_uncontrolled <;> simp [h3]

theorem usage_in_range_iff (c : Config) (s : ControlData) :
    usage_in_range c (usage_counter c s) = true
      ↔ 0 < use_count c s ∧ use_count c s < get_max_usage_count c := by
  simp [usage_in_range, use_count, get_max_usage_count, CounterThreadUnsafe.get_count,
    s_usage_zero]

/-! ## Effect of the stores made by the usage operations -/

theorem wf_set_usage (c : Config) (s : ControlData) (y : Nat) (hs : s.wf c)
    (hy : y < 2 ^ c.usage_type_bits) :
    (set_usage_counter c s y).wf c := by
  obtain ⟨h1, h2, h3⟩ := hs
  unfold ControlData.wf
  rw [usage_counter_set]
  cases hL : c.layout with
  | single =>
    simp only [weak_counter, data, set_usage_counter, Config.usage_type_bits,
      Config.weak_type_bits, Config.data_type_bits, hL] at *
    exact ⟨hy, hy, hy⟩
  | separateUsage =>
    simp only [weak_counter, data, set_usage_counter, Config.usage_type_bits,
      Config.weak_type_bits, Config.data_type_bits, hL] at *
    exact ⟨hy, h2, h3⟩
  | separateAll =>
    simp only [weak_counter, data, set_usage_counter, Config.usage_type_bits,
      Config.weak_type_bits, Config.data_type_bits, hL] at *
    exact ⟨hy, h2, h3⟩

/-- With the offset stored in the usage bits, `get_offset` is the invalid value as long as
the usage value is the uncontrolled value or at most the maximum. -/
theorem get_offset_shared_invalid (c : Config) (s : ControlData)
    (hsh : c.s_shared_offset = true)
    (h : use_count c s = c.s_uncontrolled ∨ use_count c s ≤ c.s_usage_max) :
    get_offset c s = s_invalid_offset := by
  unfold Config.s_shared_offset at hsh
  have hob : c.offset_bits = OffsetBits.shared := by simpa using hsh
  unfold get_offset
  unfold use_count at h
  simp [hob, h]

/-- The facts shared by all usage stores: the new word, its well-formedness and the frame. -/
theorem usage_store (c : Config) (hc : c.valid = true) (s : ControlData) (hs : s.wf c)
    (v : Nat) (hv : v < 2 ^ c.s_usage_bits)
    (hoff : c.s_shared_offset = true →
      (use_count c s = c.s_uncontrolled ∨ use_count c s ≤ c.s_usage_max)
        ∧ (v = c.s_uncontrolled ∨ v ≤ c.s_usage_max)) :
    let y := 2 ^ c.s_usage_bits * (usage_counter c s / 2 ^ c.s_usage_bits) + v
    use_count c (set_usage_counter c s y) = v ∧ (set_usage_counter c s y).wf c
      ∧ sameFields c s (set_usage_counter c s y) := by
  intro y
  have hu := valid_usage c hc
  have hy : y < 2 ^ c.usage_type_bits := split_lt _ _ _ _ hu.2.1 hs.1 hv
  have hhi : y / 2 ^ c.s_usage_bits = usage_counter c s / 2 ^ c.s_usage_bits :=
    low_div _ _ _ hv
  have huse : use_count c (set_usage_counter c s y) = v := by
    rw [use_count_set c hc, low_mod _ _ _ hv]
  obtain ⟨f1, f2, f3, f4, f5⟩ := frame_set_usage c s y hhi
  refine ⟨huse, wf_set_usage c s y hs hy, f1, ?_, f2, f3, f4⟩
  by_cases hsh : c.s_shared_offset = true
  · obtain ⟨a, b⟩ := hoff hsh
    rw [get_offset_shared_invalid c s hsh a,
      get_offset_shared_invalid c _ hsh (by rw [huse]; exact b)]
  · exact f5 (by simpa using hsh)

/-! ## The usage state machine -/

theorem inc_form (w u x : Nat) (hu : u ≤ w) (hx : x < 2 ^ w) (h : x % 2 ^ u < 2 ^ u - 1) :
    wrap w (x + 1) = 2 ^ u * (x / 2 ^ u) + (x % 2 ^ u + 1) := by
  rw [(inc_low w u x hu hx h).1]
  have hd := Nat.div_add_mod x (2 ^ u)
  omega

theorem dec_form (w u x : Nat) (hw : 0 < w) (hx : x < 2 ^ w) (h : 0 < x % 2 ^ u) :
    wrap w (x + (2 ^ w - wrap w 1)) = 2 ^ u * (x / 2 ^ u) + (x % 2 ^ u - 1) := by
  rw [(dec_low w u x hw hx h).1]
  have hd := Nat.div_add_mod x (2 ^ u)
  omega

/-- The result of `try_control` when the block is uncontrolled. -/
theorem try_control_acquire (c : Config) (hc : c.valid = true) (s : ControlData) (hs : s.wf c)
    (fuel : Nat) (hf : 0 < fuel) (h : use_count c s = c.s_uncontrolled) :
    ∃ s', try_control c fuel s = some (ControlStatus.e_acquired, s')
      ∧ use_count c s' = 1 ∧ s'.wf c ∧ sameFields c s s'
      ∧ s' = set_usage_counter c s
          (2 ^ c.s_usage_bits * (usage_counter c s / 2 ^ c.s_usage_bits) + 1) := by
  have hu := valid_usage c hc
  have h4 := four_le_two_pow hu.1
  have hm := s_usage_max_lt c hc
  have h' : (usage_counter c s &&& c.s_usage_mask) = c.s_uncontrolled := h
  rw [try_control_eq c fuel s hf, if_pos h']
  have hval : wrap c.usage_type_bits
      ((usage_counter c s &&& bnot c.usage_type_bits c.s_usage_mask) ||| s_usage_one)
      = 2 ^ c.s_usage_bits * (usage_counter c s / 2 ^ c.s_usage_bits) + 1 := by
    rw [s_usage_mask_eq c hc]
    exact set_low _ _ _ 1 hu.2.1 hs.1 (by omega)
  rw [hval]
  obtain ⟨a, b, d⟩ := usage_store c hc s hs 1 (by omega)
    (fun _ => ⟨Or.inl h, Or.inr hm.1⟩)
  exact ⟨_, rfl, a, b, d, rfl⟩

/-- The result of `try_control` and `try_add_ref` stores when the usage value is strictly
between zero and the maximum. -/
theorem usage_increment (c : Config) (hc : c.valid = true) (s : ControlData) (hs : s.wf c)
    (h : 0 < use_count c s ∧ use_count c s < get_max_usage_count c) :
    let s' := set_usage_counter c s (wrap c.usage_type_bits (usage_counter c s + s_usage_one))
    use_count c s' = use_count c s + 1 ∧ s'.wf c ∧ sameFields c s s' := by
  intro s'
  have hu := valid_usage c hc
  have hm := s_usage_max_lt c hc
  have hunc : c.s_uncontrolled = 2 ^ c.s_usage_bits - 1 := s_usage_mask_eq c hc
  have huse := use_count_eq c hc s
  unfold get_max_usage_count at h
  have hlt : usage_counter c s % 2 ^ c.s_usage_bits < 2 ^ c.s_usage_bits - 1 := by omega
  have hval : wrap c.usage_type_bits (usage_counter c s + s_usage_one)
      = 2 ^ c.s_usage_bits * (usage_counter c s / 2 ^ c.s_usage_bits)
          + (use_count c s + 1) := by
    rw [huse]
    exact inc_form _ _ _ hu.2.1 hs.1 hlt
  show use_count c (set_usage_counter c s _) = _ ∧ (set_usage_counter c s _).wf c
    ∧ sameFields c s (set_usage_counter c s _)
  rw [hval]
  exact usage_store c hc s hs (use_count c s + 1) (by omega)
    (fun _ => ⟨Or.inr (by omega), Or.inr (by omega)⟩)

theorem not_uncontrolled_of_range (c : Config) (hc : c.valid = true) (s : ControlData)
    (h : use_count c s < get_max_usage_count c) : use_count c s ≠ c.s_uncontrolled := by
  have hm := s_usage_max_lt c hc
  unfold get_max_usage_count at h
  omega

theorem try_control_share (c : Config) (hc : c.valid = true) (s : ControlData) (hs : s.wf c)
    (fuel : Nat) (hf : 0 < fuel)
    (h : 0 < use_count c s ∧ use_count c s < get_max_usage_count c) :
    ∃ s', try_control c fuel s = some (ControlStatus.e_shared, s')
      ∧ use_count c s' = use_count c s + 1 ∧ s'.wf c ∧ sameFields c s s' := by
  have h1 : ¬ (usage_counter c s &&& c.s_usage_mask) = c.s_uncontrolled :=
    not_uncontrolled_of_range c hc s h.2
  rw [try_control_eq c fuel s hf, if_neg h1, if_pos ((usage_in_range_iff c s).mpr h)]
  obtain ⟨a, b, d⟩ := usage_increment c hc s hs h
  exact ⟨_, rfl, a, b, d⟩

theorem try_control_invalid (c : Config) (s : ControlData) (fuel : Nat) (hf : 0 < fuel)
    (h1 : use_count c s ≠ c.s_uncontrolled)
    (h2 : ¬ (0 < use_count c s ∧ use_count c s < get_max_usage_count c)) :
    try_control c fuel s = some (ControlStatus.e_invalid, s) := by
  have h1' : ¬ (usage_counter c s &&& c.s_usage_mask) = c.s_uncontrolled := h1
  rw [try_control_eq c fuel s hf, if_neg h1',
    if_neg (fun h => h2 ((usage_in_range_iff c s).mp h))]

theorem sameFields_refl (c : Config) (s : ControlData) : sameFields c s s :=
  ⟨rfl, rfl, rfl, rfl, rfl⟩

theorem try_add_ref_share (c : Config) (hc : c.valid = true) (s : ControlData) (hs : s.wf c)
    (fuel : Nat) (hf : 0 < fuel)
    (h : 0 < use_count c s ∧ use_count c s < get_max_usage_count c) :
    ∃ s', try_add_ref c fuel s = some (true, s')
      ∧ use_count c s' = use_count c s + 1 ∧ s'.wf c ∧ sameFields c s s' := by
  rw [try_add_ref_eq c fuel s hf, if_pos ((usage_in_range_iff c s).mpr h)]
  obtain ⟨a, b, d⟩ := usage_increment c hc s hs h
  exact ⟨_, rfl, a, b, d⟩

theorem try_add_ref_fail (c : Config) (s : ControlData) (fuel : Nat) (hf : 0 < fuel)
    (h2 : ¬ (0 < use_count c s ∧ use_count c s < get_max_usage_count c)) :
    try_add_ref c fuel s = some (false, s) := by
  rw [try_add_ref_eq c fuel s hf, if_neg (fun h => h2 ((usage_in_range_iff c s).mp h))]

/-- The result of `add_ref` inside its asserted precondition. -/
theorem add_ref_share (c : Config) (hc : c.valid = true) (s : ControlData) (hs : s.wf c)
    (h : 0 < use_count c s ∧ use_count c s < get_max_usage_count c) :
    use_count c (add_ref c s) = use_count c s + 1 ∧ (add_ref c s).wf c
      ∧ sameFields c s (add_ref c s) :=
  usage_increment c hc s hs h

/-- The result of `release` on a block that is alive. -/
theorem release_alive (c : Config) (hc : c.valid = true) (s : ControlData) (hs : s.wf c)
    (h : 1 ≤ use_count c s ∧ use_count c s ≤ get_max_usage_count c) :
    (release c s).1 = decide (use_count c s = 1)
      ∧ use_count c (release c s).2 = use_count c s - 1
      ∧ (release c s).2.wf c ∧ sameFields c s (release c s).2
      ∧ (release c s).2 = set_usage_counter c s
          (2 ^ c.s_usage_bits * (usage_counter c s / 2 ^ c.s_usage_bits)
            + (use_count c s - 1)) := by
  have hu := valid_usage c hc
  have hm := s_usage_max_lt c hc
  have hunc : c.s_uncontrolled = 2 ^ c.s_usage_bits - 1 := s_usage_mask_eq c hc
  have huse := use_count_eq c hc s
  unfold get_max_usage_count at h
  have hval : wrap c.usage_type_bits
      (usage_counter c s + (2 ^ c.usage_type_bits - wrap c.usage_type_bits s_usage_one))
      = 2 ^ c.s_usage_bits * (usage_counter c s / 2 ^ c.s_usage_bits)
          + (use_count c s - 1) := by
    rw [huse]
    exact dec_form _ _ _ (by omega) hs.1 (by omega)
  obtain ⟨a, b, d⟩ := usage_store c hc s hs (use_count c s - 1) (by omega)
    (fun _ => ⟨Or.inr h.2, Or.inr (by omega)⟩)
  have hprev : (usage_counter c s &&& c.s_usage_mask) = use_count c s := rfl
  unfold release CounterThreadUnsafe.decrement
  simp only [hprev, hval]
  simp only [s_usage_one]
  by_cases h1 : 1 < use_count c s
  · rw [if_pos ⟨h1, h.2⟩]
    exact ⟨by simp; omega, a, b, d, rfl⟩
  · have h2 : use_count c s = 1 := by omega
    rw [if_neg (fun hh => h1 hh.1), if_neg (by simp [h2])]
    exact ⟨by simp [h2], a, b, d, rfl⟩

/-- The result of `release` on a block that is not alive: the decrement is undone. -/
theorem release_not_alive (c : Config) (hc : c.valid = true) (s : ControlData) (hs : s.wf c)
    (h : ¬ (1 ≤ use_count c s ∧ use_count c s ≤ get_max_usage_count c)) :
    release c s = (true, s) := by
  have hu := valid_usage c hc
  unfold get_max_usage_count at h
  have hprev : (usage_counter c s &&& c.s_usage_mask) = use_count c s := rfl
  unfold release CounterThreadUnsafe.decrement CounterThreadUnsafe.increment
  simp only [hprev, s_usage_one, usage_counter_set, set_usage_counter_set]
  have h1 : ¬ (1 < use_count c s ∧ use_count c s ≤ c.s_usage_max) := by omega
  have h2 : use_count c s ≠ 1 := by
    have := s_usage_max_lt c hc
    omega
  rw [if_neg h1, if_pos h2, dec_inc _ _ (by omega) hs.1, set_usage_counter_self]

/-- The result of `try_revive` on an expired block. -/
theorem try_revive_expired (c : Config) (hc : c.valid = true) (s : ControlData) (hs : s.wf c)
    (fuel : Nat) (hf : 0 < fuel) (h : use_count c s = 0) :
    ∃ s', try_revive c fuel s = some (true, s')
      ∧ use_count c s' = c.s_uncontrolled ∧ s'.wf c ∧ sameFields c s s'
      ∧ s' = set_usage_counter c s
          (2 ^ c.s_usage_bits * (usage_counter c s / 2 ^ c.s_usage_bits)
            + c.s_uncontrolled) := by
  have hu := valid_usage c hc
  have h4 := four_le_two_pow hu.1
  have hunc : c.s_uncontrolled = 2 ^ c.s_usage_bits - 1 := s_usage_mask_eq c hc
  have h' : (usage_counter c s &&& c.s_usage_mask) = s_usage_zero := h
  rw [try_revive_eq c fuel s hf, if_pos h']
  have hval : wrap c.usage_type_bits
      ((usage_counter c s &&& bnot c.usage_type_bits c.s_usage_mask) ||| c.s_uncontrolled)
      = 2 ^ c.s_usage_bits * (usage_counter c s / 2 ^ c.s_usage_bits) + c.s_uncontrolled := by
    rw [s_usage_mask_eq c hc]
    exact set_low _ _ _ _ hu.2.1 hs.1 (by omega)
  rw [hval]
  obtain ⟨a, b, d⟩ := usage_store c hc s hs c.s_uncontrolled (by omega)
    (fun _ => ⟨Or.inr (by omega), Or.inl rfl⟩)
  exact ⟨_, rfl, a, b, d, rfl⟩

/-- The result of `try_revive` on a block that is not expired. -/
theorem try_revive_other (c : Config) (s : ControlData) (fuel : Nat) (hf : 0 < fuel)
    (h : use_count c s ≠ 0) :
    try_revive c fuel s = some (decide (use_count c s = c.s_uncontrolled), s) := by
  have h' : ¬ (usage_counter c s &&& c.s_usage_mask) = s_usage_zero := h
  rw [try_revive_eq c fuel s hf, if_neg h']
  rfl

/-! ## The freshly constructed control block -/

theorem testBit_wrap_shiftLeft_low (w a sh i : Nat) (h : i < sh) :
    (wrap w (a <<< sh)).testBit i = false := by
  rw [testBit_wrap, Nat.testBit_shiftLeft]
  have : ¬ i ≥ sh := by omega
  simp [this]

theorem single_shifts (c : Config) (hL : c.layout = Layout.single) :
    c.s_weak_shift = c.s_usage_bits ∧ c.s_usage_bits ≤ c.s_offset_shift
      ∧ c.s_usage_bits ≤ c.s_size_shift ∧ c.s_usage_bits ≤ c.s_align_shift
      ∧ c.s_usage_bits ≤ c.s_user_shift := by
  have e1 : c.s_weak_shift = c.s_usage_bits := by simp [Config.s_weak_shift, hL]
  have e2 : c.s_usage_bits ≤ c.s_offset_shift := by
    simp only [Config.s_offset_shift, hL]; omega
  have e3 : c.s_usage_bits ≤ c.s_size_shift := by unfold Config.s_size_shift; omega
  have e4 : c.s_usage_bits ≤ c.s_align_shift := by unfold Config.s_align_shift; omega
  have e5 : c.s_usage_bits ≤ c.s_user_shift := by unfold Config.s_user_shift; omega
  exact ⟨e1, e2, e3, e4, e5⟩

theorem valid_weak (c : Config) (hc : c.valid = true) (hw : c.SupportsWeak = true) :
    2 ≤ c.weak_bits ∧ c.s_weak_shift + c.weak_bits ≤ c.weak_type_bits := by
  have hu := valid_usage c hc
  unfold Config.valid at hc
  simp only [Bool.and_eq_true, Bool.or_eq_true, beq_iff_eq, decide_eq_true_eq] at hc
  obtain ⟨⟨⟨_, _⟩, hwb⟩, hl⟩ := hc
  have hw0 : c.weak_bits ≠ 0 := by simpa [Config.SupportsWeak] using hw
  have hw2 : 2 ≤ c.weak_bits := by omega
  refine ⟨hw2, ?_⟩
  cases hL : c.layout with
  | single =>
    simp only [hL, Bool.and_eq_true, decide_eq_true_eq] at hl
    simp only [Config.s_weak_shift, Config.weak_type_bits, hL]
    simp only [Config.s_weak_bits] at hl
    omega
  | separateUsage =>
    simp only [hL, decide_eq_true_eq] at hl
    simp only [Config.s_weak_shift, Config.weak_type_bits, hL]
    simp only [Config.s_weak_bits] at hl
    omega
  | separateAll =>
    simp only [Config.s_weak_shift, Config.weak_type_bits, hL]
    omega

theorem two_pow_lt_of_lt {a b : Nat} (h : a < b) : 2 ^ a < 2 ^ b :=
  Nat.pow_lt_pow_right (by norm_num) h

/-- The value `p_weak_init` handed down by the constructor of `ControlDataWeak`. -/
theorem weak_init_lt (c : Config) (hc : c.valid = true) :
    (if c.SupportsWeak then c.s_weak_one_shifted else 0) < 2 ^ c.weak_type_bits := by
  by_cases hw : c.SupportsWeak = true
  · have := valid_weak c hc hw
    simp only [hw, if_true, Config.s_weak_one_shifted, s_weak_one, Nat.one_shiftLeft]
    exact two_pow_lt_of_lt (by omega)
  · simp only [hw, Bool.false_eq_true, if_false]
    exact Nat.two_pow_pos _

theorem init_usage (c : Config) (hc : c.valid = true) (p_user_init : Nat) :
    use_count c (ControlData.init c p_user_init) = c.s_uncontrolled
      ∧ (ControlData.init c p_user_init).wf c := by
  have hu := valid_usage c hc
  have hunc : c.s_uncontrolled = 2 ^ c.s_usage_bits - 1 := s_usage_mask_eq c hc
  have hwl := weak_init_lt c hc
  have hul : c.s_uncontrolled < 2 ^ c.usage_type_bits := by
    have := Nat.pow_le_pow_right (n := 2) (by norm_num) hu.2.1
    have := Nat.two_pow_pos c.s_usage_bits
    omega
  have hdl : (if c.userNoBits = true then 0
      else wrap c.data_type_bits (wrap c.data_type_bits p_user_init <<< c.s_user_shift))
        < 2 ^ c.data_type_bits := by
    split
    · exact Nat.two_pow_pos _
    · exact wrap_lt _ _
  rw [use_count_eq c hc]
  unfold ControlData.init ControlDataStorage.init ControlData.wf
  cases hL : c.layout with
  | single =>
    have hsh := single_shifts c hL
    simp only [usage_counter, weak_counter, data, hL, Config.usage_type_bits,
      Config.weak_type_bits, Config.data_type_bits] at hwl hul hdl ⊢
    have hlt := Nat.or_lt_two_pow (Nat.or_lt_two_pow hul hwl) hdl
    refine ⟨?_, hlt, hlt, hlt⟩
    rw [hunc]
    apply Nat.eq_of_testBit_eq
    intro i
    simp only [Nat.testBit_mod_two_pow, Nat.testBit_or, Nat.testBit_two_pow_sub_one]
    by_cases hi : i < c.s_usage_bits
    · simp [hi]
    · simp [hi]
  | separateUsage =>
    simp only [usage_counter, weak_counter, data, hL, Config.usage_type_bits,
      Config.weak_type_bits, Config.data_type_bits] at hwl hul hdl ⊢
    refine ⟨?_, hul, Nat.or_lt_two_pow hwl hdl, Nat.or_lt_two_pow hwl hdl⟩
    rw [hunc]
    exact Nat.mod_eq_of_lt (by have := Nat.two_pow_pos c.s_usage_bits; omega)
  | separateAll =>
    simp only [usage_counter, weak_counter, data, hL, Config.usage_type_bits,
      Config.weak_type_bits, Config.data_type_bits] at hwl hul hdl ⊢
    refine ⟨?_, hul, hwl, hdl⟩
    rw [hunc]
    exact Nat.mod_eq_of_lt (by have := Nat.two_pow_pos c.s_usage_bits; omega)

/-! ## Repeated `add_ref` and `release` -/

theorem add_ref_n_count (c : Config) (hc : c.valid = true) :
    ∀ (n : Nat) (s : ControlData), s.wf c → 0 < use_count c s →
      use_count c s + n ≤ get_max_usage_count c →
      use_count c (add_ref_n c n s) = use_count c s + n ∧ (add_ref_n c n s).wf c
        ∧ sameFields c s (add_ref_n c n s) := by
  intro n
  induction n with
  | zero =>
    intro s hs _ _
    exact ⟨rfl, hs, sameFields_refl c s⟩
  | succ n ih =>
    intro s hs h0 hmax
    obtain ⟨a, b, d⟩ := add_ref_share c hc s hs ⟨h0, by omega⟩
    obtain ⟨a', b', d'⟩ := ih (add_ref c s) b (by omega) (by omega)
    refine ⟨?_, b', ?_⟩
    · show use_count c (add_ref_n c n (add_ref c s)) = _
      omega
    · show sameFields c s (add_ref_n c n (add_ref c s))
      obtain ⟨d1, d2, d3, d4, d5⟩ := d
      obtain ⟨e1, e2, e3, e4, e5⟩ := d'
      exact ⟨e1.trans d1, e2.trans d2, e3.trans d3, e4.trans d4, e5.trans d5⟩

theorem release_n_count (c : Config) (hc : c.valid = true) :
    ∀ (n : Nat) (s : ControlData), s.wf c → use_count c s = n + 1 →
      n + 1 ≤ get_max_usage_count c →
      (release_n c (n + 1) s).1 = List.replicate n false ++ [true]
        ∧ use_count c (release_n c (n + 1) s).2 = 0 := by
  intro n
  induction n with
  | zero =>
    intro s hs h1 hmax
    obtain ⟨a, b, _, _, _⟩ := release_alive c hc s hs ⟨by omega, by omega⟩
    simp only [release_n, List.replicate, List.nil_append]
    rw [a, b, h1]
    simp
  | succ n ih =>
    intro s hs h1 hmax
    obtain ⟨a, b, d, _, _⟩ := release_alive c hc s hs ⟨by omega, by omega⟩
    obtain ⟨a', b'⟩ := ih (release c s).2 d (by omega) (by omega)
    have hfalse : (release c s).1 = false := by
      rw [a, h1]
      simp
    constructor
    · show (release c s).1 :: (release_n c (n + 1) (release c s).2).1 = _
      rw [a', hfalse]
      rfl
    · exact b'

/-! ## Stores to the weak counter and to the data word -/

theorem weak_counter_set (c : Config) (s : ControlData) (y : Nat) :
    weak_counter c (set_weak_counter c s y) = y := by
  unfold weak_counter set_weak_counter
  cases c.layout <;> rfl

theorem data_set (c : Config) (s : ControlData) (y : Nat) :
    data c (set_data c s y) = y := by
  unfold data set_data
  cases c.layout <;> rfl

/-- Adding a multiple of `2 ^ u` to a `w` bit word keeps its low `u` bits. -/
theorem add_mul_low (w u x k : Nat) (hu : u ≤ w) (hk : 2 ^ u ∣ k) :
    wrap w (x + k) % 2 ^ u = x % 2 ^ u := by
  unfold wrap
  rw [Nat.mod_mod_of_dvd _ (Nat.pow_dvd_pow 2 hu)]
  obtain ⟨q, rfl⟩ := hk
  exact Nat.add_mul_mod_self_left x (2 ^ u) q

theorem dvd_neg_wrap (w u : Nat) (hu : u ≤ w) : 2 ^ u ∣ 2 ^ w - wrap w (2 ^ u) := by
  apply Nat.dvd_sub'
  · exact Nat.pow_dvd_pow 2 hu
  · unfold wrap
    exact (Nat.dvd_mod_iff (Nat.pow_dvd_pow 2 hu)).mpr (dvd_refl _)

/-- Clearing a field and writing a value keeps the low `u` bits when neither the mask nor
the value reaches them. -/
theorem set_field_low (w u k m v : Nat) (hu : u ≤ w)
    (hm : ∀ i, i < u → m.testBit i = false) (hv : ∀ i, i < u → v.testBit i = false) :
    wrap w ((k &&& bnot w m) ||| v) % 2 ^ u = k % 2 ^ u := by
  apply Nat.eq_of_testBit_eq
  intro i
  simp only [Nat.testBit_mod_two_pow, testBit_wrap, Nat.testBit_or, Nat.testBit_and,
    testBit_bnot]
  by_cases hi : i < u
  · have hiw : i < w := by omega
    simp [hi, hiw, hm i hi, hv i hi]
  · simp [hi]

/-- A store to the weak counter that keeps the low usage bits of a single-word block
leaves the use count and the well-formedness of the state as they were. -/
theorem weak_store (c : Config) (hc : c.valid = true) (s : ControlData) (hs : s.wf c)
    (y : Nat) (hy : y < 2 ^ c.weak_type_bits)
    (hlow : c.layout = Layout.single →
      y % 2 ^ c.s_usage_bits = weak_counter c s % 2 ^ c.s_usage_bits) :
    use_count c (set_weak_counter c s y) = use_count c s
      ∧ (set_weak_counter c s y).wf c := by
  obtain ⟨h1, h2, h3⟩ := hs
  rw [use_count_eq c hc, use_count_eq c hc]
  unfold ControlData.wf
  cases hL : c.layout with
  | single =>
    have hl := hlow hL
    simp only [usage_counter, weak_counter, data, set_weak_counter, Config.usage_type_bits,
      Config.weak_type_bits, Config.data_type_bits, hL] at *
    exact ⟨hl, hy, hy, hy⟩
  | separateUsage =>
    simp only [usage_counter, weak_counter, data, set_weak_counter, Config.usage_type_bits,
      Config.weak_type_bits, Config.data_type_bits, hL] at *
    exact ⟨trivial, h1, hy, hy⟩
  | separateAll =>
    simp only [usage_counter, weak_counter, data, set_weak_counter, Config.usage_type_bits,
      Config.weak_type_bits, Config.data_type_bits, hL] at *
    exact ⟨trivial, h1, hy, h3⟩

/-- The same for a store to the data word. -/
theorem data_store (c : Config) (hc : c.valid = true) (s : ControlData) (hs : s.wf c)
    (y : Nat) (hy : y < 2 ^ c.data_type_bits)
    (hlow : c.layout = Layout.single →
      y % 2 ^ c.s_usage_bits = data c s % 2 ^ c.s_usage_bits) :
    use_count c (set_data c s y) = use_count c s ∧ (set_data c s y).wf c := by
  obtain ⟨h1, h2, h3⟩ := hs
  rw [use_count_eq c hc, use_count_eq c hc]
  unfold ControlData.wf
  cases hL : c.layout with
  | single =>
    have hl := hlow hL
    simp only [usage_counter, weak_counter, data, set_data, Config.usage_type_bits,
      Config.weak_type_bits, Config.data_type_bits, hL] at *
    exact ⟨hl, hy, hy, hy⟩
  | separateUsage =>
    simp only [usage_counter, weak_counter, data, set_data, Config.usage_type_bits,
      Config.weak_type_bits, Config.data_type_bits, hL] at *
    exact ⟨trivial, h1, hy, hy⟩
  | separateAll =>
    simp only [usage_counter, weak_counter, data, set_data, Config.usage_type_bits,
      Config.weak_type_bits, Config.data_type_bits, hL] at *
    exact ⟨trivial, h1, h2, hy⟩

theorem single_widths (c : Config) (hc : c.valid = true) (hL : c.layout = Layout.single) :
    c.s_usage_bits ≤ c.weak_type_bits ∧ c.s_usage_bits ≤ c.data_type_bits
      ∧ c.offset_type_bits = c.data_type_bits := by
  have hu := valid_usage c hc
  simp only [Config.usage_type_bits, Config.weak_type_bits, Config.data_type_bits,
    Config.offset_type_bits, hL] at *
  exact ⟨hu.2.1, hu.2.1, trivial⟩

theorem weak_add_ref_usage (c : Config) (hc : c.valid = true) (s : ControlData)
    (hs : s.wf c) :
    use_count c (weak_add_ref c s) = use_count c s ∧ (weak_add_ref c s).wf c := by
  unfold weak_add_ref CounterThreadUnsafe.increment
  apply weak_store c hc s hs _ (wrap_lt _ _)
  intro hL
  rw [Config.s_weak_one_shifted, (single_shifts c hL).1, s_weak_one, Nat.one_shiftLeft]
  exact add_mul_low _ _ _ _ (single_widths c hc hL).1 (dvd_refl _)

theorem weak_release_usage (c : Config) (hc : c.valid = true) (s : ControlData)
    (hs : s.wf c) :
    use_count c (weak_release c s).2 = use_count c s ∧ (weak_release c s).2.wf c := by
  have step1 : use_count c (set_weak_counter c s
        (wrap c.weak_type_bits (weak_counter c s
          + (2 ^ c.weak_type_bits - wrap c.weak_type_bits c.s_weak_one_shifted))))
        = use_count c s
      ∧ (set_weak_counter c s
        (wrap c.weak_type_bits (weak_counter c s
          + (2 ^ c.weak_type_bits - wrap c.weak_type_bits c.s_weak_one_shifted)))).wf c := by
    apply weak_store c hc s hs _ (wrap_lt _ _)
    intro hL
    rw [Config.s_weak_one_shifted, (single_shifts c hL).1, s_weak_one, Nat.one_shiftLeft]
    exact add_mul_low _ _ _ _ (single_widths c hc hL).1
      (dvd_neg_wrap _ _ (single_widths c hc hL).1)
  unfold weak_release CounterThreadUnsafe.decrement CounterThreadUnsafe.increment
  dsimp only
  split
  · exact step1
  · split
    · obtain ⟨a, b⟩ := weak_add_ref_usage c hc _ step1.2
      unfold weak_add_ref CounterThreadUnsafe.increment at a b
      exact ⟨a.trans step1.1, b⟩
    · exact step1

/-! ## The `try_set_*` operations and the usage field -/

theorem shared_iff (c : Config) : c.s_shared_offset = true ↔ c.offset_bits = OffsetBits.shared := by
  simp [Config.s_shared_offset]

theorem offset_type_bits_not_shared (c : Config) (h : c.s_shared_offset = false) :
    c.offset_type_bits = c.data_type_bits := by
  unfold Config.offset_type_bits Config.data_type_bits
  cases c.layout <;> simp [h]

theorem offset_type_bits_shared (c : Config) (h : c.s_shared_offset = true) :
    c.offset_type_bits = c.usage_type_bits := by
  unfold Config.offset_type_bits Config.usage_type_bits
  cases c.layout <;> simp [h]

/-- A clear-and-set store to the data word whose mask and value sit at or above `shift`,
a shift that is at or above the usage bits in the single-word layout. -/
theorem data_field_store (c : Config) (hc : c.valid = true) (s : ControlData) (hs : s.wf c)
    (fuel : Nat) (hf : 0 < fuel) (a b shift : Nat)
    (hshift : c.layout = Layout.single → c.s_usage_bits ≤ shift) :
    ∃ s', (match casLoop c.data_type_bits (fun _ => true)
            (fun k => (k &&& bnot c.data_type_bits (wrap c.data_type_bits (a <<< shift)))
              ||| wrap c.data_type_bits (b <<< shift))
            fuel (data c s) (CounterThreadUnsafe.get_count (data c s)) with
          | none => none
          | some (v, _) => some (true, set_data c s v)) = some (true, s')
      ∧ use_count c s' = use_count c s ∧ s'.wf c := by
  unfold CounterThreadUnsafe.get_count
  rw [casLoop_pos _ _ _ _ _ hf]
  simp only [if_true]
  refine ⟨_, rfl, ?_⟩
  apply data_store c hc s hs _ (wrap_lt _ _)
  intro hL
  exact set_field_low _ _ _ _ _ (single_widths c hc hL).2.1
    (fun i hi => testBit_wrap_shiftLeft_low _ _ _ _ (by have := hshift hL; omega))
    (fun i hi => testBit_wrap_shiftLeft_low _ _ _ _ (by have := hshift hL; omega))

theorem try_set_size_usage (c : Config) (hc : c.valid = true) (s : ControlData) (hs : s.wf c)
    (fuel : Nat) (hf : 0 < fuel) (p : Nat) :
    ∃ r s', try_set_size c fuel p s = some (r, s')
      ∧ use_count c s' = use_count c s ∧ s'.wf c := by
  unfold try_set_size
  split
  · exact ⟨_, s, rfl, rfl, hs⟩
  · split
    · exact ⟨_, s, rfl, rfl, hs⟩
    · obtain ⟨s', e, a, b⟩ := data_field_store c hc s hs fuel hf
        (wrap c.data_type_bits c.s_size_max) (wrap c.data_type_bits p) c.s_size_shift
        (fun hL => (single_shifts c hL).2.2.1)
      exact ⟨true, s', e, a, b⟩

theorem try_set_align_usage (c : Config) (hc : c.valid = true) (s : ControlData)
    (hs : s.wf c) (fuel : Nat) (hf : 0 < fuel) (p : Nat) :
    ∃ r s', try_set_align c fuel p s = some (r, s')
      ∧ use_count c s' = use_count c s ∧ s'.wf c := by
  unfold try_set_align
  split
  · exact ⟨_, s, rfl, rfl, hs⟩
  · split
    · exact ⟨_, s, rfl, rfl, hs⟩
    · obtain ⟨s', e, a, b⟩ := data_field_store c hc s hs fuel hf
        (wrap c.data_type_bits c.s_align_max) (wrap c.data_type_bits p) c.s_align_shift
        (fun hL => (single_shifts c hL).2.2.2.1)
      exact ⟨true, s', e, a, b⟩

theorem try_set_user_usage (c : Config) (hc : c.valid = true) (s : ControlData)
    (hs : s.wf c) (fuel : Nat) (hf : 0 < fuel) (p : Nat) :
    ∃ r s', try_set_user c fuel p s = some (r, s')
      ∧ use_count c s' = use_count c s ∧ s'.wf c := by
  unfold try_set_user
  split
  · exact ⟨_, s, rfl, rfl, hs⟩
  · split
    · exact ⟨_, s, rfl, rfl, hs⟩
    · obtain ⟨s', e, a, b⟩ := data_field_store c hc s hs fuel hf
        c.s_user_max p c.s_user_shift (fun hL => (single_shifts c hL).2.2.2.2)
      exact ⟨true, s', e, a, b⟩

/-- With offset bits of their own, `try_set_offset` leaves the usage field alone. -/
theorem try_set_offset_usage (c : Config) (hc : c.valid = true) (s : ControlData)
    (hs : s.wf c) (fuel : Nat) (hf : 0 < fuel) (p : Nat) (hsh : c.s_shared_offset = false) :
    ∃ r s', try_set_offset c fuel p s = some (r, s')
      ∧ use_count c s' = use_count c s ∧ s'.wf c := by
  have hO := offset_type_bits_not_shared c hsh
  unfold try_set_offset
  cases hob : c.offset_bits with
  | shared => simp [Config.s_shared_offset, hob] at hsh
  | bits n =>
    cases n with
    | zero => exact ⟨_, s, rfl, rfl, hs⟩
    | succ n =>
      simp only
      split
      · exact ⟨_, s, rfl, rfl, hs⟩
      · obtain ⟨s', e, a, b⟩ := data_field_store c hc s hs fuel hf
          c.s_offset_max (wrap c.data_type_bits p) c.s_offset_shift
          (fun hL => (single_shifts c hL).2.1)
        refine ⟨true, s', ?_, a, b⟩
        rw [← e]
        simp only [Config.s_offset_mask, hob, hO]

/-- The usage bits after the offset has been stored in them: the top usage bit and the
offset below it. -/
theorem shared_offset_low (w u x p : Nat) (hu : u ≤ w) (hu1 : 1 ≤ u) (hp : p < 2 ^ (u - 1)) :
    wrap w ((x &&& bnot w (2 ^ (u - 1) - 1)) ||| (2 ^ (u - 1) ||| wrap w p)) % 2 ^ u
      = 2 ^ (u - 1) + p := by
  have hor : 2 ^ (u - 1) + p = 2 ^ (u - 1) ||| p := by
    have := Nat.mul_add_lt_is_or hp 1
    simpa using this
  rw [hor]
  apply Nat.eq_of_testBit_eq
  intro i
  simp only [Nat.testBit_mod_two_pow, testBit_wrap, Nat.testBit_or, Nat.testBit_and,
    testBit_bnot, Nat.testBit_two_pow_sub_one, Nat.testBit_two_pow]
  by_cases h1 : i < u - 1
  · have h2 : i < u := by omega
    have h3 : i < w := by omega
    have h4 : ¬ u - 1 = i := by omega
    simp [h1, h2, h3, h4]
  · by_cases h2 : i = u - 1
    · have h3 : i < u := by omega
      have h4 : i < w := by omega
      simp [h2, h3, h4]
      omega
    · have h3 : ¬ i < u := by omega
      have h4 : ¬ u - 1 = i := by omega
      have h5 : p.testBit i = false :=
        testBit_eq_false_of_lt hp (by omega)
      simp [h3, h4, h5]

theorem shared_offset_high (w u x p : Nat) (hu1 : 1 ≤ u) (hx : x < 2 ^ w)
    (hp : p < 2 ^ (u - 1)) :
    wrap w ((x &&& bnot w (2 ^ (u - 1) - 1)) ||| (2 ^ (u - 1) ||| wrap w p)) / 2 ^ u
      = x / 2 ^ u := by
  apply Nat.eq_of_testBit_eq
  intro i
  rw [← Nat.shiftRight_eq_div_pow, ← Nat.shiftRight_eq_div_pow]
  simp only [Nat.testBit_shiftRight, testBit_wrap, Nat.testBit_or, Nat.testBit_and,
    testBit_bnot, Nat.testBit_two_pow_sub_one, Nat.testBit_two_pow]
  have h1 : ¬ u + i < u - 1 := by omega
  have h2 : ¬ u - 1 = u + i := by omega
  have h3 : p.testBit (u + i) = false := testBit_eq_false_of_lt hp (by omega)
  by_cases h4 : u + i < w
  · simp [h1, h2, h3, h4]
  · have h5 : x.testBit (u + i) = false := testBit_eq_false_of_lt hx (by omega)
    simp [h4, h5]

theorem s_usage_max_shared (c : Config) (hc : c.valid = true)
    (hsh : c.s_shared_offset = true) : c.s_usage_max = 2 ^ (c.s_usage_bits - 1) - 1 := by
  have hu := valid_usage c hc
  unfold Config.s_usage_max Config.s_uncontrolled
  rw [s_usage_mask_eq c hc, if_pos hsh, Nat.shiftRight_eq_div_pow, pow_one]
  obtain ⟨k, hk⟩ : ∃ k, c.s_usage_bits = k + 1 := ⟨c.s_usage_bits - 1, by omega⟩
  rw [hk, Nat.add_sub_cancel, Nat.pow_succ]
  have := Nat.two_pow_pos k
  omega

/-- The `shared_bits` specialisation of `try_set_offset`: it succeeds exactly when the
offset fits and the block is neither uncontrolled nor alive, and then the usage bits hold
the top usage bit plus the offset. -/
theorem try_set_offset_shared (c : Config) (hc : c.valid = true) (s : ControlData)
    (hs : s.wf c) (fuel : Nat) (hf : 0 < fuel) (p : Nat) (hsh : c.s_shared_offset = true) :
    ∃ r s', try_set_offset c fuel p s = some (r, s')
      ∧ (r = true ↔ p ≤ get_max_offset c ∧ use_count c s ≠ c.s_uncontrolled
          ∧ ¬ (1 ≤ use_count c s ∧ use_count c s ≤ get_max_usage_count c))
      ∧ (r = false → s' = s)
      ∧ (r = true → use_count c s' = 2 ^ (c.s_usage_bits - 1) + p ∧ s'.wf c
          ∧ weak_count c s' = weak_count c s ∧ get_size c s' = get_size c s
          ∧ get_align c s' = get_align c s ∧ get_user c s' = get_user c s)
      ∧ get_max_offset c = 2 ^ (c.s_usage_bits - 1) - 2 := by
  have hu := valid_usage c hc
  have hob : c.offset_bits = OffsetBits.shared := (shared_iff c).mp hsh
  have hO := offset_type_bits_shared c hsh
  have hbit : c.s_offset_bit = 2 ^ (c.s_usage_bits - 1) := by
    simp [Config.s_offset_bit, s_usage_one, Nat.one_shiftLeft]
  have hmaxo : get_max_offset c = 2 ^ (c.s_usage_bits - 1) - 2 := by
    simp only [get_max_offset, Config.s_offset_max, hob, hbit, s_usage_one]
    omega
  have hmask : c.s_offset_mask = 2 ^ (c.s_usage_bits - 1) - 1 := by
    simp only [Config.s_offset_mask, hob, hbit, s_usage_one]
  have h2 : 2 ≤ 2 ^ (c.s_usage_bits - 1) := by
    calc 2 = 2 ^ 1 := by norm_num
      _ ≤ 2 ^ (c.s_usage_bits - 1) := Nat.pow_le_pow_right (by norm_num) (by omega)
  have hle : 2 ^ (c.s_usage_bits - 1) ≤ 2 ^ c.usage_type_bits :=
    Nat.pow_le_pow_right (by norm_num) (by omega)
  have huc : (usage_counter c s &&& c.s_usage_mask) = use_count c s := rfl
  unfold try_set_offset
  simp only [hob, CounterThreadUnsafe.get_count, huc]
  by_cases hcond : c.s_offset_max < p ∨ use_count c s = c.s_uncontrolled
      ∨ (s_usage_one ≤ use_count c s ∧ use_count c s ≤ c.s_usage_max)
  · rw [if_pos hcond]
    refine ⟨false, s, rfl, ?_, fun _ => rfl, (fun h => by cases h), hmaxo⟩
    simp only [Bool.false_eq_true, false_iff, get_max_offset, get_max_usage_count]
    unfold s_usage_one at hcond
    intro ⟨a, b, d⟩
    rcases hcond with h | h | h
    · omega
    · exact b h
    · exact d h
  · rw [if_neg hcond]
    rw [casLoop_pos _ _ _ _ _ hf]
    simp only [if_true]
    have hp : p < 2 ^ (c.s_usage_bits - 1) := by
      have : ¬ c.s_offset_max < p := fun h => hcond (Or.inl h)
      have hm : c.s_offset_max = 2 ^ (c.s_usage_bits - 1) - 2 := hmaxo
      omega
    rw [hmask, hbit, hO]
    have hlow := shared_offset_low c.usage_type_bits c.s_usage_bits (usage_counter c s) p
      hu.2.1 (by omega) hp
    have hhigh := shared_offset_high c.usage_type_bits c.s_usage_bits (usage_counter c s) p
      (by omega) hs.1 hp
    obtain ⟨f1, f2, f3, f4, _⟩ := frame_set_usage c s _ hhigh
    refine ⟨true, _, rfl, ?_, (fun h => by cases h), fun _ => ⟨?_, ?_, f1, f2, f3, f4⟩, hmaxo⟩
    · simp only [true_iff, get_max_offset, get_max_usage_count]
      unfold s_usage_one at hcond
      exact ⟨by omega, fun h => hcond (Or.inr (Or.inl h)),
        fun h => hcond (Or.inr (Or.inr h))⟩
    · rw [use_count_set c hc, hlow]
    · exact wf_set_usage c s _ hs (wrap_lt _ _)

/-! ## The usage-range invariant -/

theorem is_uncontrolled_iff (c : Config) (s : ControlData) :
    is_uncontrolled c s = true ↔ use_count c s = c.s_uncontrolled := by
  simp [is_uncontrolled, use_count]

theorem is_uncontrolled_false (c : Config) (s : ControlData)
    (h : use_count c s ≠ c.s_uncontrolled) : is_uncontrolled c s = false := by
  rw [← Bool.not_eq_true, is_uncontrolled_iff]
  exact h

/-- One checked operation keeps the state well typed and the usage value either
uncontrolled or at most the maximum. -/
theorem checked_step (c : Config) (hc : c.valid = true) (fuel : Nat) (hf : 0 < fuel)
    (op : Op) (hop : op.checked = true) (s : ControlData) (hs : s.wf c)
    (h : use_count c s = c.s_uncontrolled ∨ use_count c s ≤ get_max_usage_count c) :
    ∃ s', Op.apply c fuel op s = some s' ∧ s'.wf c
      ∧ (use_count c s' = c.s_uncontrolled ∨ use_count c s' ≤ get_max_usage_count c) := by
  have hm := s_usage_max_lt c hc
  cases op with
  | add_ref => simp [Op.checked] at hop
  | try_set_offset p => simp [Op.checked] at hop
  | try_control =>
    by_cases h1 : use_count c s = c.s_uncontrolled
    · obtain ⟨s', e, a, b, _, _⟩ := try_control_acquire c hc s hs fuel hf h1
      refine ⟨s', by simp [Op.apply, e], b, Or.inr ?_⟩
      unfold get_max_usage_count
      omega
    · by_cases h2 : 0 < use_count c s ∧ use_count c s < get_max_usage_count c
      · obtain ⟨s', e, a, b, _⟩ := try_control_share c hc s hs fuel hf h2
        exact ⟨s', by simp [Op.apply, e], b, Or.inr (by omega)⟩
      · exact ⟨s, by simp [Op.apply, try_control_invalid c s fuel hf h1 h2], hs, h⟩
  | try_add_ref =>
    by_cases h2 : 0 < use_count c s ∧ use_count c s < get_max_usage_count c
    · obtain ⟨s', e, a, b, _⟩ := try_add_ref_share c hc s hs fuel hf h2
      exact ⟨s', by simp [Op.apply, e], b, Or.inr (by omega)⟩
    · exact ⟨s, by simp [Op.apply, try_add_ref_fail c s fuel hf h2], hs, h⟩
  | release =>
    by_cases h2 : 1 ≤ use_count c s ∧ use_count c s ≤ get_max_usage_count c
    · obtain ⟨_, a, b, _, _⟩ := release_alive c hc s hs h2
      exact ⟨_, rfl, b, Or.inr (by omega)⟩
    · refine ⟨s, ?_, hs, h⟩
      simp [Op.apply, release_not_alive c hc s hs h2]
  | try_revive =>
    by_cases h0 : use_count c s = 0
    · obtain ⟨s', e, a, b, _, _⟩ := try_revive_expired c hc s hs fuel hf h0
      exact ⟨s', by simp [Op.apply, e], b, Or.inl a⟩
    · exact ⟨s, by simp [Op.apply, try_revive_other c s fuel hf h0], hs, h⟩
  | weak_add_ref =>
    obtain ⟨a, b⟩ := weak_add_ref_usage c hc s hs
    exact ⟨_, rfl, b, by rw [a]; exact h⟩
  | weak_release =>
    obtain ⟨a, b⟩ := weak_release_usage c hc s hs
    exact ⟨_, rfl, b, by rw [a]; exact h⟩
  | try_set_size p =>
    obtain ⟨r, s', e, a, b⟩ := try_set_size_usage c hc s hs fuel hf p
    exact ⟨s', by simp [Op.apply, e], b, by rw [a]; exact h⟩
  | try_set_align p =>
    obtain ⟨r, s', e, a, b⟩ := try_set_align_usage c hc s hs fuel hf p
    exact ⟨s', by simp [Op.apply, e], b, by rw [a]; exact h⟩
  | try_set_user p =>
    obtain ⟨r, s', e, a, b⟩ := try_set_user_usage c hc s hs fuel hf p
    exact ⟨s', by simp [Op.apply, e], b, by rw [a]; exact h⟩

theorem checked_run (c : Config) (hc : c.valid = true) (fuel : Nat) (hf : 0 < fuel) :
    ∀ (ops : List Op) (s : ControlData), (∀ op ∈ ops, op.checked = true) → s.wf c →
      (use_count c s = c.s_uncontrolled ∨ use_count c s ≤ get_max_usage_count c) →
      ∃ s', run c fuel ops s = some s' ∧ s'.wf c
        ∧ (use_count c s' = c.s_uncontrolled ∨ use_count c s' ≤ get_max_usage_count c) := by
  intro ops
  induction ops with
  | nil =>
    intro s _ hs h
    exact ⟨s, rfl, hs, h⟩
  | cons op ops ih =>
    intro s hops hs h
    obtain ⟨s1, e1, hs1, h1⟩ :=
      checked_step c hc fuel hf op (hops op (List.mem_cons_self _ _)) s hs h
    obtain ⟨s', e', hs', h'⟩ :=
      ih s1 (fun o ho => hops o (List.mem_cons_of_mem _ ho)) hs1 h1
    refine ⟨s', ?_, hs', h'⟩
    show (Op.apply c fuel op s).bind (run c fuel ops) = some s'
    rw [e1]
    exact e'

/-! ## The fields in arithmetic form -/

theorem layout_separateAll {c : Config} (h : c.layout = Layout.separateAll) :
    c.matchesSeparateAll = true := by
  unfold Config.layout at h
  by_cases h1 : c.matchesSeparateAll <;> by_cases h2 : c.matchesSeparateUsage <;> simp_all

/-- The numeric content of the static assertions: how the fields sit in their words. -/
theorem valid_fields (c : Config) (hc : c.valid = true) :
    c.s_weak_shift + c.s_weak_bits ≤ c.weak_type_bits
      ∧ c.s_user_shift + c.s_user_bits = c.data_type_bits
      ∧ (c.userNoBits = true ↔ c.s_user_bits = 0)
      ∧ (c.layout = Layout.single → c.s_weak_shift = c.s_usage_bits
          ∧ c.s_offset_shift = c.s_weak_shift + c.s_weak_bits
          ∧ c.usage_type_bits = c.data_type_bits ∧ c.weak_type_bits = c.data_type_bits)
      ∧ (c.layout = Layout.separateUsage → c.s_weak_shift = 0
          ∧ c.s_offset_shift = c.s_weak_bits ∧ c.weak_type_bits = c.data_type_bits)
      ∧ (c.layout = Layout.separateAll → c.s_weak_shift = 0 ∧ c.s_offset_shift = 0) := by
  have hu := valid_usage c hc
  unfold Config.valid at hc
  simp only [Bool.and_eq_true, Bool.or_eq_true, beq_iff_eq, decide_eq_true_eq] at hc
  obtain ⟨⟨⟨hS, _⟩, _⟩, hl⟩ := hc
  cases hL : c.layout with
  | single =>
    simp only [hL, Bool.and_eq_true, decide_eq_true_eq] at hl
    obtain ⟨hsum, _⟩ := hl
    simp only [Config.s_usage_bits, Config.s_weak_bits, Config.s_size_bits,
      Config.s_align_bits, hL] at hsum hu
    simp only [Config.s_weak_shift, Config.s_weak_bits, Config.weak_type_bits,
      Config.s_user_shift, Config.s_align_shift, Config.s_size_shift, Config.s_offset_shift,
      Config.s_user_bits, Config.data_type_bits, Config.userNoBits, Config.s_usage_bits,
      Config.s_size_bits, Config.s_align_bits, Config.usage_type_bits, hL, beq_iff_eq]
    refine ⟨by omega, by omega, by omega, fun _ => by simp, ?_, ?_⟩ <;>
      intro h <;> cases h
  | separateUsage =>
    simp only [hL, decide_eq_true_eq] at hl
    have hm := layout_separateUsage hL
    unfold Config.matchesSeparateUsage at hm
    simp only [Bool.and_eq_true, beq_iff_eq, decide_eq_true_eq] at hm
    simp only [Config.s_weak_bits, Config.s_size_bits, Config.s_align_bits] at hl
    simp only [Config.s_weak_shift, Config.s_weak_bits, Config.weak_type_bits,
      Config.s_user_shift, Config.s_align_shift, Config.s_size_shift, Config.s_offset_shift,
      Config.s_user_bits, Config.data_type_bits, Config.userNoBits, Config.s_usage_bits,
      Config.s_size_bits, Config.s_align_bits, Config.usage_type_bits, hL, beq_iff_eq]
    refine ⟨by omega, by omega, by omega, ?_, fun _ => by simp, ?_⟩ <;>
      intro h <;> cases h
  | separateAll =>
    simp only [hL, decide_eq_true_eq] at hl
    have hm := layout_separateAll hL
    unfold Config.matchesSeparateAll at hm
    simp only [Bool.and_eq_true, decide_eq_true_eq] at hm
    simp only [Config.s_size_bits, Config.s_align_bits, Config.data_type_bits, hL] at hl
    simp only [Config.s_weak_shift, Config.s_weak_bits, Config.weak_type_bits,
      Config.s_user_shift, Config.s_align_shift, Config.s_size_shift, Config.s_offset_shift,
      Config.s_user_bits, Config.data_type_bits, Config.userNoBits, Config.s_usage_bits,
      Config.s_size_bits, Config.s_align_bits, Config.usage_type_bits, hL, beq_iff_eq]
    refine ⟨by omega, by omega, by omega, ?_, ?_, fun _ => by simp⟩ <;>
      intro h <;> cases h

theorem field_read (x b sh : Nat) :
    (x &&& ((2 ^ b - 1) <<< sh)) >>> sh = x / 2 ^ sh % 2 ^ b := by
  apply Nat.eq_of_testBit_eq
  intro i
  rw [← Nat.shiftRight_eq_div_pow]
  simp only [Nat.testBit_shiftRight, Nat.testBit_shiftLeft, Nat.testBit_mod_two_pow,
    Nat.testBit_and, Nat.testBit_two_pow_sub_one]
  by_cases h : i < b <;> simp [h]

theorem shifted_lt (b sh d v : Nat) (hv : v < 2 ^ b) (h : sh + b ≤ d) : v <<< sh < 2 ^ d := by
  rw [Nat.shiftLeft_eq]
  calc v * 2 ^ sh < 2 ^ b * 2 ^ sh := Nat.mul_lt_mul_of_pos_right hv (Nat.two_pow_pos sh)
    _ = 2 ^ (b + sh) := (Nat.pow_add 2 b sh).symm
    _ ≤ 2 ^ d := Nat.pow_le_pow_right (by norm_num) (by omega)

theorem max_lt (b : Nat) : 2 ^ b - 1 < 2 ^ b := by
  have := Nat.two_pow_pos b
  omega

theorem mask_wrap (b sh d : Nat) (h : sh + b ≤ d) :
    wrap d ((2 ^ b - 1) <<< sh) = (2 ^ b - 1) <<< sh :=
  wrap_of_lt (shifted_lt b sh d _ (max_lt b) h)

theorem max_wrap (b d : Nat) (h : b ≤ d) : wrap d (2 ^ b - 1) = 2 ^ b - 1 :=
  wrap_of_lt (lt_of_lt_of_le (max_lt b) (Nat.pow_le_pow_right (by norm_num) h))

theorem s_weak_max_eq (c : Config) (hc : c.valid = true) :
    c.s_weak_max = 2 ^ c.s_weak_bits - 1 :=
  numeric_max_shift _ _ (by have := (valid_fields c hc).1; omega)

theorem weak_count_eq (c : Config) (hc : c.valid = true) (s : ControlData) :
    weak_count c s = weak_counter c s / 2 ^ c.s_weak_shift % 2 ^ c.s_weak_bits := by
  unfold weak_count CounterThreadUnsafe.get_count Config.s_weak_mask
  rw [s_weak_max_eq c hc, field_read]

theorem field_bits_le (c : Config) (hc : c.valid = true) :
    c.s_offset_shift + c.s_offset_bits ≤ c.data_type_bits
      ∧ c.s_size_shift + c.s_size_bits ≤ c.data_type_bits
      ∧ c.s_align_shift + c.s_align_bits ≤ c.data_type_bits
      ∧ c.s_user_shift + c.s_user_bits ≤ c.data_type_bits := by
  have h := (valid_fields c hc).2.1
  unfold Config.s_user_shift Config.s_align_shift Config.s_size_shift at h
  unfold Config.s_user_shift Config.s_align_shift Config.s_size_shift
  omega

theorem s_size_max_eq (c : Config) (hc : c.valid = true) :
    c.s_size_max = 2 ^ c.s_size_bits - 1 := by
  unfold Config.s_size_max
  split
  · rename_i h
    simp [Config.s_size_bits, h]
  · exact numeric_max_shift _ _ (by have := (field_bits_le c hc).2.1; omega)

theorem s_align_max_eq (c : Config) (hc : c.valid = true) :
    c.s_align_max = 2 ^ c.s_align_bits - 1 := by
  unfold Config.s_align_max
  split
  · rename_i h
    simp [Config.s_align_bits, h]
  · exact numeric_max_shift _ _ (by have := (field_bits_le c hc).2.2.1; omega)

theorem s_user_max_eq (c : Config) (hc : c.valid = true) :
    c.s_user_max = 2 ^ c.s_user_bits - 1 := by
  unfold Config.s_user_max
  split
  · rename_i h
    rw [((valid_fields c hc).2.2.1).mp h]
    rfl
  · exact numeric_max_shift _ _ (by have := (field_bits_le c hc).2.2.2; omega)

theorem s_offset_max_eq (c : Config) (hc : c.valid = true) (h : c.s_shared_offset = false) :
    c.s_offset_max = 2 ^ c.s_offset_bits - 1 := by
  have hO := offset_type_bits_not_shared c h
  have hle := (field_bits_le c hc).1
  unfold Config.s_offset_max
  cases hob : c.offset_bits with
  | shared => simp [Config.s_shared_offset, hob] at h
  | bits n =>
    cases n with
    | zero => simp [Config.s_offset_bits, hob]
    | succ n =>
      simp only
      rw [hO]
      exact numeric_max_shift _ _ (by omega)

theorem get_size_eq (c : Config) (hc : c.valid = true) (s : ControlData) :
    get_size c s = data c s / 2 ^ c.s_size_shift % 2 ^ c.s_size_bits := by
  have hle := (field_bits_le c hc).2.1
  unfold get_size
  split
  · rename_i h
    simp [Config.s_size_bits, h, Nat.mod_one]
  · unfold CounterThreadUnsafe.get_count Config.s_size_mask
    rw [s_size_max_eq c hc, max_wrap _ _ (by omega), mask_wrap _ _ _ hle, field_read]

theorem get_align_eq (c : Config) (hc : c.valid = true) (s : ControlData) :
    get_align c s = data c s / 2 ^ c.s_align_shift % 2 ^ c.s_align_bits := by
  have hle := (field_bits_le c hc).2.2.1
  unfold get_align
  split
  · rename_i h
    simp [Config.s_align_bits, h, Nat.mod_one]
  · unfold CounterThreadUnsafe.get_count Config.s_align_mask
    rw [s_align_max_eq c hc, max_wrap _ _ (by omega), mask_wrap _ _ _ hle, field_read]

theorem get_user_eq (c : Config) (hc : c.valid = true) (s : ControlData) :
    get_user c s = data c s / 2 ^ c.s_user_shift % 2 ^ c.s_user_bits := by
  have hle := (field_bits_le c hc).2.2.2
  unfold get_user
  split
  · rename_i h
    rw [((valid_fields c hc).2.2.1).mp h]
    simp [Nat.mod_one]
  · unfold CounterThreadUnsafe.get_count Config.s_user_mask
    rw [s_user_max_eq c hc, mask_wrap _ _ _ hle, field_read]

theorem s_offset_mask_eq (c : Config) (hc : c.valid = true) (h : c.s_shared_offset = false) :
    c.s_offset_mask = (2 ^ c.s_offset_bits - 1) <<< c.s_offset_shift := by
  have hO := offset_type_bits_not_shared c h
  have hle := (field_bits_le c hc).1
  have hmax := s_offset_max_eq c hc h
  unfold Config.s_offset_mask
  cases hob : c.offset_bits with
  | shared => simp [Config.s_shared_offset, hob] at h
  | bits n =>
    simp only
    rw [hmax, hO, mask_wrap _ _ _ hle]

theorem get_offset_eq (c : Config) (hc : c.valid = true) (h : c.s_shared_offset = false)
    (s : ControlData) :
    get_offset c s = data c s / 2 ^ c.s_offset_shift % 2 ^ c.s_offset_bits := by
  have hmask := s_offset_mask_eq c hc h
  unfold get_offset
  cases hob : c.offset_bits with
  | shared => simp [Config.s_shared_offset, hob] at h
  | bits n =>
    cases n with
    | zero => simp [Config.s_offset_bits, hob, Nat.mod_one]
    | succ n =>
      simp only
      unfold CounterThreadUnsafe.get_count
      rw [hmask, field_read]

/-! ## Arithmetic of one field of a word -/

theorem testBit_field (x sh b i : Nat) :
    (x / 2 ^ sh % 2 ^ b).testBit i = (decide (i < b) && x.testBit (sh + i)) := by
  rw [Nat.testBit_mod_two_pow, ← Nat.shiftRight_eq_div_pow, Nat.testBit_shiftRight]

/-- A field below bit `k` reads the same in two words that agree below bit `k`. -/
theorem field_of_low (x y k sh b : Nat) (h : y % 2 ^ k = x % 2 ^ k) (hle : sh + b ≤ k) :
    y / 2 ^ sh % 2 ^ b = x / 2 ^ sh % 2 ^ b := by
  apply Nat.eq_of_testBit_eq
  intro i
  rw [testBit_field, testBit_field]
  by_cases hi : i < b
  · have hk : sh + i < k := by omega
    have e : ∀ z : Nat, z.testBit (sh + i) = (z % 2 ^ k).testBit (sh + i) := by
      intro z
      rw [Nat.testBit_mod_two_pow]
      simp [hk]
    rw [e x, e y, h]
  · simp [hi]

/-- A field at or above bit `k` reads the same in two words that agree from bit `k` on. -/
theorem field_of_high (x y k sh b : Nat) (h : y / 2 ^ k = x / 2 ^ k) (hle : k ≤ sh) :
    y / 2 ^ sh % 2 ^ b = x / 2 ^ sh % 2 ^ b := by
  apply Nat.eq_of_testBit_eq
  intro i
  rw [testBit_field, testBit_field]
  have e : ∀ z : Nat, z.testBit (sh + i) = (z / 2 ^ k).testBit (sh + i - k) := by
    intro z
    rw [← Nat.shiftRight_eq_div_pow, Nat.testBit_shiftRight]
    congr 1
    omega
  rw [e x, e y, h]

theorem div_pow_add (x sh b : Nat) : x / 2 ^ (sh + b) = x / 2 ^ sh / 2 ^ b := by
  rw [Nat.pow_add, Nat.div_div_eq_div_mul]

theorem mod_lt_of_lt {x w : Nat} (sh : Nat) (hx : x < 2 ^ w) (h : sh ≤ w) :
    x / 2 ^ sh < 2 ^ (w - sh) := by
  apply Nat.div_lt_of_lt_mul
  rw [← Nat.pow_add]
  have : sh + (w - sh) = w := by omega
  rw [this]
  exact hx

/-- Adding one to a field that is below its maximum. -/
theorem field_inc (x sh b w : Nat) (hx : x < 2 ^ w) (hle : sh + b ≤ w)
    (h : x / 2 ^ sh % 2 ^ b < 2 ^ b - 1) :
    x + 2 ^ sh < 2 ^ w ∧ (x + 2 ^ sh) % 2 ^ sh = x % 2 ^ sh
      ∧ (x + 2 ^ sh) / 2 ^ sh % 2 ^ b = x / 2 ^ sh % 2 ^ b + 1
      ∧ (x + 2 ^ sh) / 2 ^ (sh + b) = x / 2 ^ (sh + b) := by
  have hp := Nat.two_pow_pos sh
  have hq : x / 2 ^ sh < 2 ^ (w - sh) := mod_lt_of_lt sh hx (by omega)
  obtain ⟨i1, i2, i3⟩ := inc_low (w - sh) b (x / 2 ^ sh) (by omega) hq h
  have hdiv : (x + 2 ^ sh) / 2 ^ sh = x / 2 ^ sh + 1 := Nat.add_div_right x hp
  refine ⟨?_, Nat.add_mod_right x (2 ^ sh), ?_, ?_⟩
  · have hlt : x / 2 ^ sh + 1 < 2 ^ (w - sh) := by
      have := wrap_lt (w - sh) (x / 2 ^ sh + 1)
      rw [i1] at this
      exact this
    have hd := Nat.div_add_mod x (2 ^ sh)
    have hm := Nat.mod_lt x hp
    have hw : 2 ^ w = 2 ^ sh * 2 ^ (w - sh) := by
      rw [← Nat.pow_add]
      congr 1
      omega
    rw [hw]
    calc x + 2 ^ sh = 2 ^ sh * (x / 2 ^ sh + 1) + x % 2 ^ sh := by rw [Nat.mul_add]; omega
      _ < 2 ^ sh * (x / 2 ^ sh + 1) + 2 ^ sh := by omega
      _ = 2 ^ sh * (x / 2 ^ sh + 1 + 1) := by ring
      _ ≤ 2 ^ sh * 2 ^ (w - sh) := Nat.mul_le_mul_left _ hlt
  · rw [hdiv, i2]
  · rw [div_pow_add, div_pow_add, hdiv, i3]

/-- Subtracting one from a field that is not zero. -/
theorem field_dec (x sh b : Nat) (h : 1 ≤ x / 2 ^ sh % 2 ^ b) :
    2 ^ sh ≤ x ∧ (x - 2 ^ sh) % 2 ^ sh = x % 2 ^ sh
      ∧ (x - 2 ^ sh) / 2 ^ sh % 2 ^ b = x / 2 ^ sh % 2 ^ b - 1
      ∧ (x - 2 ^ sh) / 2 ^ (sh + b) = x / 2 ^ (sh + b) := by
  have hp := Nat.two_pow_pos sh
  have hq1 : 1 ≤ x / 2 ^ sh := by
    rcases Nat.eq_zero_or_pos (x / 2 ^ sh) with h0 | h0
    · rw [h0, Nat.zero_mod] at h; omega
    · exact h0
  have hge : 2 ^ sh ≤ x := by
    have := Nat.div_mul_le_self x (2 ^ sh)
    calc 2 ^ sh = 1 * 2 ^ sh := (Nat.one_mul _).symm
      _ ≤ x / 2 ^ sh * 2 ^ sh := Nat.mul_le_mul_right _ hq1
      _ ≤ x := this
  have hdiv : (x - 2 ^ sh) / 2 ^ sh = x / 2 ^ sh - 1 := by
    have h1 : (x - 2 ^ sh + 2 ^ sh) / 2 ^ sh = (x - 2 ^ sh) / 2 ^ sh + 1 :=
      Nat.add_div_right _ hp
    have h2 : x - 2 ^ sh + 2 ^ sh = x := by omega
    rw [h2] at h1
    omega
  have hb := Nat.two_pow_pos b
  have hd := Nat.div_add_mod (x / 2 ^ sh) (2 ^ b)
  have hm := Nat.mod_lt (x / 2 ^ sh) hb
  have e : x / 2 ^ sh - 1 = 2 ^ b * (x / 2 ^ sh / 2 ^ b) + (x / 2 ^ sh % 2 ^ b - 1) := by
    omega
  refine ⟨hge, ?_, ?_, ?_⟩
  · have : x = (x - 2 ^ sh) + 2 ^ sh := by omega
    conv_rhs => rw [this]
    exact (Nat.add_mod_right _ _).symm
  · rw [hdiv, e, low_mod _ _ _ (by omega)]
  · rw [div_pow_add, div_pow_add, hdiv, e, low_div _ _ _ (by omega)]

/-- Clearing a field and writing a value into it. -/
theorem field_set (x sh b w v : Nat) (hx : x < 2 ^ w) (hle : sh + b ≤ w) (hv : v < 2 ^ b) :
    wrap w ((x &&& bnot w ((2 ^ b - 1) <<< sh)) ||| (v <<< sh)) % 2 ^ sh = x % 2 ^ sh
      ∧ wrap w ((x &&& bnot w ((2 ^ b - 1) <<< sh)) ||| (v <<< sh)) / 2 ^ sh % 2 ^ b = v
      ∧ wrap w ((x &&& bnot w ((2 ^ b - 1) <<< sh)) ||| (v <<< sh)) / 2 ^ (sh + b)
          = x / 2 ^ (sh + b) := by
  have bit : ∀ i, (wrap w ((x &&& bnot w ((2 ^ b - 1) <<< sh)) ||| (v <<< sh))).testBit i
      = if sh ≤ i ∧ i < sh + b then v.testBit (i - sh) else x.testBit i := by
    intro i
    simp only [testBit_wrap, Nat.testBit_or, Nat.testBit_and, testBit_bnot,
      Nat.testBit_shiftLeft, Nat.testBit_two_pow_sub_one]
    by_cases h1 : sh ≤ i
    · by_cases h2 : i < sh + b
      · have h3 : i < w := by omega
        have h4 : i - sh < b := by omega
        simp [h1, h2, h3, h4]
      · have h4 : ¬ i - sh < b := by omega
        have h5 : v.testBit (i - sh) = false := testBit_eq_false_of_lt hv (by omega)
        by_cases h3 : i < w
        · simp [h1, h2, h3, h4, h5]
        · have h6 : x.testBit i = false := testBit_eq_false_of_lt hx (by omega)
          simp [h1, h2, h3, h6]
    · have h3 : i < w := by omega
      have h2 : ¬ (sh ≤ i ∧ i < sh + b) := fun h => h1 h.1
      simp [h1, h3]
  refine ⟨?_, ?_, ?_⟩
  · apply Nat.eq_of_testBit_eq
    intro i
    rw [Nat.testBit_mod_two_pow, Nat.testBit_mod_two_pow, bit]
    by_cases hi : i < sh
    · have : ¬ (sh ≤ i ∧ i < sh + b) := by omega
      simp [hi, this]
    · simp [hi]
  · apply Nat.eq_of_testBit_eq
    intro i
    rw [testBit_field, bit]
    by_cases hi : i < b
    · have : sh ≤ sh + i ∧ sh + i < sh + b := by omega
      simp [hi, this]
    · have : v.testBit i = false := testBit_eq_false_of_lt hv (by omega)
      simp [hi, this]
  · apply Nat.eq_of_testBit_eq
    intro i
    rw [← Nat.shiftRight_eq_div_pow, ← Nat.shiftRight_eq_div_pow, Nat.testBit_shiftRight,
      Nat.testBit_shiftRight, bit]
    have : ¬ (sh ≤ sh + b + i ∧ sh + b + i < sh + b) := by omega
    simp [this]

/-! ## The fields of a freshly constructed block -/

theorem field_or (a b sh n : Nat) :
    (a ||| b) / 2 ^ sh % 2 ^ n = (a / 2 ^ sh % 2 ^ n) ||| (b / 2 ^ sh % 2 ^ n) := by
  apply Nat.eq_of_testBit_eq
  intro i
  simp only [testBit_field, Nat.testBit_or, Bool.and_or_distrib_left]

theorem field_zero_of_lt (a sh n : Nat) (h : a < 2 ^ sh) : a / 2 ^ sh % 2 ^ n = 0 := by
  rw [Nat.div_eq_of_lt h, Nat.zero_mod]

theorem field_zero_of_low (a k sh n : Nat) (h : a % 2 ^ k = 0) (hle : sh + n ≤ k) :
    a / 2 ^ sh % 2 ^ n = 0 := by
  have := field_of_low 0 a k sh n (by rw [h, Nat.zero_mod]) hle
  rw [this, Nat.zero_div, Nat.zero_mod]

theorem shiftLeft_mod (v sh : Nat) : (v <<< sh) % 2 ^ sh = 0 := by
  rw [Nat.shiftLeft_eq, Nat.mul_mod_left]

theorem shiftLeft_field (v sh n : Nat) (hv : v < 2 ^ n) : (v <<< sh) / 2 ^ sh % 2 ^ n = v := by
  rw [Nat.shiftLeft_eq, Nat.mul_div_cancel _ (Nat.two_pow_pos sh), Nat.mod_eq_of_lt hv]

theorem mod_zero_of_le (a k j : Nat) (h : a % 2 ^ k = 0) (hle : j ≤ k) : a % 2 ^ j = 0 := by
  rw [← Nat.mod_mod_of_dvd a (Nat.pow_dvd_pow 2 hle), h, Nat.zero_mod]

/-- The value `p_data_init` handed down by the constructor of `ControlDataUser`. -/
theorem data_init_facts (c : Config) (hc : c.valid = true) (p : Nat)
    (hp : p ≤ get_max_user c) :
    (if c.userNoBits = true then 0
      else wrap c.data_type_bits (wrap c.data_type_bits p <<< c.s_user_shift))
        % 2 ^ c.s_user_shift = 0
      ∧ (if c.userNoBits = true then 0
          else wrap c.data_type_bits (wrap c.data_type_bits p <<< c.s_user_shift))
            / 2 ^ c.s_user_shift % 2 ^ c.s_user_bits = p := by
  have hf := valid_fields c hc
  have hmax := s_user_max_eq c hc
  unfold get_max_user at hp
  have hpl : p < 2 ^ c.s_user_bits := by
    have := max_lt c.s_user_bits
    omega
  by_cases hn : c.userNoBits = true
  · have h0 := hf.2.2.1.mp hn
    rw [h0] at hpl
    simp only [hn, if_true, Nat.zero_mod, Nat.zero_div, h0]
    exact ⟨trivial, by omega⟩
  · simp only [hn, if_false, Bool.false_eq_true]
    have hw1 : wrap c.data_type_bits p = p :=
      wrap_of_lt (lt_of_lt_of_le hpl (Nat.pow_le_pow_right (by norm_num) (by omega)))
    rw [hw1, wrap_of_lt (shifted_lt _ _ _ p hpl (by omega))]
    exact ⟨shiftLeft_mod p _, shiftLeft_field p _ _ hpl⟩

/-- The value `p_weak_init` handed down by the constructor of `ControlDataWeak`. -/
theorem weak_init_facts (c : Config) (hc : c.valid = true) :
    (if c.SupportsWeak = true then c.s_weak_one_shifted else 0)
        < 2 ^ (c.s_weak_shift + c.s_weak_bits)
      ∧ (if c.SupportsWeak = true then c.s_weak_one_shifted else 0)
          / 2 ^ c.s_weak_shift % 2 ^ c.s_weak_bits
          = if c.SupportsWeak = true then 1 else 0 := by
  by_cases hw : c.SupportsWeak = true
  · have h2 := (valid_weak c hc hw).1
    simp only [hw, if_true, Config.s_weak_one_shifted, s_weak_one, Nat.one_shiftLeft]
    refine ⟨two_pow_lt_of_lt (by unfold Config.s_weak_bits; omega), ?_⟩
    rw [Nat.div_self (Nat.two_pow_pos _)]
    exact Nat.mod_eq_of_lt (Nat.one_lt_two_pow (by unfold Config.s_weak_bits; omega))
  · simp only [hw, if_false, Bool.false_eq_true, Nat.zero_div, Nat.zero_mod]
    exact ⟨Nat.two_pow_pos _, trivial⟩

/-- The cells of a fresh block: the weak counter is `a ||| p_weak_init ||| d` with `a` below
the weak field and `d` above it, the data word is `l ||| p_data_init` with `l` below the
offset field. -/
theorem init_cells (c : Config) (hc : c.valid = true) (p : Nat) (hp : p ≤ get_max_user c) :
    (∃ a d, weak_counter c (ControlData.init c p)
          = a ||| (if c.SupportsWeak = true then c.s_weak_one_shifted else 0) ||| d
        ∧ a < 2 ^ c.s_weak_shift ∧ d % 2 ^ (c.s_weak_shift + c.s_weak_bits) = 0)
      ∧ ∃ l, data c (ControlData.init c p)
          = l ||| (if c.userNoBits = true then 0
              else wrap c.data_type_bits (wrap c.data_type_bits p <<< c.s_user_shift))
        ∧ l < 2 ^ c.s_offset_shift := by
  have hu := valid_usage c hc
  have hf := valid_fields c hc
  have hd := (data_init_facts c hc p hp).1
  have hwi := (weak_init_facts c hc).1
  have hunc : c.s_uncontrolled = 2 ^ c.s_usage_bits - 1 := s_usage_mask_eq c hc
  have hush : c.s_offset_shift ≤ c.s_user_shift := by
    unfold Config.s_user_shift Config.s_align_shift Config.s_size_shift
    omega
  unfold ControlData.init ControlDataStorage.init
  cases hL : c.layout with
  | single =>
    obtain ⟨e1, e2, _, _⟩ := hf.2.2.2.1 hL
    simp only [weak_counter, data, hL]
    refine ⟨⟨c.s_uncontrolled, _, rfl, ?_, ?_⟩, ⟨_, rfl, ?_⟩⟩
    · rw [hunc, e1]
      exact max_lt _
    · exact mod_zero_of_le _ _ _ hd (by omega)
    · apply Nat.or_lt_two_pow
      · rw [hunc]
        exact lt_of_lt_of_le (max_lt _) (Nat.pow_le_pow_right (by norm_num) (by omega))
      · rw [e2]
        exact hwi
  | separateUsage =>
    obtain ⟨e1, e2, _⟩ := hf.2.2.2.2.1 hL
    simp only [weak_counter, data, hL]
    refine ⟨⟨0, _, (by rw [Nat.zero_or]), Nat.two_pow_pos _, ?_⟩, ⟨_, rfl, ?_⟩⟩
    · exact mod_zero_of_le _ _ _ hd (by omega)
    · rw [e1, Nat.zero_add] at hwi
      rw [e2]
      exact hwi
  | separateAll =>
    simp only [weak_counter, data, hL]
    refine ⟨⟨0, 0, (by rw [Nat.zero_or, Nat.or_zero]), Nat.two_pow_pos _, Nat.zero_mod _⟩,
      ⟨0, (by rw [Nat.zero_or]), Nat.two_pow_pos _⟩⟩

theorem fresh_fields (c : Config) (hc : c.valid = true) (p : Nat) (hp : p ≤ get_max_user c) :
    weak_count c (ControlData.init c p) = (if c.SupportsWeak = true then 1 else 0)
      ∧ get_size c (ControlData.init c p) = 0 ∧ get_align c (ControlData.init c p) = 0
      ∧ get_user c (ControlData.init c p) = p
      ∧ (c.s_shared_offset = false → get_offset c (ControlData.init c p) = 0) := by
  obtain ⟨⟨a, d, ew, ha, hd⟩, ⟨l, ed, hl⟩⟩ := init_cells c hc p hp
  obtain ⟨hd0, hdu⟩ := data_init_facts c hc p hp
  obtain ⟨_, hwf⟩ := weak_init_facts c hc
  have hsh : c.s_offset_shift + c.s_offset_bits ≤ c.s_user_shift
      ∧ c.s_size_shift + c.s_size_bits ≤ c.s_user_shift
      ∧ c.s_align_shift + c.s_align_bits ≤ c.s_user_shift
      ∧ c.s_offset_shift ≤ c.s_size_shift ∧ c.s_offset_shift ≤ c.s_align_shift
      ∧ c.s_offset_shift ≤ c.s_user_shift := by
    unfold Config.s_user_shift Config.s_align_shift Config.s_size_shift
    omega
  have low : ∀ sh, c.s_offset_shift ≤ sh → l < 2 ^ sh := fun sh h =>
    lt_of_lt_of_le hl (Nat.pow_le_pow_right (by norm_num) h)
  refine ⟨?_, ?_, ?_, ?_, ?_⟩
  · rw [weak_count_eq c hc, ew, field_or, field_or, field_zero_of_lt _ _ _ ha, hwf,
      field_zero_of_low _ _ _ _ hd (le_refl _), Nat.zero_or, Nat.or_zero]
  · rw [get_size_eq c hc, ed, field_or, field_zero_of_lt _ _ _ (low _ hsh.2.2.2.1),
      field_zero_of_low _ _ _ _ hd0 hsh.2.1, Nat.zero_or]
  · rw [get_align_eq c hc, ed, field_or, field_zero_of_lt _ _ _ (low _ hsh.2.2.2.2.1),
      field_zero_of_low _ _ _ _ hd0 hsh.2.2.1, Nat.zero_or]
  · rw [get_user_eq c hc, ed, field_or, field_zero_of_lt _ _ _ (low _ hsh.2.2.2.2.2),
      hdu, Nat.zero_or]
  · intro h
    rw [get_offset_eq c hc h, ed, field_or, field_zero_of_lt _ _ _ hl,
      field_zero_of_low _ _ _ _ hd0 hsh.1, Nat.zero_or]

/-! ## Writing one data field -/

theorem get_offset_of_use_count (c : Config) (s s' : ControlData)
    (hsh : c.s_shared_offset = true) (h : use_count c s' = use_count c s) :
    get_offset c s' = get_offset c s := by
  have hob : c.offset_bits = OffsetBits.shared := (shared_iff c).mp hsh
  unfold use_count at h
  unfold get_offset
  simp only [hob, h]

/-- A clear-and-set store of `v` into the field of `b` bits at `sh` of the data word: the
field reads `v` afterwards, every field of the data word that does not overlap it reads
as before, and so do the use count, the weak count and a shared offset. -/
theorem data_field_write (c : Config) (hc : c.valid = true) (s : ControlData) (hs : s.wf c)
    (fuel : Nat) (hf : 0 < fuel) (m val sh b v : Nat) (hv : v < 2 ^ b)
    (hle : sh + b ≤ c.data_type_bits) (hosh : c.s_offset_shift ≤ sh)
    (hm : m = (2 ^ b - 1) <<< sh) (hval : val = v <<< sh) :
    ∃ s', (match casLoop c.data_type_bits (fun _ => true)
            (fun k => (k &&& bnot c.data_type_bits m) ||| val)
            fuel (data c s) (CounterThreadUnsafe.get_count (data c s)) with
          | none => none
          | some (y, _) => some (true, set_data c s y)) = some (true, s')
      ∧ s'.wf c ∧ use_count c s' = use_count c s ∧ weak_count c s' = weak_count c s
      ∧ data c s' / 2 ^ sh % 2 ^ b = v
      ∧ (∀ sh' b', sh' + b' ≤ sh ∨ sh + b ≤ sh' →
          data c s' / 2 ^ sh' % 2 ^ b' = data c s / 2 ^ sh' % 2 ^ b')
      ∧ (c.s_shared_offset = true → get_offset c s' = get_offset c s) := by
  have hfld := valid_fields c hc
  unfold CounterThreadUnsafe.get_count
  rw [casLoop_pos _ _ _ _ _ hf]
  simp only [if_true]
  subst hm hval
  obtain ⟨f1, f2, f3⟩ := field_set (data c s) sh b c.data_type_bits v hs.2.2 hle hv
  refine ⟨_, rfl, ?_⟩
  have hstore := data_store c hc s hs _ (wrap_lt c.data_type_bits
      ((data c s &&& bnot c.data_type_bits ((2 ^ b - 1) <<< sh)) ||| (v <<< sh)))
    (fun hL => by
      obtain ⟨e1, e2, _, _⟩ := hfld.2.2.2.1 hL
      rw [← Nat.mod_mod_of_dvd _ (Nat.pow_dvd_pow 2 (by omega : c.s_usage_bits ≤ sh)), f1,
        Nat.mod_mod_of_dvd _ (Nat.pow_dvd_pow 2 (by omega : c.s_usage_bits ≤ sh))])
  refine ⟨hstore.2, hstore.1, ?_, ?_, ?_, ?_⟩
  · rw [weak_count_eq c hc, weak_count_eq c hc]
    cases hL : c.layout with
    | single =>
      obtain ⟨e1, e2, _, _⟩ := hfld.2.2.2.1 hL
      have hw : ∀ t, weak_counter c t = data c t := by
        intro t; simp [weak_counter, data, hL]
      rw [hw, hw, data_set]
      exact field_of_low _ _ sh _ _ f1 (by omega)
    | separateUsage =>
      obtain ⟨e1, e2, _⟩ := hfld.2.2.2.2.1 hL
      have hw : ∀ t, weak_counter c t = data c t := by
        intro t; simp [weak_counter, data, hL]
      rw [hw, hw, data_set]
      exact field_of_low _ _ sh _ _ f1 (by omega)
    | separateAll =>
      have hw : ∀ y, weak_counter c (set_data c s y) = weak_counter c s := by
        intro y; simp [weak_counter, set_data, hL]
      rw [hw]
  · rw [data_set]
    exact f2
  · intro sh' b' h
    rw [data_set]
    rcases h with h | h
    · exact field_of_low _ _ sh _ _ f1 h
    · exact field_of_high _ _ (sh + b) _ _ f3 h
  · intro hsh
    exact get_offset_of_use_count c s _ hsh hstore.1

theorem shifts_chain (c : Config) :
    c.s_size_shift = c.s_offset_shift + c.s_offset_bits
      ∧ c.s_align_shift = c.s_size_shift + c.s_size_bits
      ∧ c.s_user_shift = c.s_align_shift + c.s_align_bits :=
  ⟨rfl, rfl, rfl⟩

/-- `try_set_size` in full. -/
theorem try_set_size_full (c : Config) (hc : c.valid = true) (s : ControlData) (hs : s.wf c)
    (fuel : Nat) (hf : 0 < fuel) (v : Nat) :
    ∃ r s', try_set_size c fuel v s = some (r, s')
      ∧ (r = true ↔ v ≤ get_max_size c) ∧ (r = false → s' = s)
      ∧ (r = true → get_size c s' = v ∧ s'.wf c ∧ use_count c s' = use_count c s
          ∧ weak_count c s' = weak_count c s ∧ get_offset c s' = get_offset c s
          ∧ get_align c s' = get_align c s ∧ get_user c s' = get_user c s) := by
  have hmax := s_size_max_eq c hc
  have hle := field_bits_le c hc
  obtain ⟨c1, c2, c3⟩ := shifts_chain c
  have hb := max_lt c.s_size_bits
  unfold try_set_size get_max_size
  split
  · rename_i h0
    have hm0 : c.s_size_max = 0 := by simp [Config.s_size_max, h0]
    rw [hm0]
    by_cases hv : v = 0
    · subst hv
      refine ⟨true, s, rfl, by simp, (fun h => by cases h), fun _ => ?_⟩
      refine ⟨?_, hs, rfl, rfl, rfl, rfl, rfl⟩
      simp [get_size, h0]
    · refine ⟨false, s, by simp [hv], ?_, fun _ => rfl, (fun h => by cases h)⟩
      simp only [Bool.false_eq_true, false_iff]
      omega
  · split
    · rename_i h1
      refine ⟨false, s, rfl, ?_, fun _ => rfl, (fun h => by cases h)⟩
      simp only [Bool.false_eq_true, false_iff]
      omega
    · rename_i h1
      have hv : v < 2 ^ c.s_size_bits := by omega
      have hD : c.s_size_bits ≤ c.data_type_bits := by omega
      obtain ⟨s', e, w1, w2, w3, w4, w5, w6⟩ := data_field_write c hc s hs fuel hf
        c.s_size_mask
        (wrap c.data_type_bits (wrap c.data_type_bits v <<< c.s_size_shift))
        c.s_size_shift c.s_size_bits v hv hle.2.1 (by omega)
        (by unfold Config.s_size_mask
            rw [hmax, max_wrap _ _ hD, mask_wrap _ _ _ hle.2.1])
        (by rw [wrap_of_lt (lt_of_lt_of_le hv (Nat.pow_le_pow_right (by norm_num) hD)),
              wrap_of_lt (shifted_lt _ _ _ v hv hle.2.1)])
      refine ⟨true, s', e, by simp; omega, (fun h => by cases h), fun _ => ?_⟩
      refine ⟨by rw [get_size_eq c hc]; exact w4, w1, w2, w3, ?_, ?_, ?_⟩
      · by_cases hsh : c.s_shared_offset = true
        · exact w6 hsh
        · have hsh' : c.s_shared_offset = false := by simpa using hsh
          rw [get_offset_eq c hc hsh', get_offset_eq c hc hsh']
          exact w5 _ _ (Or.inl (by omega))
      · rw [get_align_eq c hc, get_align_eq c hc]
        exact w5 _ _ (Or.inr (by omega))
      · rw [get_user_eq c hc, get_user_eq c hc]
        exact w5 _ _ (Or.inr (by omega))

/-- `try_set_align` in full. -/
theorem try_set_align_full (c : Config) (hc : c.valid = true) (s : ControlData) (hs : s.wf c)
    (fuel : Nat) (hf : 0 < fuel) (v : Nat) :
    ∃ r s', try_set_align c fuel v s = some (r, s')
      ∧ (r = true ↔ v ≤ get_max_align c) ∧ (r = false → s' = s)
      ∧ (r = true → get_align c s' = v ∧ s'.wf c ∧ use_count c s' = use_count c s
          ∧ weak_count c s' = weak_count c s ∧ get_offset c s' = get_offset c s
          ∧ get_size c s' = get_size c s ∧ get_user c s' = get_user c s) := by
  have hmax := s_align_max_eq c hc
  have hle := field_bits_le c hc
  obtain ⟨c1, c2, c3⟩ := shifts_chain c
  have hb := max_lt c.s_align_bits
  unfold try_set_align get_max_align
  split
  · rename_i h0
    have hm0 : c.s_align_max = 0 := by simp [Config.s_align_max, h0]
    rw [hm0]
    by_cases hv : v = 0
    · subst hv
      refine ⟨true, s, rfl, by simp, (fun h => by cases h), fun _ => ?_⟩
      refine ⟨?_, hs, rfl, rfl, rfl, rfl, rfl⟩
      simp [get_align, h0]
    · refine ⟨false, s, by simp [hv], ?_, fun _ => rfl, (fun h => by cases h)⟩
      simp only [Bool.false_eq_true, false_iff]
      omega
  · split
    · rename_i h1
      refine ⟨false, s, rfl, ?_, fun _ => rfl, (fun h => by cases h)⟩
      simp only [Bool.false_eq_true, false_iff]
      omega
    · rename_i h1
      have hv : v < 2 ^ c.s_align_bits := by omega
      have hD : c.s_align_bits ≤ c.data_type_bits := by omega
      obtain ⟨s', e, w1, w2, w3, w4, w5, w6⟩ := data_field_write c hc s hs fuel hf
        c.s_align_mask
        (wrap c.data_type_bits (wrap c.data_type_bits v <<< c.s_align_shift))
        c.s_align_shift c.s_align_bits v hv hle.2.2.1 (by omega)
        (by unfold Config.s_align_mask
            rw [hmax, max_wrap _ _ hD, mask_wrap _ _ _ hle.2.2.1])
        (by rw [wrap_of_lt (lt_of_lt_of_le hv (Nat.pow_le_pow_right (by norm_num) hD)),
              wrap_of_lt (shifted_lt _ _ _ v hv hle.2.2.1)])
      refine ⟨true, s', e, by simp; omega, (fun h => by cases h), fun _ => ?_⟩
      refine ⟨by rw [get_align_eq c hc]; exact w4, w1, w2, w3, ?_, ?_, ?_⟩
      · by_cases hsh : c.s_shared_offset = true
        · exact w6 hsh
        · have hsh' : c.s_shared_offset = false := by simpa using hsh
          rw [get_offset_eq c hc hsh', get_offset_eq c hc hsh']
          exact w5 _ _ (Or.inl (by omega))
      · rw [get_size_eq c hc, get_size_eq c hc]
        exact w5 _ _ (Or.inl (by omega))
      · rw [get_user_eq c hc, get_user_eq c hc]
        exact w5 _ _ (Or.inr (by omega))

/-- `try_set_user` in full. -/
theorem try_set_user_full (c : Config) (hc : c.valid = true) (s : ControlData) (hs : s.wf c)
    (fuel : Nat) (hf : 0 < fuel) (v : Nat) :
    ∃ r s', try_set_user c fuel v s = some (r, s')
      ∧ (r = true ↔ v ≤ get_max_user c) ∧ (r = false → s' = s)
      ∧ (r = true → get_user c s' = v ∧ s'.wf c ∧ use_count c s' = use_count c s
          ∧ weak_count c s' = weak_count c s ∧ get_offset c s' = get_offset c s
          ∧ get_size c s' = get_size c s ∧ get_align c s' = get_align c s) := by
  have hmax := s_user_max_eq c hc
  have hle := field_bits_le c hc
  have hfld := valid_fields c hc
  obtain ⟨c1, c2, c3⟩ := shifts_chain c
  have hb := max_lt c.s_user_bits
  unfold try_set_user get_max_user
  split
  · rename_i h0
    have hm0 : c.s_user_max = 0 := by simp [Config.s_user_max, h0]
    rw [hm0]
    by_cases hv : v = 0
    · subst hv
      refine ⟨true, s, rfl, by simp, (fun h => by cases h), fun _ => ?_⟩
      refine ⟨?_, hs, rfl, rfl, rfl, rfl, rfl⟩
      simp [get_user, h0]
    · refine ⟨false, s, by simp [hv], ?_, fun _ => rfl, (fun h => by cases h)⟩
      simp only [Bool.false_eq_true, false_iff]
      omega
  · split
    · rename_i h1
      refine ⟨false, s, rfl, ?_, fun _ => rfl, (fun h => by cases h)⟩
      simp only [Bool.false_eq_true, false_iff]
      omega
    · rename_i h1
      have hv : v < 2 ^ c.s_user_bits := by omega
      obtain ⟨s', e, w1, w2, w3, w4, w5, w6⟩ := data_field_write c hc s hs fuel hf
        c.s_user_mask (wrap c.data_type_bits (v <<< c.s_user_shift))
        c.s_user_shift c.s_user_bits v hv hle.2.2.2 (by omega)
        (by unfold Config.s_user_mask
            rw [hmax, mask_wrap _ _ _ hle.2.2.2])
        (by rw [wrap_of_lt (shifted_lt _ _ _ v hv hle.2.2.2)])
      refine ⟨true, s', e, by simp; omega, (fun h => by cases h), fun _ => ?_⟩
      refine ⟨by rw [get_user_eq c hc]; exact w4, w1, w2, w3, ?_, ?_, ?_⟩
      · by_cases hsh : c.s_shared_offset = true
        · exact w6 hsh
        · have hsh' : c.s_shared_offset = false := by simpa using hsh
          rw [get_offset_eq c hc hsh', get_offset_eq c hc hsh']
          exact w5 _ _ (Or.inl (by omega))
      · rw [get_size_eq c hc, get_size_eq c hc]
        exact w5 _ _ (Or.inl (by omega))
      · rw [get_align_eq c hc, get_align_eq c hc]
        exact w5 _ _ (Or.inl (by omega))

/-- `try_set_offset` in full, for offset bits of their own. -/
theorem try_set_offset_full (c : Config) (hc : c.valid = true) (s : ControlData)
    (hs : s.wf c) (fuel : Nat) (hf : 0 < fuel) (v : Nat) (hsh : c.s_shared_offset = false) :
    ∃ r s', try_set_offset c fuel v s = some (r, s')
      ∧ (r = true ↔ v ≤ get_max_offset c) ∧ (r = false → s' = s)
      ∧ (r = true → get_offset c s' = v ∧ s'.wf c ∧ use_count c s' = use_count c s
          ∧ weak_count c s' = weak_count c s ∧ get_size c s' = get_size c s
          ∧ get_align c s' = get_align c s ∧ get_user c s' = get_user c s) := by
  have hmax := s_offset_max_eq c hc hsh
  have hmask := s_offset_mask_eq c hc hsh
  have hO := offset_type_bits_not_shared c hsh
  have hle := field_bits_le c hc
  obtain ⟨c1, c2, c3⟩ := shifts_chain c
  have hb := max_lt c.s_offset_bits
  unfold try_set_offset get_max_offset
  cases hob : c.offset_bits with
  | shared => simp [Config.s_shared_offset, hob] at hsh
  | bits n =>
    cases n with
    | zero =>
      have hm0 : c.s_offset_max = 0 := by simp [Config.s_offset_max, hob]
      simp only
      rw [hm0]
      by_cases hv : v = 0
      · subst hv
        refine ⟨true, s, rfl, by simp, (fun h => by cases h), fun _ => ?_⟩
        exact ⟨by simp [get_offset, hob], hs, rfl, rfl, rfl, rfl, rfl⟩
      · refine ⟨false, s, by simp [hv], ?_, fun _ => rfl, (fun h => by cases h)⟩
        simp only [Bool.false_eq_true, false_iff]
        omega
    | succ n =>
      simp only
      split
      · rename_i h1
        refine ⟨false, s, rfl, ?_, fun _ => rfl, (fun h => by cases h)⟩
        simp only [Bool.false_eq_true, false_iff]
        omega
      · rename_i h1
        have hv : v < 2 ^ c.s_offset_bits := by omega
        have hD : c.s_offset_bits ≤ c.data_type_bits := by omega
        obtain ⟨s', e, w1, w2, w3, w4, w5, _⟩ := data_field_write c hc s hs fuel hf
          c.s_offset_mask
          (wrap c.offset_type_bits (wrap c.offset_type_bits v <<< c.s_offset_shift))
          c.s_offset_shift c.s_offset_bits v hv hle.1 (le_refl _) hmask
          (by rw [hO, wrap_of_lt (lt_of_lt_of_le hv
                (Nat.pow_le_pow_right (by norm_num) hD)),
              wrap_of_lt (shifted_lt _ _ _ v hv hle.1)])
        rw [hO] at e ⊢
        refine ⟨true, s', e, by simp; omega, (fun h => by cases h), fun _ => ?_⟩
        refine ⟨by rw [get_offset_eq c hc hsh]; exact w4, w1, w2, w3, ?_, ?_, ?_⟩
        · rw [get_size_eq c hc, get_size_eq c hc]
          exact w5 _ _ (Or.inr (by omega))
        · rw [get_align_eq c hc, get_align_eq c hc]
          exact w5 _ _ (Or.inr (by omega))
        · rw [get_user_eq c hc, get_user_eq c hc]
          exact w5 _ _ (Or.inr (by omega))

/-! ## The weak operations in full -/

/-- A store to the weak counter that keeps every bit outside the weak field. -/
theorem weak_field_write (c : Config) (hc : c.valid = true) (s : ControlData) (hs : s.wf c)
    (y : Nat) (hy : y < 2 ^ c.weak_type_bits)
    (hlow : y % 2 ^ c.s_weak_shift = weak_counter c s % 2 ^ c.s_weak_shift)
    (hhigh : y / 2 ^ (c.s_weak_shift + c.s_weak_bits)
      = weak_counter c s / 2 ^ (c.s_weak_shift + c.s_weak_bits)) :
    (set_weak_counter c s y).wf c
      ∧ use_count c (set_weak_counter c s y) = use_count c s
      ∧ weak_count c (set_weak_counter c s y) = y / 2 ^ c.s_weak_shift % 2 ^ c.s_weak_bits
      ∧ get_offset c (set_weak_counter c s y) = get_offset c s
      ∧ get_size c (set_weak_counter c s y) = get_size c s
      ∧ get_align c (set_weak_counter c s y) = get_align c s
      ∧ get_user c (set_weak_counter c s y) = get_user c s := by
  have hfld := valid_fields c hc
  obtain ⟨c1, c2, c3⟩ := shifts_chain c
  have hstore := weak_store c hc s hs y hy (fun hL => by
    obtain ⟨e1, _, _, _⟩ := hfld.2.2.2.1 hL
    rw [← e1]
    exact hlow)
  have hwc : weak_count c (set_weak_counter c s y) = y / 2 ^ c.s_weak_shift % 2 ^ c.s_weak_bits := by
    rw [weak_count_eq c hc, weak_counter_set]
  have hdata : ∀ sh b, c.s_offset_shift ≤ sh →
      data c (set_weak_counter c s y) / 2 ^ sh % 2 ^ b = data c s / 2 ^ sh % 2 ^ b := by
    intro sh b hsh
    cases hL : c.layout with
    | single =>
      obtain ⟨e1, e2, _, _⟩ := hfld.2.2.2.1 hL
      have hd : data c (set_weak_counter c s y) = y := by
        simp [data, set_weak_counter, hL]
      have hd0 : data c s = weak_counter c s := by simp [data, weak_counter, hL]
      rw [hd, hd0]
      exact field_of_high _ _ _ _ _ hhigh (by omega)
    | separateUsage =>
      obtain ⟨e1, e2, _⟩ := hfld.2.2.2.2.1 hL
      have hd : data c (set_weak_counter c s y) = y := by
        simp [data, set_weak_counter, hL]
      have hd0 : data c s = weak_counter c s := by simp [data, weak_counter, hL]
      rw [hd, hd0]
      exact field_of_high _ _ _ _ _ hhigh (by omega)
    | separateAll =>
      have hd : data c (set_weak_counter c s y) = data c s := by
        simp [data, set_weak_counter, hL]
      rw [hd]
  refine ⟨hstore.2, hstore.1, hwc, ?_, ?_, ?_, ?_⟩
  · by_cases hsh : c.s_shared_offset = true
    · exact get_offset_of_use_count c s _ hsh hstore.1
    · have hsh' : c.s_shared_offset = false := by simpa using hsh
      rw [get_offset_eq c hc hsh', get_offset_eq c hc hsh']
      exact hdata _ _ (le_refl _)
  · rw [get_size_eq c hc, get_size_eq c hc]
    exact hdata _ _ (by omega)
  · rw [get_align_eq c hc, get_align_eq c hc]
    exact hdata _ _ (by omega)
  · rw [get_user_eq c hc, get_user_eq c hc]
    exact hdata _ _ (by omega)

/-- `weak_add_ref` inside its asserted precondition. -/
theorem weak_add_ref_full (c : Config) (hc : c.valid = true) (s : ControlData) (hs : s.wf c)
    (h : weak_count c s < get_max_weak_count c) :
    weak_count c (weak_add_ref c s) = weak_count c s + 1
      ∧ (weak_add_ref c s).wf c
      ∧ use_count c (weak_add_ref c s) = use_count c s
      ∧ get_offset c (weak_add_ref c s) = get_offset c s
      ∧ get_size c (weak_add_ref c s) = get_size c s
      ∧ get_align c (weak_add_ref c s) = get_align c s
      ∧ get_user c (weak_add_ref c s) = get_user c s := by
  have hfld := valid_fields c hc
  unfold get_max_weak_count at h
  rw [s_weak_max_eq c hc, weak_count_eq c hc] at h
  obtain ⟨i1, i2, i3, i4⟩ := field_inc (weak_counter c s) c.s_weak_shift c.s_weak_bits
    c.weak_type_bits hs.2.1 hfld.1 h
  have hval : wrap c.weak_type_bits (weak_counter c s + c.s_weak_one_shifted)
      = weak_counter c s + 2 ^ c.s_weak_shift := by
    rw [Config.s_weak_one_shifted, s_weak_one, Nat.one_shiftLeft]
    exact wrap_of_lt i1
  unfold weak_add_ref CounterThreadUnsafe.increment
  simp only [hval]
  obtain ⟨w1, w2, w3, w4, w5, w6, w7⟩ := weak_field_write c hc s hs _ i1 i2 i4
  refine ⟨?_, w1, w2, w4, w5, w6, w7⟩
  rw [w3, i3, weak_count_eq c hc]

/-- `weak_release` on a block whose weak count is at least one. -/
theorem weak_release_full (c : Config) (hc : c.valid = true) (s : ControlData) (hs : s.wf c)
    (h : 1 ≤ weak_count c s) :
    (weak_release c s).1 = decide (weak_count c s = 1)
      ∧ weak_count c (weak_release c s).2 = weak_count c s - 1
      ∧ (weak_release c s).2.wf c
      ∧ use_count c (weak_release c s).2 = use_count c s
      ∧ get_offset c (weak_release c s).2 = get_offset c s
      ∧ get_size c (weak_release c s).2 = get_size c s
      ∧ get_align c (weak_release c s).2 = get_align c s
      ∧ get_user c (weak_release c s).2 = get_user c s := by
  have hfld := valid_fields c hc
  have hwc := weak_count_eq c hc s
  have h' : 1 ≤ weak_counter c s / 2 ^ c.s_weak_shift % 2 ^ c.s_weak_bits := by
    rw [← hwc]; exact h
  have hwb : 1 ≤ c.s_weak_bits := by
    rcases Nat.eq_zero_or_pos c.s_weak_bits with h0 | h0
    · rw [h0, Nat.pow_zero, Nat.mod_one] at h'; omega
    · exact h0
  obtain ⟨d1, d2, d3, d4⟩ := field_dec (weak_counter c s) c.s_weak_shift c.s_weak_bits h'
  have hone : wrap c.weak_type_bits c.s_weak_one_shifted = 2 ^ c.s_weak_shift := by
    rw [Config.s_weak_one_shifted, s_weak_one, Nat.one_shiftLeft]
    exact wrap_of_lt (two_pow_lt_of_lt (by omega))
  have hlt : 2 ^ c.s_weak_shift < 2 ^ c.weak_type_bits := two_pow_lt_of_lt (by omega)
  have hval : wrap c.weak_type_bits
      (weak_counter c s + (2 ^ c.weak_type_bits - wrap c.weak_type_bits c.s_weak_one_shifted))
      = weak_counter c s - 2 ^ c.s_weak_shift := by
    rw [hone]
    have e : weak_counter c s + (2 ^ c.weak_type_bits - 2 ^ c.s_weak_shift)
        = (weak_counter c s - 2 ^ c.s_weak_shift) + 2 ^ c.weak_type_bits := by omega
    rw [e]
    unfold wrap
    rw [Nat.add_mod_right]
    exact Nat.mod_eq_of_lt (by have := hs.2.1; omega)
  have hy : weak_counter c s - 2 ^ c.s_weak_shift < 2 ^ c.weak_type_bits := by
    have := hs.2.1; omega
  obtain ⟨w1, w2, w3, w4, w5, w6, w7⟩ := weak_field_write c hc s hs _ hy d2 d4
  have hprev : ((weak_counter c s &&& c.s_weak_mask) >>> c.s_weak_shift) = weak_count c s := rfl
  have hnew : weak_count c (set_weak_counter c s (weak_counter c s - 2 ^ c.s_weak_shift))
      = weak_count c s - 1 := by
    rw [w3, d3, hwc]
  unfold weak_release CounterThreadUnsafe.decrement
  simp only [hprev, hval]
  by_cases h1 : s_weak_one < weak_count c s
  · rw [if_pos h1]
    unfold s_weak_one at h1
    exact ⟨by simp; omega, hnew, w1, w2, w4, w5, w6, w7⟩
  · rw [if_neg h1]
    unfold s_weak_one at h1
    have h0 : ¬ weak_count c s = s_weak_zero := by unfold s_weak_zero; omega
    rw [if_neg h0]
    exact ⟨by simp; omega, hnew, w1, w2, w4, w5, w6, w7⟩

/-! ## The offset stored in the usage bits -/

/-- Once `try_set_offset(p)` has stored `s_offset_bit | p` in the usage bits, `get_offset`
reads `p`. -/
theorem get_offset_shared_stored (c : Config) (hc : c.valid = true) (s : ControlData)
    (hsh : c.s_shared_offset = true) (p : Nat) (hp : p ≤ get_max_offset c)
    (h : use_count c s = 2 ^ (c.s_usage_bits - 1) + p) :
    get_offset c s = p := by
  obtain ⟨hu2, _, _⟩ := valid_usage c hc
  have hob : c.offset_bits = OffsetBits.shared := (shared_iff c).1 hsh
  have hmaxu := s_usage_max_shared c hc hsh
  have hmask := s_usage_mask_eq c hc
  have hbit : c.s_offset_bit = 2 ^ (c.s_usage_bits - 1) := by
    rw [Config.s_offset_bit, s_usage_one, Nat.one_shiftLeft]
  have hmaxo : get_max_offset c = 2 ^ (c.s_usage_bits - 1) - 2 := by
    unfold get_max_offset Config.s_offset_max
    rw [hob]
    simp only [hbit, s_usage_one]
    omega
  have hpow : 2 ^ c.s_usage_bits = 2 * 2 ^ (c.s_usage_bits - 1) := by
    rw [← Nat.pow_succ']
    congr 1
    omega
  have h2 : 2 ≤ 2 ^ (c.s_usage_bits - 1) := by
    have : 2 ^ 1 ≤ 2 ^ (c.s_usage_bits - 1) := Nat.pow_le_pow_right (by decide) (by omega)
    simpa using this
  have hcount : CounterThreadUnsafe.get_count (usage_counter c s) &&& c.s_usage_mask
      = 2 ^ (c.s_usage_bits - 1) + p := h
  unfold get_offset
  rw [hob]
  simp only [hcount]
  have hunc : c.s_uncontrolled = 2 ^ c.s_usage_bits - 1 := by
    rw [Config.s_uncontrolled, hmask]
  have hn : ¬ (2 ^ (c.s_usage_bits - 1) + p = c.s_uncontrolled
      ∨ 2 ^ (c.s_usage_bits - 1) + p ≤ c.s_usage_max) := by
    rw [hunc, hmaxu]
    omega
  rw [if_neg hn]
  have hm : c.s_offset_mask = 2 ^ (c.s_usage_bits - 1) - 1 := by
    unfold Config.s_offset_mask
    rw [hob]
    simp only [hbit, s_usage_one]
  rw [hm, Nat.and_pow_two_sub_one_eq_mod, Nat.add_mod_left]
  exact Nat.mod_eq_of_lt (by omega)

theorem is_alive_iff (c : Config) (s : ControlData) :
    is_alive c s = true ↔ 1 ≤ use_count c s ∧ use_count c s ≤ get_max_usage_count c := by
  unfold is_alive use_count get_max_usage_count s_usage_one
  simp

/-! ## Disposal and the handle destructors -/

theorem disposed_usage_not_alive (c : Config) (hc : c.valid = true) (a : Adapter) :
    a.disposed_usage c ≠ c.s_uncontrolled
      ∧ ¬ (0 < a.disposed_usage c ∧ a.disposed_usage c < get_max_usage_count c)
      ∧ ¬ (1 ≤ a.disposed_usage c ∧ a.disposed_usage c ≤ get_max_usage_count c) := by
  obtain ⟨hu2, _, _⟩ := valid_usage c hc
  have hmax := s_usage_max_lt c hc
  have hmask := s_usage_mask_eq c hc
  have hunc : c.s_uncontrolled = 2 ^ c.s_usage_bits - 1 := by
    rw [Config.s_uncontrolled, hmask]
  unfold Adapter.disposed_usage get_max_usage_count
  split
  · rename_i h
    obtain ⟨_, _, hsh, hp⟩ := h
    have hmaxu := s_usage_max_shared c hc hsh
    have hmaxo := (try_set_offset_shared c hc (ControlData.init c 0) (init_usage c hc 0).2 1
      (by decide) 0 hsh)
    obtain ⟨_, _, _, _, _, _, hmo⟩ := hmaxo
    have hpow : 2 ^ c.s_usage_bits = 2 * 2 ^ (c.s_usage_bits - 1) := by
      rw [← Nat.pow_succ']
      congr 1
      omega
    have h2 : 2 ≤ 2 ^ (c.s_usage_bits - 1) := by
      have : 2 ^ 1 ≤ 2 ^ (c.s_usage_bits - 1) := Nat.pow_le_pow_right (by decide) (by omega)
      simpa using this
    rw [hunc, hmaxu]
    omega
  · omega

/-- The adapter's `destroy` on an expired block. -/
theorem destroy_expired (c : Config) (hc : c.valid = true) (a : Adapter) (fuel : Nat)
    (hf : 0 < fuel) (s : ControlData) (hs : s.wf c) (h0 : use_count c s = 0) :
    ∃ s', AllocAdapt.destroy c a fuel s = some s' ∧ s'.wf c
      ∧ use_count c s' = a.disposed_usage c ∧ weak_count c s' = weak_count c s := by
  have hmax := s_usage_max_lt c hc
  unfold AllocAdapt.destroy Adapter.disposed_usage
  by_cases hst : a.s_supports_static = true
  · by_cases hca : a.is_static_castable = true
    · simp only [hst, hca, if_true]
      refine ⟨s, rfl, hs, ?_, rfl⟩
      simp [h0]
    · have hca' : a.is_static_castable = false := by simpa using hca
      simp only [hst, hca', if_true]
      by_cases hsh : c.s_shared_offset = true
      · obtain ⟨r, s', h, h1, h2, h3, _⟩ :=
          try_set_offset_shared c hc s hs fuel hf a.base_offset hsh
        rw [h]
        refine ⟨s', rfl, ?_⟩
        by_cases hp : a.base_offset ≤ get_max_offset c
        · have hr : r = true := h1.2 ⟨hp, by rw [h0]; omega, by rw [h0]; omega⟩
          obtain ⟨b1, b2, b3, _⟩ := h3 hr
          refine ⟨b2, ?_, b3⟩
          rw [b1]
          simp [hsh, hp]
        · have hr : r = false := by
            cases r
            · rfl
            · exact absurd (h1.1 rfl).1 hp
          rw [h2 hr]
          refine ⟨hs, ?_, rfl⟩
          simp [hp, h0]
      · have hsh' : c.s_shared_offset = false := by simpa using hsh
        obtain ⟨r, s', h, h1, h2, h3⟩ :=
          try_set_offset_full c hc s hs fuel hf a.base_offset hsh'
        rw [h]
        refine ⟨s', rfl, ?_⟩
        cases r
        · rw [h2 rfl]
          refine ⟨hs, ?_, rfl⟩
          simp [hsh', h0]
        · obtain ⟨_, b2, b3, b4, _⟩ := h3 rfl
          refine ⟨b2, ?_, b4⟩
          rw [b3, h0]
          simp [hsh']
  · have hst' : a.s_supports_static = false := by simpa using hst
    simp only [hst']
    refine ⟨s, by simp, hs, ?_, rfl⟩
    simp [h0]

/-- The member `dispose` on an expired block of a configuration with weak support. -/
theorem dispose_expired (c : Config) (hc : c.valid = true) (hw : c.SupportsWeak = true)
    (a : Adapter) (fuel : Nat) (hf : 0 < fuel) (σ : System) (hs : σ.control.wf c)
    (h0 : use_count c σ.control = 0) (w : Nat) (hwc : weak_count c σ.control = w + 1) :
    ∃ σ', ControlAlloc.dispose c a fuel σ = some (decide (w = 0), σ') ∧ σ'.control.wf c
      ∧ use_count c σ'.control = a.disposed_usage c ∧ weak_count c σ'.control = w
      ∧ σ'.shared = σ.shared ∧ σ'.weak = σ.weak ∧ σ'.destroyed = σ.destroyed + 1
      ∧ σ'.deallocated = σ.deallocated := by
  obtain ⟨s', h, hs', hu, hwc'⟩ := destroy_expired c hc a fuel hf σ.control hs h0
  have h1 : 1 ≤ weak_count c s' := by rw [hwc', hwc]; omega
  obtain ⟨r1, r2, r3, r4, _⟩ := weak_release_full c hc s' hs' h1
  unfold ControlAlloc.dispose
  rw [h]
  simp only [hw, if_true]
  refine ⟨{ σ with control := (weak_release c s').2, destroyed := σ.destroyed + 1 },
    ?_, r3, by rw [r4, hu], by rw [r2, hwc', hwc]; rfl, rfl, rfl, rfl, rfl⟩
  rw [r1, hwc', hwc]
  simp

/-- The destructor of a `SharedPtr` to a block that is alive. -/
theorem shared_destroy_alive (c : Config) (hc : c.valid = true) (hw : c.SupportsWeak = true)
    (a : Adapter) (fuel : Nat) (hf : 0 < fuel) (σ : System) (hs : σ.control.wf c)
    (h : 1 ≤ use_count c σ.control ∧ use_count c σ.control ≤ get_max_usage_count c)
    (w : Nat) (hwc : weak_count c σ.control = w + 1) :
    ∃ σ', SharedPtr.destroy c a fuel σ = some σ' ∧ σ'.control.wf c
      ∧ σ'.shared = σ.shared - 1 ∧ σ'.weak = σ.weak
      ∧ (1 < use_count c σ.control →
          use_count c σ'.control = use_count c σ.control - 1
          ∧ weak_count c σ'.control = w + 1 ∧ σ'.destroyed = σ.destroyed
          ∧ σ'.deallocated = σ.deallocated)
      ∧ (use_count c σ.control = 1 →
          use_count c σ'.control = a.disposed_usage c ∧ weak_count c σ'.control = w
          ∧ σ'.destroyed = σ.destroyed + 1
          ∧ σ'.deallocated
            = σ.deallocated ++ (if w = 0 then [(a.disposed_usage c, 0)] else [])) := by
  obtain ⟨r1, r2, r3, r4, _⟩ := release_alive c hc σ.control hs h
  unfold SharedPtr.destroy
  dsimp only
  by_cases h1 : use_count c σ.control = 1
  · have hr : (release c σ.control).1 = true := by rw [r1]; simp [h1]
    rw [hr]
    simp only [if_true]
    obtain ⟨σ', d, d1, d2, d3, d4, d5, d6, d7⟩ :=
      dispose_expired c hc hw a fuel hf
        { σ with control := (release c σ.control).2, shared := σ.shared - 1 } r3
        (by show use_count c (release c σ.control).2 = 0; rw [r2, h1]) w
        (by show weak_count c (release c σ.control).2 = w + 1; rw [r4.1, hwc])
    rw [d]
    simp only
    by_cases hw0 : w = 0
    · refine ⟨_, rfl, ?_, ?_, ?_, ?_, ?_⟩
      · simpa [ControlAlloc.deallocate, hw0] using d1
      · simpa [ControlAlloc.deallocate, hw0] using d4
      · simpa [ControlAlloc.deallocate, hw0] using d5
      · intro hh; omega
      · intro _
        simp only [ControlAlloc.deallocate, hw0, decide_True, if_true]
        refine ⟨d2, ?_, d6, ?_⟩
        · rw [d3, hw0]
        · rw [d7, d2, d3, hw0]
    · refine ⟨_, rfl, ?_, ?_, ?_, ?_, ?_⟩
      · simpa [ControlAlloc.deallocate, hw0] using d1
      · simpa [ControlAlloc.deallocate, hw0] using d4
      · simpa [ControlAlloc.deallocate, hw0] using d5
      · intro hh; omega
      · intro _
        simp only [ControlAlloc.deallocate, hw0, decide_False, Bool.false_eq_true, if_false]
        refine ⟨d2, d3, d6, ?_⟩
        rw [d7]
        simp
  · have hr : (release c σ.control).1 = false := by rw [r1]; simp [h1]
    rw [hr]
    simp only [Bool.false_eq_true, if_false]
    refine ⟨_, rfl, r3, rfl, rfl, ?_, ?_⟩
    · intro _
      exact ⟨r2, by show weak_count c (release c σ.control).2 = w + 1; rw [r4.1, hwc],
        rfl, rfl⟩
    · intro hh
      exact absurd hh h1

/-- The destructor of a `WeakPtr` to a block with a weak count of at least one. -/
theorem weak_destroy_counted (c : Config) (hc : c.valid = true) (σ : System)
    (hs : σ.control.wf c) (w : Nat) (hwc : weak_count c σ.control = w + 1) :
    (WeakPtr.destroy c σ).control.wf c
      ∧ use_count c (WeakPtr.destroy c σ).control = use_count c σ.control
      ∧ weak_count c (WeakPtr.destroy c σ).control = w
      ∧ (WeakPtr.destroy c σ).shared = σ.shared
      ∧ (WeakPtr.destroy c σ).weak = σ.weak - 1
      ∧ (WeakPtr.destroy c σ).destroyed = σ.destroyed
      ∧ (WeakPtr.destroy c σ).deallocated
          = σ.deallocated ++ (if w = 0 then [(use_count c σ.control, 0)] else []) := by
  have h1 : 1 ≤ weak_count c σ.control := by rw [hwc]; omega
  obtain ⟨r1, r2, r3, r4, _⟩ := weak_release_full c hc σ.control hs h1
  have r2' : weak_count c (weak_release c σ.control).2 = w := by rw [r2, hwc]; rfl
  unfold WeakPtr.destroy
  dsimp only
  by_cases hw0 : w = 0
  · have hr : (weak_release c σ.control).1 = true := by rw [r1, hwc]; simp [hw0]
    rw [hr]
    simp only [if_true, ControlAlloc.deallocate]
    refine ⟨r3, r4, r2', ?_⟩
    simp [r4, r2', hw0]
  · have hr : (weak_release c σ.control).1 = false := by rw [r1, hwc]; simp [hw0]
    rw [hr]
    simp only [Bool.false_eq_true, if_false]
    refine ⟨r3, r4, r2', ?_⟩
    simp [hw0]

/-! ## Destroying the handles of an owned object -/

theorem destroy_handles_owned (c : Config) (hc : c.valid = true) (hw : c.SupportsWeak = true)
    (a : Adapter) (fuel : Nat) (hf : 0 < fuel) :
    ∀ (hs : List Handle) (σ : System), σ.owned c a →
      hs.count Handle.shared ≤ σ.shared → hs.count Handle.weak ≤ σ.weak →
      ∃ σ', destroy_handles c a fuel hs σ = some σ' ∧ σ'.owned c a
        ∧ σ'.shared = σ.shared - hs.count Handle.shared
        ∧ σ'.weak = σ.weak - hs.count Handle.weak := by
  intro hs
  induction hs with
  | nil =>
    intro σ ho _ _
    exact ⟨σ, rfl, ho, by simp, by simp⟩
  | cons h t ih =>
    intro σ ho h1 h2
    obtain ⟨hwf, hpos, hzero⟩ := ho
    cases h with
    | shared =>
      simp only [List.count_cons_self] at h1
      have hcw : (Handle.shared :: t).count Handle.weak = t.count Handle.weak := by
        simp [List.count_cons]
      rw [hcw] at h2
      obtain ⟨p1, p2, p3, p4, p5⟩ := hpos (by omega)
      obtain ⟨σ1, e, q1, q2, q3, q4, q5⟩ :=
        shared_destroy_alive c hc hw a fuel hf σ hwf (by rw [p1]; omega) σ.weak p3
      have ho1 : σ1.owned c a := by
        refine ⟨q1, ?_, ?_⟩
        · intro hp
          have hgt : 1 < use_count c σ.control := by rw [p1]; omega
          obtain ⟨b1, b2, b3, b4⟩ := q4 hgt
          refine ⟨by rw [b1, p1, q2], by omega, by rw [b2, q3], by rw [b3, p4],
            by rw [b4, p5]⟩
        · intro hz
          have h1' : use_count c σ.control = 1 := by rw [p1]; omega
          obtain ⟨b1, b2, b3, b4⟩ := q5 h1'
          refine ⟨b1, by rw [b3, p4], ?_, ?_⟩
          · intro hwp
            refine ⟨by rw [b2, q3], ?_⟩
            rw [b4, p5, if_neg (by omega)]
            rfl
          · intro hwz
            rw [b4, p5, if_pos (by omega)]
            rfl
      obtain ⟨σ', e', o', s1, s2⟩ := ih σ1 ho1 (by omega) (by omega)
      refine ⟨σ', ?_, o', ?_, ?_⟩
      · show (SharedPtr.destroy c a fuel σ).bind (destroy_handles c a fuel t) = some σ'
        rw [e]
        exact e'
      · rw [s1, q2]
        simp only [List.count_cons_self]
        omega
      · rw [s2, q3, hcw]
    | weak =>
      simp only [List.count_cons_self] at h2
      have hcs : (Handle.weak :: t).count Handle.shared = t.count Handle.shared := by
        simp [List.count_cons]
      rw [hcs] at h1
      have key : ∃ w, weak_count c σ.control = w + 1
          ∧ (0 < σ.shared → w = σ.weak) ∧ (σ.shared = 0 → w = σ.weak - 1) := by
        by_cases hp : 0 < σ.shared
        · exact ⟨σ.weak, (hpos hp).2.2.1, fun _ => rfl, fun hz => by omega⟩
        · have := ((hzero (by omega)).2.2.1 (by omega)).1
          exact ⟨σ.weak - 1, by omega, fun hp' => absurd hp' hp, fun _ => rfl⟩
      obtain ⟨w, hwc, hw1, hw2⟩ := key
      obtain ⟨q1, q2, q3, q4, q5, q6, q7⟩ := weak_destroy_counted c hc σ hwf w hwc
      have ho1 : (WeakPtr.destroy c σ).owned c a := by
        refine ⟨q1, ?_, ?_⟩
        · intro hp
          rw [q4] at hp
          obtain ⟨p1, p2, p3, p4, p5⟩ := hpos hp
          have hweq := hw1 hp
          refine ⟨by rw [q2, p1, q4], by rw [q4]; exact p2, by rw [q3, q5]; omega,
            by rw [q6, p4], ?_⟩
          rw [q7, p5, if_neg (by omega)]
          rfl
        · intro hz
          rw [q4] at hz
          obtain ⟨p1, p2, p3, _⟩ := hzero hz
          obtain ⟨p4, p5⟩ := p3 (by omega)
          have hweq := hw2 hz
          refine ⟨by rw [q2, p1], by rw [q6, p2], ?_, ?_⟩
          · intro hwp
            rw [q5] at hwp
            refine ⟨by rw [q3, q5]; exact hweq, ?_⟩
            rw [q7, p5, if_neg (by omega)]
            rfl
          · intro hwz
            rw [q5] at hwz
            rw [q7, p5, if_pos (by omega), p1]
            rfl
      obtain ⟨σ', e', o', s1, s2⟩ := ih (WeakPtr.destroy c σ) ho1 (by rw [q4]; omega)
        (by rw [q5]; omega)
      refine ⟨σ', e', o', ?_, ?_⟩
      · rw [s1, q4, hcs]
      · rw [s2, q5]
        simp only [List.count_cons_self]
        omega

theorem handle_counts_nil (l : List Handle)
    (h : l.count Handle.shared = 0 ∧ l.count Handle.weak = 0) : l = [] := by
  cases l with
  | nil => rfl
  | cons x t =>
    cases x with
    | shared => simp at h
    | weak => simp at h

/-! ## The invariant of the handle operations -/

theorem init_sound (c : Config) (hc : c.valid = true) (hw : c.SupportsWeak = true)
    (a : Adapter) (u : Nat) (hu : u ≤ get_max_user c) : (System.init c u).sound c a := by
  obtain ⟨h1, h2⟩ := init_usage c hc u
  obtain ⟨f1, _⟩ := fresh_fields c hc u hu
  rw [if_pos hw] at f1
  refine ⟨h2, Or.inl rfl, ?_, ?_⟩
  · intro _
    exact ⟨rfl, f1, Or.inl ⟨h1, rfl⟩⟩
  · intro h
    exact absurd (show (0 : Nat) = 1 from h) (by decide)

/-- Every handle operation whose conditions are met returns a state and keeps the
invariant. -/
theorem step_sound (c : Config) (hc : c.valid = true) (hw : c.SupportsWeak = true)
    (a : Adapter) (fuel : Nat) (hf : 0 < fuel) (op : HandleOp) (σ : System)
    (hs : σ.sound c a) (hd : σ.deallocated = []) (hp : σ.present op = true)
    (ha : σ.asserted c op = true) :
    ∃ σ', System.step c a fuel op σ = some σ' ∧ σ'.sound c a := by
  obtain ⟨hwf, h01, hlive, hdead⟩ := hs
  have hmax := s_usage_max_lt c hc
  have hdis := disposed_usage_not_alive c hc a
  -- the three operations that add a weak reference
  have weak_add : weak_add_ref_assertion c σ.control = true →
      ({ σ with control := weak_add_ref c σ.control, weak := σ.weak + 1 } : System).sound c a := by
    intro hass
    have hlt : weak_count c σ.control < get_max_weak_count c := by
      simpa [weak_add_ref_assertion, get_max_weak_count] using hass
    obtain ⟨w1, w2, w3, _⟩ := weak_add_ref_full c hc σ.control hwf hlt
    refine ⟨w2, h01, ?_, ?_⟩
    · intro h0
      obtain ⟨l1, l2, l3⟩ := hlive h0
      refine ⟨l1, ?_, ?_⟩
      · show weak_count c (weak_add_ref c σ.control) = σ.weak + 1 + 1
        rw [w1, l2]
      · show (use_count c (weak_add_ref c σ.control) = c.s_uncontrolled ∧ σ.shared = 0)
          ∨ (1 ≤ use_count c (weak_add_ref c σ.control)
            ∧ use_count c (weak_add_ref c σ.control) ≤ get_max_usage_count c
            ∧ σ.shared ≤ use_count c (weak_add_ref c σ.control))
        rw [w3]
        exact l3
    · intro h1
      obtain ⟨d1, d2, d3⟩ := hdead h1
      refine ⟨d1, ?_, ?_⟩
      · show use_count c (weak_add_ref c σ.control) = a.disposed_usage c
        rw [w3, d2]
      · rcases d3 with ⟨e1, e2, e3⟩ | ⟨e1, _⟩
        · refine Or.inl ⟨e1, ?_, ?_⟩
          · show 1 ≤ σ.weak + 1
            omega
          · show weak_count c (weak_add_ref c σ.control) = σ.weak + 1
            rw [w1, e3]
        · rw [hd] at e1
          cases e1
  cases op with
  | acquire =>
    have h0 : σ.destroyed = 0 := by simpa [System.present] using hp
    obtain ⟨l1, l2, l3⟩ := hlive h0
    unfold System.step
    rcases l3 with ⟨u1, u2⟩ | ⟨u1, u2, u3⟩
    · obtain ⟨s', e, q1, q2, q3, _⟩ := try_control_acquire c hc σ.control hwf fuel hf u1
      simp only [e]
      refine ⟨_, rfl, q2, h01, ?_, ?_⟩
      · intro _
        refine ⟨l1, ?_, Or.inr ?_⟩
        · show weak_count c s' = σ.weak + 1
          rw [q3.1, l2]
        · show 1 ≤ use_count c s' ∧ use_count c s' ≤ get_max_usage_count c
            ∧ (if ControlStatus.e_acquired = ControlStatus.e_invalid then σ.shared
                else σ.shared + 1) ≤ use_count c s'
          rw [q1, u2]
          exact ⟨le_refl _, hmax.1, by simp⟩
      · intro h1
        exact absurd (h0.symm.trans h1) (by decide)
    · by_cases hlt : use_count c σ.control < get_max_usage_count c
      · obtain ⟨s', e, q1, q2, q3⟩ :=
          try_control_share c hc σ.control hwf fuel hf ⟨by omega, hlt⟩
        simp only [e]
        refine ⟨_, rfl, q2, h01, ?_, ?_⟩
        · intro _
          refine ⟨l1, ?_, Or.inr ?_⟩
          · show weak_count c s' = σ.weak + 1
            rw [q3.1, l2]
          · show 1 ≤ use_count c s' ∧ use_count c s' ≤ get_max_usage_count c
              ∧ (if ControlStatus.e_shared = ControlStatus.e_invalid then σ.shared
                  else σ.shared + 1) ≤ use_count c s'
            rw [q1]
            exact ⟨by omega, by omega, by simp; omega⟩
        · intro h1
          exact absurd (h0.symm.trans h1) (by decide)
      · have e := try_control_invalid c σ.control fuel hf
          (by unfold get_max_usage_count at u2; omega) (by omega)
        simp only [e]
        refine ⟨_, rfl, hwf, h01, ?_, ?_⟩
        · intro _
          exact ⟨l1, l2, Or.inr ⟨u1, u2, by simpa using u3⟩⟩
        · intro h1
          exact absurd (h0.symm.trans h1) (by decide)
  | copy_shared =>
    have hsp : 0 < σ.shared := by simpa [System.present] using hp
    have hass : 0 < use_count c σ.control ∧ use_count c σ.control < get_max_usage_count c := by
      simpa [System.asserted, add_ref_assertion, s_usage_zero, get_max_usage_count] using ha
    have h0 : σ.destroyed = 0 := by
      rcases h01 with h | h
      · exact h
      · have := (hdead h).1
        omega
    obtain ⟨l1, l2, l3⟩ := hlive h0
    obtain ⟨q1, q2, q3⟩ := add_ref_share c hc σ.control hwf hass
    unfold System.step
    refine ⟨_, rfl, q2, h01, ?_, ?_⟩
    · intro _
      refine ⟨l1, ?_, Or.inr ?_⟩
      · show weak_count c (add_ref c σ.control) = σ.weak + 1
        rw [q3.1, l2]
      · show 1 ≤ use_count c (add_ref c σ.control)
          ∧ use_count c (add_ref c σ.control) ≤ get_max_usage_count c
          ∧ σ.shared + 1 ≤ use_count c (add_ref c σ.control)
        rw [q1]
        rcases l3 with ⟨_, u2⟩ | ⟨_, _, u3⟩
        · omega
        · omega
    · intro h1
      exact absurd (h0.symm.trans h1) (by decide)
  | destroy_shared =>
    have hsp : 0 < σ.shared := by simpa [System.present] using hp
    have h0 : σ.destroyed = 0 := by
      rcases h01 with h | h
      · exact h
      · have := (hdead h).1
        omega
    obtain ⟨l1, l2, l3⟩ := hlive h0
    have hal : 1 ≤ use_count c σ.control ∧ use_count c σ.control ≤ get_max_usage_count c
        ∧ σ.shared ≤ use_count c σ.control := by
      rcases l3 with ⟨_, u2⟩ | h
      · omega
      · exact h
    obtain ⟨σ', e, q1, q2, q3, q4, q5⟩ :=
      shared_destroy_alive c hc hw a fuel hf σ hwf ⟨hal.1, hal.2.1⟩ σ.weak l2
    unfold System.step
    refine ⟨σ', e, ?_⟩
    by_cases h1 : use_count c σ.control = 1
    · obtain ⟨b1, b2, b3, b4⟩ := q5 h1
      have hd1 : σ'.destroyed = 1 := by rw [b3, h0]
      refine ⟨q1, Or.inr hd1, ?_, ?_⟩
      · intro h
        exact absurd (h.symm.trans hd1) (by decide)
      · intro _
        refine ⟨by omega, b1, ?_⟩
        by_cases hw0 : σ.weak = 0
        · refine Or.inr ⟨?_, by omega⟩
          rw [b4, l1, if_pos hw0]
          rfl
        · refine Or.inl ⟨?_, by omega, by rw [b2, q3]⟩
          rw [b4, l1, if_neg hw0]
          rfl
    · obtain ⟨b1, b2, b3, b4⟩ := q4 (by omega)
      have hd0 : σ'.destroyed = 0 := by rw [b3, h0]
      refine ⟨q1, Or.inl hd0, ?_, ?_⟩
      · intro _
        refine ⟨by rw [b4, l1], by rw [b2, q3], Or.inr ?_⟩
        rw [b1, q2]
        omega
      · intro h
        exact absurd (hd0.symm.trans h) (by decide)
  | weak_from_shared =>
    exact ⟨_, rfl, weak_add (by simpa [System.asserted] using ha)⟩
  | weak_from_this =>
    exact ⟨_, rfl, weak_add (by simpa [System.asserted] using ha)⟩
  | copy_weak =>
    exact ⟨_, rfl, weak_add (by simpa [System.asserted] using ha)⟩
  | destroy_weak =>
    have hwp : 0 < σ.weak := by simpa [System.present] using hp
    unfold System.step
    refine ⟨_, rfl, ?_⟩
    rcases h01 with h0 | h1
    · obtain ⟨l1, l2, l3⟩ := hlive h0
      obtain ⟨q1, q2, q3, q4, q5, q6, q7⟩ := weak_destroy_counted c hc σ hwf σ.weak l2
      have hd0 : (WeakPtr.destroy c σ).destroyed = 0 := by rw [q6, h0]
      refine ⟨q1, Or.inl hd0, ?_, ?_⟩
      · intro _
        refine ⟨?_, by rw [q3, q5]; omega, ?_⟩
        · rw [q7, l1, if_neg (by omega)]
          rfl
        · rw [q2, q4]
          exact l3
      · intro h
        exact absurd (hd0.symm.trans h) (by decide)
    · obtain ⟨d1, d2, d3⟩ := hdead h1
      rcases d3 with ⟨e1, e2, e3⟩ | ⟨e1, _⟩
      · obtain ⟨q1, q2, q3, q4, q5, q6, q7⟩ :=
          weak_destroy_counted c hc σ hwf (σ.weak - 1) (by omega)
        have hd1 : (WeakPtr.destroy c σ).destroyed = 1 := by rw [q6, h1]
        refine ⟨q1, Or.inr hd1, ?_, ?_⟩
        · intro h
          exact absurd (h.symm.trans hd1) (by decide)
        · intro _
          refine ⟨by rw [q4, d1], by rw [q2, d2], ?_⟩
          by_cases hw1 : σ.weak - 1 = 0
          · refine Or.inr ⟨?_, by omega⟩
            rw [q7, e1, if_pos hw1, d2]
            rfl
          · refine Or.inl ⟨?_, by omega, by rw [q3, q5]⟩
            rw [q7, e1, if_neg hw1]
            rfl
      · rw [hd] at e1
        cases e1
  | lock cast_ok =>
    unfold System.step ControlAlloc.try_get_shared
    by_cases hr : 0 < use_count c σ.control ∧ use_count c σ.control < get_max_usage_count c
    · obtain ⟨s', e, q1, q2, q3⟩ := try_add_ref_share c hc σ.control hwf fuel hf hr
      have h0 : σ.destroyed = 0 := by
        rcases h01 with h | h
        · exact h
        · have := (hdead h).2.1
          rw [this] at hr
          exact absurd hr hdis.2.1
      obtain ⟨l1, l2, l3⟩ := hlive h0
      simp only [e]
      refine ⟨_, rfl, q2, h01, ?_, ?_⟩
      · intro _
        refine ⟨l1, ?_, Or.inr ?_⟩
        · show weak_count c s' = σ.weak + 1
          rw [q3.1, l2]
        · show 1 ≤ use_count c s' ∧ use_count c s' ≤ get_max_usage_count c
            ∧ (if (if cast_ok = true then some 0 else none : Ptr).isSome = true
                then σ.shared + 1 else σ.shared) ≤ use_count c s'
          rw [q1]
          have hsh : σ.shared ≤ use_count c σ.control := by
            rcases l3 with ⟨_, u2⟩ | ⟨_, _, u3⟩
            · omega
            · exact u3
          refine ⟨by omega, by omega, ?_⟩
          cases cast_ok
          · show σ.shared ≤ use_count c σ.control + 1
            omega
          · show σ.shared + 1 ≤ use_count c σ.control + 1
            omega
      · intro h1
        exact absurd (h0.symm.trans h1) (by decide)
    · have e := try_add_ref_fail c σ.control fuel hf hr
      simp only [e]
      exact ⟨_, rfl, hwf, h01, hlive, hdead⟩

theorem run_asserted_sound (c : Config) (hc : c.valid = true) (hw : c.SupportsWeak = true)
    (a : Adapter) (fuel : Nat) (hf : 0 < fuel) :
    ∀ (ops : List HandleOp) (σ σ' : System), σ.sound c a →
      System.run_asserted c a fuel ops σ = some σ' → σ'.sound c a := by
  intro ops
  induction ops with
  | nil =>
    intro σ σ' hs h
    simp only [System.run_asserted, Option.some.injEq] at h
    rw [← h]
    exact hs
  | cons op t ih =>
    intro σ σ' hs h
    unfold System.run_asserted at h
    split at h
    · rename_i hg
      obtain ⟨σ1, e, hs1⟩ := step_sound c hc hw a fuel hf op σ hs hg.1 hg.2.1 hg.2.2
      rw [e] at h
      exact ih σ1 σ' hs1 h
    · cases h

/-! ## Handles: raw pointers, copies and casts -/

/-- `add_ref` on a block that is not uncontrolled adds one to the usage value. -/
theorem add_ref_count (c : Config) (hc : c.valid = true) (s : ControlData) (hs : s.wf c)
    (h : use_count c s ≠ c.s_uncontrolled) :
    use_count c (add_ref c s) = use_count c s + 1 ∧ (add_ref c s).wf c
      ∧ weak_count c (add_ref c s) = weak_count c s := by
  obtain ⟨hu2, hule, _⟩ := valid_usage c hc
  have hmask := s_usage_mask_eq c hc
  have huc := use_count_eq c hc s
  have hlt : usage_counter c s % 2 ^ c.s_usage_bits < 2 ^ c.s_usage_bits - 1 := by
    have h1 : usage_counter c s % 2 ^ c.s_usage_bits < 2 ^ c.s_usage_bits :=
      Nat.mod_lt _ (Nat.two_pow_pos _)
    have h2 : use_count c s ≠ 2 ^ c.s_usage_bits - 1 := by
      rw [← hmask]
      exact h
    rw [huc] at h2
    omega
  obtain ⟨i1, i2, i3⟩ := inc_low c.usage_type_bits c.s_usage_bits (usage_counter c s) hule hs.1 hlt
  have hval : (CounterThreadUnsafe.increment c.usage_type_bits (usage_counter c s) s_usage_one).2
      = usage_counter c s + 1 := by
    show wrap c.usage_type_bits (usage_counter c s + s_usage_one) = usage_counter c s + 1
    exact i1
  unfold add_ref
  rw [hval]
  refine ⟨?_, ?_, ?_⟩
  · rw [use_count_set c hc, i2, huc]
  · have hy : usage_counter c s + 1 < 2 ^ c.usage_type_bits := by
      rw [← i1]
      exact wrap_lt _ _
    exact wf_set_usage c s _ hs hy
  · exact (frame_set_usage c s _ i3).1

/-! ## Pointer, size and alignment recovery -/

theorem log2_two_pow : ∀ (i fuel : Nat), i < fuel → i < 2 ^ 32 → log2 fuel (2 ^ i) = some i := by
  intro i
  induction i with
  | zero =>
    intro fuel hf _
    cases fuel with
    | zero => omega
    | succ f => simp [log2]
  | succ k ih =>
    intro fuel hf hk
    cases fuel with
    | zero => omega
    | succ f =>
      have hne : 2 ^ (k + 1) ≠ 1 := by
        have : 2 ^ 1 ≤ 2 ^ (k + 1) := Nat.pow_le_pow_right (by decide) (by omega)
        omega
      have hsh : 2 ^ (k + 1) >>> 1 = 2 ^ k := by
        rw [Nat.shiftRight_eq_div_pow, Nat.pow_succ]
        simp
      unfold log2
      rw [if_neg hne, hsh, ih f (by omega) (by omega)]
      simp only [Option.map_some']
      rw [wrap_of_lt (by omega)]
      congr 1
      omega

theorem two_pow_lt_size {i : Nat} (h : i < 64) : 2 ^ i < 2 ^ size_t_bits :=
  Nat.pow_lt_pow_right (by decide) h

/-! ## The adapters' `try_init` -/

theorem shared_base_eq (t : TypeLayout) (p : Nat) (h : p + t.base_delta < 2 ^ 64) :
    t.shared_base p = p + t.base_delta :=
  wrap_of_lt (by unfold size_t_bits; exact h)

theorem calc_base_offset_eq (A object base : Nat) (hle : object ≤ base)
    (hd : base - object < 2 ^ 63) :
    calc_base_offset A object base
      = if (base - object) % A = 0 then (base - object) / A else numeric_max size_t_bits := by
  have hw : wrap size_t_bits (base + 2 ^ size_t_bits - object) = base - object := by
    have e : base + 2 ^ size_t_bits - object = (base - object) + 2 ^ size_t_bits := by
      unfold size_t_bits
      omega
    rw [e]
    unfold wrap
    rw [Nat.add_mod_right]
    exact Nat.mod_eq_of_lt (by unfold size_t_bits; omega)
  unfold calc_base_offset
  simp only [hw]
  rw [if_pos (by unfold size_t_bits; omega)]

theorem calc_shared_pointer_eq (A base off : Nat) (hb : base < 2 ^ 64) (h : off * A ≤ base) :
    calc_shared_pointer A base off = base - off * A := by
  unfold calc_shared_pointer
  have h1 : wrap size_t_bits (off * A) = off * A := wrap_of_lt (by unfold size_t_bits; omega)
  simp only [h1]
  have e : base + 2 ^ size_t_bits - off * A = (base - off * A) + 2 ^ size_t_bits := by
    unfold size_t_bits
    omega
  rw [e]
  unfold wrap
  rw [Nat.add_mod_right]
  exact Nat.mod_eq_of_lt (by unfold size_t_bits; omega)

/-- With the offset in the usage bits `try_set_offset` rejects an uncontrolled block. -/
theorem try_set_offset_uncontrolled (c : Config) (hc : c.valid = true) (s : ControlData)
    (hs : s.wf c) (fuel : Nat) (hf : 0 < fuel) (p : Nat) (hsh : c.s_shared_offset = true)
    (hu : is_uncontrolled c s = true) : try_set_offset c fuel p s = some (false, s) := by
  obtain ⟨r, s', h, h1, h2, _⟩ := try_set_offset_shared c hc s hs fuel hf p hsh
  have hr : r = false := by
    cases r
    · rfl
    · exact absurd ((is_uncontrolled_iff c s).1 hu) (h1.1 rfl).2.1
  rw [h, hr, h2 hr]

/-- The function `AllocAdaptPointer::try_init` without static support on an uncontrolled
block. -/
theorem pointer_try_init (c : Config) (hc : c.valid = true) (t : TypeLayout) (fuel : Nat)
    (hf : 0 < fuel) (p : Nat) (ctl : ControlData) (hs : ctl.wf c)
    (hu : is_uncontrolled c ctl = true) :
    (calc_base_offset t.alignof_control p (t.shared_base p) = numeric_max size_t_bits
          ∨ get_max_offset c < calc_base_offset t.alignof_control p (t.shared_base p)
          ∨ c.s_shared_offset = true →
        AllocAdaptPointer.try_init c t false fuel p ctl
          = some (none, ctl, [Call.destroy p, Call.deallocate p []]))
      ∧ (calc_base_offset t.alignof_control p (t.shared_base p) ≠ numeric_max size_t_bits →
          calc_base_offset t.alignof_control p (t.shared_base p) ≤ get_max_offset c →
          c.s_shared_offset = false →
        ∃ ctl', AllocAdaptPointer.try_init c t false fuel p ctl = some (some p, ctl', [])
          ∧ get_offset c ctl' = calc_base_offset t.alignof_control p (t.shared_base p)
          ∧ ctl'.wf c ∧ use_count c ctl' = use_count c ctl) := by
  constructor
  · intro h
    unfold AllocAdaptPointer.try_init
    simp only [Bool.false_eq_true, if_false]
    by_cases h1 : calc_base_offset t.alignof_control p (t.shared_base p)
        = numeric_max size_t_bits
    · simp [h1]
    · by_cases h2 : get_max_offset c < calc_base_offset t.alignof_control p (t.shared_base p)
      · simp [h1, Nat.not_le.2 h2]
      · have hsh : c.s_shared_offset = true := by
          rcases h with h | h | h
          · exact absurd h h1
          · exact absurd h h2
          · exact h
        have e := try_set_offset_uncontrolled c hc ctl hs fuel hf
          (calc_base_offset t.alignof_control p (t.shared_base p)) hsh hu
        simp [h1, Nat.not_lt.1 h2, e]
  · intro h1 h2 hsh
    obtain ⟨r, s', e, q1, _, q3⟩ := try_set_offset_full c hc ctl hs fuel hf
      (calc_base_offset t.alignof_control p (t.shared_base p)) hsh
    have hr : r = true := q1.2 h2
    subst hr
    obtain ⟨a1, a2, a3, _⟩ := q3 rfl
    refine ⟨s', ?_, a1, a2, a3⟩
    unfold AllocAdaptPointer.try_init
    simp [h1, h2, e]

/-- The function `AllocAdaptTypeInfo::try_init` without static support on an uncontrolled
block. -/
theorem type_info_try_init (c : Config) (hc : c.valid = true) (t : TypeLayout) (fuel : Nat)
    (hf : 0 < fuel) (p : Nat) (ctl : ControlData) (hs : ctl.wf c)
    (hu : is_uncontrolled c ctl = true) (al ao : Nat)
    (hal : AllocAdaptTypeInfo.align c t false fuel = some al)
    (hao : calc_base_align_offset fuel t.alignof_shared t.alignof_base = some ao) :
    (calc_base_offset t.alignof_control p (t.shared_base p) = numeric_max size_t_bits
          ∨ get_max_offset c < calc_base_offset t.alignof_control p (t.shared_base p)
          ∨ c.s_shared_offset = true →
        AllocAdaptTypeInfo.try_init c t false fuel p ctl
          = some (none, ctl, [Call.destroy p, Call.deallocate p [t.sizeof_shared, al]]))
      ∧ (calc_base_offset t.alignof_control p (t.shared_base p) ≠ numeric_max size_t_bits →
          calc_base_offset t.alignof_control p (t.shared_base p) ≤ get_max_offset c →
          c.s_shared_offset = false →
        ∃ ctl', AllocAdaptTypeInfo.try_init c t false fuel p ctl = some (some p, ctl', [])
          ∧ get_offset c ctl' = calc_base_offset t.alignof_control p (t.shared_base p)
          ∧ (calc_base_size_offset t.sizeof_shared t.sizeof_base t.alignof_control
                ≤ get_max_size c →
              get_size c ctl'
                = calc_base_size_offset t.sizeof_shared t.sizeof_base t.alignof_control)
          ∧ (ao ≤ get_max_align c → get_align c ctl' = ao)
          ∧ ctl'.wf c ∧ use_count c ctl' = use_count c ctl) := by
  constructor
  · intro h
    unfold AllocAdaptTypeInfo.try_init
    simp only [hal, Bool.false_eq_true, if_false]
    by_cases h1 : calc_base_offset t.alignof_control p (t.shared_base p)
        = numeric_max size_t_bits
    · simp [h1]
    · by_cases h2 : get_max_offset c < calc_base_offset t.alignof_control p (t.shared_base p)
      · simp [h1, Nat.not_le.2 h2]
      · have hsh : c.s_shared_offset = true := by
          rcases h with h | h | h
          · exact absurd h h1
          · exact absurd h h2
          · exact h
        have e := try_set_offset_uncontrolled c hc ctl hs fuel hf
          (calc_base_offset t.alignof_control p (t.shared_base p)) hsh hu
        simp [h1, Nat.not_lt.1 h2, e]
  · intro h1 h2 hsh
    obtain ⟨r, s1, e1, q1, _, q3⟩ := try_set_offset_full c hc ctl hs fuel hf
      (calc_base_offset t.alignof_control p (t.shared_base p)) hsh
    have hr : r = true := q1.2 h2
    subst hr
    obtain ⟨a1, a2, a3, _⟩ := q3 rfl
    obtain ⟨r2, s2, e2, b1, b2, b3⟩ := try_set_size_full c hc s1 a2 fuel hf
      (calc_base_size_offset t.sizeof_shared t.sizeof_base t.alignof_control)
    have hs2 : s2.wf c ∧ use_count c s2 = use_count c s1 ∧ get_offset c s2 = get_offset c s1
        ∧ (r2 = true → get_size c s2
            = calc_base_size_offset t.sizeof_shared t.sizeof_base t.alignof_control) := by
      cases r2
      · rw [b2 rfl]
        exact ⟨a2, rfl, rfl, fun h => by cases h⟩
      · obtain ⟨d1, d2, d3, _, d5, _⟩ := b3 rfl
        exact ⟨d2, d3, d5, fun _ => d1⟩
    obtain ⟨r3, s3, e3, c1, c2, c3⟩ := try_set_align_full c hc s2 hs2.1 fuel hf ao
    have hs3 : s3.wf c ∧ use_count c s3 = use_count c s2 ∧ get_offset c s3 = get_offset c s2
        ∧ get_size c s3 = get_size c s2 ∧ (r3 = true → get_align c s3 = ao) := by
      cases r3
      · rw [c2 rfl]
        exact ⟨hs2.1, rfl, rfl, rfl, fun h => by cases h⟩
      · obtain ⟨d1, d2, d3, _, d5, d6, _⟩ := c3 rfl
        exact ⟨d2, d3, d5, d6, fun _ => d1⟩
    refine ⟨s3, ?_, ?_, ?_, ?_, hs3.1, ?_⟩
    · unfold AllocAdaptTypeInfo.try_init
      simp [hal, h1, h2, e1, e2, hao, e3]
    · rw [hs3.2.2.1, hs2.2.2.1, a1]
    · intro hle
      rw [hs3.2.2.2.1]
      exact hs2.2.2.2 (b1.2 hle)
    · intro hle
      exact hs3.2.2.2.2 (c1.2 hle)
    · rw [hs3.2.1, hs2.2.1, a3]

theorem calc_base_align_offset_pow (i j fuel : Nat) (hji : j ≤ i) (hi : i < 64)
    (hf : i < fuel) : calc_base_align_offset fuel (2 ^ i) (2 ^ j) = some (i - j) := by
  have h32 : (64 : Nat) < 2 ^ 32 := by decide
  have li := log2_two_pow i fuel hf (by omega)
  have lj := log2_two_pow j fuel (by omega) (by omega)
  unfold calc_base_align_offset
  rw [li, lj]
  simp only
  have e : i + 2 ^ 32 - j = (i - j) + 2 ^ 32 := by omega
  rw [e]
  unfold wrap
  rw [Nat.add_mod_right, Nat.mod_eq_of_lt (by omega)]

theorem calc_shared_align_pow (i j fuel : Nat) (hji : j ≤ i) (hi : i < 64) (hf : i < fuel) :
    calc_shared_align fuel (2 ^ j) (i - j) = some (2 ^ i) := by
  have h32 : (64 : Nat) < 2 ^ 32 := by decide
  have lj := log2_two_pow j fuel (by omega) (by omega)
  unfold calc_shared_align
  rw [lj]
  simp only
  have e : j + (i - j) = i := by omega
  rw [e, wrap_of_lt (by unfold size_t_bits; omega), if_pos (by unfold size_t_bits; omega),
    Nat.one_shiftLeft, wrap_of_lt (two_pow_lt_size hi)]

theorem calc_shared_size_eq (ss sb A : Nat) (h1 : sb ≤ ss) (h2 : ss < 2 ^ 64)
    (h3 : calc_base_size_offset_assertion ss sb A = true) :
    calc_shared_size sb A (calc_base_size_offset ss sb A) = ss := by
  have hw : wrap size_t_bits (ss + 2 ^ size_t_bits - sb) = ss - sb := by
    have e : ss + 2 ^ size_t_bits - sb = (ss - sb) + 2 ^ size_t_bits := by
      unfold size_t_bits
      omega
    rw [e]
    unfold wrap
    rw [Nat.add_mod_right]
    exact Nat.mod_eq_of_lt (by unfold size_t_bits; omega)
  unfold calc_base_size_offset_assertion at h3
  rw [hw] at h3
  have hmod : (ss - sb) % A = 0 := by simpa using h3
  unfold calc_shared_size calc_base_size_offset
  rw [hw, Nat.div_mul_cancel (Nat.dvd_of_mod_eq_zero hmod)]
  have e : sb + (ss - sb) = ss := by omega
  rw [e]
  exact wrap_of_lt (by unfold size_t_bits; exact h2)

/-! ## The counter on its own -/

theorem decrement_int (w m d : Nat) :
    (((CounterThreadUnsafe.decrement w m d).2 : Nat) : Int)
      = ((m : Int) - (d : Int)) % (2 : Int) ^ w := by
  have hN : 0 < 2 ^ w := Nat.two_pow_pos w
  have hr : d % 2 ^ w < 2 ^ w := Nat.mod_lt _ hN
  have hd : (d : Int) = ((2 ^ w : Nat) : Int) * ((d / 2 ^ w : Nat) : Int)
      + ((d % 2 ^ w : Nat) : Int) := by
    exact_mod_cast (Nat.div_add_mod d (2 ^ w)).symm
  show (((m + (2 ^ w - wrap w d)) % 2 ^ w : Nat) : Int) = _
  unfold wrap
  rw [Int.natCast_mod, Nat.cast_add, Nat.cast_sub (le_of_lt hr)]
  have hp : ((2 : Int) ^ w) = ((2 ^ w : Nat) : Int) := by push_cast; rfl
  rw [hp]
  generalize ((2 ^ w : Nat) : Int) = N at hd ⊢
  generalize ((d / 2 ^ w : Nat) : Int) = q at hd
  generalize ((d % 2 ^ w : Nat) : Int) = r at hd
  rw [hd]
  have e : (m : Int) + (N - r) = ((m : Int) - (N * q + r)) + N * (q + 1) := by ring
  rw [e, Int.add_mul_emod_self_left]

theorem mod_cases (x N : Nat) (h : x < 2 * N) :
    (x < N → x % N = x) ∧ (N ≤ x → x % N = x - N) := by
  refine ⟨fun h1 => Nat.mod_eq_of_lt h1, fun h1 => ?_⟩
  rw [Nat.mod_eq_sub_mod h1]
  exact Nat.mod_eq_of_lt (by omega)

theorem decrement_increment (w m d : Nat) (hm : m < 2 ^ w) :
    (CounterThreadUnsafe.decrement w (CounterThreadUnsafe.increment w m d).2 d).2 = m := by
  have hN : 0 < 2 ^ w := Nat.two_pow_pos w
  have hr : d % 2 ^ w < 2 ^ w := Nat.mod_lt _ hN
  show (wrap w (m + d) + (2 ^ w - wrap w d)) % 2 ^ w = m
  unfold wrap
  have h1 : (m + d) % 2 ^ w = (m + d % 2 ^ w) % 2 ^ w := by
    rw [Nat.add_mod, Nat.mod_eq_of_lt hm]
  rw [h1]
  generalize 2 ^ w = N at *
  generalize d % N = r at *
  obtain ⟨a1, a2⟩ := mod_cases (m + r) N (by omega)
  by_cases c : m + r < N
  · rw [a1 c]
    obtain ⟨_, b2⟩ := mod_cases (m + r + (N - r)) N (by omega)
    rw [b2 (by omega)]
    omega
  · rw [a2 (by omega)]
    obtain ⟨b1, _⟩ := mod_cases (m + r - N + (N - r)) N (by omega)
    rw [b1 (by omega)]
    omega

theorem casLoop_two (w : Nat) (cond : Nat → Bool) (desired : Nat → Nat) (fuel m e : Nat)
    (h : 2 ≤ fuel) :
    casLoop w cond desired fuel m e
      = some (if cond e then (if m = e then wrap w (desired e)
                else if cond m then wrap w (desired m) else m) else m,
              if cond e then m else e) := by
  obtain ⟨f, rfl⟩ : ∃ f, fuel = f + 1 := ⟨fuel - 1, by omega⟩
  unfold casLoop
  by_cases hc : cond e = true
  · simp only [hc, if_true]
    by_cases he : m = e
    · subst he
      simp [CounterThreadUnsafe.compare_exchange_weak]
    · simp only [CounterThreadUnsafe.compare_exchange_weak, if_neg he]
      rw [casLoop_pos w cond desired f m (by omega)]
  · simp [hc]

/-! ## Selection of the storage layout -/

theorem half_storage_exclusive (S wb : Nat) (o : OffsetBits) (sz al : Nat)
    (hS : S = 16 ∨ S = 32 ∨ S = 64) :
    (Config.matchesSeparateUsage ⟨S, S / 2, wb, o, sz, al⟩
      = !Config.matchesSeparateAll ⟨S, S / 2, wb, o, sz, al⟩) := by
  by_cases hw : wb < S / 2
  · rcases hS with h | h | h <;> subst h <;> norm_num at hw <;> interval_cases wb <;>
      simp [Config.matchesSeparateUsage, Config.matchesSeparateAll, is_power_of_two] <;>
      decide
  · have h1 : ¬ (S / 2 + wb < S) := by omega
    have h2 : ¬ (wb < 8) := by omega
    have h3 : wb ≠ S / 4 := by omega
    simp [Config.matchesSeparateUsage, Config.matchesSeparateAll, h1, h2, h3]
    omega

/-! ## The decrement that `release` undoes -/

theorem borrow_low (x u b : Nat) (h0 : x % 2 ^ u = 0) (h : 1 ≤ x / 2 ^ u % 2 ^ b) :
    0 < x ∧ (x - 1) / 2 ^ u % 2 ^ b = x / 2 ^ u % 2 ^ b - 1 := by
  have hp := Nat.two_pow_pos u
  have hb := Nat.two_pow_pos b
  have hx := Nat.div_add_mod x (2 ^ u)
  rw [h0, Nat.add_zero] at hx
  have hk : 1 ≤ x / 2 ^ u := by
    rcases Nat.eq_zero_or_pos (x / 2 ^ u) with z | z
    · rw [z, Nat.zero_mod] at h
      omega
    · exact z
  generalize x / 2 ^ u = k at *
  have hx1 : x - 1 = 2 ^ u * (k - 1) + (2 ^ u - 1) := by
    obtain ⟨j, rfl⟩ : ∃ j, k = j + 1 := ⟨k - 1, by omega⟩
    rw [← hx, Nat.mul_add, Nat.mul_one, Nat.add_sub_cancel]
    omega
  have hdiv : (x - 1) / 2 ^ u = k - 1 := by
    rw [hx1, Nat.mul_add_div hp, Nat.div_eq_of_lt (by omega)]
    rfl
  have hkq := Nat.div_add_mod k (2 ^ b)
  have hr : k % 2 ^ b < 2 ^ b := Nat.mod_lt _ hb
  refine ⟨?_, ?_⟩
  · rw [← hx]
    exact Nat.mul_pos hp hk
  · rw [hdiv]
    generalize k % 2 ^ b = r at *
    generalize k / 2 ^ b = q at *
    have : k - 1 = 2 ^ b * q + (r - 1) := by omega
    rw [this, Nat.mul_add_mod, Nat.mod_eq_of_lt (by omega)]

theorem decrement_one_pos (w x : Nat) (hw : 0 < w) (hx : x < 2 ^ w) (h : 0 < x) :
    (CounterThreadUnsafe.decrement w x s_usage_one).2 = x - 1 := by
  show wrap w (x + (2 ^ w - wrap w 1)) = x - 1
  have h1 : (1 : Nat) < 2 ^ w := Nat.one_lt_two_pow (by omega)
  rw [wrap_of_lt h1]
  unfold wrap
  have e : x + (2 ^ w - 1) = (x - 1) + 2 ^ w := by omega
  rw [e, Nat.add_mod_right]
  exact Nat.mod_eq_of_lt (by omega)

/-! ## Field masks -/

theorem testBit_mask (b sh i : Nat) :
    ((2 ^ b - 1) <<< sh).testBit i = (decide (sh ≤ i) && decide (i < sh + b)) := by
  rw [Nat.testBit_shiftLeft, Nat.testBit_two_pow_sub_one]
  by_cases h : sh ≤ i
  · have e : (i - sh < b) ↔ (i < sh + b) := by omega
    simp [h, e]
  · have h' : ¬ (i ≥ sh) := h
    simp [h, h']

theorem masks_disjoint (b1 sh1 b2 sh2 : Nat) (h : sh1 + b1 ≤ sh2) :
    ((2 ^ b1 - 1) <<< sh1) &&& ((2 ^ b2 - 1) <<< sh2) = 0 := by
  apply Nat.eq_of_testBit_eq
  intro i
  rw [Nat.testBit_and, testBit_mask, testBit_mask, Nat.zero_testBit]
  by_cases h1 : i < sh1 + b1
  · have h2 : ¬ (sh2 ≤ i) := by omega
    simp [h2]
  · simp [h1]

theorem masks_union (b1 b2 sh : Nat) :
    ((2 ^ b1 - 1) <<< sh) ||| ((2 ^ b2 - 1) <<< (sh + b1)) = (2 ^ (b1 + b2) - 1) <<< sh := by
  apply Nat.eq_of_testBit_eq
  intro i
  rw [Nat.testBit_or, testBit_mask, testBit_mask, testBit_mask]
  by_cases h0 : sh ≤ i
  · by_cases h1 : i < sh + b1
    · have h2 : i < sh + (b1 + b2) := by omega
      simp [h0, h1, h2]
    · have h3 : sh + b1 ≤ i := by omega
      have e : (i < sh + b1 + b2) ↔ (i < sh + (b1 + b2)) := by omega
      simp [h0, h1, h3, e]
  · have h3 : ¬ (sh + b1 ≤ i) := by omega
    simp [h0, h3]

theorem mask_inside (b1 b2 : Nat) (h : b1 ≤ b2) :
    (2 ^ b2 - 1) &&& (2 ^ b1 - 1) = 2 ^ b1 - 1 := by
  apply Nat.eq_of_testBit_eq
  intro i
  rw [Nat.testBit_and, Nat.testBit_two_pow_sub_one, Nat.testBit_two_pow_sub_one]
  by_cases h1 : i < b1
  · have h2 : i < b2 := by omega
    simp [h1, h2]
  · simp [h1]

theorem mask_absorb (b1 b2 : Nat) (h : b1 ≤ b2) :
    (2 ^ b2 - 1) ||| (2 ^ b1 - 1) = 2 ^ b2 - 1 := by
  apply Nat.eq_of_testBit_eq
  intro i
  rw [Nat.testBit_or, Nat.testBit_two_pow_sub_one, Nat.testBit_two_pow_sub_one]
  by_cases h1 : i < b1
  · have h2 : i < b2 := by omega
    simp [h1, h2]
  · simp [h1]

theorem s_weak_mask_eq (c : Config) (hc : c.valid = true) :
    c.s_weak_mask = (2 ^ c.s_weak_bits - 1) <<< c.s_weak_shift := by
  unfold Config.s_weak_mask
  rw [s_weak_max_eq c hc]

theorem s_size_mask_eq (c : Config) (hc : c.valid = true) :
    c.s_size_mask = (2 ^ c.s_size_bits - 1) <<< c.s_size_shift := by
  have hle := (field_bits_le c hc).2.1
  unfold Config.s_size_mask
  rw [s_size_max_eq c hc, max_wrap _ _ (by omega), mask_wrap _ _ _ hle]

theorem s_align_mask_eq (c : Config) (hc : c.valid = true) :
    c.s_align_mask = (2 ^ c.s_align_bits - 1) <<< c.s_align_shift := by
  have hle := (field_bits_le c hc).2.2.1
  unfold Config.s_align_mask
  rw [s_align_max_eq c hc, max_wrap _ _ (by omega), mask_wrap _ _ _ hle]

theorem s_user_mask_eq (c : Config) (hc : c.valid = true) :
    c.s_user_mask = (2 ^ c.s_user_bits - 1) <<< c.s_user_shift := by
  have hle := (field_bits_le c hc).2.2.2
  unfold Config.s_user_mask
  rw [s_user_max_eq c hc, mask_wrap _ _ _ hle]

theorem s_offset_mask_shared (c : Config) (hsh : c.s_shared_offset = true) :
    c.s_offset_mask = 2 ^ (c.s_usage_bits - 1) - 1 ∧ c.s_offset_bits = 0 := by
  unfold Config.s_offset_mask Config.s_offset_bits
  cases hob : c.offset_bits with
  | bits n => simp [Config.s_shared_offset, hob] at hsh
  | shared =>
    simp only [Config.s_offset_bit, s_usage_one, Nat.shiftLeft_eq, Nat.one_mul, and_self]

/-- The widths and shifts of the single-word layout. -/
theorem single_layout (c : Config) (hc : c.valid = true) (hL : c.layout = Layout.single) :
    c.s_usage_bits + c.s_weak_bits + c.s_offset_bits + c.s_size_bits + c.s_align_bits
        + c.s_user_bits = c.storage_bits
      ∧ c.s_weak_shift = c.s_usage_bits
      ∧ c.s_offset_shift = c.s_usage_bits + c.s_weak_bits
      ∧ c.s_size_shift = c.s_usage_bits + c.s_weak_bits + c.s_offset_bits
      ∧ c.s_align_shift = c.s_usage_bits + c.s_weak_bits + c.s_offset_bits + c.s_size_bits
      ∧ c.s_user_shift = c.s_usage_bits + c.s_weak_bits + c.s_offset_bits + c.s_size_bits
          + c.s_align_bits := by
  have hv := hc
  unfold Config.valid at hv
  rw [hL] at hv
  simp only [Bool.and_eq_true, decide_eq_true_eq] at hv
  obtain ⟨_, hsum, _⟩ := hv
  have h1 : c.s_weak_shift = c.s_usage_bits := by
    unfold Config.s_weak_shift
    rw [hL]
  have h2 : c.s_offset_shift = c.s_weak_shift + c.s_weak_bits := by
    unfold Config.s_offset_shift
    rw [hL]
  have h3 : c.s_user_bits = c.storage_bits - c.s_usage_bits - c.s_weak_bits - c.s_offset_bits
      - c.s_size_bits - c.s_align_bits := by
    unfold Config.s_user_bits
    rw [hL]
  obtain ⟨a, b, d⟩ := shifts_chain c
  refine ⟨by omega, h1, by omega, by omega, by omega, by omega⟩

/-- Six adjacent fields of widths `u`, `w`, `o`, `z`, `a`, `r` starting at bit 0: their
masks are pairwise disjoint and cover the low `u + w + o + z + a + r` bits. -/
theorem partition_masks (u w o z a r : Nat) :
    (2 ^ u - 1) &&& ((2 ^ w - 1) <<< u) = 0
      ∧ (2 ^ u - 1) &&& ((2 ^ o - 1) <<< (u + w)) = 0
      ∧ (2 ^ u - 1) &&& ((2 ^ z - 1) <<< (u + w + o)) = 0
      ∧ (2 ^ u - 1) &&& ((2 ^ a - 1) <<< (u + w + o + z)) = 0
      ∧ (2 ^ u - 1) &&& ((2 ^ r - 1) <<< (u + w + o + z + a)) = 0
      ∧ ((2 ^ w - 1) <<< u) &&& ((2 ^ o - 1) <<< (u + w)) = 0
      ∧ ((2 ^ w - 1) <<< u) &&& ((2 ^ z - 1) <<< (u + w + o)) = 0
      ∧ ((2 ^ w - 1) <<< u) &&& ((2 ^ a - 1) <<< (u + w + o + z)) = 0
      ∧ ((2 ^ w - 1) <<< u) &&& ((2 ^ r - 1) <<< (u + w + o + z + a)) = 0
      ∧ ((2 ^ o - 1) <<< (u + w)) &&& ((2 ^ z - 1) <<< (u + w + o)) = 0
      ∧ ((2 ^ o - 1) <<< (u + w)) &&& ((2 ^ a - 1) <<< (u + w + o + z)) = 0
      ∧ ((2 ^ o - 1) <<< (u + w)) &&& ((2 ^ r - 1) <<< (u + w + o + z + a)) = 0
      ∧ ((2 ^ z - 1) <<< (u + w + o)) &&& ((2 ^ a - 1) <<< (u + w + o + z)) = 0
      ∧ ((2 ^ z - 1) <<< (u + w + o)) &&& ((2 ^ r - 1) <<< (u + w + o + z + a)) = 0
      ∧ ((2 ^ a - 1) <<< (u + w + o + z)) &&& ((2 ^ r - 1) <<< (u + w + o + z + a)) = 0
      ∧ (2 ^ u - 1) ||| ((2 ^ w - 1) <<< u) ||| ((2 ^ o - 1) <<< (u + w))
          ||| ((2 ^ z - 1) <<< (u + w + o)) ||| ((2 ^ a - 1) <<< (u + w + o + z))
          ||| ((2 ^ r - 1) <<< (u + w + o + z + a)) = 2 ^ (u + w + o + z + a + r) - 1 := by
  have hA : (2 ^ u - 1) = (2 ^ u - 1) <<< 0 := Nat.shiftLeft_zero.symm
  have d0 : ∀ b sh, u ≤ sh → (2 ^ u - 1) &&& ((2 ^ b - 1) <<< sh) = 0 := by
    intro b sh h
    rw [hA]
    exact masks_disjoint u 0 b sh (by omega)
  have e1 : (2 ^ u - 1) ||| ((2 ^ w - 1) <<< u) = (2 ^ (u + w) - 1) <<< 0 := by
    have := masks_union u w 0
    rw [Nat.zero_add, Nat.shiftLeft_zero] at this
    rw [this, Nat.shiftLeft_zero]
  have e2 := masks_union (u + w) o 0
  have e3 := masks_union (u + w + o) z 0
  have e4 := masks_union (u + w + o + z) a 0
  have e5 := masks_union (u + w + o + z + a) r 0
  rw [Nat.zero_add] at e2 e3 e4 e5
  refine ⟨d0 _ _ (by omega), d0 _ _ (by omega), d0 _ _ (by omega), d0 _ _ (by omega),
    d0 _ _ (by omega), masks_disjoint _ _ _ _ (by omega), masks_disjoint _ _ _ _ (by omega),
    masks_disjoint _ _ _ _ (by omega), masks_disjoint _ _ _ _ (by omega),
    masks_disjoint _ _ _ _ (by omega), masks_disjoint _ _ _ _ (by omega),
    masks_disjoint _ _ _ _ (by omega), masks_disjoint _ _ _ _ (by omega),
    masks_disjoint _ _ _ _ (by omega), masks_disjoint _ _ _ _ (by omega), ?_⟩
  rw [e1, e2, e3, e4, e5, Nat.shiftLeft_zero]

/-! ## The assertions of `try_control` and `try_add_ref` -/

theorem try_add_ref_assertion_eq (c : Config) (s : ControlData) (fuel : Nat) (hf : 0 < fuel) :
    try_add_ref_assertion c fuel s
      = some (decide (use_count c s < get_max_usage_count c)) := by
  unfold try_add_ref_assertion
  simp only [CounterThreadUnsafe.get_count]
  rw [casLoop_pos _ _ _ _ _ hf]
  rfl

theorem try_control_assertion_eq (c : Config) (s : ControlData) (fuel : Nat) (hf : 0 < fuel) :
    try_control_assertion c fuel s
      = some (is_uncontrolled c s || decide (use_count c s < get_max_usage_count c)) := by
  unfold try_control_assertion
  simp only [CounterThreadUnsafe.get_count]
  rw [casLoop_pos _ _ _ _ _ hf]
  simp only
  by_cases h : (usage_counter c s &&& c.s_usage_mask) = c.s_uncontrolled
  · rw [if_pos h]
    have : is_uncontrolled c s = true := (is_uncontrolled_iff c s).mpr h
    simp [this]
  · rw [if_neg h]
    have hu : is_uncontrolled c s = false := is_uncontrolled_false c s h
    have hb : ((usage_counter c s &&& c.s_usage_mask) == c.s_uncontrolled) = false := by
      simpa using h
    simp only [hb, Bool.false_eq_true, if_false]
    rw [casLoop_pos _ _ _ _ _ hf, hu]
    rfl

theorem lifecycle_checked (op : Op) (h : op.lifecycle = true) : op.checked = true := by
  cases op <;> simp [Op.lifecycle] at h <;> rfl

/-- Every operation of the usage life cycle and `try_set_offset` returns, and keeps the
counters within their types. -/
theorem lifecycle_offset_step (c : Config) (hc : c.valid = true) (fuel : Nat) (hf : 0 < fuel)
    (op : Op) (hop : op.lifecycle_offset = true) (s : ControlData) (hs : s.wf c) :
    ∃ s', Op.apply c fuel op s = some s' ∧ s'.wf c := by
  by_cases hso : ∃ p, op = Op.try_set_offset p
  · obtain ⟨p, rfl⟩ := hso
    cases hsh : c.s_shared_offset with
    | false =>
      obtain ⟨r, s', e, _, w⟩ := try_set_offset_usage c hc s hs fuel hf p hsh
      exact ⟨s', by simp [Op.apply, e], w⟩
    | true =>
      obtain ⟨r, s', e, _, f, t, _⟩ := try_set_offset_shared c hc s hs fuel hf p hsh
      refine ⟨s', by simp [Op.apply, e], ?_⟩
      cases r with
      | false => rw [f rfl]; exact hs
      | true => exact (t rfl).2.1
  · have hl : op.lifecycle = true := by
      cases op <;> simp_all [Op.lifecycle_offset, Op.lifecycle]
    by_cases h : use_count c s = c.s_uncontrolled ∨ use_count c s ≤ get_max_usage_count c
    · obtain ⟨s', e, w, _⟩ := checked_step c hc fuel hf op (lifecycle_checked op hl) s hs h
      exact ⟨s', e, w⟩
    · have h1 : use_count c s ≠ c.s_uncontrolled := fun e => h (Or.inl e)
      have h2 : ¬ use_count c s ≤ get_max_usage_count c := fun e => h (Or.inr e)
      refine ⟨s, ?_, hs⟩
      cases op <;> simp [Op.lifecycle] at hl
      · simp [Op.apply, try_control_invalid c s fuel hf h1 (by omega)]
      · simp [Op.apply, try_add_ref_fail c s fuel hf (by omega)]
      · simp [Op.apply, release_not_alive c hc s hs (by omega)]
      · simp [Op.apply, try_revive_other c s fuel hf (by omega)]

theorem lifecycle_offset_run (c : Config) (hc : c.valid = true) (fuel : Nat) (hf : 0 < fuel) :
    ∀ (ops : List Op) (s : ControlData), (∀ op ∈ ops, op.lifecycle_offset = true) → s.wf c →
      ∃ s', run c fuel ops s = some s' ∧ s'.wf c := by
  intro ops
  induction ops with
  | nil =>
    intro s _ hs
    exact ⟨s, rfl, hs⟩
  | cons op ops ih =>
    intro s hops hs
    obtain ⟨s1, e1, hs1⟩ :=
      lifecycle_offset_step c hc fuel hf op (hops op (List.mem_cons_self _ _)) s hs
    obtain ⟨s', e', hs'⟩ := ih s1 (fun o ho => hops o (List.mem_cons_of_mem _ ho)) hs1
    refine ⟨s', ?_, hs'⟩
    show (Op.apply c fuel op s).bind (run c fuel ops) = some s'
    rw [e1]
    exact e'

/-- Repeated `try_add_ref` on an alive block counts up as long as the maximum allows. -/
theorem try_add_ref_repeat (c : Config) (hc : c.valid = true) (fuel : Nat) (hf : 0 < fuel) :
    ∀ (n : Nat) (s : ControlData), s.wf c → 1 ≤ use_count c s →
      use_count c s + n ≤ get_max_usage_count c →
      ∃ s', run c fuel (List.replicate n Op.try_add_ref) s = some s'
        ∧ use_count c s' = use_count c s + n ∧ s'.wf c := by
  intro n
  induction n with
  | zero =>
    intro s hs _ _
    exact ⟨s, rfl, rfl, hs⟩
  | succ n ih =>
    intro s hs h1 h2
    obtain ⟨s1, e1, u1, w1, _⟩ := try_add_ref_share c hc s hs fuel hf (by omega)
    obtain ⟨s', e', u', w'⟩ := ih s1 w1 (by omega) (by omega)
    refine ⟨s', ?_, by omega, w'⟩
    show (Op.apply c fuel Op.try_add_ref s).bind (run c fuel (List.replicate n Op.try_add_ref))
      = some s'
    simp only [Op.apply, e1, Option.map_some', Option.some_bind]
    exact e'

/-- The saturated block: `try_control` on a fresh block followed by
`get_max_usage_count() - 1` calls of `try_add_ref`. -/
theorem saturation_reachable (c : Config) (hc : c.valid = true) (fuel : Nat) (hf : 0 < fuel)
    (p_user_init : Nat) :
    ∃ s, run c fuel (Op.try_control :: List.replicate (get_max_usage_count c - 1) Op.try_add_ref)
          (ControlData.init c p_user_init) = some s
      ∧ use_count c s = get_max_usage_count c ∧ s.wf c := by
  obtain ⟨h0, hw0⟩ := init_usage c hc p_user_init
  have hm := s_usage_max_lt c hc
  obtain ⟨s1, e1, u1, w1, _⟩ := try_control_acquire c hc _ hw0 fuel hf h0
  obtain ⟨s', e', u', w'⟩ := try_add_ref_repeat c hc fuel hf (get_max_usage_count c - 1) s1 w1
    (by omega) (by unfold get_max_usage_count; omega)
  refine ⟨s', ?_, ?_, w'⟩
  · show (Op.apply c fuel Op.try_control (ControlData.init c p_user_init)).bind
      (run c fuel (List.replicate (get_max_usage_count c - 1) Op.try_add_ref)) = some s'
    simp only [Op.apply, e1, Option.map_some', Option.some_bind]
    exact e'
  · rw [u', u1]
    unfold get_max_usage_count
    omega

/-! ## The offset stored in the usage bits -/

theorem offset_bit_or (k p : Nat) (hp : p < 2 ^ k) : 2 ^ k ||| p = 2 ^ k + p := by
  have := Nat.mul_add_lt_is_or hp 1
  rw [Nat.mul_one] at this
  exact this.symm

/-- The value `s_offset_bit | p_offset` that `try_set_offset` writes for an offset within
`get_max_offset()`. -/
theorem shared_offset_value (c : Config) (hc : c.valid = true) (hsh : c.s_shared_offset = true)
    (p : Nat) (hp : p ≤ get_max_offset c) :
    c.s_offset_bit ||| wrap c.offset_type_bits p = 2 ^ (c.s_usage_bits - 1) + p
      ∧ get_max_usage_count c = 2 ^ (c.s_usage_bits - 1) - 1
      ∧ get_max_offset c = 2 ^ (c.s_usage_bits - 1) - 2
      ∧ c.s_uncontrolled = 2 ^ (c.s_usage_bits - 1) + (2 ^ (c.s_usage_bits - 1) - 1)
      ∧ 2 ≤ 2 ^ (c.s_usage_bits - 1) := by
  obtain ⟨u2, ule, _⟩ := valid_usage c hc
  have hO := offset_type_bits_shared c hsh
  have hob : c.offset_bits = OffsetBits.shared := (shared_iff c).mp hsh
  have hbit : c.s_offset_bit = 2 ^ (c.s_usage_bits - 1) := by
    simp [Config.s_offset_bit, s_usage_one, Nat.one_shiftLeft]
  have hmaxo : get_max_offset c = 2 ^ (c.s_usage_bits - 1) - 2 := by
    simp only [get_max_offset, Config.s_offset_max, hob, hbit, s_usage_one]
    omega
  have h2 : 2 ≤ 2 ^ (c.s_usage_bits - 1) := by
    calc 2 = 2 ^ 1 := by norm_num
      _ ≤ 2 ^ (c.s_usage_bits - 1) := Nat.pow_le_pow_right (by norm_num) (by omega)
  have hlt : p < 2 ^ (c.s_usage_bits - 1) := by omega
  have hle : 2 ^ (c.s_usage_bits - 1) ≤ 2 ^ c.offset_type_bits :=
    Nat.pow_le_pow_right (by norm_num) (by omega)
  have hunc : c.s_uncontrolled = 2 ^ (c.s_usage_bits - 1) + (2 ^ (c.s_usage_bits - 1) - 1) := by
    unfold Config.s_uncontrolled
    rw [s_usage_mask_eq c hc]
    obtain ⟨k, hk⟩ : ∃ k, c.s_usage_bits = k + 1 := ⟨c.s_usage_bits - 1, by omega⟩
    rw [hk, Nat.add_sub_cancel, Nat.pow_succ]
    have := Nat.two_pow_pos k
    omega
  refine ⟨?_, ?_, hmaxo, hunc, h2⟩
  · rw [hbit, wrap_of_lt (lt_of_lt_of_le hlt hle)]
    exact offset_bit_or _ _ hlt
  · unfold get_max_usage_count
    exact s_usage_max_shared c hc hsh

/-! ## The calls with `PNTR_ASSERT` active, compared with the calls without -/

/-- `Assert.release` returns what `release` returns when the block is alive or
uncontrolled; otherwise the program ends with the decremented word in place. -/
theorem assert_release_eq (c : Config) (hc : c.valid = true) (s : ControlData) :
    Assert.release c s
      = if (1 ≤ use_count c s ∧ use_count c s ≤ get_max_usage_count c)
            ∨ use_count c s = c.s_uncontrolled then
          Outcome.returned (release c s)
        else
          Outcome.aborted (set_usage_counter c s
            (CounterThreadUnsafe.decrement c.usage_type_bits (usage_counter c s)
              s_usage_one).2) := by
  have hm := s_usage_max_lt c hc
  have hp : (CounterThreadUnsafe.decrement c.usage_type_bits (usage_counter c s)
      s_usage_one).1 &&& c.s_usage_mask = use_count c s := rfl
  unfold Assert.release release PNTR_ASSERT get_max_usage_count
  simp only [hp]
  unfold s_usage_one
  by_cases h1 : 1 < use_count c s ∧ use_count c s ≤ c.s_usage_max
  · have hcond : (1 ≤ use_count c s ∧ use_count c s ≤ c.s_usage_max)
        ∨ use_count c s = c.s_uncontrolled := Or.inl ⟨by omega, h1.2⟩
    rw [if_pos h1, if_pos h1, if_pos hcond]
  · rw [if_neg h1, if_neg h1]
    by_cases h2 : use_count c s ≠ 1
    · rw [if_pos h2, if_pos h2]
      by_cases h3 : use_count c s = c.s_uncontrolled
      · have hb : (use_count c s == c.s_uncontrolled) = true := by simpa using h3
        rw [hb, if_pos rfl, if_pos (Or.inr h3)]
      · have hb : (use_count c s == c.s_uncontrolled) = false := by simpa using h3
        have hcond : ¬ ((1 ≤ use_count c s ∧ use_count c s ≤ c.s_usage_max)
            ∨ use_count c s = c.s_uncontrolled) := by
          intro h
          rcases h with h | h
          · omega
          · exact h3 h
        rw [hb, if_neg (by decide), if_neg hcond]
    · have h2' : use_count c s = 1 := by omega
      have hcond : (1 ≤ use_count c s ∧ use_count c s ≤ c.s_usage_max)
          ∨ use_count c s = c.s_uncontrolled := Or.inl ⟨by omega, by omega⟩
      rw [if_neg h2, if_neg h2, if_pos hcond]

/-- `Assert.try_add_ref` returns what `try_add_ref` returns when the usage is below the
maximum; otherwise the program ends with the block unchanged. -/
theorem assert_try_add_ref_eq (c : Config) (s : ControlData) (fuel : Nat) (hf : 0 < fuel) :
    ∃ r, try_add_ref c fuel s = some r
      ∧ Assert.try_add_ref c fuel s
        = some (if use_count c s < get_max_usage_count c then Outcome.returned r
                else Outcome.aborted s) := by
  refine ⟨_, try_add_ref_eq c fuel s hf, ?_⟩
  have hu : (usage_counter c s &&& c.s_usage_mask) = use_count c s := rfl
  unfold Assert.try_add_ref PNTR_ASSERT CounterThreadUnsafe.get_count get_max_usage_count
  dsimp only
  rw [casLoop_pos _ _ _ _ _ hf]
  simp only [hu]
  by_cases h : use_count c s < c.s_usage_max
  · simp only [h, decide_True, if_true]
    by_cases h2 : usage_in_range c (usage_counter c s) = true
    · simp [h2]
    · simp [h2, set_usage_counter_self]
  · have h2 : usage_in_range c (usage_counter c s) = false := by
      unfold usage_in_range
      rw [hu]
      simp [h]
    simp [h, h2, set_usage_counter_self]

/-- `Assert.try_control` returns what `try_control` returns when the block is
uncontrolled or its usage is below the maximum; otherwise the program ends with the block
unchanged. -/
theorem assert_try_control_eq (c : Config) (s : ControlData) (fuel : Nat) (hf : 0 < fuel) :
    ∃ r, try_control c fuel s = some r
      ∧ Assert.try_control c fuel s
        = some (if use_count c s = c.s_uncontrolled ∨ use_count c s < get_max_usage_count c
                then Outcome.returned r else Outcome.aborted s) := by
  refine ⟨_, try_control_eq c fuel s hf, ?_⟩
  have hu : (usage_counter c s &&& c.s_usage_mask) = use_count c s := rfl
  unfold Assert.try_control PNTR_ASSERT CounterThreadUnsafe.get_count get_max_usage_count
  dsimp only
  rw [casLoop_pos _ _ _ _ _ hf]
  simp only [hu]
  by_cases h1 : use_count c s = c.s_uncontrolled
  · simp [h1]
  · have hb : (use_count c s == c.s_uncontrolled) = false := by simpa using h1
    simp only [hb, Bool.false_eq_true, if_false, h1, false_or]
    rw [casLoop_pos _ _ _ _ _ hf]
    simp only [hu]
    by_cases h : use_count c s < c.s_usage_max
    · simp only [h, decide_True, if_true]
      by_cases h2 : usage_in_range c (usage_counter c s) = true
      · simp [h2]
      · simp [h2, set_usage_counter_self]
    · have h2 : usage_in_range c (usage_counter c s) = false := by
        unfold usage_in_range
        rw [hu]
        simp [h]
      simp [h, h2, set_usage_counter_self]

theorem assert_add_ref_eq (c : Config) (s : ControlData) :
    Assert.add_ref c s
      = if add_ref_assertion c s = true then Outcome.returned (add_ref c s)
        else Outcome.aborted (add_ref c s) := by
  unfold Assert.add_ref PNTR_ASSERT add_ref_assertion add_ref
  rfl

theorem assert_weak_add_ref_eq (c : Config) (s : ControlData) :
    Assert.weak_add_ref c s
      = if weak_add_ref_assertion c s = true then Outcome.returned (weak_add_ref c s)
        else Outcome.aborted (weak_add_ref c s) := by
  unfold Assert.weak_add_ref PNTR_ASSERT weak_add_ref_assertion weak_add_ref
  rfl

/-- Where `Assert.weak_release` returns, it returns what `weak_release` returns. -/
theorem assert_weak_release_returned (c : Config) (s : ControlData) (r : Bool × ControlData)
    (h : Assert.weak_release c s = Outcome.returned r) : weak_release c s = r := by
  unfold Assert.weak_release PNTR_ASSERT at h
  unfold weak_release
  dsimp only at h ⊢
  split at h
  · rename_i h1
    rw [if_pos h1]
    injection h
  · rename_i h1
    rw [if_neg h1]
    split at h
    · split at h
      · rename_i h3
        rw [if_pos h3]
        injection h
      · rename_i h3
        rw [if_neg h3]
        injection h
    · cases h

/-- A call that returns where `PNTR_ASSERT` is active leaves the state the call without
assertions leaves. -/
theorem assert_apply_returned (c : Config) (hc : c.valid = true) (fuel : Nat) (hf : 0 < fuel)
    (op : Op) (s s' : ControlData)
    (h : Assert.apply c fuel op s = some (Outcome.returned s')) :
    Op.apply c fuel op s = some s' := by
  cases op with
  | try_control =>
    obtain ⟨r, e, ea⟩ := assert_try_control_eq c s fuel hf
    simp only [Assert.apply, ea, Option.map_some'] at h
    simp only [Op.apply, e, Option.map_some']
    split at h
    · simp only [Outcome.map] at h
      injection h with h
      injection h with h
      rw [h]
    · simp [Outcome.map] at h
  | try_add_ref =>
    obtain ⟨r, e, ea⟩ := assert_try_add_ref_eq c s fuel hf
    simp only [Assert.apply, ea, Option.map_some'] at h
    simp only [Op.apply, e, Option.map_some']
    split at h
    · simp only [Outcome.map] at h
      injection h with h
      injection h with h
      rw [h]
    · simp [Outcome.map] at h
  | add_ref =>
    simp only [Assert.apply, assert_add_ref_eq] at h
    simp only [Op.apply]
    split at h
    · injection h with h
      injection h with h
      rw [h]
    · simp at h
  | release =>
    simp only [Assert.apply, assert_release_eq c hc] at h
    simp only [Op.apply]
    split at h
    · simp only [Outcome.map] at h
      injection h with h
      injection h with h
      rw [h]
    · simp [Outcome.map] at h
  | try_revive =>
    simp only [Assert.apply] at h
    simp only [Op.apply]
    cases hr : try_revive c fuel s with
    | none => simp [hr] at h
    | some r => simpa [hr] using h
  | weak_add_ref =>
    simp only [Assert.apply, assert_weak_add_ref_eq] at h
    simp only [Op.apply]
    split at h
    · injection h with h
      injection h with h
      rw [h]
    · simp at h
  | weak_release =>
    simp only [Assert.apply] at h
    simp only [Op.apply]
    cases hr : Assert.weak_release c s with
    | aborted x => simp [hr, Outcome.map] at h
    | returned r =>
      rw [assert_weak_release_returned c s r hr]
      simpa [hr, Outcome.map] using h
  | try_set_offset p =>
    simp only [Assert.apply] at h
    simp only [Op.apply]
    cases hr : try_set_offset c fuel p s with
    | none => simp [hr] at h
    | some r => simpa [hr] using h
  | try_set_size p =>
    simp only [Assert.apply] at h
    simp only [Op.apply]
    cases hr : try_set_size c fuel p s with
    | none => simp [hr] at h
    | some r => simpa [hr] using h
  | try_set_align p =>
    simp only [Assert.apply] at h
    simp only [Op.apply]
    cases hr : try_set_align c fuel p s with
    | none => simp [hr] at h
    | some r => simpa [hr] using h
  | try_set_user p =>
    simp only [Assert.apply] at h
    simp only [Op.apply]
    cases hr : try_set_user c fuel p s with
    | none => simp [hr] at h
    | some r => simpa [hr] using h

/-- Every state reached without a failed assertion where `PNTR_ASSERT` is active is
reached by the same calls where it is expanded to nothing. -/
theorem assert_run_returned (c : Config) (hc : c.valid = true) (fuel : Nat) (hf : 0 < fuel) :
    ∀ (ops : List Op) (s s' : ControlData),
      Assert.run c fuel ops s = some (Outcome.returned s') → run c fuel ops s = some s' := by
  intro ops
  induction ops with
  | nil =>
    intro s s' h
    simp only [Assert.run] at h
    injection h with h
    injection h with h
    rw [h]
    rfl
  | cons op ops ih =>
    intro s s' h
    unfold Assert.run at h
    cases ha : Assert.apply c fuel op s with
    | none => simp [ha] at h
    | some o =>
      cases o with
      | aborted x => simp [ha] at h
      | returned s1 =>
        simp only [ha] at h
        show (Op.apply c fuel op s).bind (run c fuel ops) = some s'
        rw [assert_apply_returned c hc fuel hf op s s1 ha]
        exact ih s1 s' h

/-- Repeated `try_add_ref` on an alive block counts up as long as the maximum allows, and
no call fails its assertion. -/
theorem assert_try_add_ref_repeat (c : Config) (hc : c.valid = true) (fuel : Nat)
    (hf : 0 < fuel) :
    ∀ (n : Nat) (s : ControlData), s.wf c → 1 ≤ use_count c s →
      use_count c s + n ≤ get_max_usage_count c →
      ∃ s', Assert.run c fuel (List.replicate n Op.try_add_ref) s = some (Outcome.returned s')
        ∧ use_count c s' = use_count c s + n ∧ s'.wf c := by
  intro n
  induction n with
  | zero =>
    intro s hs _ _
    exact ⟨s, rfl, rfl, hs⟩
  | succ n ih =>
    intro s hs h1 h2
    obtain ⟨s1, e1, u1, w1, _⟩ := try_add_ref_share c hc s hs fuel hf (by omega)
    obtain ⟨r, e, ea⟩ := assert_try_add_ref_eq c s fuel hf
    rw [e1] at e
    injection e with e
    subst e
    rw [if_pos (by omega)] at ea
    obtain ⟨s', e', u', w'⟩ := ih s1 w1 (by omega) (by omega)
    refine ⟨s', ?_, by omega, w'⟩
    show Assert.run c fuel (Op.try_add_ref :: List.replicate n Op.try_add_ref) s = _
    unfold Assert.run
    simp only [Assert.apply, ea, Option.map_some', Outcome.map]
    exact e'

/-- The saturated block is reached without a failed assertion: `try_control` on a fresh
block followed by `get_max_usage_count() - 1` calls of `try_add_ref`. -/
theorem assert_saturation_reachable (c : Config) (hc : c.valid = true) (fuel : Nat)
    (hf : 0 < fuel) (p_user_init : Nat) :
    ∃ s, Assert.run c fuel
          (Op.try_control :: List.replicate (get_max_usage_count c - 1) Op.try_add_ref)
          (ControlData.init c p_user_init) = some (Outcome.returned s)
      ∧ use_count c s = get_max_usage_count c ∧ s.wf c := by
  obtain ⟨h0, hw0⟩ := init_usage c hc p_user_init
  have hm := s_usage_max_lt c hc
  obtain ⟨s1, e1, u1, w1, _⟩ := try_control_acquire c hc _ hw0 fuel hf h0
  obtain ⟨r, e, ea⟩ := assert_try_control_eq c (ControlData.init c p_user_init) fuel hf
  rw [e1] at e
  injection e with e
  subst e
  rw [if_pos (Or.inl h0)] at ea
  obtain ⟨s', e', u', w'⟩ := assert_try_add_ref_repeat c hc fuel hf
    (get_max_usage_count c - 1) s1 w1 (by omega) (by unfold get_max_usage_count; omega)
  refine ⟨s', ?_, ?_, w'⟩
  · unfold Assert.run
    simp only [Assert.apply, ea, Option.map_some', Outcome.map]
    exact e'
  · rw [u', u1]
    unfold get_max_usage_count
    omega

/-! ## Handles of different static types -/

theorem ptr_lt_irrefl (o : Ptr) : ptr_lt o o = false := by
  cases o with
  | none => rfl
  | some a => simp [ptr_lt]

theorem ptr_lt_total (o o' : Ptr) (h : o ≠ o') :
    (ptr_lt o o' = true ∧ ptr_lt o' o = false) ∨ (ptr_lt o o' = false ∧ ptr_lt o' o = true) := by
  cases o with
  | none =>
    cases o' with
    | none => exact absurd rfl h
    | some b => exact Or.inl ⟨rfl, rfl⟩
  | some a =>
    cases o' with
    | none => exact Or.inr ⟨rfl, rfl⟩
    | some b =>
      have hab : a ≠ b := fun e => h (by rw [e])
      simp only [ptr_lt, decide_eq_true_eq, decide_eq_false_iff_not]
      omega

theorem shared_owner_before_eq (up up' : Nat → Nat) (p q : SharedPtr) :
    SharedPtr.owner_before up up' p q = ptr_lt (p.m_shared.map up) (q.m_shared.map up') := by
  unfold SharedPtr.owner_before Intruder.pntr_get_owner
  cases p.m_shared <;> cases q.m_shared <;> rfl

theorem shared_owner_before_weak_eq (up : Nat → Nat) (p : SharedPtr) (w : WeakPtr) :
    SharedPtr.owner_before_weak up p w = ptr_lt (p.m_shared.map up) w.m_control := by
  unfold SharedPtr.owner_before_weak Intruder.pntr_get_owner WeakPtr.get_owner
  cases p.m_shared <;> rfl

theorem weak_owner_before_shared_eq (up' : Nat → Nat) (w : WeakPtr) (q : SharedPtr) :
    WeakPtr.owner_before_shared up' w q = ptr_lt w.m_control (q.m_shared.map up') := by
  unfold WeakPtr.owner_before_shared Intruder.pntr_get_owner WeakPtr.get_owner
  cases q.m_shared <;> rfl

/-- A `SharedPtr` that `lock()` returns points at what the pointer cast gives for the
control block of the `WeakPtr`. -/
theorem lock_result (c : Config) (fuel : Nat) (cast : Nat → Ptr) (w : WeakPtr) (mem : Memory)
    (p : SharedPtr) (mem' : Memory) (q : Nat)
    (h : WeakPtr.lock c fuel cast w mem = some (p, mem')) (hq : p.m_shared = some q) :
    ∃ o, w.m_control = some o ∧ cast o = some q := by
  unfold WeakPtr.lock at h
  cases hm : w.m_control with
  | none =>
    simp only [hm, SharedPtr.mk_add_ref] at h
    injection h with h
    injection h with h1 _
    rw [← h1] at hq
    cases hq
  | some o =>
    refine ⟨o, rfl, ?_⟩
    simp only [hm, ControlAlloc.try_get_shared] at h
    cases ht : try_add_ref c fuel (mem o) with
    | none => simp [ht] at h
    | some r =>
      obtain ⟨ok, ctl⟩ := r
      cases ok with
      | false =>
        simp only [ht, SharedPtr.mk_add_ref] at h
        injection h with h
        injection h with h1 _
        rw [← h1] at hq
        cases hq
      | true =>
        simp only [ht] at h
        cases hc : cast o with
        | none =>
          rw [hc] at h
          simp only [SharedPtr.mk_add_ref, Option.some.injEq, Prod.mk.injEq] at h
          rw [← h.1] at hq
          cases hq
        | some q' =>
          rw [hc] at h
          simp only [SharedPtr.mk_add_ref, Bool.false_eq_true, if_false, Option.some.injEq,
            Prod.mk.injEq] at h
          rw [← h.1] at hq
          exact hq

/-! ## Claims -/

/-- C1 (as stated) fails: on the saturated block of a byte with 2 usage and 2 weak bits
(usage 2, the maximum), which `try_control`, `try_add_ref` reach from a fresh block without
a failed assertion, `try_control()` does not return `e_invalid` where `PNTR_ASSERT` is
active, the default of `common.hpp`: the assertion `2 < 2` is false and the program ends
there.  Only with the assertion compiled out does the call return `e_invalid`. -/
theorem try_control_counterexample :
    Assert.run cfg_u08_2_2 1 [Op.try_control, Op.try_add_ref] (ControlData.init cfg_u08_2_2 0)
        = some (Outcome.returned ⟨0x06, 0, 0, 0⟩)
      ∧ use_count cfg_u08_2_2 ⟨0x06, 0, 0, 0⟩ = 2 ∧ get_max_usage_count cfg_u08_2_2 = 2
      ∧ Assert.try_control cfg_u08_2_2 1 ⟨0x06, 0, 0, 0⟩
          = some (Outcome.aborted ⟨0x06, 0, 0, 0⟩)
      ∧ try_control cfg_u08_2_2 1 ⟨0x06, 0, 0, 0⟩
          = some (ControlStatus.e_invalid, ⟨0x06, 0, 0, 0⟩) := by
  decide

/-- C1 (amended): for every control-block state, `try_control()` returns `e_acquired`
exactly when the usage field is the all-ones uncontrolled value (and then sets the usage
to 1), returns `e_shared` exactly when the usage is strictly between 0 and
`get_max_usage_count()` (and then increments it by 1), and returns `e_invalid` leaving the
storage unchanged when the usage is 0.  For every other usage value (the maximum, or a
stored offset above it) `PNTR_ASSERT(usage < max)` is false: where the assertion is active
the program ends at it with the storage unchanged, and where it is compiled out the call
returns `e_invalid` leaving the storage unchanged.  Whenever the call returns, the weak,
offset, size, align and user fields are unchanged.  Here `try_control` is the call with the
assertion compiled out and `Assert.try_control` the call with the assertion active. -/
theorem try_control_spec (c : Config) (s : ControlData) (fuel : Nat)
    (hc : c.valid = true) (hs : s.wf c) (hf : 0 < fuel) :
    ∃ r s', try_control c fuel s = some (r, s')
      ∧ Assert.try_control c fuel s
        = some (if use_count c s = c.s_uncontrolled ∨ use_count c s < get_max_usage_count c
                then Outcome.returned (r, s') else Outcome.aborted s)
      ∧ c.s_uncontrolled = 2 ^ c.usage_bits - 1
      ∧ (r = ControlStatus.e_acquired ↔ use_count c s = c.s_uncontrolled)
      ∧ (r = ControlStatus.e_acquired → use_count c s' = 1)
      ∧ (r = ControlStatus.e_shared
          ↔ 0 < use_count c s ∧ use_count c s < get_max_usage_count c)
      ∧ (r = ControlStatus.e_shared → use_count c s' = use_count c s + 1)
      ∧ (r = ControlStatus.e_invalid
          ↔ ¬ use_count c s = c.s_uncontrolled
            ∧ ¬ (0 < use_count c s ∧ use_count c s < get_max_usage_count c))
      ∧ (use_count c s = 0 → r = ControlStatus.e_invalid
          ∧ Assert.try_control c fuel s = some (Outcome.returned (r, s)))
      ∧ (r = ControlStatus.e_invalid → s' = s)
      ∧ sameFields c s s' := by
  have hunc : c.s_uncontrolled = 2 ^ c.usage_bits - 1 := by
    have := s_usage_mask_eq c hc
    rw [(valid_usage c hc).2.2] at this
    exact this
  have hm := s_usage_max_lt c hc
  have hmax : get_max_usage_count c = c.s_usage_max := rfl
  obtain ⟨ra, ea, eA⟩ := assert_try_control_eq c s fuel hf
  by_cases h1 : use_count c s = c.s_uncontrolled
  · obtain ⟨s', e, a, _, d, _⟩ := try_control_acquire c hc s hs fuel hf h1
    have hnr : ¬ (0 < use_count c s ∧ use_count c s < get_max_usage_count c) :=
      fun h => not_uncontrolled_of_range c hc s h.2 h1
    rw [e] at ea
    injection ea with ea
    subst ea
    refine ⟨_, s', e, eA, hunc, ?_, fun _ => a, ?_, ?_, ?_, ?_, ?_, d⟩
    · simp [h1]
    · simp [hnr]
    · intro h; cases h
    · simp [h1]
    · intro h0
      omega
    · intro h; cases h
  · by_cases h2 : 0 < use_count c s ∧ use_count c s < get_max_usage_count c
    · obtain ⟨s', e, a, _, d⟩ := try_control_share c hc s hs fuel hf h2
      rw [e] at ea
      injection ea with ea
      subst ea
      refine ⟨_, s', e, eA, hunc, ?_, ?_, ?_, fun _ => a, ?_, ?_, ?_, d⟩
      · simp [h1]
      · intro h; cases h
      · simp [h2]
      · simp [h2]
      · intro h0
        omega
      · intro h; cases h
    · have e := try_control_invalid c s fuel hf h1 h2
      rw [e] at ea
      injection ea with ea
      subst ea
      refine ⟨_, s, e, eA, hunc, ?_, ?_, ?_, ?_, ?_, ?_,
        fun _ => rfl, sameFields_refl c s⟩
      · simp [h1]
      · intro h; cases h
      · simp [h2]
      · intro h; cases h
      · simp [h1, h2]
      · intro h0
        refine ⟨rfl, ?_⟩
        rw [eA, if_pos (Or.inr (by omega))]

/-- Witness for C1: the fresh block of the test configuration `(u08, 3, 2, 1, 1, 1)`,
on which the call returns with the assertion active as well. -/
theorem try_control_spec_witness :
    ∃ r s', try_control cfg_u08_3_2_1_1_1 1 (ControlData.init cfg_u08_3_2_1_1_1 1)
        = some (r, s')
      ∧ Assert.try_control cfg_u08_3_2_1_1_1 1 (ControlData.init cfg_u08_3_2_1_1_1 1)
        = some (if use_count cfg_u08_3_2_1_1_1 (ControlData.init cfg_u08_3_2_1_1_1 1)
                    = cfg_u08_3_2_1_1_1.s_uncontrolled
                  ∨ use_count cfg_u08_3_2_1_1_1 (ControlData.init cfg_u08_3_2_1_1_1 1)
                    < get_max_usage_count cfg_u08_3_2_1_1_1
                then Outcome.returned (r, s')
                else Outcome.aborted (ControlData.init cfg_u08_3_2_1_1_1 1))
      ∧ sameFields cfg_u08_3_2_1_1_1 (ControlData.init cfg_u08_3_2_1_1_1 1) s' := by
  obtain ⟨r, s', h, hA, _, _, _, _, _, _, _, _, hf⟩ :=
    try_control_spec cfg_u08_3_2_1_1_1 (ControlData.init cfg_u08_3_2_1_1_1 1) 1
      (by decide) (by decide) (by decide)
  exact ⟨r, s', h, hA, hf⟩

/-- C2 (as stated) fails: on a fresh, uncontrolled block `release()` returns true, with
the assertion active or not, although the usage was not 1 before the call and is not 0
after the decrement nor after the call.  On an expired block (usage 0) the call with the
assertion compiled out returns true as well, and with `PNTR_ASSERT` active the program ends
at the assertion, after the decrement. -/
theorem release_counterexample :
    (release cfg_u08_8 (ControlData.init cfg_u08_8 0)).1 = true
      ∧ Assert.release cfg_u08_8 (ControlData.init cfg_u08_8 0)
          = Outcome.returned (true, ControlData.init cfg_u08_8 0)
      ∧ use_count cfg_u08_8 (ControlData.init cfg_u08_8 0) ≠ 1
      ∧ use_count cfg_u08_8 (set_usage_counter cfg_u08_8 (ControlData.init cfg_u08_8 0)
          (CounterThreadUnsafe.decrement cfg_u08_8.usage_type_bits
            (usage_counter cfg_u08_8 (ControlData.init cfg_u08_8 0)) s_usage_one).2) ≠ 0
      ∧ use_count cfg_u08_8 (release cfg_u08_8 (ControlData.init cfg_u08_8 0)).2 ≠ 0
      ∧ use_count cfg_u08_3_2 ⟨0x08, 0, 0, 0⟩ = 0
      ∧ release cfg_u08_3_2 ⟨0x08, 0, 0, 0⟩ = (true, ⟨0x08, 0, 0, 0⟩)
      ∧ Assert.release cfg_u08_3_2 ⟨0x08, 0, 0, 0⟩ = Outcome.aborted ⟨0x07, 0, 0, 0⟩ := by
  decide

/-- C2 (amended): on a block that is alive (usage in `1..max`) `release()` decrements the
usage by 1 and returns true if and only if the usage after the decrement is 0, that is
if and only if it was exactly 1 before the call; on an uncontrolled block it returns true
and leaves the storage unchanged.  Both hold with the assertion active or not.  On any
other block (usage 0, or above the maximum) `PNTR_ASSERT(previous == s_uncontrolled)` is
false: where the assertion is active the program ends at it, with the decremented word
in place, and where it is compiled out the call returns true and leaves the storage
unchanged.  Here `release` is the call with the assertion compiled out and
`Assert.release` the call with the assertion active. -/
theorem release_spec (c : Config) (s : ControlData) (hc : c.valid = true) (hs : s.wf c) :
    (1 ≤ use_count c s ∧ use_count c s ≤ get_max_usage_count c →
        Assert.release c s = Outcome.returned (release c s)
          ∧ use_count c (release c s).2 = use_count c s - 1
          ∧ ((release c s).1 = true ↔ use_count c (release c s).2 = 0)
          ∧ ((release c s).1 = true ↔ use_count c s = 1))
      ∧ (use_count c s = c.s_uncontrolled →
          Assert.release c s = Outcome.returned (true, s) ∧ release c s = (true, s))
      ∧ (¬ (1 ≤ use_count c s ∧ use_count c s ≤ get_max_usage_count c) →
          use_count c s ≠ c.s_uncontrolled →
          Assert.release c s
              = Outcome.aborted (set_usage_counter c s
                  (CounterThreadUnsafe.decrement c.usage_type_bits (usage_counter c s)
                    s_usage_one).2)
            ∧ release c s = (true, s)) := by
  have hm := s_usage_max_lt c hc
  have hA := assert_release_eq c hc s
  refine ⟨?_, ?_, ?_⟩
  · intro h
    obtain ⟨a, b, _, _, _⟩ := release_alive c hc s hs h
    refine ⟨?_, b, ?_, ?_⟩
    · rw [hA, if_pos (Or.inl h)]
    · rw [a, b]
      simp only [decide_eq_true_eq]
      omega
    · rw [a]
      simp
  · intro h
    have hna : ¬ (1 ≤ use_count c s ∧ use_count c s ≤ get_max_usage_count c) := by
      unfold get_max_usage_count
      omega
    have e := release_not_alive c hc s hs hna
    refine ⟨?_, e⟩
    rw [hA, if_pos (Or.inr h), e]
  · intro hna hnu
    refine ⟨?_, release_not_alive c hc s hs hna⟩
    rw [hA, if_neg]
    intro h
    rcases h with h | h
    · exact hna h
    · exact hnu h

/-- Witness for C2: the fresh block of the test configuration `(u08, 3, 2, 1, 1, 1)`, and
a block of the same configuration with usage 2. -/
theorem release_spec_witness :
    (Assert.release cfg_u08_3_2_1_1_1 (ControlData.init cfg_u08_3_2_1_1_1 1)
        = Outcome.returned (true, ControlData.init cfg_u08_3_2_1_1_1 1)
      ∧ release cfg_u08_3_2_1_1_1 (ControlData.init cfg_u08_3_2_1_1_1 1)
        = (true, ControlData.init cfg_u08_3_2_1_1_1 1))
      ∧ (Assert.release cfg_u08_3_2_1_1_1 ⟨0x0a, 0, 0, 0⟩
          = Outcome.returned (release cfg_u08_3_2_1_1_1 ⟨0x0a, 0, 0, 0⟩)
        ∧ use_count cfg_u08_3_2_1_1_1 (release cfg_u08_3_2_1_1_1 ⟨0x0a, 0, 0, 0⟩).2
          = use_count cfg_u08_3_2_1_1_1 ⟨0x0a, 0, 0, 0⟩ - 1) :=
  ⟨(release_spec cfg_u08_3_2_1_1_1 (ControlData.init cfg_u08_3_2_1_1_1 1)
      (by decide) (by decide)).2.1 (by decide),
    ((release_spec cfg_u08_3_2_1_1_1 ⟨0x0a, 0, 0, 0⟩ (by decide) (by decide)).1
      (by decide)).1,
    ((release_spec cfg_u08_3_2_1_1_1 ⟨0x0a, 0, 0, 0⟩ (by decide) (by decide)).1
      (by decide)).2.1⟩

/-- C3: for every `N` with `1 ≤ N ≤ get_max_usage_count()`, after `try_control()` on a
freshly constructed block followed by `N - 1` calls of `add_ref()` the use count is `N`;
of the `N` calls of `release()` that follow the first `N - 1` return false and only the
last returns true, leaving the use count at 0. -/
theorem use_count_lifecycle (c : Config) (p_user_init N fuel : Nat)
    (hc : c.valid = true) (hf : 0 < fuel) (hN : 1 ≤ N ∧ N ≤ get_max_usage_count c) :
    ∃ s1, try_control c fuel (ControlData.init c p_user_init)
        = some (ControlStatus.e_acquired, s1)
      ∧ use_count c (add_ref_n c (N - 1) s1) = N
      ∧ (release_n c N (add_ref_n c (N - 1) s1)).1 = List.replicate (N - 1) false ++ [true]
      ∧ use_count c (release_n c N (add_ref_n c (N - 1) s1)).2 = 0 := by
  obtain ⟨h0, hw0⟩ := init_usage c hc p_user_init
  obtain ⟨s1, e, a, b, _, _⟩ :=
    try_control_acquire c hc (ControlData.init c p_user_init) hw0 fuel hf h0
  obtain ⟨a2, b2, _⟩ := add_ref_n_count c hc (N - 1) s1 b (by omega) (by omega)
  have hcount : use_count c (add_ref_n c (N - 1) s1) = N := by omega
  obtain ⟨n, rfl⟩ : ∃ n, N = n + 1 := ⟨N - 1, by omega⟩
  obtain ⟨a3, b3⟩ := release_n_count c hc n _ b2 hcount hN.2
  exact ⟨s1, e, hcount, a3, b3⟩

/-- Witness for C3: three handles on a block of the test configuration
`(u08, 3, 2, 1, 1, 1)`. -/
theorem use_count_lifecycle_witness :
    ∃ s1, try_control cfg_u08_3_2_1_1_1 1 (ControlData.init cfg_u08_3_2_1_1_1 0)
        = some (ControlStatus.e_acquired, s1)
      ∧ use_count cfg_u08_3_2_1_1_1 (add_ref_n cfg_u08_3_2_1_1_1 (3 - 1) s1) = 3
      ∧ (release_n cfg_u08_3_2_1_1_1 3 (add_ref_n cfg_u08_3_2_1_1_1 (3 - 1) s1)).1
          = List.replicate (3 - 1) false ++ [true]
      ∧ use_count cfg_u08_3_2_1_1_1
          (release_n cfg_u08_3_2_1_1_1 3 (add_ref_n cfg_u08_3_2_1_1_1 (3 - 1) s1)).2 = 0 :=
  use_count_lifecycle cfg_u08_3_2_1_1_1 0 3 1 (by decide) (by decide) (by decide)

/-- C4 (as stated) fails: with eight usage bits and no shared offset the maximum usage
count is 254, not `2 ^ 8 - 1`. -/
theorem get_max_usage_count_counterexample :
    cfg_u08_8.valid = true ∧ cfg_u08_8.s_shared_offset = false
      ∧ get_max_usage_count cfg_u08_8 = 254
      ∧ get_max_usage_count cfg_u08_8 ≠ 2 ^ cfg_u08_8.usage_bits - 1 := by
  decide

/-- C4 (amended): `get_max_usage_count()` equals `2 ^ usage_bits - 2` when the offset
field does not share the usage bits (the all-ones value is the uncontrolled value), and
`(2 ^ usage_bits - 1) >> 1` when the offset bits are `shared_bits`, for every
configuration with at least two usage bits. -/
theorem get_max_usage_count_spec (c : Config) (hc : c.valid = true) :
    2 ≤ c.usage_bits
      ∧ (c.s_shared_offset = false → get_max_usage_count c = 2 ^ c.usage_bits - 2)
      ∧ (c.s_shared_offset = true →
          get_max_usage_count c = (2 ^ c.usage_bits - 1) >>> 1) := by
  have hu := valid_usage c hc
  have hunc : c.s_uncontrolled = 2 ^ c.usage_bits - 1 := by
    have := s_usage_mask_eq c hc
    rw [hu.2.2] at this
    exact this
  refine ⟨by omega, ?_, ?_⟩
  · intro h
    unfold get_max_usage_count Config.s_usage_max
    rw [h, hunc]
    simp only [Bool.false_eq_true, if_false, s_usage_one]
    omega
  · intro h
    unfold get_max_usage_count Config.s_usage_max
    rw [h, hunc]
    rfl

/-- Witness for C4: the test configuration `(u08, 4, 2, sb, 0, 0)` has maximum 7. -/
theorem get_max_usage_count_spec_witness :
    get_max_usage_count cfg_u08_4_2_sb = (2 ^ cfg_u08_4_2_sb.usage_bits - 1) >>> 1 :=
  (get_max_usage_count_spec cfg_u08_4_2_sb (by decide)).2.2 (by decide)

/-- C5 (as stated) fails: with two usage bits and offset bits of their own the maximum is
2 and the second `try_control()` returns `e_shared`, leaving the use count at 2; and with
the offset in the usage bits the use count of a fresh (uncontrolled) block reads 3, and it
reads 2 once `try_set_offset(0)` has stored the offset on the expired block. -/
theorem two_usage_bits_counterexample :
    cfg_u08_2_2.valid = true ∧ cfg_u08_2_2.usage_bits = 2
      ∧ get_max_usage_count cfg_u08_2_2 = 2
      ∧ try_control cfg_u08_2_2 1 (ControlData.init cfg_u08_2_2 0)
          = some (ControlStatus.e_acquired, ⟨5, 0, 0, 0⟩)
      ∧ try_control cfg_u08_2_2 1 ⟨5, 0, 0, 0⟩ = some (ControlStatus.e_shared, ⟨6, 0, 0, 0⟩)
      ∧ use_count cfg_u08_2_2 ⟨6, 0, 0, 0⟩ = 2
      ∧ cfg_u08_2_2_sb.valid = true ∧ cfg_u08_2_2_sb.usage_bits = 2
      ∧ use_count cfg_u08_2_2_sb (ControlData.init cfg_u08_2_2_sb 0) = 3
      ∧ (run cfg_u08_2_2_sb 1 [Op.try_control, Op.release, Op.try_set_offset 0]
          (ControlData.init cfg_u08_2_2_sb 0)).map (use_count cfg_u08_2_2_sb) = some 2 := by
  decide

/-- C5 (amended): for every configuration with two usage bits whose offset bits are
`shared_bits`, `get_max_usage_count() == 1`; after a `try_control()` that acquired the
block, a further `try_control()` finds `PNTR_ASSERT(1 < 1)` false: where the assertion is
active the program ends at it, and where it is compiled out the call returns `e_invalid`
and changes nothing; and in every state reachable from a fresh block through the
operations other than `add_ref` and `try_set_offset`, with the assertions compiled out, or
active and none of them failing, the block is uncontrolled or `use_count()` is at most 1.
Here `try_control` and `run` are the calls with the assertions compiled out,
`Assert.try_control` and `Assert.run` the calls with the assertions active. -/
theorem two_usage_bits_shared (c : Config) (fuel : Nat) (hc : c.valid = true)
    (hu2 : c.usage_bits = 2) (hsh : c.s_shared_offset = true) (hf : 0 < fuel) :
    get_max_usage_count c = 1
      ∧ (∀ s s1, s.wf c → try_control c fuel s = some (ControlStatus.e_acquired, s1) →
          Assert.try_control c fuel s = some (Outcome.returned (ControlStatus.e_acquired, s1))
            ∧ Assert.try_control c fuel s1 = some (Outcome.aborted s1)
            ∧ try_control c fuel s1 = some (ControlStatus.e_invalid, s1))
      ∧ (∀ (p_user_init : Nat) (ops : List Op), (∀ op ∈ ops, op.checked = true) →
          (∃ s', run c fuel ops (ControlData.init c p_user_init) = some s'
            ∧ (is_uncontrolled c s' = true ∨ use_count c s' ≤ 1))
          ∧ ∀ s', Assert.run c fuel ops (ControlData.init c p_user_init)
                = some (Outcome.returned s') →
              is_uncontrolled c s' = true ∨ use_count c s' ≤ 1) := by
  have hu := valid_usage c hc
  have hub : c.s_usage_bits = 2 := by omega
  have hmax : get_max_usage_count c = 1 := by
    unfold get_max_usage_count
    rw [s_usage_max_shared c hc hsh, hub]
    rfl
  have hunc : c.s_uncontrolled = 3 := by
    have := s_usage_mask_eq c hc
    unfold Config.s_uncontrolled
    rw [this, hub]
    rfl
  refine ⟨hmax, ?_, ?_⟩
  · intro s s1 hs e
    by_cases h1 : use_count c s = c.s_uncontrolled
    · obtain ⟨s', e', a, b, _, _⟩ := try_control_acquire c hc s hs fuel hf h1
      rw [e'] at e
      have hs1 : s' = s1 := by
        injection e with e
        injection e
      subst hs1
      obtain ⟨r0, e0, eA0⟩ := assert_try_control_eq c s fuel hf
      rw [e'] at e0
      injection e0 with e0
      subst e0
      obtain ⟨r1, _, eA1⟩ := assert_try_control_eq c s' fuel hf
      refine ⟨?_, ?_, try_control_invalid c s' fuel hf (by omega) (by omega)⟩
      · rw [eA0, if_pos (Or.inl h1)]
      · rw [eA1, if_neg]
        omega
    · by_cases h2 : 0 < use_count c s ∧ use_count c s < get_max_usage_count c
      · omega
      · rw [try_control_invalid c s fuel hf h1 h2] at e
        injection e with e
        injection e with e
        cases e
  · intro p_user_init ops hops
    obtain ⟨h0, hw0⟩ := init_usage c hc p_user_init
    obtain ⟨s', e, _, h⟩ := checked_run c hc fuel hf ops _ hops hw0 (Or.inl h0)
    have hres : is_uncontrolled c s' = true ∨ use_count c s' ≤ 1 := by
      rcases h with h | h
      · exact Or.inl ((is_uncontrolled_iff c s').mpr h)
      · exact Or.inr (by omega)
    refine ⟨⟨s', e, hres⟩, ?_⟩
    intro s2 e2
    have e3 := assert_run_returned c hc fuel hf ops _ s2 e2
    rw [e] at e3
    injection e3 with e3
    rw [← e3]
    exact hres

/-- Witness for C5: a single byte with two usage bits and the offset in the usage bits;
acquire, release, revive and acquire again, without a failed assertion. -/
theorem two_usage_bits_shared_witness :
    get_max_usage_count cfg_u08_2_2_sb = 1
      ∧ (Assert.try_control cfg_u08_2_2_sb 1 ⟨0x05, 0, 0, 0⟩
            = some (Outcome.aborted ⟨0x05, 0, 0, 0⟩)
          ∧ try_control cfg_u08_2_2_sb 1 ⟨0x05, 0, 0, 0⟩
            = some (ControlStatus.e_invalid, ⟨0x05, 0, 0, 0⟩))
      ∧ (∃ s', run cfg_u08_2_2_sb 1 [Op.try_control, Op.release, Op.try_revive, Op.try_control]
            (ControlData.init cfg_u08_2_2_sb 0) = some s'
          ∧ (is_uncontrolled cfg_u08_2_2_sb s' = true ∨ use_count cfg_u08_2_2_sb s' ≤ 1))
      ∧ Assert.run cfg_u08_2_2_sb 1 [Op.try_control, Op.release, Op.try_revive, Op.try_control]
            (ControlData.init cfg_u08_2_2_sb 0) = some (Outcome.returned ⟨0x05, 0, 0, 0⟩) :=
  ⟨(two_usage_bits_shared cfg_u08_2_2_sb 1 (by decide) (by decide) (by decide)
      (by decide)).1,
    ((two_usage_bits_shared cfg_u08_2_2_sb 1 (by decide) (by decide) (by decide)
      (by decide)).2.1 (ControlData.init cfg_u08_2_2_sb 0) ⟨0x05, 0, 0, 0⟩ (by decide)
      (by decide)).2,
    ((two_usage_bits_shared cfg_u08_2_2_sb 1 (by decide) (by decide) (by decide)
      (by decide)).2.2 0 [Op.try_control, Op.release, Op.try_revive, Op.try_control]
      (by decide)).1,
    by decide⟩

/-- C6 (as stated) fails: on the saturated block of a byte with 2 usage and 2 weak bits
(usage 2, the maximum), which `try_control`, `try_add_ref` reach from a fresh block without
a failed assertion, `try_add_ref()` does not return false where `PNTR_ASSERT` is active,
the default of `common.hpp`: the assertion `2 < 2` is false and the program ends there.
Only with the assertion compiled out does the call return false. -/
theorem try_add_ref_counterexample :
    Assert.run cfg_u08_2_2 1 [Op.try_control, Op.try_add_ref] (ControlData.init cfg_u08_2_2 0)
        = some (Outcome.returned ⟨0x06, 0, 0, 0⟩)
      ∧ use_count cfg_u08_2_2 ⟨0x06, 0, 0, 0⟩ = 2 ∧ get_max_usage_count cfg_u08_2_2 = 2
      ∧ Assert.try_add_ref cfg_u08_2_2 1 ⟨0x06, 0, 0, 0⟩
          = some (Outcome.aborted ⟨0x06, 0, 0, 0⟩)
      ∧ try_add_ref cfg_u08_2_2 1 ⟨0x06, 0, 0, 0⟩ = some (false, ⟨0x06, 0, 0, 0⟩) := by
  decide

/-- C6 (amended): for every control-block state, `try_add_ref()` returns true exactly when
the usage is strictly between 0 and `get_max_usage_count()` before the call, in which case
the usage is incremented by exactly 1, and it returns false leaving the whole storage
unchanged when the usage is 0.  For every other usage value (the maximum, a stored offset
above it, or the uncontrolled value) `PNTR_ASSERT(usage < max)` is false: where the
assertion is active the program ends at it with the storage unchanged, and where it is
compiled out the call returns false and the whole storage is unchanged.  Whenever the call
returns, the weak, offset, size, align and user fields are unchanged.  Here `try_add_ref`
is the call with the assertion compiled out and `Assert.try_add_ref` the call with the
assertion active. -/
theorem try_add_ref_spec (c : Config) (s : ControlData) (fuel : Nat)
    (hc : c.valid = true) (hs : s.wf c) (hf : 0 < fuel) :
    ∃ r s', try_add_ref c fuel s = some (r, s')
      ∧ Assert.try_add_ref c fuel s
        = some (if use_count c s < get_max_usage_count c then Outcome.returned (r, s')
                else Outcome.aborted s)
      ∧ (r = true ↔ 0 < use_count c s ∧ use_count c s < get_max_usage_count c)
      ∧ (r = true → use_count c s' = use_count c s + 1)
      ∧ (use_count c s = 0 →
          r = false ∧ Assert.try_add_ref c fuel s = some (Outcome.returned (r, s)))
      ∧ (r = false → s' = s)
      ∧ sameFields c s s' := by
  have hm := s_usage_max_lt c hc
  have hmax : get_max_usage_count c = c.s_usage_max := rfl
  obtain ⟨ra, ea, eA⟩ := assert_try_add_ref_eq c s fuel hf
  by_cases h2 : 0 < use_count c s ∧ use_count c s < get_max_usage_count c
  · obtain ⟨s', e, a, _, d⟩ := try_add_ref_share c hc s hs fuel hf h2
    rw [e] at ea
    injection ea with ea
    subst ea
    refine ⟨true, s', e, eA, ?_, fun _ => a, ?_, ?_, d⟩
    · simp [h2]
    · intro h0
      omega
    · intro h; cases h
  · have e := try_add_ref_fail c s fuel hf h2
    rw [e] at ea
    injection ea with ea
    subst ea
    refine ⟨false, s, e, eA, ?_, ?_, ?_, fun _ => rfl, sameFields_refl c s⟩
    · simp [h2]
    · intro h; cases h
    · intro h0
      refine ⟨rfl, ?_⟩
      rw [eA, if_pos (by omega)]

/-- Witness for C6: a block of the test configuration `(u08, 3, 2, 1, 1, 1)` with usage 2,
on which the call returns true with the assertion active as well. -/
theorem try_add_ref_spec_witness :
    ∃ r s', try_add_ref cfg_u08_3_2_1_1_1 1 ⟨0x0a, 0, 0, 0⟩ = some (r, s')
      ∧ Assert.try_add_ref cfg_u08_3_2_1_1_1 1 ⟨0x0a, 0, 0, 0⟩
        = some (if use_count cfg_u08_3_2_1_1_1 ⟨0x0a, 0, 0, 0⟩
                    < get_max_usage_count cfg_u08_3_2_1_1_1
                then Outcome.returned (r, s') else Outcome.aborted ⟨0x0a, 0, 0, 0⟩)
      ∧ (r = true → use_count cfg_u08_3_2_1_1_1 s'
          = use_count cfg_u08_3_2_1_1_1 ⟨0x0a, 0, 0, 0⟩ + 1) := by
  obtain ⟨r, s', h, hA, _, h3, _⟩ :=
    try_add_ref_spec cfg_u08_3_2_1_1_1 ⟨0x0a, 0, 0, 0⟩ 1 (by decide) (by decide) (by decide)
  exact ⟨r, s', h, hA, h3⟩

/-- C7: for every non-empty `WeakPtr` whose control block has usage counter 0, `lock()`
returns an empty `SharedPtr` (`get() == nullptr`) and leaves the memory, hence the usage
and weak counters, unchanged: no handle holding a unit of usage is produced. -/
theorem lock_expired (c : Config) (fuel : Nat) (cast : Nat → Ptr) (w : WeakPtr)
    (mem : Memory) (a : Nat) (hf : 0 < fuel) (hw : w.m_control = some a)
    (h0 : use_count c (mem a) = 0) :
    ∃ p mem', WeakPtr.lock c fuel cast w mem = some (p, mem')
      ∧ p.get = none ∧ mem' = mem
      ∧ use_count c (mem' a) = 0 ∧ weak_count c (mem' a) = weak_count c (mem a) := by
  have hfail : try_add_ref c fuel (mem a) = some (false, mem a) :=
    try_add_ref_fail c (mem a) fuel hf (by omega)
  refine ⟨⟨none⟩, mem, ?_, rfl, rfl, h0, rfl⟩
  unfold WeakPtr.lock
  rw [hw]
  simp only [ControlAlloc.try_get_shared, hfail, SharedPtr.mk_add_ref,
    Function.update_eq_self]

/-- Witness for C7: a weak pointer to an expired block of the test configuration
`(u08, 3, 2, 1, 1, 1)` at address 16. -/
theorem lock_expired_witness :
    ∃ p mem', WeakPtr.lock cfg_u08_3_2_1_1_1 1 (fun a => some a) ⟨some 16⟩
        (fun _ => ⟨8, 0, 0, 0⟩) = some (p, mem')
      ∧ p.get = none ∧ mem' = (fun _ => ⟨8, 0, 0, 0⟩)
      ∧ use_count cfg_u08_3_2_1_1_1 (mem' 16) = 0
      ∧ weak_count cfg_u08_3_2_1_1_1 (mem' 16)
          = weak_count cfg_u08_3_2_1_1_1 ((fun _ => (⟨8, 0, 0, 0⟩ : ControlData)) 16) :=
  lock_expired cfg_u08_3_2_1_1_1 1 (fun a => some a) ⟨some 16⟩ (fun _ => ⟨8, 0, 0, 0⟩) 16
    (by decide) rfl (by decide)

/-- C8 (as stated) fails: on a fresh, uncontrolled block (usage 255, not 0) `try_revive()`
returns true. -/
theorem try_revive_counterexample :
    use_count cfg_u08_8 (ControlData.init cfg_u08_8 0) = 255
      ∧ try_revive cfg_u08_8 1 (ControlData.init cfg_u08_8 0)
          = some (true, ControlData.init cfg_u08_8 0) := by
  decide

/-- C8 (amended): `try_revive()` returns true exactly when the usage value is 0 or the
uncontrolled value at the time of the call; when it is 0 the usage is reset to the
uncontrolled value and the other fields are unchanged, when it is the uncontrolled value
the storage is unchanged; for every other usage value it returns false and the storage is
unchanged. -/
theorem try_revive_spec (c : Config) (s : ControlData) (fuel : Nat)
    (hc : c.valid = true) (hs : s.wf c) (hf : 0 < fuel) :
    ∃ r s', try_revive c fuel s = some (r, s')
      ∧ (r = true ↔ use_count c s = 0 ∨ use_count c s = c.s_uncontrolled)
      ∧ (use_count c s = 0 → use_count c s' = c.s_uncontrolled ∧ sameFields c s s')
      ∧ (use_count c s ≠ 0 → s' = s) := by
  by_cases h : use_count c s = 0
  · obtain ⟨s', e, a, _, d, _⟩ := try_revive_expired c hc s hs fuel hf h
    exact ⟨true, s', e, by simp [h], fun _ => ⟨a, d⟩, fun h' => absurd h h'⟩
  · refine ⟨_, s, try_revive_other c s fuel hf h, ?_, fun h' => absurd h' h, fun _ => rfl⟩
    simp [h]

/-- Witness for C8: an expired block of the test configuration `(u08, 3, 2, 1, 1, 1)`. -/
theorem try_revive_spec_witness :
    ∃ r s', try_revive cfg_u08_3_2_1_1_1 1 ⟨8, 0, 0, 0⟩ = some (r, s')
      ∧ (r = true ↔ use_count cfg_u08_3_2_1_1_1 ⟨8, 0, 0, 0⟩ = 0
          ∨ use_count cfg_u08_3_2_1_1_1 ⟨8, 0, 0, 0⟩ = cfg_u08_3_2_1_1_1.s_uncontrolled) := by
  obtain ⟨r, s', h, h2, _, _⟩ :=
    try_revive_spec cfg_u08_3_2_1_1_1 ⟨8, 0, 0, 0⟩ 1 (by decide) (by decide) (by decide)
  exact ⟨r, s', h, h2⟩

/-- The three calls of one revival cycle on an expired block. -/
theorem revive_cycle_steps (c : Config) (hc : c.valid = true) (s : ControlData) (hs : s.wf c)
    (fuel : Nat) (hf : 0 < fuel) (h : use_count c s = 0) :
    ∃ s1 s2, try_revive c fuel s = some (true, s1)
      ∧ try_control c fuel s1 = some (ControlStatus.e_acquired, s2)
      ∧ use_count c s2 = 1
      ∧ release c s2 = (true, s) := by
  have hu := valid_usage c hc
  have h4 := four_le_two_pow hu.1
  have hunc : c.s_uncontrolled = 2 ^ c.s_usage_bits - 1 := s_usage_mask_eq c hc
  have hm := s_usage_max_lt c hc
  obtain ⟨s1, e1, a1, b1, _, f1⟩ := try_revive_expired c hc s hs fuel hf h
  obtain ⟨s2, e2, a2, b2, _, f2⟩ := try_control_acquire c hc s1 b1 fuel hf a1
  obtain ⟨ra, _, _, _, rf⟩ := release_alive c hc s2 b2
    ⟨by omega, by unfold get_max_usage_count; omega⟩
  refine ⟨s1, s2, e1, e2, a2, ?_⟩
  have hx1 : usage_counter c s1 / 2 ^ c.s_usage_bits
      = usage_counter c s / 2 ^ c.s_usage_bits := by
    rw [f1, usage_counter_set, low_div _ _ _ (by omega)]
  have hx2 : usage_counter c s2 / 2 ^ c.s_usage_bits
      = usage_counter c s / 2 ^ c.s_usage_bits := by
    rw [f2, usage_counter_set, low_div _ _ _ (by omega), hx1]
  have hx0 : 2 ^ c.s_usage_bits * (usage_counter c s / 2 ^ c.s_usage_bits) + (1 - 1)
      = usage_counter c s := by
    have hd := Nat.div_add_mod (usage_counter c s) (2 ^ c.s_usage_bits)
    rw [use_count_eq c hc] at h
    omega
  have hstate : (release c s2).2 = s := by
    rw [rf, hx2, a2, hx0, f2, set_usage_counter_set, f1, set_usage_counter_set,
      set_usage_counter_self]
  have hret : (release c s2).1 = true := by
    rw [ra, a2]
    rfl
  exact Prod.ext hret hstate

theorem revive_cycle_eq (c : Config) (hc : c.valid = true) (s : ControlData) (hs : s.wf c)
    (fuel : Nat) (hf : 0 < fuel) (h : use_count c s = 0) :
    revive_cycle c fuel s = some s := by
  obtain ⟨s1, s2, e1, e2, a2, e3⟩ := revive_cycle_steps c hc s hs fuel hf h
  unfold revive_cycle
  rw [e1]
  simp only [e2, a2, if_true, e3]

/-- C9: for every control block whose usage is 0, `try_revive()` returns true and a
subsequent `try_control()` returns `e_acquired` with `use_count() == 1`; `release()` then
returns true and brings the block back to the state before the cycle, so the same
sequence succeeds again for any number of repetitions and the weak, offset, size, align
and user fields are the same after each cycle as before it. -/
theorem revival_round_trip (c : Config) (s : ControlData) (fuel : Nat)
    (hc : c.valid = true) (hs : s.wf c) (hf : 0 < fuel) (h : use_count c s = 0) :
    (∃ s1 s2, try_revive c fuel s = some (true, s1)
        ∧ try_control c fuel s1 = some (ControlStatus.e_acquired, s2)
        ∧ use_count c s2 = 1
        ∧ release c s2 = (true, s))
      ∧ ∀ n, ∃ s', revive_cycles c fuel n s = some s' ∧ use_count c s' = 0
          ∧ sameFields c s s' := by
  refine ⟨revive_cycle_steps c hc s hs fuel hf h, ?_⟩
  intro n
  refine ⟨s, ?_, h, sameFields_refl c s⟩
  induction n with
  | zero => rfl
  | succ n ih =>
    show (revive_cycle c fuel s).bind (revive_cycles c fuel n) = some s
    rw [revive_cycle_eq c hc s hs fuel hf h]
    exact ih

/-- Witness for C9: an expired block of the test configuration `(u08, 3, 2, 1, 1, 1)`,
five cycles. -/
theorem revival_round_trip_witness :
    ∃ s', revive_cycles cfg_u08_3_2_1_1_1 1 5 ⟨8, 0, 0, 0⟩ = some s'
      ∧ use_count cfg_u08_3_2_1_1_1 s' = 0
      ∧ sameFields cfg_u08_3_2_1_1_1 ⟨8, 0, 0, 0⟩ s' :=
  (revival_round_trip cfg_u08_3_2_1_1_1 ⟨8, 0, 0, 0⟩ 1 (by decide) (by decide) (by decide)
    (by decide)).2 5

/-- C10: from any control-block state whose usage is 0 (expired), no single operation
other than `try_revive()` produces a state in which `is_uncontrolled()` is true. -/
theorem expired_stays_expired (c : Config) (s : ControlData) (fuel : Nat) (op : Op)
    (hc : c.valid = true) (hs : s.wf c) (hf : 0 < fuel) (h0 : use_count c s = 0)
    (hop : op ≠ Op.try_revive) :
    ∃ s', Op.apply c fuel op s = some s' ∧ is_uncontrolled c s' = false := by
  have hu := valid_usage c hc
  have h4 := four_le_two_pow hu.1
  have hm := s_usage_max_lt c hc
  have hunc : c.s_uncontrolled = 2 ^ c.s_usage_bits - 1 := s_usage_mask_eq c hc
  have hne : use_count c s ≠ c.s_uncontrolled := by omega
  have hstay : is_uncontrolled c s = false := is_uncontrolled_false c s hne
  have keep : ∀ s', use_count c s' = use_count c s → is_uncontrolled c s' = false :=
    fun s' e => is_uncontrolled_false c s' (by rw [e]; exact hne)
  cases op with
  | try_revive => exact absurd rfl hop
  | try_control =>
    exact ⟨s, by simp [Op.apply, try_control_invalid c s fuel hf hne (by omega)], hstay⟩
  | try_add_ref =>
    exact ⟨s, by simp [Op.apply, try_add_ref_fail c s fuel hf (by omega)], hstay⟩
  | add_ref =>
    refine ⟨_, rfl, is_uncontrolled_false c _ ?_⟩
    unfold add_ref CounterThreadUnsafe.increment
    rw [use_count_set c hc, s_usage_one]
    have hx := use_count_eq c hc s
    have := inc_low c.usage_type_bits c.s_usage_bits (usage_counter c s) hu.2.1 hs.1
      (by omega)
    rw [this.1, this.2.1]
    omega
  | release =>
    refine ⟨s, ?_, hstay⟩
    have : ¬ (1 ≤ use_count c s ∧ use_count c s ≤ get_max_usage_count c) := by omega
    simp [Op.apply, release_not_alive c hc s hs this]
  | weak_add_ref => exact ⟨_, rfl, keep _ (weak_add_ref_usage c hc s hs).1⟩
  | weak_release => exact ⟨_, rfl, keep _ (weak_release_usage c hc s hs).1⟩
  | try_set_size p =>
    obtain ⟨r, s', e, a, _⟩ := try_set_size_usage c hc s hs fuel hf p
    exact ⟨s', by simp [Op.apply, e], keep s' a⟩
  | try_set_align p =>
    obtain ⟨r, s', e, a, _⟩ := try_set_align_usage c hc s hs fuel hf p
    exact ⟨s', by simp [Op.apply, e], keep s' a⟩
  | try_set_user p =>
    obtain ⟨r, s', e, a, _⟩ := try_set_user_usage c hc s hs fuel hf p
    exact ⟨s', by simp [Op.apply, e], keep s' a⟩
  | try_set_offset p =>
    by_cases hsh : c.s_shared_offset = true
    · obtain ⟨r, s', e, hr, hfalse, htrue, hmo⟩ :=
        try_set_offset_shared c hc s hs fuel hf p hsh
      refine ⟨s', by simp [Op.apply, e], ?_⟩
      cases r with
      | false => rw [hfalse rfl]; exact hstay
      | true =>
        have hp := (hr.mp rfl).1
        have huse := (htrue rfl).1
        apply is_uncontrolled_false
        have h2 : 2 ≤ 2 ^ (c.s_usage_bits - 1) := by
          calc 2 = 2 ^ 1 := by norm_num
            _ ≤ 2 ^ (c.s_usage_bits - 1) := Nat.pow_le_pow_right (by norm_num) (by omega)
        have hpow : 2 ^ c.s_usage_bits = 2 * 2 ^ (c.s_usage_bits - 1) := by
          obtain ⟨k, hk⟩ : ∃ k, c.s_usage_bits = k + 1 := ⟨c.s_usage_bits - 1, by omega⟩
          rw [hk, Nat.add_sub_cancel, Nat.pow_succ, Nat.mul_comm]
        omega
    · obtain ⟨r, s', e, a, _⟩ :=
        try_set_offset_usage c hc s hs fuel hf p (by simpa using hsh)
      exact ⟨s', by simp [Op.apply, e], keep s' a⟩

/-- Witness for C10: storing the offset in the usage bits of an expired block of the test
configuration `(u08, 4, 2, sb, 0, 0)`. -/
theorem expired_stays_expired_witness :
    ∃ s', Op.apply cfg_u08_4_2_sb 1 (Op.try_set_offset 6) ⟨16, 0, 0, 0⟩ = some s'
      ∧ is_uncontrolled cfg_u08_4_2_sb s' = false :=
  expired_stays_expired cfg_u08_4_2_sb ⟨16, 0, 0, 0⟩ 1 (Op.try_set_offset 6) (by decide)
    (by decide) (by decide) (by decide) (by decide)

/-- C11: a control block freshly constructed with a user value `u ≤ get_max_user()`
satisfies `is_uncontrolled() == true`, `is_alive() == false`, `weak_count() == 1` when weak
bits are configured, `get_size() == 0`, `get_align() == 0` and `get_user() == u`, in every
valid configuration, hence in each of the three storage layouts. -/
theorem fresh_block (c : Config) (u : Nat) (hc : c.valid = true) (hu : u ≤ get_max_user c) :
    is_uncontrolled c (ControlData.init c u) = true
      ∧ is_alive c (ControlData.init c u) = false
      ∧ (c.SupportsWeak = true → weak_count c (ControlData.init c u) = 1)
      ∧ get_size c (ControlData.init c u) = 0
      ∧ get_align c (ControlData.init c u) = 0
      ∧ get_user c (ControlData.init c u) = u := by
  obtain ⟨h1, _⟩ := init_usage c hc u
  obtain ⟨f1, f2, f3, f4, _⟩ := fresh_fields c hc u hu
  have hmax := s_usage_max_lt c hc
  refine ⟨(is_uncontrolled_iff c _).2 h1, ?_, ?_, f2, f3, f4⟩
  · have h1' : CounterThreadUnsafe.get_count (usage_counter c (ControlData.init c u))
        &&& c.s_usage_mask = c.s_uncontrolled := h1
    unfold is_alive
    simp only [h1']
    have : ¬ c.s_uncontrolled ≤ c.s_usage_max := by omega
    simp [this]
  · intro hw
    rw [f1, if_pos hw]

theorem fresh_block_witness :
    (cfg_u08_3_2.layout = Layout.single
        ∧ is_uncontrolled cfg_u08_3_2 (ControlData.init cfg_u08_3_2 5) = true
        ∧ get_user cfg_u08_3_2 (ControlData.init cfg_u08_3_2 5) = 5)
      ∧ (cfg_u16_8_4_4.layout = Layout.separateUsage
        ∧ is_alive cfg_u16_8_4_4 (ControlData.init cfg_u16_8_4_4 0) = false
        ∧ weak_count cfg_u16_8_4_4 (ControlData.init cfg_u16_8_4_4 0) = 1)
      ∧ (cfg_u32_16_8_8.layout = Layout.separateAll
        ∧ weak_count cfg_u32_16_8_8 (ControlData.init cfg_u32_16_8_8 0) = 1
        ∧ get_size cfg_u32_16_8_8 (ControlData.init cfg_u32_16_8_8 0) = 0) :=
  ⟨⟨by decide, (fresh_block cfg_u08_3_2 5 (by decide) (by decide)).1,
      (fresh_block cfg_u08_3_2 5 (by decide) (by decide)).2.2.2.2.2⟩,
    ⟨by decide, (fresh_block cfg_u16_8_4_4 0 (by decide) (by decide)).2.1,
      (fresh_block cfg_u16_8_4_4 0 (by decide) (by decide)).2.2.1 (by decide)⟩,
    ⟨by decide, (fresh_block cfg_u32_16_8_8 0 (by decide) (by decide)).2.2.1 (by decide),
      (fresh_block cfg_u32_16_8_8 0 (by decide) (by decide)).2.2.2.1⟩⟩

/-- C12: for every control block with `weak_count() ≥ 1`, `weak_release()` decrements the
weak count by exactly 1 and returns true if and only if the weak count is 0 afterwards;
the usage, offset, size, align and user fields are unchanged. -/
theorem weak_release_decrements (c : Config) (s : ControlData) (hc : c.valid = true)
    (hs : s.wf c) (h : 1 ≤ weak_count c s) :
    weak_count c (weak_release c s).2 = weak_count c s - 1
      ∧ ((weak_release c s).1 = true ↔ weak_count c (weak_release c s).2 = 0)
      ∧ use_count c (weak_release c s).2 = use_count c s
      ∧ get_offset c (weak_release c s).2 = get_offset c s
      ∧ get_size c (weak_release c s).2 = get_size c s
      ∧ get_align c (weak_release c s).2 = get_align c s
      ∧ get_user c (weak_release c s).2 = get_user c s := by
  obtain ⟨r1, r2, _, r4, r5, r6, r7, r8⟩ := weak_release_full c hc s hs h
  refine ⟨r2, ?_, r4, r5, r6, r7, r8⟩
  rw [r1, r2]
  simp only [decide_eq_true_eq]
  omega

theorem weak_release_decrements_witness :
    weak_count cfg_u08_3_2_1_1_1
        (weak_release cfg_u08_3_2_1_1_1 (ControlData.init cfg_u08_3_2_1_1_1 0)).2
        = weak_count cfg_u08_3_2_1_1_1 (ControlData.init cfg_u08_3_2_1_1_1 0) - 1
      ∧ ((weak_release cfg_u08_3_2_1_1_1 (ControlData.init cfg_u08_3_2_1_1_1 0)).1 = true
          ↔ weak_count cfg_u08_3_2_1_1_1
              (weak_release cfg_u08_3_2_1_1_1 (ControlData.init cfg_u08_3_2_1_1_1 0)).2 = 0)
      ∧ get_user cfg_u08_3_2_1_1_1
          (weak_release cfg_u08_3_2_1_1_1 (ControlData.init cfg_u08_3_2_1_1_1 0)).2
        = get_user cfg_u08_3_2_1_1_1 (ControlData.init cfg_u08_3_2_1_1_1 0) :=
  ⟨(weak_release_decrements cfg_u08_3_2_1_1_1 (ControlData.init cfg_u08_3_2_1_1_1 0)
      (by decide) (by decide) (by decide)).1,
    (weak_release_decrements cfg_u08_3_2_1_1_1 (ControlData.init cfg_u08_3_2_1_1_1 0)
      (by decide) (by decide) (by decide)).2.1,
    (weak_release_decrements cfg_u08_3_2_1_1_1 (ControlData.init cfg_u08_3_2_1_1_1 0)
      (by decide) (by decide) (by decide)).2.2.2.2.2.2⟩

/-- C13 (as stated) fails: with the offset stored in the usage bits, an allocator with
static support and a type that is not static-castable, the one `SharedPtr` of an object
is destroyed; the destructor runs once and `deallocate` is called once, but the usage
count read at that call is `2 ^ 3 + 3 = 11`, not 0 (the weak count is 0). -/
theorem deallocate_usage_counterexample :
    cfg_u08_4_2_sb.valid = true ∧ cfg_u08_4_2_sb.SupportsWeak = true
      ∧ System.run cfg_u08_4_2_sb ⟨true, false, 3⟩ 1 [HandleOp.acquire]
          (System.init cfg_u08_4_2_sb 0) = some ⟨⟨0x11, 0, 0, 0⟩, 1, 0, 0, []⟩
      ∧ use_count cfg_u08_4_2_sb ⟨0x11, 0, 0, 0⟩ = 1
      ∧ weak_count cfg_u08_4_2_sb ⟨0x11, 0, 0, 0⟩ = 1
      ∧ destroy_handles cfg_u08_4_2_sb ⟨true, false, 3⟩ 1 [Handle.shared]
          ⟨⟨0x11, 0, 0, 0⟩, 1, 0, 0, []⟩ = some ⟨⟨0x0b, 0, 0, 0⟩, 0, 0, 1, [(11, 0)]⟩ := by
  decide

/-- C13 (amended): for a weak-supporting `ControlAlloc` object owned by `N` `SharedPtr`
handles (`1 ≤ N ≤ get_max_usage_count()`) and `M` `WeakPtr` handles (the usage is `N`, the
weak count `M + 1`), and for every order in which those `N + M` handles are destroyed:
after every part of that order the destructor has run exactly once if all `N` `SharedPtr`
handles are gone and not at all otherwise, and `deallocate` has been called with a
non-null control block exactly once if all handles are gone and not at all otherwise; the
weak count read at that call is 0, and the usage read at that call is 0 unless the offset
shares the usage bits, the allocator has static support, the type is not static-castable
and the offset fits, in which case it is `2 ^ (usage_bits - 1) + offset`. -/
theorem handles_destroyed_once (c : Config) (a : Adapter) (fuel N M : Nat) (σ : System)
    (pre post : List Handle)
    (hc : c.valid = true) (hw : c.SupportsWeak = true) (hf : 0 < fuel)
    (hN : 1 ≤ N ∧ N ≤ get_max_usage_count c)
    (hσ : σ.control.wf c ∧ use_count c σ.control = N ∧ weak_count c σ.control = M + 1
      ∧ σ.shared = N ∧ σ.weak = M ∧ σ.destroyed = 0 ∧ σ.deallocated = [])
    (horder : (pre ++ post).count Handle.shared = N ∧ (pre ++ post).count Handle.weak = M) :
    ∃ σ', destroy_handles c a fuel pre σ = some σ'
      ∧ σ'.destroyed = (if pre.count Handle.shared = N then 1 else 0)
      ∧ ∃ usage, σ'.deallocated = (if post = [] then [(usage, 0)] else [])
        ∧ (a.s_supports_static = true ∧ a.is_static_castable = false
            ∧ c.s_shared_offset = true ∧ a.base_offset ≤ get_max_offset c →
          usage = 2 ^ (c.usage_bits - 1) + a.base_offset)
        ∧ (¬ (a.s_supports_static = true ∧ a.is_static_castable = false
            ∧ c.s_shared_offset = true ∧ a.base_offset ≤ get_max_offset c) →
          usage = 0) := by
  obtain ⟨h1, h2, h3, h4, h5, h6, h7⟩ := hσ
  obtain ⟨o1, o2⟩ := horder
  rw [List.count_append] at o1 o2
  have ho : σ.owned c a := by
    refine ⟨h1, ?_, ?_⟩
    · intro _
      exact ⟨by rw [h2, h4], by rw [h4]; exact hN.2, by rw [h3, h5], h6, h7⟩
    · intro hz
      omega
  obtain ⟨σ', e, ⟨_, p1, p2⟩, s1, s2⟩ :=
    destroy_handles_owned c hc hw a fuel hf pre σ ho (by omega) (by omega)
  obtain ⟨_, _, hub⟩ := valid_usage c hc
  refine ⟨σ', e, ?_, a.disposed_usage c, ?_, ?_, ?_⟩
  · by_cases hall : pre.count Handle.shared = N
    · rw [if_pos hall]
      exact (p2 (by omega)).2.1
    · rw [if_neg hall]
      exact (p1 (by omega)).2.2.2.1
  · by_cases hpost : post = []
    · rw [if_pos hpost]
      rw [hpost] at o1 o2
      simp only [List.count_nil, Nat.add_zero] at o1 o2
      exact (p2 (by omega)).2.2.2 (by omega)
    · rw [if_neg hpost]
      have hne : ¬ (post.count Handle.shared = 0 ∧ post.count Handle.weak = 0) :=
        fun h => hpost (handle_counts_nil post h)
      by_cases hs0 : 0 < σ'.shared
      · exact (p1 hs0).2.2.2.2
      · exact ((p2 (by omega)).2.2.1 (by omega)).2
  · intro hcond
    unfold Adapter.disposed_usage
    rw [if_pos hcond, hub]
  · intro hcond
    unfold Adapter.disposed_usage
    rw [if_neg hcond]

theorem handles_destroyed_once_witness :
    ∃ σ', destroy_handles cfg_u08_4_2_sb ⟨true, false, 3⟩ 1
          [Handle.shared, Handle.weak, Handle.shared] ⟨⟨0x22, 0, 0, 0⟩, 2, 1, 0, []⟩ = some σ'
      ∧ σ'.destroyed
          = (if [Handle.shared, Handle.weak, Handle.shared].count Handle.shared = 2
              then 1 else 0)
      ∧ ∃ usage, σ'.deallocated = (if ([] : List Handle) = [] then [(usage, 0)] else [])
        ∧ (((⟨true, false, 3⟩ : Adapter).s_supports_static = true
            ∧ (⟨true, false, 3⟩ : Adapter).is_static_castable = false
            ∧ cfg_u08_4_2_sb.s_shared_offset = true
            ∧ (⟨true, false, 3⟩ : Adapter).base_offset ≤ get_max_offset cfg_u08_4_2_sb) →
          usage = 2 ^ (cfg_u08_4_2_sb.usage_bits - 1)
            + (⟨true, false, 3⟩ : Adapter).base_offset)
        ∧ (¬ ((⟨true, false, 3⟩ : Adapter).s_supports_static = true
            ∧ (⟨true, false, 3⟩ : Adapter).is_static_castable = false
            ∧ cfg_u08_4_2_sb.s_shared_offset = true
            ∧ (⟨true, false, 3⟩ : Adapter).base_offset ≤ get_max_offset cfg_u08_4_2_sb) →
          usage = 0) :=
  handles_destroyed_once cfg_u08_4_2_sb ⟨true, false, 3⟩ 1 2 1
    ⟨⟨0x22, 0, 0, 0⟩, 2, 1, 0, []⟩ [Handle.shared, Handle.weak, Handle.shared] []
    (by decide) (by decide) (by decide) (by decide) (by decide) (by decide)

/-- C14 (as stated) fails: with two weak bits, after a `SharedPtr` has acquired the object
and three `WeakPtr` handles have been built from it, the block has not been deallocated,
its usage is 1 (not the uncontrolled value 7), and `weak_count()` reads 0: the fourth unit
of weak count does not fit, `weak_add_ref` only asserts that it does. -/
theorem weak_count_counterexample :
    cfg_u08_3_2.valid = true ∧ cfg_u08_3_2.SupportsWeak = true
      ∧ get_max_weak_count cfg_u08_3_2 = 3
      ∧ System.run cfg_u08_3_2 ⟨false, true, 0⟩ 1
          [HandleOp.acquire, HandleOp.weak_from_shared, HandleOp.weak_from_shared,
            HandleOp.weak_from_shared] (System.init cfg_u08_3_2 0)
        = some ⟨⟨0x21, 0, 0, 0⟩, 1, 3, 0, []⟩
      ∧ use_count cfg_u08_3_2 ⟨0x21, 0, 0, 0⟩ = 1
      ∧ cfg_u08_3_2.s_uncontrolled = 7
      ∧ weak_count cfg_u08_3_2 ⟨0x21, 0, 0, 0⟩ = 0 := by
  decide

/-- C14 (amended): in every state of a weak-supporting control block reached from
construction through handle operations (acquire, copy/destroy `SharedPtr`,
create/copy/destroy `WeakPtr`, lock) each of which meets the condition that `add_ref` or
`weak_add_ref` asserts (usage strictly between 0 and the maximum, weak count below the
maximum), and in which the block has not yet been deallocated, `weak_count() ≥ 1` whenever
the usage field is anything other than the uncontrolled value; every deallocation happens
in a state with `weak_count() == 0`; and every such operation returns. -/
theorem weak_count_invariant (c : Config) (a : Adapter) (fuel u : Nat) (ops : List HandleOp)
    (σ' : System) (hc : c.valid = true) (hw : c.SupportsWeak = true) (hf : 0 < fuel)
    (hu : u ≤ get_max_user c)
    (hrun : System.run_asserted c a fuel ops (System.init c u) = some σ') :
    (σ'.deallocated = [] → use_count c σ'.control ≠ c.s_uncontrolled →
        1 ≤ weak_count c σ'.control)
      ∧ (∀ e ∈ σ'.deallocated, e.2 = 0)
      ∧ (∀ op, σ'.deallocated = [] → σ'.present op = true → σ'.asserted c op = true →
          ∃ σ'', System.step c a fuel op σ' = some σ'') := by
  have hs := run_asserted_sound c hc hw a fuel hf ops (System.init c u) σ'
    (init_sound c hc hw a u hu) hrun
  refine ⟨?_, ?_, ?_⟩
  · intro hd _
    obtain ⟨_, h01, hlive, hdead⟩ := hs
    rcases h01 with h0 | h1
    · rw [(hlive h0).2.1]
      omega
    · rcases (hdead h1).2.2 with ⟨_, e2, e3⟩ | ⟨e1, _⟩
      · rw [e3]
        exact e2
      · rw [hd] at e1
        cases e1
  · intro e he
    obtain ⟨_, h01, hlive, hdead⟩ := hs
    rcases h01 with h0 | h1
    · rw [(hlive h0).1] at he
      cases he
    · rcases (hdead h1).2.2 with ⟨e1, _⟩ | ⟨e1, _⟩
      · rw [e1] at he
        cases he
      · rw [e1] at he
        simp only [List.mem_singleton] at he
        rw [he]
  · intro op hd hp ha
    obtain ⟨σ'', e, _⟩ := step_sound c hc hw a fuel hf op σ' hs hd hp ha
    exact ⟨σ'', e⟩

theorem weak_count_invariant_witness :
    ((⟨⟨0x11, 0, 0, 0⟩, 1, 1, 0, []⟩ : System).deallocated = [] →
        use_count cfg_u08_3_2 (⟨⟨0x11, 0, 0, 0⟩, 1, 1, 0, []⟩ : System).control
          ≠ cfg_u08_3_2.s_uncontrolled →
        1 ≤ weak_count cfg_u08_3_2 (⟨⟨0x11, 0, 0, 0⟩, 1, 1, 0, []⟩ : System).control)
      ∧ (∀ e ∈ (⟨⟨0, 0, 0, 0⟩, 0, 0, 1, [(0, 0)]⟩ : System).deallocated, e.2 = 0) :=
  ⟨(weak_count_invariant cfg_u08_3_2 ⟨false, true, 0⟩ 1 0
      [HandleOp.acquire, HandleOp.weak_from_shared] ⟨⟨0x11, 0, 0, 0⟩, 1, 1, 0, []⟩
      (by decide) (by decide) (by decide) (by decide) (by decide)).1,
    (weak_count_invariant cfg_u08_3_2 ⟨false, true, 0⟩ 1 0
      [HandleOp.acquire, HandleOp.weak_from_shared, HandleOp.destroy_shared,
        HandleOp.destroy_weak] ⟨⟨0, 0, 0, 0⟩, 0, 0, 1, [(0, 0)]⟩
      (by decide) (by decide) (by decide) (by decide) (by decide)).2.1⟩

/-- C15: in every valid configuration (hence for each storage layout) the lifecycle
operations keep the values written before the lifecycle starts: `try_control` and
`try_add_ref` (in every state), `add_ref` (when `0 < usage < max`) and `release` (when
`1 ≤ usage ≤ max`) leave `weak_count()`, `get_offset()`, `get_size()`, `get_align()` and
`get_user()` unchanged; `weak_add_ref` (when `weak < max weak`) and `weak_release` (when
`weak ≥ 1`) leave `use_count()`, `get_offset()`, `get_size()`, `get_align()` and
`get_user()` unchanged. -/
theorem lifecycle_frame (c : Config) (s : ControlData) (fuel : Nat)
    (hc : c.valid = true) (hs : s.wf c) (hf : 0 < fuel) :
    (∃ r s', try_control c fuel s = some (r, s')
        ∧ weak_count c s' = weak_count c s ∧ get_offset c s' = get_offset c s
        ∧ get_size c s' = get_size c s ∧ get_align c s' = get_align c s
        ∧ get_user c s' = get_user c s)
      ∧ (∃ r s', try_add_ref c fuel s = some (r, s')
        ∧ weak_count c s' = weak_count c s ∧ get_offset c s' = get_offset c s
        ∧ get_size c s' = get_size c s ∧ get_align c s' = get_align c s
        ∧ get_user c s' = get_user c s)
      ∧ (0 < use_count c s ∧ use_count c s < get_max_usage_count c →
        weak_count c (add_ref c s) = weak_count c s
        ∧ get_offset c (add_ref c s) = get_offset c s
        ∧ get_size c (add_ref c s) = get_size c s
        ∧ get_align c (add_ref c s) = get_align c s
        ∧ get_user c (add_ref c s) = get_user c s)
      ∧ (1 ≤ use_count c s ∧ use_count c s ≤ get_max_usage_count c →
        weak_count c (release c s).2 = weak_count c s
        ∧ get_offset c (release c s).2 = get_offset c s
        ∧ get_size c (release c s).2 = get_size c s
        ∧ get_align c (release c s).2 = get_align c s
        ∧ get_user c (release c s).2 = get_user c s)
      ∧ (weak_count c s < get_max_weak_count c →
        use_count c (weak_add_ref c s) = use_count c s
        ∧ get_offset c (weak_add_ref c s) = get_offset c s
        ∧ get_size c (weak_add_ref c s) = get_size c s
        ∧ get_align c (weak_add_ref c s) = get_align c s
        ∧ get_user c (weak_add_ref c s) = get_user c s)
      ∧ (1 ≤ weak_count c s →
        use_count c (weak_release c s).2 = use_count c s
        ∧ get_offset c (weak_release c s).2 = get_offset c s
        ∧ get_size c (weak_release c s).2 = get_size c s
        ∧ get_align c (weak_release c s).2 = get_align c s
        ∧ get_user c (weak_release c s).2 = get_user c s) := by
  refine ⟨?_, ?_, ?_, ?_, ?_, ?_⟩
  · by_cases hu : use_count c s = c.s_uncontrolled
    · obtain ⟨s', h, _, _, hsf, _⟩ := try_control_acquire c hc s hs fuel hf hu
      exact ⟨_, s', h, hsf⟩
    · by_cases hr : 0 < use_count c s ∧ use_count c s < get_max_usage_count c
      · obtain ⟨s', h, _, _, hsf⟩ := try_control_share c hc s hs fuel hf hr
        exact ⟨_, s', h, hsf⟩
      · exact ⟨_, s, try_control_invalid c s fuel hf hu hr, sameFields_refl c s⟩
  · by_cases hr : 0 < use_count c s ∧ use_count c s < get_max_usage_count c
    · obtain ⟨s', h, _, _, hsf⟩ := try_add_ref_share c hc s hs fuel hf hr
      exact ⟨_, s', h, hsf⟩
    · exact ⟨_, s, try_add_ref_fail c s fuel hf hr, sameFields_refl c s⟩
  · intro h
    exact (add_ref_share c hc s hs h).2.2
  · intro h
    exact (release_alive c hc s hs h).2.2.2.1
  · intro h
    obtain ⟨_, _, w3, w4, w5, w6, w7⟩ := weak_add_ref_full c hc s hs h
    exact ⟨w3, w4, w5, w6, w7⟩
  · intro h
    obtain ⟨_, _, _, w4, w5, w6, w7, w8⟩ := weak_release_full c hc s hs h
    exact ⟨w4, w5, w6, w7, w8⟩

theorem lifecycle_frame_witness :
    (cfg_u08_3_2_1_1_1.layout = Layout.single
        ∧ get_size cfg_u08_3_2_1_1_1 (add_ref cfg_u08_3_2_1_1_1 ⟨0xe9, 0, 0, 0⟩)
          = get_size cfg_u08_3_2_1_1_1 ⟨0xe9, 0, 0, 0⟩)
      ∧ (cfg_u16_8_4_4.layout = Layout.separateUsage
        ∧ get_offset cfg_u16_8_4_4 (weak_add_ref cfg_u16_8_4_4 ⟨0x51, 1, 0, 0⟩)
          = get_offset cfg_u16_8_4_4 ⟨0x51, 1, 0, 0⟩)
      ∧ (cfg_u32_16_8_8.layout = Layout.separateAll
        ∧ get_offset cfg_u32_16_8_8 (weak_release cfg_u32_16_8_8 ⟨0, 1, 1, 7⟩).2
          = get_offset cfg_u32_16_8_8 ⟨0, 1, 1, 7⟩) :=
  ⟨⟨by decide,
      ((lifecycle_frame cfg_u08_3_2_1_1_1 ⟨0xe9, 0, 0, 0⟩ 1 (by decide) (by decide)
        (by decide)).2.2.1 (by decide)).2.2.1⟩,
    ⟨by decide,
      ((lifecycle_frame cfg_u16_8_4_4 ⟨0x51, 1, 0, 0⟩ 1 (by decide) (by decide)
        (by decide)).2.2.2.2.1 (by decide)).2.1⟩,
    ⟨by decide,
      ((lifecycle_frame cfg_u32_16_8_8 ⟨0, 1, 1, 7⟩ 1 (by decide) (by decide)
        (by decide)).2.2.2.2.2 (by decide)).2.1⟩⟩

/-- C16: for each of the fields offset (offset bits not shared with the usage bits), size,
align and user, of width `b`: the maximum is `2 ^ b - 1` (0 when `b = 0`);
`try_set_X(v)` returns true if and only if `v ≤ maximum`; after a successful call
`get_X() == v` and the usage, the weak count and the three other data fields read as
before; after a failed call the storage is unchanged. -/
theorem try_set_field_spec (c : Config) (s : ControlData) (fuel v : Nat)
    (hc : c.valid = true) (hs : s.wf c) (hf : 0 < fuel) :
    (c.s_shared_offset = false →
        get_max_offset c = 2 ^ c.s_offset_bits - 1
        ∧ ∃ r s', try_set_offset c fuel v s = some (r, s')
          ∧ (r = true ↔ v ≤ get_max_offset c) ∧ (r = false → s' = s)
          ∧ (r = true → get_offset c s' = v ∧ use_count c s' = use_count c s
              ∧ weak_count c s' = weak_count c s ∧ get_size c s' = get_size c s
              ∧ get_align c s' = get_align c s ∧ get_user c s' = get_user c s))
      ∧ (get_max_size c = 2 ^ c.s_size_bits - 1
        ∧ ∃ r s', try_set_size c fuel v s = some (r, s')
          ∧ (r = true ↔ v ≤ get_max_size c) ∧ (r = false → s' = s)
          ∧ (r = true → get_size c s' = v ∧ use_count c s' = use_count c s
              ∧ weak_count c s' = weak_count c s ∧ get_offset c s' = get_offset c s
              ∧ get_align c s' = get_align c s ∧ get_user c s' = get_user c s))
      ∧ (get_max_align c = 2 ^ c.s_align_bits - 1
        ∧ ∃ r s', try_set_align c fuel v s = some (r, s')
          ∧ (r = true ↔ v ≤ get_max_align c) ∧ (r = false → s' = s)
          ∧ (r = true → get_align c s' = v ∧ use_count c s' = use_count c s
              ∧ weak_count c s' = weak_count c s ∧ get_offset c s' = get_offset c s
              ∧ get_size c s' = get_size c s ∧ get_user c s' = get_user c s))
      ∧ (get_max_user c = 2 ^ c.s_user_bits - 1
        ∧ ∃ r s', try_set_user c fuel v s = some (r, s')
          ∧ (r = true ↔ v ≤ get_max_user c) ∧ (r = false → s' = s)
          ∧ (r = true → get_user c s' = v ∧ use_count c s' = use_count c s
              ∧ weak_count c s' = weak_count c s ∧ get_offset c s' = get_offset c s
              ∧ get_size c s' = get_size c s ∧ get_align c s' = get_align c s)) := by
  refine ⟨?_, ?_, ?_, ?_⟩
  · intro hsh
    obtain ⟨r, s', h, h1, h2, h3⟩ := try_set_offset_full c hc s hs fuel hf v hsh
    refine ⟨s_offset_max_eq c hc hsh, r, s', h, h1, h2, ?_⟩
    intro hr
    obtain ⟨a1, _, a3, a4, a5, a6, a7⟩ := h3 hr
    exact ⟨a1, a3, a4, a5, a6, a7⟩
  · obtain ⟨r, s', h, h1, h2, h3⟩ := try_set_size_full c hc s hs fuel hf v
    refine ⟨s_size_max_eq c hc, r, s', h, h1, h2, ?_⟩
    intro hr
    obtain ⟨a1, _, a3, a4, a5, a6, a7⟩ := h3 hr
    exact ⟨a1, a3, a4, a5, a6, a7⟩
  · obtain ⟨r, s', h, h1, h2, h3⟩ := try_set_align_full c hc s hs fuel hf v
    refine ⟨s_align_max_eq c hc, r, s', h, h1, h2, ?_⟩
    intro hr
    obtain ⟨a1, _, a3, a4, a5, a6, a7⟩ := h3 hr
    exact ⟨a1, a3, a4, a5, a6, a7⟩
  · obtain ⟨r, s', h, h1, h2, h3⟩ := try_set_user_full c hc s hs fuel hf v
    refine ⟨s_user_max_eq c hc, r, s', h, h1, h2, ?_⟩
    intro hr
    obtain ⟨a1, _, a3, a4, a5, a6, a7⟩ := h3 hr
    exact ⟨a1, a3, a4, a5, a6, a7⟩

theorem try_set_field_spec_witness :
    get_max_size cfg_u08_3_2_1_1_1 = 2 ^ cfg_u08_3_2_1_1_1.s_size_bits - 1
      ∧ get_max_user cfg_u08_3_2 = 2 ^ cfg_u08_3_2.s_user_bits - 1
      ∧ ∃ r s', try_set_user cfg_u08_3_2 1 5 (ControlData.init cfg_u08_3_2 0) = some (r, s')
        ∧ (r = true ↔ 5 ≤ get_max_user cfg_u08_3_2) :=
  ⟨(try_set_field_spec cfg_u08_3_2_1_1_1 (ControlData.init cfg_u08_3_2_1_1_1 0) 1 1
      (by decide) (by decide) (by decide)).2.1.1,
    (try_set_field_spec cfg_u08_3_2 (ControlData.init cfg_u08_3_2 0) 1 5
      (by decide) (by decide) (by decide)).2.2.2.1,
    by
      obtain ⟨r, s', h, h1, _⟩ :=
        (try_set_field_spec cfg_u08_3_2 (ControlData.init cfg_u08_3_2 0) 1 5
          (by decide) (by decide) (by decide)).2.2.2.2
      exact ⟨r, s', h, h1⟩⟩

/-- C17: with the offset bits configured as `shared_bits`, `get_max_offset()` is
`2 ^ (usage_bits - 1) - 2`; `try_set_offset(p)` returns true if and only if
`p ≤ get_max_offset()` and the block is neither uncontrolled nor alive; after a successful
call `get_offset() == p` and the weak, size, align and user fields are unchanged; a
rejected call leaves the storage unchanged; and while the block is uncontrolled or its
usage value is at most the maximum, `get_offset()` returns the invalid value, the maximum
of `size_t`. -/
theorem try_set_offset_shared_spec (c : Config) (s : ControlData) (fuel p : Nat)
    (hc : c.valid = true) (hsh : c.s_shared_offset = true) (hs : s.wf c) (hf : 0 < fuel) :
    get_max_offset c = 2 ^ (c.usage_bits - 1) - 2
      ∧ (∃ r s', try_set_offset c fuel p s = some (r, s')
        ∧ (r = true ↔ p ≤ get_max_offset c ∧ is_uncontrolled c s = false
            ∧ is_alive c s = false)
        ∧ (r = true → get_offset c s' = p ∧ weak_count c s' = weak_count c s
            ∧ get_size c s' = get_size c s ∧ get_align c s' = get_align c s
            ∧ get_user c s' = get_user c s)
        ∧ (r = false → s' = s))
      ∧ (is_uncontrolled c s = true ∨ use_count c s ≤ get_max_usage_count c →
          get_offset c s = s_invalid_offset)
      ∧ s_invalid_offset = 2 ^ 64 - 1 := by
  obtain ⟨_, _, hub⟩ := valid_usage c hc
  obtain ⟨r, s', h, h1, h2, h3, h4⟩ := try_set_offset_shared c hc s hs fuel hf p hsh
  refine ⟨by rw [← hub]; exact h4, ⟨r, s', h, ?_, ?_, h2⟩, ?_, by decide⟩
  · rw [h1]
    have ha := is_alive_iff c s
    have hu := is_uncontrolled_iff c s
    constructor
    · rintro ⟨a1, a2, a3⟩
      refine ⟨a1, ?_, ?_⟩
      · cases hq : is_uncontrolled c s
        · rfl
        · exact absurd (hu.1 hq) a2
      · cases hq : is_alive c s
        · rfl
        · exact absurd (ha.1 hq) a3
    · rintro ⟨a1, a2, a3⟩
      refine ⟨a1, ?_, ?_⟩
      · intro hq
        rw [hu.2 hq] at a2
        cases a2
      · intro hq
        rw [ha.2 hq] at a3
        cases a3
  · intro hr
    obtain ⟨b1, _, b3, b4, b5, b6⟩ := h3 hr
    have hp : p ≤ get_max_offset c := (h1.1 hr).1
    exact ⟨get_offset_shared_stored c hc s' hsh p hp b1, b3, b4, b5, b6⟩
  · intro hq
    apply get_offset_shared_invalid c s hsh
    rcases hq with hq | hq
    · exact Or.inl ((is_uncontrolled_iff c s).1 hq)
    · exact Or.inr hq

theorem try_set_offset_shared_spec_witness :
    get_max_offset cfg_u08_4_2_sb = 2 ^ (cfg_u08_4_2_sb.usage_bits - 1) - 2
      ∧ ∃ r s', try_set_offset cfg_u08_4_2_sb 1 5 ⟨0x10, 0, 0, 0⟩ = some (r, s')
        ∧ (r = true ↔ 5 ≤ get_max_offset cfg_u08_4_2_sb
            ∧ is_uncontrolled cfg_u08_4_2_sb ⟨0x10, 0, 0, 0⟩ = false
            ∧ is_alive cfg_u08_4_2_sb ⟨0x10, 0, 0, 0⟩ = false)
        ∧ (r = true → get_offset cfg_u08_4_2_sb s' = 5) := by
  obtain ⟨h0, ⟨r, s', h, h1, h2, _⟩, _⟩ :=
    try_set_offset_shared_spec cfg_u08_4_2_sb ⟨0x10, 0, 0, 0⟩ 1 5
      (by decide) (by decide) (by decide) (by decide)
  exact ⟨h0, r, s', h, h1, fun hr => (h2 hr).1⟩

/-- C18 fails in the code for the configuration it names: with the configuration of
`IntruderMallocStatic` (64-bit storage, 32 usage bits, 32 weak bits, offset in the usage
bits), an allocator with static support and a type that is not static-castable (base
offset 1), after `make_shared`, a `WeakPtr` built from the `SharedPtr` and the destruction
of that only `SharedPtr`, the destructor has run once and the block is kept for the
`WeakPtr`, but the usage bits hold `0x80000001`: the `WeakPtr` reports
`expired() == false` and `use_count() == 2147483649`, while `is_alive()` is false and
`lock()` returns an empty `SharedPtr`. -/
theorem expired_after_static_destroy :
    cfg_u64_32_32_sb.valid = true ∧ cfg_u64_32_32_sb.SupportsWeak = true
      ∧ cfg_u64_32_32_sb.s_shared_offset = true
      ∧ System.run cfg_u64_32_32_sb ⟨true, false, 1⟩ 1
          [HandleOp.acquire, HandleOp.weak_from_shared, HandleOp.destroy_shared]
          (System.init cfg_u64_32_32_sb 0)
        = some ⟨⟨1, 0x80000001, 0, 0⟩, 0, 1, 1, []⟩
      ∧ WeakPtr.expired cfg_u64_32_32_sb ⟨some 0⟩ (fun _ => ⟨1, 0x80000001, 0, 0⟩) = false
      ∧ WeakPtr.use_count cfg_u64_32_32_sb ⟨some 0⟩ (fun _ => ⟨1, 0x80000001, 0, 0⟩)
          = 2147483649
      ∧ is_alive cfg_u64_32_32_sb ⟨1, 0x80000001, 0, 0⟩ = false
      ∧ (WeakPtr.lock cfg_u64_32_32_sb 1 (fun a => some a) ⟨some 0⟩
          (fun _ => ⟨1, 0x80000001, 0, 0⟩)).map (fun r => r.1.get) = some none := by
  decide

/-- C19 fails in the code: on a freshly constructed object of any weak-supporting
configuration, the `WeakPtr` returned by `weak_from_this()` is not empty, but both
`lock()` and the constructor `SharedPtr(WeakPtr)` go through `try_add_ref`, which rejects
the uncontrolled value: they return an empty `SharedPtr` (without throwing), leave the
memory as it is, and the object stays uncontrolled. -/
theorem weak_from_this_lock_uncontrolled (c : Config) (fuel u this : Nat) (cast : Nat → Ptr)
    (hc : c.valid = true) (hw : c.SupportsWeak = true) (hf : 0 < fuel)
    (hu : u ≤ get_max_user c) :
    ((Intruder.weak_from_this c this (fun _ => ControlData.init c u)).1).is_empty = false
      ∧ WeakPtr.lock c fuel cast (Intruder.weak_from_this c this (fun _ => ControlData.init c u)).1
          (Intruder.weak_from_this c this (fun _ => ControlData.init c u)).2
        = some (⟨none⟩, (Intruder.weak_from_this c this (fun _ => ControlData.init c u)).2)
      ∧ SharedPtr.from_weak c fuel cast
          (Intruder.weak_from_this c this (fun _ => ControlData.init c u)).1
          (Intruder.weak_from_this c this (fun _ => ControlData.init c u)).2
        = some (Except.ok
            (⟨none⟩, (Intruder.weak_from_this c this (fun _ => ControlData.init c u)).2))
      ∧ is_uncontrolled c
          ((Intruder.weak_from_this c this (fun _ => ControlData.init c u)).2 this) = true := by
  obtain ⟨h1, h2⟩ := init_usage c hc u
  obtain ⟨f1, _⟩ := fresh_fields c hc u hu
  rw [if_pos hw] at f1
  have hmax := s_usage_max_lt c hc
  have hwmax : 1 < get_max_weak_count c := by
    unfold get_max_weak_count
    rw [s_weak_max_eq c hc]
    have h4 : 4 ≤ 2 ^ c.s_weak_bits := four_le_two_pow (valid_weak c hc hw).1
    omega
  obtain ⟨_, _, w3, _⟩ := weak_add_ref_full c hc (ControlData.init c u) h2 (by rw [f1]; exact hwmax)
  have huc : use_count c (weak_add_ref c (ControlData.init c u)) = c.s_uncontrolled := by
    rw [w3, h1]
  have hfail := try_add_ref_fail c (weak_add_ref c (ControlData.init c u)) fuel hf
    (by rw [huc]; unfold get_max_usage_count; omega)
  have hmem : (Intruder.weak_from_this c this (fun _ => ControlData.init c u)).2 this
      = weak_add_ref c (ControlData.init c u) := by
    simp [Intruder.weak_from_this, WeakPtr.from_control]
  have hw1 : (Intruder.weak_from_this c this (fun _ => ControlData.init c u)).1 = ⟨some this⟩ :=
    rfl
  refine ⟨by rw [hw1]; rfl, ?_, ?_, ?_⟩
  · rw [hw1]
    unfold WeakPtr.lock ControlAlloc.try_get_shared
    simp only [hmem, hfail, SharedPtr.mk_add_ref]
    rw [← hmem, Function.update_eq_self]
  · rw [hw1]
    unfold SharedPtr.from_weak ControlAlloc.try_get_shared
    simp only [hmem, hfail]
    rw [← hmem, Function.update_eq_self]
  · rw [hmem]
    exact (is_uncontrolled_iff c _).2 huc

theorem weak_from_this_lock_uncontrolled_witness :
    WeakPtr.lock cfg_u08_3_2 1 (fun a => some a)
        (Intruder.weak_from_this cfg_u08_3_2 0 (fun _ => ControlData.init cfg_u08_3_2 0)).1
        (Intruder.weak_from_this cfg_u08_3_2 0 (fun _ => ControlData.init cfg_u08_3_2 0)).2
      = some (⟨none⟩,
          (Intruder.weak_from_this cfg_u08_3_2 0 (fun _ => ControlData.init cfg_u08_3_2 0)).2) :=
  (weak_from_this_lock_uncontrolled cfg_u08_3_2 1 0 0 (fun a => some a)
    (by decide) (by decide) (by decide) (by decide)).2.1

/-- C20: `shared_from_this()` called on an object that no handle controls yet returns a
non-empty `SharedPtr` to that object with `use_count() == 1`; called on an object that is
alive with `use_count() == n < max` it returns a non-empty `SharedPtr` to it and
`use_count()` becomes `n + 1`; with `ControlNew` as with `ControlAlloc`. -/
theorem shared_from_this_spec (c : Config) (fuel : Nat) (kind : ControlKind) (this : Nat)
    (mem : Memory) (hc : c.valid = true) (hf : 0 < fuel) (hwf : (mem this).wf c) :
    (is_uncontrolled c (mem this) = true →
        ∃ p mem', Intruder.shared_from_this c fuel kind this mem = some (p, mem')
          ∧ p.get = some this ∧ SharedPtr.use_count c p mem' = 1
          ∧ use_count c (mem' this) = 1)
      ∧ (∀ n, use_count c (mem this) = n → 1 ≤ n → n < get_max_usage_count c →
        ∃ p mem', Intruder.shared_from_this c fuel kind this mem = some (p, mem')
          ∧ p.get = some this ∧ SharedPtr.use_count c p mem' = n + 1
          ∧ use_count c (mem' this) = n + 1) := by
  constructor
  · intro hunc
    obtain ⟨s', e, q1, _⟩ :=
      try_control_acquire c hc (mem this) hwf fuel hf ((is_uncontrolled_iff c _).1 hunc)
    refine ⟨⟨some this⟩, Function.update mem this s', ?_, rfl, ?_, ?_⟩
    · unfold Intruder.shared_from_this SharedPtr.from_raw Intruder.pntr_try_control
        Control.try_control
      cases kind <;> simp [e]
    · simp [SharedPtr.use_count, q1]
    · simp [q1]
  · intro n hn h1 h2
    obtain ⟨s', e, q1, _⟩ :=
      try_control_share c hc (mem this) hwf fuel hf ⟨by omega, by rw [hn]; exact h2⟩
    refine ⟨⟨some this⟩, Function.update mem this s', ?_, rfl, ?_, ?_⟩
    · unfold Intruder.shared_from_this SharedPtr.from_raw Intruder.pntr_try_control
        Control.try_control
      cases kind <;> simp [e]
    · simp [SharedPtr.use_count, q1, hn]
    · simp [q1, hn]

theorem shared_from_this_spec_witness :
    (∃ p mem', Intruder.shared_from_this cfg_u08_3_2 1 ControlKind.control_alloc 7
              (fun _ => ControlData.init cfg_u08_3_2 0) = some (p, mem')
          ∧ p.get = some 7 ∧ SharedPtr.use_count cfg_u08_3_2 p mem' = 1
          ∧ use_count cfg_u08_3_2 (mem' 7) = 1)
      ∧ ∃ p mem', Intruder.shared_from_this cfg_u08_3_2 1 ControlKind.control_new 7
              (fun _ => ⟨0x0a, 0, 0, 0⟩) = some (p, mem')
          ∧ p.get = some 7 ∧ SharedPtr.use_count cfg_u08_3_2 p mem' = 2 + 1
          ∧ use_count cfg_u08_3_2 (mem' 7) = 2 + 1 :=
  ⟨(shared_from_this_spec cfg_u08_3_2 1 ControlKind.control_alloc 7
      (fun _ => ControlData.init cfg_u08_3_2 0) (by decide) (by decide) (by decide)).1
      (by decide),
    (shared_from_this_spec cfg_u08_3_2 1 ControlKind.control_new 7
      (fun _ => ⟨0x0a, 0, 0, 0⟩) (by decide) (by decide) (by decide)).2 2
      (by decide) (by decide) (by decide)⟩

/-- C21: constructing a `SharedPtr` from a raw pointer returns, and the handle is non-empty
if and only if the pointer is non-null and `try_control()` on the control block of the
object does not return `e_invalid`; for an object alive with `use_count() == n < max` the
handle points at the same object and `use_count()` becomes `n + 1`; on failure the memory
is unchanged.  For `ControlAlloc` the pointer is the shared base of the control block it
reaches, as it is for every class derived from `Intruder` (the address test passes). -/
theorem from_raw_spec (c : Config) (fuel : Nat) (kind : ControlKind) (same_base : Bool)
    (p : Ptr) (mem : Memory) (hc : c.valid = true) (hf : 0 < fuel)
    (hwf : ∀ a, p = some a → (mem a).wf c)
    (hbase : kind = ControlKind.control_alloc → same_base = true) :
    ∃ r mem', SharedPtr.from_raw c fuel kind same_base p mem = some (r, mem')
      ∧ (r.get ≠ none ↔
          ∃ a st s', p = some a ∧ try_control c fuel (mem a) = some (st, s')
            ∧ st ≠ ControlStatus.e_invalid)
      ∧ (r.get ≠ none → r.get = p)
      ∧ (∀ a n, p = some a → use_count c (mem a) = n → 1 ≤ n → n < get_max_usage_count c →
          r.get = some a ∧ use_count c (mem' a) = n + 1)
      ∧ (r.get = none → mem' = mem) := by
  cases p with
  | none =>
    refine ⟨⟨none⟩, mem, rfl, ?_, ?_, ?_, ?_⟩
    · constructor
      · intro h
        exact absurd rfl h
      · rintro ⟨a, _, _, h, _⟩
        cases h
    · intro h
      exact absurd rfl h
    · intro a n h
      cases h
    · intro _
      rfl
  | some a =>
    have hs := hwf a rfl
    have key : ∃ st s', try_control c fuel (mem a) = some (st, s')
        ∧ (st = ControlStatus.e_invalid → s' = mem a)
        ∧ (∀ n, use_count c (mem a) = n → 1 ≤ n → n < get_max_usage_count c →
            st = ControlStatus.e_shared ∧ use_count c s' = n + 1) := by
      by_cases hu : use_count c (mem a) = c.s_uncontrolled
      · obtain ⟨s', e, _⟩ := try_control_acquire c hc (mem a) hs fuel hf hu
        refine ⟨_, s', e, (fun h => by cases h), ?_⟩
        intro n hn _ h2
        have := s_usage_max_lt c hc
        unfold get_max_usage_count at h2
        omega
      · by_cases hr : 0 < use_count c (mem a) ∧ use_count c (mem a) < get_max_usage_count c
        · obtain ⟨s', e, q1, _⟩ := try_control_share c hc (mem a) hs fuel hf hr
          refine ⟨_, s', e, (fun h => by cases h), ?_⟩
          intro n hn _ _
          exact ⟨rfl, by rw [q1, hn]⟩
        · refine ⟨_, mem a, try_control_invalid c (mem a) fuel hf hu hr, fun _ => rfl, ?_⟩
          intro n hn h1 h2
          exact absurd ⟨by omega, by omega⟩ hr
    obtain ⟨st, s', e, k1, k2⟩ := key
    have hres : SharedPtr.from_raw c fuel kind same_base (some a) mem
        = some (⟨if st = ControlStatus.e_invalid then none else some a⟩,
            Function.update mem a s') := by
      unfold SharedPtr.from_raw Intruder.pntr_try_control Control.try_control
      cases kind with
      | control_new => cases st <;> simp [e]
      | control_alloc =>
        rw [hbase rfl]
        cases st <;> simp [e]
    refine ⟨_, _, hres, ?_, ?_, ?_, ?_⟩
    · constructor
      · intro h
        refine ⟨a, st, s', rfl, e, ?_⟩
        intro hst
        apply h
        simp [SharedPtr.get, hst]
      · rintro ⟨a', st', s'', ha, e', hst⟩
        cases ha
        rw [e] at e'
        cases e'
        simp [SharedPtr.get, hst]
    · intro h
      by_cases hst : st = ControlStatus.e_invalid
      · simp [SharedPtr.get, hst] at h
      · simp [SharedPtr.get, hst]
    · intro a' n ha hn h1 h2
      cases ha
      obtain ⟨hst, huc⟩ := k2 n hn h1 h2
      refine ⟨by simp [SharedPtr.get, hst], ?_⟩
      rw [Function.update_same]
      exact huc
    · intro h
      by_cases hst : st = ControlStatus.e_invalid
      · rw [k1 hst, Function.update_eq_self]
      · simp [SharedPtr.get, hst] at h

theorem from_raw_spec_witness :
    ∃ r mem', SharedPtr.from_raw cfg_u08_3_2 1 ControlKind.control_alloc true (some 7)
          (fun _ => ⟨0x0a, 0, 0, 0⟩) = some (r, mem')
      ∧ r.get = some 7 ∧ use_count cfg_u08_3_2 (mem' 7) = 2 + 1 := by
  obtain ⟨r, mem', h, _, _, h3, _⟩ :=
    from_raw_spec cfg_u08_3_2 1 ControlKind.control_alloc true (some 7)
      (fun _ => ⟨0x0a, 0, 0, 0⟩) (by decide) (by decide)
      (fun _ _ => (by decide : ControlData.wf cfg_u08_3_2 ⟨0x0a, 0, 0, 0⟩)) (fun _ => rfl)
  exact ⟨r, mem', h, h3 7 2 rfl (by decide) (by decide) (by decide)⟩

/-- C22: copy-constructing a non-empty `SharedPtr` whose usage is strictly between 0 and
the maximum increments the usage of the object by exactly 1, gives a handle to the same
object and leaves the source pointing at it; move-constructing it leaves the memory, hence
the usage and weak counters, unchanged, makes the new handle point at the object and
leaves the source empty; copying or moving an empty `SharedPtr` yields an empty
`SharedPtr` and changes nothing. -/
theorem copy_move_spec (c : Config) (p : SharedPtr) (mem : Memory) (hc : c.valid = true) :
    (∀ a, p.m_shared = some a → (mem a).wf c →
        0 < use_count c (mem a) ∧ use_count c (mem a) < get_max_usage_count c →
        (SharedPtr.copy c p mem).1.get = some a
          ∧ (SharedPtr.copy c p mem).2.1.get = some a
          ∧ use_count c ((SharedPtr.copy c p mem).2.2 a) = use_count c (mem a) + 1
          ∧ weak_count c ((SharedPtr.copy c p mem).2.2 a) = weak_count c (mem a)
          ∧ ∀ b, b ≠ a → (SharedPtr.copy c p mem).2.2 b = mem b)
      ∧ ((SharedPtr.move p mem).1.get = p.get ∧ (SharedPtr.move p mem).2.1.get = none
          ∧ (SharedPtr.move p mem).2.2 = mem)
      ∧ (p.m_shared = none →
          SharedPtr.copy c p mem = (⟨none⟩, ⟨none⟩, mem)
            ∧ SharedPtr.move p mem = (⟨none⟩, ⟨none⟩, mem)) := by
  refine ⟨?_, ⟨rfl, rfl, rfl⟩, ?_⟩
  · intro a ha hs hr
    obtain ⟨q1, _, q3⟩ := add_ref_share c hc (mem a) hs hr
    have hcopy : SharedPtr.copy c p mem
        = (⟨some a⟩, p, Function.update mem a (add_ref c (mem a))) := by
      unfold SharedPtr.copy
      rw [ha]
    rw [hcopy]
    refine ⟨rfl, ha, ?_, ?_, ?_⟩
    · show use_count c (Function.update mem a (add_ref c (mem a)) a) = _
      rw [Function.update_same]
      exact q1
    · show weak_count c (Function.update mem a (add_ref c (mem a)) a) = _
      rw [Function.update_same]
      exact q3.1
    · intro b hb
      exact Function.update_noteq hb _ _
  · intro hn
    cases p with
    | mk m =>
      simp only at hn
      subst hn
      exact ⟨rfl, rfl⟩

theorem copy_move_spec_witness :
    (SharedPtr.copy cfg_u08_3_2 ⟨some 7⟩ (fun _ => ⟨0x0a, 0, 0, 0⟩)).1.get = some 7
      ∧ (SharedPtr.copy cfg_u08_3_2 ⟨some 7⟩ (fun _ => ⟨0x0a, 0, 0, 0⟩)).2.1.get = some 7
      ∧ use_count cfg_u08_3_2
          ((SharedPtr.copy cfg_u08_3_2 ⟨some 7⟩ (fun _ => ⟨0x0a, 0, 0, 0⟩)).2.2 7)
        = use_count cfg_u08_3_2 ((fun _ => ⟨0x0a, 0, 0, 0⟩ : Memory) 7) + 1 := by
  obtain ⟨h1, h2, h3, _⟩ :=
    (copy_move_spec cfg_u08_3_2 ⟨some 7⟩ (fun _ => ⟨0x0a, 0, 0, 0⟩) (by decide)).1 7 rfl
      (by decide) (by decide)
  exact ⟨h1, h2, h3⟩

/-- C23: `dynamic_pointer_cast<t_shared>` on a `SharedPtr<t_other>`, for static types of
any shape: `to_intruder` and `to_intruder_other` are the conversions of a `t_shared *` and
of a `t_other *` to the `Intruder` base that holds the control block, and a successful
`dynamic_cast` gives a pointer into the same object, which may differ from the source
pointer (`hobj`).  Applied to an rvalue: when the cast succeeds the result points at the
object and owns the same control block, the source is empty and the memory, hence
`use_count()`, is unchanged; when it fails the result is empty, the source still points at
the object and the memory is unchanged.  Applied to an lvalue whose usage is strictly
between 0 and the maximum (the condition `add_ref` asserts): a successful cast gives a
handle to the object and increments the usage of the object's control block, hence
`use_count()` of the result and of the source, by 1, leaving every other control block
alone; a failed cast gives an empty handle and changes nothing. -/
theorem dynamic_pointer_cast_spec (c : Config) (to_intruder to_intruder_other : Nat → Nat)
    (dyn_cast : Ptr → Ptr) (p : SharedPtr) (mem : Memory) (hc : c.valid = true)
    (hobj : ∀ a q, dyn_cast (some a) = some q → to_intruder q = to_intruder_other a) :
    (∀ a q, p.m_shared = some a → dyn_cast (some a) = some q →
        (dynamic_pointer_cast_move c to_intruder dyn_cast p mem).1.get = some q
          ∧ (dynamic_pointer_cast_move c to_intruder dyn_cast p mem).2.1.get = none
          ∧ (dynamic_pointer_cast_move c to_intruder dyn_cast p mem).2.2 = mem
          ∧ SharedPtr.use_count_via c to_intruder
              (dynamic_pointer_cast_move c to_intruder dyn_cast p mem).1
              (dynamic_pointer_cast_move c to_intruder dyn_cast p mem).2.2
            = SharedPtr.use_count_via c to_intruder_other p mem)
      ∧ (dyn_cast p.get = none →
        (dynamic_pointer_cast_move c to_intruder dyn_cast p mem).1.get = none
          ∧ (dynamic_pointer_cast_move c to_intruder dyn_cast p mem).2.1 = p
          ∧ (dynamic_pointer_cast_move c to_intruder dyn_cast p mem).2.2 = mem)
      ∧ (∀ a q, p.m_shared = some a → dyn_cast (some a) = some q →
          (mem (to_intruder_other a)).wf c →
          0 < use_count c (mem (to_intruder_other a))
            ∧ use_count c (mem (to_intruder_other a)) < get_max_usage_count c →
        (dynamic_pointer_cast c to_intruder dyn_cast p mem).1.get = some q
          ∧ (dynamic_pointer_cast c to_intruder dyn_cast p mem).2.1 = p
          ∧ Assert.add_ref c (mem (to_intruder_other a))
              = Outcome.returned (add_ref c (mem (to_intruder_other a)))
          ∧ use_count c ((dynamic_pointer_cast c to_intruder dyn_cast p mem).2.2
                (to_intruder_other a))
              = use_count c (mem (to_intruder_other a)) + 1
          ∧ SharedPtr.use_count_via c to_intruder
              (dynamic_pointer_cast c to_intruder dyn_cast p mem).1
              (dynamic_pointer_cast c to_intruder dyn_cast p mem).2.2
            = SharedPtr.use_count_via c to_intruder_other p mem + 1
          ∧ SharedPtr.use_count_via c to_intruder_other p
              (dynamic_pointer_cast c to_intruder dyn_cast p mem).2.2
            = SharedPtr.use_count_via c to_intruder_other p mem + 1
          ∧ weak_count c ((dynamic_pointer_cast c to_intruder dyn_cast p mem).2.2
                (to_intruder_other a))
              = weak_count c (mem (to_intruder_other a))
          ∧ ∀ b, b ≠ to_intruder_other a →
              (dynamic_pointer_cast c to_intruder dyn_cast p mem).2.2 b = mem b)
      ∧ (dyn_cast p.get = none →
        (dynamic_pointer_cast c to_intruder dyn_cast p mem).1.get = none
          ∧ (dynamic_pointer_cast c to_intruder dyn_cast p mem).2.1 = p
          ∧ (dynamic_pointer_cast c to_intruder dyn_cast p mem).2.2 = mem) := by
  refine ⟨?_, ?_, ?_, ?_⟩
  · intro a q ha hd
    have ho := hobj a q hd
    cases p with
    | mk m =>
      simp only at ha
      subst ha
      have hres : dynamic_pointer_cast_move c to_intruder dyn_cast ⟨some a⟩ mem
          = (⟨some q⟩, ⟨none⟩, mem) := by
        simp [dynamic_pointer_cast_move, SharedPtr.get, hd, SharedPtr.mk_add_ref_via,
          SharedPtr.detach]
      rw [hres]
      refine ⟨rfl, rfl, rfl, ?_⟩
      simp only [SharedPtr.use_count_via, ho]
  · intro hd
    have hd' : dyn_cast p.m_shared = none := hd
    simp [dynamic_pointer_cast_move, SharedPtr.get, hd', SharedPtr.mk_add_ref_via]
  · intro a q ha hd hs hr
    have ho := hobj a q hd
    obtain ⟨q1, _, q3⟩ := add_ref_share c hc (mem (to_intruder_other a)) hs hr
    have hA : Assert.add_ref c (mem (to_intruder_other a))
        = Outcome.returned (add_ref c (mem (to_intruder_other a))) := by
      rw [assert_add_ref_eq, if_pos]
      unfold add_ref_assertion get_max_usage_count at *
      simp only [s_usage_zero, Bool.and_eq_true, decide_eq_true_eq]
      exact hr
    cases p with
    | mk m =>
      simp only at ha
      subst ha
      have hres : dynamic_pointer_cast c to_intruder dyn_cast ⟨some a⟩ mem
          = (⟨some q⟩, ⟨some a⟩, Function.update mem (to_intruder_other a)
              (add_ref c (mem (to_intruder_other a)))) := by
        simp [dynamic_pointer_cast, SharedPtr.get, hd, SharedPtr.mk_add_ref_via, ho]
      rw [hres]
      refine ⟨rfl, rfl, hA, ?_, ?_, ?_, ?_, ?_⟩
      · show use_count c (Function.update mem (to_intruder_other a)
            (add_ref c (mem (to_intruder_other a))) (to_intruder_other a)) = _
        rw [Function.update_same]
        exact q1
      · show use_count c (Function.update mem (to_intruder_other a)
            (add_ref c (mem (to_intruder_other a))) (to_intruder q))
          = use_count c (mem (to_intruder_other a)) + 1
        rw [ho, Function.update_same]
        exact q1
      · show use_count c (Function.update mem (to_intruder_other a)
            (add_ref c (mem (to_intruder_other a))) (to_intruder_other a))
          = use_count c (mem (to_intruder_other a)) + 1
        rw [Function.update_same]
        exact q1
      · show weak_count c (Function.update mem (to_intruder_other a)
            (add_ref c (mem (to_intruder_other a))) (to_intruder_other a)) = _
        rw [Function.update_same]
        exact q3.1
      · intro b hb
        exact Function.update_noteq hb _ _
  · intro hd
    have hd' : dyn_cast p.m_shared = none := hd
    simp [dynamic_pointer_cast, SharedPtr.get, hd', SharedPtr.mk_add_ref_via]

/-- Witness for C23: an object whose `Intruder` base (and `t_other` base) lies at address
16 and whose `t_shared` part lies at address 8, as with a virtual base: the cast moves the
pointer from 16 to 8, and the reference is added to the control block at 16. -/
theorem dynamic_pointer_cast_spec_witness :
    ((dynamic_pointer_cast_move cfg_u08_3_2 (fun q => q + 8)
          (fun (x : Ptr) => x.bind (fun a => if 8 ≤ a then some (a - 8) else none)) ⟨some 16⟩
          (fun _ => ⟨0x0a, 0, 0, 0⟩)).1.get = some 8
        ∧ (dynamic_pointer_cast_move cfg_u08_3_2 (fun q => q + 8)
          (fun (x : Ptr) => x.bind (fun a => if 8 ≤ a then some (a - 8) else none)) ⟨some 16⟩
          (fun _ => ⟨0x0a, 0, 0, 0⟩)).2.1.get = none)
      ∧ ((dynamic_pointer_cast cfg_u08_3_2 (fun q => q + 8)
          (fun (x : Ptr) => x.bind (fun a => if 8 ≤ a then some (a - 8) else none)) ⟨some 16⟩
          (fun _ => ⟨0x0a, 0, 0, 0⟩)).1.get = some 8
        ∧ use_count cfg_u08_3_2 ((dynamic_pointer_cast cfg_u08_3_2 (fun q => q + 8)
            (fun (x : Ptr) => x.bind (fun a => if 8 ≤ a then some (a - 8) else none)) ⟨some 16⟩
            (fun _ => ⟨0x0a, 0, 0, 0⟩)).2.2 16)
          = use_count cfg_u08_3_2 ((fun _ => ⟨0x0a, 0, 0, 0⟩ : Memory) 16) + 1
        ∧ (dynamic_pointer_cast cfg_u08_3_2 (fun q => q + 8)
            (fun (x : Ptr) => x.bind (fun a => if 8 ≤ a then some (a - 8) else none)) ⟨some 16⟩
            (fun _ => ⟨0x0a, 0, 0, 0⟩)).2.2 8 = ⟨0x0a, 0, 0, 0⟩)
      ∧ (dynamic_pointer_cast_move cfg_u08_3_2 (fun q => q + 8)
          (fun (x : Ptr) => x.bind (fun a => if 8 ≤ a then some (a - 8) else none)) ⟨some 4⟩
          (fun _ => ⟨0x0a, 0, 0, 0⟩)).2.1 = ⟨some 4⟩ := by
  have hobj : ∀ a q : Nat,
      (fun x : Ptr => x.bind (fun a => if 8 ≤ a then some (a - 8) else none)) (some a) = some q
        → (fun q => q + 8) q = (fun a => a) a := by
    intro a q h
    simp only [Option.some_bind] at h
    split at h
    · injection h with h
      show q + 8 = a
      omega
    · cases h
  obtain ⟨h1, _, h3, _⟩ := dynamic_pointer_cast_spec cfg_u08_3_2 (fun q => q + 8) (fun a => a)
    (fun (x : Ptr) => x.bind (fun a => if 8 ≤ a then some (a - 8) else none)) ⟨some 16⟩
    (fun _ => ⟨0x0a, 0, 0, 0⟩) (by decide) hobj
  obtain ⟨_, h2, _, _⟩ := dynamic_pointer_cast_spec cfg_u08_3_2 (fun q => q + 8) (fun a => a)
    (fun (x : Ptr) => x.bind (fun a => if 8 ≤ a then some (a - 8) else none)) ⟨some 4⟩
    (fun _ => ⟨0x0a, 0, 0, 0⟩) (by decide) hobj
  obtain ⟨a1, a2, _⟩ := h1 16 8 rfl rfl
  obtain ⟨_, b2, _⟩ := h2 rfl
  obtain ⟨c1, _, _, c4, _, _, _, c8⟩ := h3 16 8 rfl rfl (by decide) (by decide)
  exact ⟨⟨a1, a2⟩, ⟨c1, c4, c8 8 (by decide)⟩, b2⟩

/-- C24: `owner_before` orders handles by the address of the control block (null for an
empty handle), consistently across `SharedPtr` and `WeakPtr` and across static types.
The owner of a `SharedPtr` is the address of the `Intruder` base of its object, which the
conversions `up` and `up'` of the two static types compute from the stored pointers, and
the owner of a `WeakPtr` is its control pointer; each of the four overloads is `<` on the
two owners.  Two handles with the same owner, whatever their kinds, static types and
stored pointers, or two empty handles, are not `owner_before` each other; for two handles
with different owners exactly one of `a.owner_before(b)` and `b.owner_before(a)` is true.
A non-empty `SharedPtr` that `lock()` returns has the owner of the `WeakPtr`, and the
result of a successful `dynamic_pointer_cast` has the owner of its source, when the
conversions belong to the casts (`hcast`, `hobj`; `dynamic_cast` of a null pointer is null,
`hnull`). -/
theorem owner_before_spec (c : Config) (fuel : Nat) (up up' : Nat → Nat) (cast : Nat → Ptr)
    (dyn_cast : Ptr → Ptr)
    (hcast : ∀ o q, cast o = some q → up q = o)
    (hnull : dyn_cast none = none)
    (hobj : ∀ a q, dyn_cast (some a) = some q → up q = up' a) :
    (∀ (p q : SharedPtr) (w w' : WeakPtr),
        SharedPtr.owner_before up up' p q = ptr_lt (p.m_shared.map up) (q.m_shared.map up')
          ∧ SharedPtr.owner_before_weak up p w = ptr_lt (p.m_shared.map up) w.m_control
          ∧ WeakPtr.owner_before w w' = ptr_lt w.m_control w'.m_control
          ∧ WeakPtr.owner_before_shared up' w q = ptr_lt w.m_control (q.m_shared.map up'))
      ∧ (∀ a b : Nat, ptr_lt (some a) (some b) = decide (a < b)
          ∧ ptr_lt none (some b) = true ∧ ptr_lt (some a) none = false
          ∧ ptr_lt none none = false)
      ∧ (∀ a b : Nat, up a = up' b →
          SharedPtr.owner_before up up' ⟨some a⟩ ⟨some b⟩ = false
            ∧ SharedPtr.owner_before up' up ⟨some b⟩ ⟨some a⟩ = false
            ∧ SharedPtr.owner_before_weak up ⟨some a⟩ ⟨some (up' b)⟩ = false
            ∧ WeakPtr.owner_before_shared up ⟨some (up' b)⟩ ⟨some a⟩ = false
            ∧ WeakPtr.owner_before ⟨some (up a)⟩ ⟨some (up' b)⟩ = false)
      ∧ (SharedPtr.owner_before up up' ⟨none⟩ ⟨none⟩ = false
          ∧ SharedPtr.owner_before_weak up ⟨none⟩ ⟨none⟩ = false
          ∧ WeakPtr.owner_before_shared up' ⟨none⟩ ⟨none⟩ = false
          ∧ WeakPtr.owner_before ⟨none⟩ ⟨none⟩ = false)
      ∧ (∀ a b : Nat, up a ≠ up' b →
          ((SharedPtr.owner_before up up' ⟨some a⟩ ⟨some b⟩ = true
              ∧ SharedPtr.owner_before up' up ⟨some b⟩ ⟨some a⟩ = false)
            ∨ (SharedPtr.owner_before up up' ⟨some a⟩ ⟨some b⟩ = false
              ∧ SharedPtr.owner_before up' up ⟨some b⟩ ⟨some a⟩ = true))
          ∧ ((SharedPtr.owner_before_weak up ⟨some a⟩ ⟨some (up' b)⟩ = true
              ∧ WeakPtr.owner_before_shared up ⟨some (up' b)⟩ ⟨some a⟩ = false)
            ∨ (SharedPtr.owner_before_weak up ⟨some a⟩ ⟨some (up' b)⟩ = false
              ∧ WeakPtr.owner_before_shared up ⟨some (up' b)⟩ ⟨some a⟩ = true))
          ∧ ((WeakPtr.owner_before ⟨some (up a)⟩ ⟨some (up' b)⟩ = true
              ∧ WeakPtr.owner_before ⟨some (up' b)⟩ ⟨some (up a)⟩ = false)
            ∨ (WeakPtr.owner_before ⟨some (up a)⟩ ⟨some (up' b)⟩ = false
              ∧ WeakPtr.owner_before ⟨some (up' b)⟩ ⟨some (up a)⟩ = true)))
      ∧ (∀ (w : WeakPtr) (mem mem' : Memory) (p : SharedPtr),
          WeakPtr.lock c fuel cast w mem = some (p, mem') → p.get ≠ none →
          SharedPtr.owner_before_weak up p w = false
            ∧ WeakPtr.owner_before_shared up w p = false)
      ∧ (∀ (p : SharedPtr) (mem : Memory),
          (dynamic_pointer_cast c up dyn_cast p mem).1.get ≠ none →
          SharedPtr.owner_before up up' (dynamic_pointer_cast c up dyn_cast p mem).1 p = false
            ∧ SharedPtr.owner_before up' up p (dynamic_pointer_cast c up dyn_cast p mem).1
                = false) := by
  refine ⟨?_, ?_, ?_, ?_, ?_, ?_, ?_⟩
  · intro p q w w'
    exact ⟨shared_owner_before_eq up up' p q, shared_owner_before_weak_eq up p w, rfl,
      weak_owner_before_shared_eq up' w q⟩
  · intro a b
    exact ⟨rfl, rfl, rfl, rfl⟩
  · intro a b h
    rw [shared_owner_before_eq, shared_owner_before_eq, shared_owner_before_weak_eq,
      weak_owner_before_shared_eq]
    simp only [Option.map_some', h]
    exact ⟨ptr_lt_irrefl _, ptr_lt_irrefl _, ptr_lt_irrefl _, ptr_lt_irrefl _,
      ptr_lt_irrefl _⟩
  · exact ⟨rfl, rfl, rfl, rfl⟩
  · intro a b h
    have hne : (some (up a) : Ptr) ≠ some (up' b) := fun e => h (Option.some.inj e)
    rw [shared_owner_before_eq, shared_owner_before_eq, shared_owner_before_weak_eq,
      weak_owner_before_shared_eq]
    simp only [Option.map_some']
    exact ⟨ptr_lt_total _ _ hne, ptr_lt_total _ _ hne, ptr_lt_total _ _ hne⟩
  · intro w mem mem' p hl hp
    cases hq : p.m_shared with
    | none => exact absurd hq hp
    | some q =>
      obtain ⟨o, ho, hc⟩ := lock_result c fuel cast w mem p mem' q hl hq
      have hup := hcast o q hc
      rw [shared_owner_before_weak_eq, weak_owner_before_shared_eq, hq, ho]
      simp only [Option.map_some', hup]
      exact ⟨ptr_lt_irrefl _, ptr_lt_irrefl _⟩
  · intro p mem hp
    have hres : (dynamic_pointer_cast c up dyn_cast p mem).1.m_shared = dyn_cast p.m_shared := by
      unfold dynamic_pointer_cast SharedPtr.mk_add_ref_via SharedPtr.get
      cases dyn_cast p.m_shared <;> rfl
    have hp' : dyn_cast p.m_shared ≠ none := by
      rw [← hres]
      exact hp
    rw [shared_owner_before_eq, shared_owner_before_eq, hres]
    cases ha : p.m_shared with
    | none =>
      rw [ha, hnull] at hp'
      exact absurd rfl hp'
    | some a =>
      cases hq : dyn_cast (some a) with
      | none =>
        rw [ha, hq] at hp'
        exact absurd rfl hp'
      | some q =>
        simp only [Option.map_some', hobj a q hq]
        exact ⟨ptr_lt_irrefl _, ptr_lt_irrefl _⟩

/-- Witness for C24: an object whose `Intruder` base lies at address 16 and whose derived
part lies at address 8: a `SharedPtr` to the derived type (pointer 8), a `SharedPtr` to the
base type (pointer 16) and a `WeakPtr` (control pointer 16) are not `owner_before` each
other, and against a second object with `Intruder` at 32 exactly one direction holds. -/
theorem owner_before_spec_witness :
    (SharedPtr.owner_before (fun q => q + 8) (fun a => a) ⟨some 8⟩ ⟨some 16⟩ = false
        ∧ SharedPtr.owner_before (fun a => a) (fun q => q + 8) ⟨some 16⟩ ⟨some 8⟩ = false
        ∧ SharedPtr.owner_before_weak (fun q => q + 8) ⟨some 8⟩ ⟨some 16⟩ = false
        ∧ WeakPtr.owner_before_shared (fun q => q + 8) ⟨some 16⟩ ⟨some 8⟩ = false)
      ∧ ((SharedPtr.owner_before (fun q => q + 8) (fun a => a) ⟨some 8⟩ ⟨some 32⟩ = true
            ∧ SharedPtr.owner_before (fun a => a) (fun q => q + 8) ⟨some 32⟩ ⟨some 8⟩ = false)
          ∨ (SharedPtr.owner_before (fun q => q + 8) (fun a => a) ⟨some 8⟩ ⟨some 32⟩ = false
            ∧ SharedPtr.owner_before (fun a => a) (fun q => q + 8) ⟨some 32⟩ ⟨some 8⟩
                = true)) := by
  have h := owner_before_spec cfg_u08_3_2 1 (fun q => q + 8) (fun a => a)
    (fun o => if 8 ≤ o then some (o - 8) else none)
    (fun (x : Ptr) => x.bind (fun a => if 8 ≤ a then some (a - 8) else none))
    (by
      intro o q h
      simp only at h
      split at h
      · injection h with h
        show q + 8 = o
        omega
      · cases h)
    rfl
    (by
      intro a q h
      simp only [Option.some_bind] at h
      split at h
      · injection h with h
        show q + 8 = a
        omega
      · cases h)
  obtain ⟨_, _, hsame, _, hdiff, _, _⟩ := h
  obtain ⟨s1, s2, s3, s4, _⟩ := hsame 8 16 rfl
  exact ⟨⟨s1, s2, s3, s4⟩, (hdiff 8 32 (by decide)).1⟩

/-- C25: constructing a `SharedPtr` from a `WeakPtr` returns; it throws
`std::bad_weak_ptr` if and only if the `WeakPtr` is empty; for a non-empty `WeakPtr` (whose
pointer cast yields the object) it does not throw and the `SharedPtr` is non-empty exactly
when `try_add_ref()` on the control block succeeds; on an expired block it is empty. -/
theorem from_weak_spec (c : Config) (fuel : Nat) (cast : Nat → Ptr) (w : WeakPtr)
    (mem : Memory) (hc : c.valid = true) (hf : 0 < fuel)
    (hwf : ∀ a, w.m_control = some a → (mem a).wf c)
    (hcast : ∀ a, w.m_control = some a → cast a ≠ none) :
    (SharedPtr.from_weak c fuel cast w mem = some (Except.error Thrown.bad_weak_ptr)
        ↔ w.is_empty = true)
      ∧ (∀ a, w.m_control = some a →
          ∃ ok ctl' p, try_add_ref c fuel (mem a) = some (ok, ctl')
            ∧ SharedPtr.from_weak c fuel cast w mem
                = some (Except.ok (p, Function.update mem a ctl'))
            ∧ (p.get ≠ none ↔ ok = true)
            ∧ (use_count c (mem a) = 0 → p.get = none)) := by
  cases hm : w.m_control with
  | none =>
    refine ⟨?_, ?_⟩
    · unfold SharedPtr.from_weak WeakPtr.is_empty
      simp [hm]
    · intro a ha
      cases ha
  | some a =>
    have hs := hwf a hm
    have hca := hcast a hm
    have key : ∃ ok ctl', try_add_ref c fuel (mem a) = some (ok, ctl')
        ∧ (use_count c (mem a) = 0 → ok = false) := by
      by_cases hr : 0 < use_count c (mem a) ∧ use_count c (mem a) < get_max_usage_count c
      · obtain ⟨s', e, _⟩ := try_add_ref_share c hc (mem a) hs fuel hf hr
        exact ⟨true, s', e, fun h => by omega⟩
      · exact ⟨false, mem a, try_add_ref_fail c (mem a) fuel hf hr, fun _ => rfl⟩
    obtain ⟨ok, ctl', e, hz⟩ := key
    have hres : SharedPtr.from_weak c fuel cast w mem
        = some (Except.ok (⟨if ok = true then cast a else none⟩, Function.update mem a ctl')) := by
      unfold SharedPtr.from_weak ControlAlloc.try_get_shared
      cases ok <;> simp [hm, e]
    refine ⟨?_, ?_⟩
    · rw [hres]
      unfold WeakPtr.is_empty
      simp [hm]
    · intro a' ha
      cases ha
      refine ⟨ok, ctl', _, e, hres, ?_, ?_⟩
      · cases ok
        · simp [SharedPtr.get]
        · simpa [SharedPtr.get] using hca
      · intro h0
        rw [hz h0]
        simp [SharedPtr.get]

theorem from_weak_spec_witness :
    (SharedPtr.from_weak cfg_u08_3_2 1 (fun a => some a) ⟨none⟩ (fun _ => ⟨0x0a, 0, 0, 0⟩)
        = some (Except.error Thrown.bad_weak_ptr)
      ↔ (⟨none⟩ : WeakPtr).is_empty = true)
      ∧ ∃ ok ctl' p, try_add_ref cfg_u08_3_2 1 ((fun _ => ⟨0x0a, 0, 0, 0⟩ : Memory) 7)
            = some (ok, ctl')
          ∧ SharedPtr.from_weak cfg_u08_3_2 1 (fun a => some a) ⟨some 7⟩
              (fun _ => ⟨0x0a, 0, 0, 0⟩)
            = some (Except.ok (p, Function.update (fun _ => ⟨0x0a, 0, 0, 0⟩) 7 ctl'))
          ∧ (p.get ≠ none ↔ ok = true) := by
  obtain ⟨h1, _⟩ := from_weak_spec cfg_u08_3_2 1 (fun a => some a) ⟨none⟩
    (fun _ => ⟨0x0a, 0, 0, 0⟩) (by decide) (by decide)
    (fun _ h => by cases h) (fun _ h => by cases h)
  obtain ⟨_, h2⟩ := from_weak_spec cfg_u08_3_2 1 (fun a => some a) ⟨some 7⟩
    (fun _ => ⟨0x0a, 0, 0, 0⟩) (by decide) (by decide)
    (fun _ _ => (by decide : ControlData.wf cfg_u08_3_2 ⟨0x0a, 0, 0, 0⟩))
    (fun _ _ => by simp)
  obtain ⟨ok, ctl', p, e1, e2, e3, _⟩ := h2 7 rfl
  exact ⟨h1, ok, ctl', p, e1, e2, e3⟩

/-- C26: pointer-offset recovery, with addresses as 64-bit numbers whose distance fits
`ptrdiff_t` and `A = alignof(control block)`: whenever the shared-base address is at
least the object address and their difference is a multiple of `A`, `calc_base_offset`
returns `difference / A` and `calc_shared_pointer(base, calc_base_offset(object))` is the
address of the object; whenever the difference is negative or not a multiple of `A`,
`calc_base_offset` returns the failure value, the maximum of `size_t`. -/
theorem calc_base_offset_round_trip (A object base : Nat)
    (hobject : object < 2 ^ 64) (hbase : base < 2 ^ 64)
    (hdist : base - object < 2 ^ 63 ∧ object - base ≤ 2 ^ 63) :
    (object ≤ base → (base - object) % A = 0 →
        calc_base_offset A object base = (base - object) / A
          ∧ calc_shared_pointer A base (calc_base_offset A object base) = object)
      ∧ (base < object ∨ (base - object) % A ≠ 0 →
          calc_base_offset A object base = 2 ^ 64 - 1) := by
  have hmaxv : numeric_max size_t_bits = 2 ^ 64 - 1 := by decide
  constructor
  · intro hle hmod
    have hd : wrap size_t_bits (base + 2 ^ size_t_bits - object) = base - object := by
      have e : base + 2 ^ size_t_bits - object = (base - object) + 2 ^ size_t_bits := by
        unfold size_t_bits
        omega
      rw [e]
      unfold wrap
      rw [Nat.add_mod_right]
      exact Nat.mod_eq_of_lt (by unfold size_t_bits; omega)
    have hoff : calc_base_offset A object base = (base - object) / A := by
      unfold calc_base_offset
      simp only [hd]
      rw [if_pos (by unfold size_t_bits; omega), if_pos hmod]
    refine ⟨hoff, ?_⟩
    rw [hoff]
    unfold calc_shared_pointer
    have hmul : (base - object) / A * A = base - object :=
      Nat.div_mul_cancel (Nat.dvd_of_mod_eq_zero hmod)
    simp only [hmul]
    have h1 : wrap size_t_bits (base - object) = base - object :=
      wrap_of_lt (by unfold size_t_bits; omega)
    rw [h1]
    have e : base + 2 ^ size_t_bits - (base - object) = object + 2 ^ size_t_bits := by
      unfold size_t_bits
      omega
    rw [e]
    unfold wrap
    rw [Nat.add_mod_right]
    exact Nat.mod_eq_of_lt (by unfold size_t_bits; omega)
  · intro h
    unfold calc_base_offset
    rcases h with hlt | hmod
    · have hd : wrap size_t_bits (base + 2 ^ size_t_bits - object)
          = base + 2 ^ size_t_bits - object :=
        wrap_of_lt (by unfold size_t_bits; omega)
      simp only [hd]
      rw [if_neg (by unfold size_t_bits; omega), hmaxv]
    · by_cases hle : object ≤ base
      · have hd : wrap size_t_bits (base + 2 ^ size_t_bits - object) = base - object := by
          have e : base + 2 ^ size_t_bits - object = (base - object) + 2 ^ size_t_bits := by
            unfold size_t_bits
            omega
          rw [e]
          unfold wrap
          rw [Nat.add_mod_right]
          exact Nat.mod_eq_of_lt (by unfold size_t_bits; omega)
        simp only [hd]
        rw [if_pos (by unfold size_t_bits; omega), if_neg hmod, hmaxv]
      · have hd : wrap size_t_bits (base + 2 ^ size_t_bits - object)
            = base + 2 ^ size_t_bits - object :=
          wrap_of_lt (by unfold size_t_bits; omega)
        simp only [hd]
        rw [if_neg (by unfold size_t_bits; omega), hmaxv]

theorem calc_base_offset_round_trip_witness :
    (calc_base_offset 8 4096 4112 = (4112 - 4096) / 8
        ∧ calc_shared_pointer 8 4112 (calc_base_offset 8 4096 4112) = 4096)
      ∧ calc_base_offset 8 4096 4100 = 2 ^ 64 - 1
      ∧ calc_base_offset 8 4112 4096 = 2 ^ 64 - 1 :=
  ⟨(calc_base_offset_round_trip 8 4096 4112 (by decide) (by decide) (by decide)).1 (by decide) (by decide),
    (calc_base_offset_round_trip 8 4096 4100 (by decide) (by decide) (by decide)).2 (Or.inr (by decide)),
    (calc_base_offset_round_trip 8 4112 4096 (by decide) (by decide) (by decide)).2 (Or.inl (by decide))⟩

/-- C27: alignment recovery: for every pair of power-of-two alignments
`alignof(base) = 2 ^ j ≤ alignof(shared) = 2 ^ i` (below `2 ^ 64`), once the recursion of
`log2` is given room for `i + 1` steps, `calc_base_align_offset` returns `i - j`,
`calc_shared_align` of that offset returns `alignof(shared)`, that is
`1 << (log2(alignof(base)) + (log2(alignof(shared)) - log2(alignof(base))))`, and the
offset is 0 when the two alignments are equal. -/
theorem calc_align_round_trip (i j fuel : Nat) (hji : j ≤ i) (hi : i < 64) (hf : i < fuel) :
    log2 fuel (2 ^ i) = some i ∧ log2 fuel (2 ^ j) = some j
      ∧ calc_base_align_offset fuel (2 ^ i) (2 ^ j) = some (i - j)
      ∧ calc_shared_align fuel (2 ^ j) (i - j) = some (2 ^ i)
      ∧ (i = j → calc_base_align_offset fuel (2 ^ i) (2 ^ j) = some 0) := by
  have h32 : (64 : Nat) < 2 ^ 32 := by decide
  have li := log2_two_pow i fuel hf (by omega)
  have lj := log2_two_pow j fuel (by omega) (by omega)
  have hoff : calc_base_align_offset fuel (2 ^ i) (2 ^ j) = some (i - j) := by
    unfold calc_base_align_offset
    rw [li, lj]
    simp only
    have e : i + 2 ^ 32 - j = (i - j) + 2 ^ 32 := by omega
    rw [e]
    unfold wrap
    rw [Nat.add_mod_right, Nat.mod_eq_of_lt (by omega)]
  refine ⟨li, lj, hoff, ?_, ?_⟩
  · unfold calc_shared_align
    rw [lj]
    simp only
    have e : j + (i - j) = i := by omega
    rw [e, wrap_of_lt (by unfold size_t_bits; omega), if_pos (by unfold size_t_bits; omega),
      Nat.one_shiftLeft, wrap_of_lt (two_pow_lt_size hi)]
  · intro h
    rw [hoff, h, Nat.sub_self]

theorem calc_align_round_trip_witness :
    calc_base_align_offset 64 (2 ^ 6) (2 ^ 3) = some (6 - 3)
      ∧ calc_shared_align 64 (2 ^ 3) (6 - 3) = some (2 ^ 6) :=
  ⟨(calc_align_round_trip 6 3 64 (by decide) (by decide) (by decide)).2.2.1,
    (calc_align_round_trip 6 3 64 (by decide) (by decide) (by decide)).2.2.2.1⟩

/-- C28: for the pointer, size and alignment adapter without static support, for power of
two alignments `alignof(base) ≤ alignof(shared)`, `sizeof(base) ≤ sizeof(shared)`, an
instantiation whose `static_assert`s hold and an object inside the address space:
whenever `try_init` succeeds for an object created by `create()`, then for every later
state of the control block with the same offset, size and align fields, `deallocate()`
passes to the allocator the pointer, size and alignment that `create()` used for
`allocate`: the pointer is the address of the shared base minus the stored offset times
the alignment of the control block, the size is `sizeof(base)` plus the stored size offset
times that alignment, which is `sizeof(shared)`, and the alignment is `alignof(shared)`
when align bits are configured and `alignof(max_align_t)` on both sides otherwise. -/
theorem type_info_round_trip (c : Config) (t : TypeLayout) (fuel st u i j static_cast_shared : Nat)
    (t_nothrow : Bool) (q : Nat) (ctl1 ctl2 : ControlData) (calls : List Call)
    (hc : c.valid = true) (hf : 0 < fuel)
    (hshared : t.alignof_shared = 2 ^ i) (hbase : t.alignof_base = 2 ^ j)
    (hji : j ≤ i) (hi : i < 64) (hfi : i < fuel)
    (hsize : t.sizeof_base ≤ t.sizeof_shared ∧ t.sizeof_shared < 2 ^ 64)
    (haddr : st + t.base_delta < 2 ^ 64 ∧ t.base_delta < 2 ^ 63)
    (hassert : AllocAdaptTypeInfo.create_assertion c t false fuel = some true)
    (hinit : AllocAdaptTypeInfo.try_init c t false fuel st (ControlData.init c u)
      = some (some q, ctl1, calls))
    (hlater : get_offset c ctl2 = get_offset c ctl1 ∧ get_size c ctl2 = get_size c ctl1
      ∧ get_align c ctl2 = get_align c ctl1) :
    ∃ al, AllocAdaptTypeInfo.create c false fuel t_nothrow t (Allocation.returns (some st)) false
          = some ([Call.allocate [t.sizeof_shared, al], Call.construct st],
              Except.ok (some st))
      ∧ q = st
      ∧ AllocAdaptTypeInfo.deallocate c t false fuel (t.shared_base st) static_cast_shared ctl2
          = some (Call.deallocate st [t.sizeof_shared, al])
      ∧ al = (if get_max_align c = 0 then t.alignof_max_align else t.alignof_shared)
      ∧ calc_shared_pointer t.alignof_control (t.shared_base st) (get_offset c ctl2) = st
      ∧ calc_shared_size t.sizeof_base t.alignof_control (get_size c ctl2)
          = t.sizeof_shared := by
  obtain ⟨huc, hwf⟩ := init_usage c hc u
  have hunc : is_uncontrolled c (ControlData.init c u) = true := (is_uncontrolled_iff c _).2 huc
  have hao : calc_base_align_offset fuel t.alignof_shared t.alignof_base = some (i - j) := by
    rw [hshared, hbase]
    exact calc_base_align_offset_pow i j fuel hji hi hfi
  -- the constants of the instantiation
  have hsa : AllocAdaptTypeInfo.supports_align c t false fuel
      = some (decide (get_max_align c ≠ 0) && decide (i - j ≤ get_max_align c)) := by
    unfold AllocAdaptTypeInfo.supports_align
    by_cases h0 : get_max_align c = 0
    · simp [h0]
    · simp [h0, hao]
  unfold AllocAdaptTypeInfo.create_assertion at hassert
  rw [hsa] at hassert
  simp only [Option.map_some', Option.some.injEq, Bool.and_eq_true, Bool.or_eq_true,
    Bool.false_eq_true, false_or, decide_eq_true_eq, beq_iff_eq, Bool.not_eq_true',
    decide_eq_false_iff_not] at hassert
  obtain ⟨⟨hA1, hA2⟩, hA3⟩ := hassert
  have hal : AllocAdaptTypeInfo.align c t false fuel
      = some (if get_max_align c = 0 then t.alignof_max_align else t.alignof_shared) := by
    unfold AllocAdaptTypeInfo.align
    rw [hsa]
    by_cases h0 : get_max_align c = 0
    · simp [h0]
    · have : i - j ≤ get_max_align c := by
        rcases hA3 with h | h
        · exact h.2
        · exact absurd h.1 h0
      simp [h0, this]
  obtain ⟨tf, ts⟩ := type_info_try_init c hc t fuel hf st (ControlData.init c u) hwf hunc _
    (i - j) hal hao
  -- the offset that `try_init` computes
  have hsb := shared_base_eq t st haddr.1
  have hoff := calc_base_offset_eq t.alignof_control st (t.shared_base st)
    (by rw [hsb]; omega) (by rw [hsb]; omega)
  have hdelta : t.shared_base st - st = t.base_delta := by rw [hsb]; omega
  rw [hdelta] at hoff
  have hmaxv : numeric_max size_t_bits = 2 ^ 64 - 1 := by decide
  have hdiv : t.base_delta / t.alignof_control ≤ t.base_delta := Nat.div_le_self _ _
  -- every failing branch contradicts the success of `try_init`
  have hok : t.base_delta % t.alignof_control = 0
      ∧ calc_base_offset t.alignof_control st (t.shared_base st)
          = t.base_delta / t.alignof_control
      ∧ calc_base_offset t.alignof_control st (t.shared_base st) ≤ get_max_offset c
      ∧ c.s_shared_offset = false := by
    by_cases hm : t.base_delta % t.alignof_control = 0
    · rw [if_pos hm] at hoff
      by_cases hle : calc_base_offset t.alignof_control st (t.shared_base st) ≤ get_max_offset c
      · cases hsh : c.s_shared_offset
        · exact ⟨hm, hoff, hle, rfl⟩
        · have := tf (Or.inr (Or.inr hsh))
          rw [this] at hinit
          simp at hinit
      · have := tf (Or.inr (Or.inl (Nat.not_le.1 hle)))
        rw [this] at hinit
        simp at hinit
    · rw [if_neg hm] at hoff
      have := tf (Or.inl hoff)
      rw [this] at hinit
      simp at hinit
  obtain ⟨hm, hoffv, hle, hsh⟩ := hok
  obtain ⟨ctl', e, f1, f2, f3, _⟩ := ts (by rw [hoffv, hmaxv]; omega) hle hsh
  rw [e] at hinit
  simp only [Option.some.injEq, Prod.mk.injEq] at hinit
  obtain ⟨hq, hctl, _⟩ := hinit
  subst hctl
  have g1 : get_offset c ctl2 = t.base_delta / t.alignof_control := by
    rw [hlater.1, f1, hoffv]
  have g2 : get_size c ctl2
      = calc_base_size_offset t.sizeof_shared t.sizeof_base t.alignof_control := by
    rw [hlater.2.1]
    exact f2 hA2
  have hptr : calc_shared_pointer t.alignof_control (t.shared_base st) (get_offset c ctl2)
      = st := by
    have hmul : t.base_delta / t.alignof_control * t.alignof_control = t.base_delta :=
      Nat.div_mul_cancel (Nat.dvd_of_mod_eq_zero hm)
    rw [g1, calc_shared_pointer_eq _ _ _ (by rw [hsb]; exact haddr.1)
      (by rw [hmul, hsb]; omega), hmul, hsb]
    omega
  have hsz : calc_shared_size t.sizeof_base t.alignof_control (get_size c ctl2)
      = t.sizeof_shared := by
    rw [g2]
    exact calc_shared_size_eq _ _ _ hsize.1 hsize.2 hA1
  refine ⟨_, ?_, hq.symm, ?_, rfl, hptr, hsz⟩
  · unfold AllocAdaptTypeInfo.create
    rw [hal]
    cases t_nothrow <;> simp
  · unfold AllocAdaptTypeInfo.deallocate
    simp only [Bool.false_eq_true, if_false, hptr, hsz]
    by_cases h0 : get_max_align c = 0
    · simp [h0]
    · have hij : i - j ≤ get_max_align c := by
        rcases hA3 with h | h
        · exact h.2
        · exact absurd h.1 h0
      have g3 : get_align c ctl2 = i - j := by
        rw [hlater.2.2]
        exact f3 hij
      rw [if_neg h0, if_neg h0, g3, hbase, calc_shared_align_pow i j fuel hji hi hfi, hshared]
      rfl

theorem type_info_round_trip_witness :
    ∃ al, AllocAdaptTypeInfo.create cfg_u64_32_16_6_6_4 false 64 true
            ⟨48, 16, 16, 8, 8, 16, 16, false⟩ (Allocation.returns (some 4096)) false
          = some ([Call.allocate [(⟨48, 16, 16, 8, 8, 16, 16, false⟩ : TypeLayout).sizeof_shared,
                al], Call.construct 4096], Except.ok (some 4096))
      ∧ AllocAdaptTypeInfo.deallocate cfg_u64_32_16_6_6_4 ⟨48, 16, 16, 8, 8, 16, 16, false⟩
            false 64 ((⟨48, 16, 16, 8, 8, 16, 16, false⟩ : TypeLayout).shared_base 4096) 0
            ⟨0, 0, 1, 4354⟩
          = some (Call.deallocate 4096
              [(⟨48, 16, 16, 8, 8, 16, 16, false⟩ : TypeLayout).sizeof_shared, al]) := by
  obtain ⟨al, h1, _, h3, _⟩ :=
    type_info_round_trip cfg_u64_32_16_6_6_4 ⟨48, 16, 16, 8, 8, 16, 16, false⟩ 64 4096 0 4 3 0
      true 4096 ⟨0, 4294967295, 1, 4354⟩ ⟨0, 0, 1, 4354⟩ []
      (by decide) (by decide) (by decide) (by decide) (by decide) (by decide) (by decide)
      (by decide) (by decide) (by decide) (by decide) (by decide)
  exact ⟨al, h1, h3⟩

/-- C29 (as stated) fails: without static support and with the offset bits configured as
`shared_bits`, the computed pointer offset is 0, neither the failure value nor above
`get_max_offset()` (6), and still `try_init` of both adapters destroys the object,
deallocates its storage and returns null: `try_set_offset` rejects the uncontrolled
block. -/
theorem try_init_counterexample :
    cfg_u08_4_2_sb.valid = true
      ∧ calc_base_offset 1 4096 ((⟨16, 8, 16, 8, 1, 16, 0, true⟩ : TypeLayout).shared_base 4096)
          = 0
      ∧ get_max_offset cfg_u08_4_2_sb = 6
      ∧ AllocAdaptPointer.try_init cfg_u08_4_2_sb ⟨16, 8, 16, 8, 1, 16, 0, true⟩ false 1 4096
          (ControlData.init cfg_u08_4_2_sb 0)
        = some (none, ControlData.init cfg_u08_4_2_sb 0,
            [Call.destroy 4096, Call.deallocate 4096 []])
      ∧ AllocAdaptTypeInfo.try_init cfg_u08_4_2_sb ⟨16, 8, 16, 8, 1, 16, 0, true⟩ false 1 4096
          (ControlData.init cfg_u08_4_2_sb 0)
        = some (none, ControlData.init cfg_u08_4_2_sb 0,
            [Call.destroy 4096, Call.deallocate 4096 [16, 16]]) := by
  decide

/-- C29 (amended): in `AllocAdaptPointer::try_init` and `AllocAdaptTypeInfo::try_init`
without static support, on a freshly constructed object: if the computed pointer offset is
the failure value or exceeds `get_max_offset()`, or if the offset bits are `shared_bits`
(so that `try_set_offset` rejects the uncontrolled block), the object is destroyed exactly
once, its storage is deallocated exactly once (with the size and alignment given to
`allocate`), null is returned, and `allocate_shared` and `allocate_shared_nothrow` return
an empty `SharedPtr` and leave no object, with no further call; otherwise the offset is
stored in the control block and the pointer to the object is returned. -/
theorem try_init_spec (c : Config) (t : TypeLayout) (fuel p u al ao : Nat)
    (hc : c.valid = true) (hf : 0 < fuel)
    (hal : AllocAdaptTypeInfo.align c t false fuel = some al)
    (hao : calc_base_align_offset fuel t.alignof_shared t.alignof_base = some ao) :
    (calc_base_offset t.alignof_control p (t.shared_base p) = numeric_max size_t_bits
          ∨ get_max_offset c < calc_base_offset t.alignof_control p (t.shared_base p)
          ∨ c.s_shared_offset = true →
        AllocAdaptPointer.try_init c t false fuel p (ControlData.init c u)
            = some (none, ControlData.init c u, [Call.destroy p, Call.deallocate p []])
          ∧ AllocAdaptTypeInfo.try_init c t false fuel p (ControlData.init c u)
            = some (none, ControlData.init c u,
                [Call.destroy p, Call.deallocate p [t.sizeof_shared, al]])
          ∧ ∀ (a : Adapter) (t_nothrow : Bool), a.s_supports_static = false →
              allocate_shared_impl AdapterKind.pointer c a fuel t_nothrow t
                  (Allocation.returns (some p)) false u
                = some ([Call.allocate [t.sizeof_shared, t.alignof_shared], Call.construct p,
                      Call.destroy p, Call.deallocate p []],
                    Except.ok (⟨none⟩, none))
              ∧ allocate_shared_impl AdapterKind.type_info c a fuel t_nothrow t
                  (Allocation.returns (some p)) false u
                = some ([Call.allocate [t.sizeof_shared, al], Call.construct p,
                      Call.destroy p, Call.deallocate p [t.sizeof_shared, al]],
                    Except.ok (⟨none⟩, none)))
      ∧ (calc_base_offset t.alignof_control p (t.shared_base p) ≠ numeric_max size_t_bits →
          calc_base_offset t.alignof_control p (t.shared_base p) ≤ get_max_offset c →
          c.s_shared_offset = false →
        (∃ ctl', AllocAdaptPointer.try_init c t false fuel p (ControlData.init c u)
              = some (some p, ctl', [])
            ∧ get_offset c ctl' = calc_base_offset t.alignof_control p (t.shared_base p))
          ∧ ∃ ctl', AllocAdaptTypeInfo.try_init c t false fuel p (ControlData.init c u)
              = some (some p, ctl', [])
            ∧ get_offset c ctl' = calc_base_offset t.alignof_control p (t.shared_base p)) := by
  obtain ⟨huc, hwf⟩ := init_usage c hc u
  have hunc : is_uncontrolled c (ControlData.init c u) = true := (is_uncontrolled_iff c _).2 huc
  obtain ⟨pf, ps⟩ := pointer_try_init c hc t fuel hf p (ControlData.init c u) hwf hunc
  obtain ⟨tf, ts⟩ := type_info_try_init c hc t fuel hf p (ControlData.init c u) hwf hunc al ao
    hal hao
  constructor
  · intro h
    have e1 := pf h
    have e2 := tf h
    refine ⟨e1, e2, ?_⟩
    intro a t_nothrow ha
    constructor
    · unfold allocate_shared_impl Intruder.pntr_create_with_allocator ControlAlloc.create
        ControlAlloc.try_init
      rw [ha]
      cases t_nothrow <;> simp [AllocAdaptPointer.create, e1]
    · unfold allocate_shared_impl Intruder.pntr_create_with_allocator ControlAlloc.create
        ControlAlloc.try_init
      rw [ha]
      cases t_nothrow <;> simp [AllocAdaptTypeInfo.create, hal, e2]
  · intro h1 h2 hsh
    obtain ⟨c1, e1, o1, _⟩ := ps h1 h2 hsh
    obtain ⟨c2, e2, o2, _⟩ := ts h1 h2 hsh
    exact ⟨⟨c1, e1, o1⟩, ⟨c2, e2, o2⟩⟩

theorem try_init_spec_witness :
    (AllocAdaptPointer.try_init cfg_u16_8_4_4 ⟨24, 8, 16, 8, 2, 16, 64, false⟩ false 64 4096
          (ControlData.init cfg_u16_8_4_4 0)
        = some (none, ControlData.init cfg_u16_8_4_4 0,
            [Call.destroy 4096, Call.deallocate 4096 []]))
      ∧ ∃ ctl', AllocAdaptTypeInfo.try_init cfg_u16_8_4_4 ⟨24, 8, 16, 8, 2, 16, 8, false⟩
            false 64 4096 (ControlData.init cfg_u16_8_4_4 0) = some (some 4096, ctl', [])
          ∧ get_offset cfg_u16_8_4_4 ctl'
            = calc_base_offset (⟨24, 8, 16, 8, 2, 16, 8, false⟩ : TypeLayout).alignof_control
                4096 ((⟨24, 8, 16, 8, 2, 16, 8, false⟩ : TypeLayout).shared_base 4096) :=
  ⟨((try_init_spec cfg_u16_8_4_4 ⟨24, 8, 16, 8, 2, 16, 64, false⟩ 64 4096 0 16 0
      (by decide) (by decide) (by decide) (by decide)).1 (Or.inr (Or.inl (by decide)))).1,
    ((try_init_spec cfg_u16_8_4_4 ⟨24, 8, 16, 8, 2, 16, 8, false⟩ 64 4096 0 16 0
      (by decide) (by decide) (by decide) (by decide)).2 (by decide) (by decide)
      (by decide)).2⟩

/-- C30: in `create` of the three adapters, if `allocate` returns storage and the
constructor then throws, the calls are `allocate`, the constructor, and one `deallocate`
with the same pointer (and the size and alignment, or the count, given to `allocate`),
after which the throwing variant rethrows the exception of the constructor and the nothrow
variant returns null; if `allocate` throws or returns null, `allocate` is the only call:
nothing is deallocated. -/
theorem create_failure_spec (c : Config) (s_supports_static : Bool) (fuel : Nat)
    (t_nothrow : Bool) (t : TypeLayout) (st al : Nat)
    (hal : AllocAdaptTypeInfo.align c t s_supports_static fuel = some al) :
    AllocAdaptPointer.create t_nothrow t (Allocation.returns (some st)) true
        = ([Call.allocate [t.sizeof_shared, t.alignof_shared], Call.construct st,
              Call.deallocate st []],
            if t_nothrow then Except.ok none else Except.error Raised.from_constructor)
      ∧ AllocAdaptTypeInfo.create c s_supports_static fuel t_nothrow t
          (Allocation.returns (some st)) true
        = some ([Call.allocate [t.sizeof_shared, al], Call.construct st,
              Call.deallocate st [t.sizeof_shared, al]],
            if t_nothrow then Except.ok none else Except.error Raised.from_constructor)
      ∧ AllocAdaptTyped.create t_nothrow (Allocation.returns (some st)) true
        = ([Call.allocate [1], Call.construct st, Call.deallocate st [1]],
            if t_nothrow then Except.ok none else Except.error Raised.from_constructor)
      ∧ (∀ alloc ctor_throws, alloc = Allocation.throws ∨ alloc = Allocation.returns none →
          (AllocAdaptPointer.create t_nothrow t alloc ctor_throws).1
              = [Call.allocate [t.sizeof_shared, t.alignof_shared]]
            ∧ (AllocAdaptTypeInfo.create c s_supports_static fuel t_nothrow t alloc
                ctor_throws).map Prod.fst = some [Call.allocate [t.sizeof_shared, al]]
            ∧ (AllocAdaptTyped.create t_nothrow alloc ctor_throws).1 = [Call.allocate [1]]) := by
  refine ⟨?_, ?_, ?_, ?_⟩
  · cases t_nothrow <;> simp [AllocAdaptPointer.create]
  · cases t_nothrow <;> simp [AllocAdaptTypeInfo.create, hal]
  · cases t_nothrow <;> simp [AllocAdaptTyped.create]
  · intro alloc ctor_throws h
    rcases h with h | h
    · subst h
      refine ⟨?_, ?_, ?_⟩
      · cases t_nothrow <;> simp [AllocAdaptPointer.create]
      · cases t_nothrow <;> simp [AllocAdaptTypeInfo.create, hal]
      · cases t_nothrow <;> simp [AllocAdaptTyped.create]
    · subst h
      refine ⟨?_, ?_, ?_⟩
      · cases t_nothrow <;> simp [AllocAdaptPointer.create]
      · cases t_nothrow <;> simp [AllocAdaptTypeInfo.create, hal]
      · cases t_nothrow <;> simp [AllocAdaptTyped.create]

theorem create_failure_spec_witness :
    AllocAdaptTypeInfo.create cfg_u16_8_4_4 false 64 false ⟨24, 8, 16, 8, 2, 16, 0, true⟩
        (Allocation.returns (some 4096)) true
      = some ([Call.allocate [(⟨24, 8, 16, 8, 2, 16, 0, true⟩ : TypeLayout).sizeof_shared, 16],
            Call.construct 4096,
            Call.deallocate 4096 [(⟨24, 8, 16, 8, 2, 16, 0, true⟩ : TypeLayout).sizeof_shared, 16]],
          if false = true then Except.ok none else Except.error Raised.from_constructor) :=
  (create_failure_spec cfg_u16_8_4_4 false 64 false ⟨24, 8, 16, 8, 2, 16, 0, true⟩ 4096 16
    (by decide)).2.1

/-- C31: for the thread-unsafe counter over a `w` bit unsigned type that holds `m`,
`increment(d)` and `decrement(d)` return `m` and leave the counter at `(m + d) mod 2^w`
and at `(m - d) mod 2^w` (the difference taken over the integers), and `decrement(d)`
after `increment(d)` restores `m`, for every `m` and every `d`. -/
theorem counter_inc_dec_spec (w m d : Nat) (hm : m < 2 ^ w) :
    (CounterThreadUnsafe.increment w m d).1 = m
      ∧ (CounterThreadUnsafe.increment w m d).2 = (m + d) % 2 ^ w
      ∧ (CounterThreadUnsafe.decrement w m d).1 = m
      ∧ (((CounterThreadUnsafe.decrement w m d).2 : Nat) : Int)
          = ((m : Int) - (d : Int)) % (2 : Int) ^ w
      ∧ (CounterThreadUnsafe.decrement w (CounterThreadUnsafe.increment w m d).2 d).2 = m
      ∧ CounterThreadUnsafe.get_count
          (CounterThreadUnsafe.decrement w (CounterThreadUnsafe.increment w m d).2 d).2 = m :=
  ⟨rfl, rfl, rfl, decrement_int w m d, decrement_increment w m d hm,
    decrement_increment w m d hm⟩

/-- Witness for C31: the `Counter` test on `std::uint8_t`, a counter that holds 23 and
the value 1, followed by the remaining steps of the test and a decrement that wraps. -/
theorem counter_inc_dec_spec_witness :
    (23 : Nat) < 2 ^ 8
      ∧ ((CounterThreadUnsafe.increment 8 23 1).1 = 23
        ∧ (CounterThreadUnsafe.increment 8 23 1).2 = (23 + 1) % 2 ^ 8
        ∧ (CounterThreadUnsafe.decrement 8 23 1).1 = 23
        ∧ (((CounterThreadUnsafe.decrement 8 23 1).2 : Nat) : Int)
            = ((23 : Nat) - (1 : Nat) : Int) % (2 : Int) ^ 8
        ∧ (CounterThreadUnsafe.decrement 8 (CounterThreadUnsafe.increment 8 23 1).2 1).2 = 23
        ∧ CounterThreadUnsafe.get_count
            (CounterThreadUnsafe.decrement 8 (CounterThreadUnsafe.increment 8 23 1).2 1).2 = 23)
      ∧ (CounterThreadUnsafe.increment 8 24 18).2 = 42
      ∧ (CounterThreadUnsafe.decrement 8 42 7).2 = 35
      ∧ (CounterThreadUnsafe.decrement 8 35 17).2 = 18
      ∧ (CounterThreadUnsafe.decrement 8 3 5).2 = 254
      ∧ (CounterThreadUnsafe.increment 8 250 10).2 = 4 :=
  ⟨by decide, counter_inc_dec_spec 8 23 1 (by decide), by decide, by decide, by decide,
    by decide, by decide⟩

/-- C32: `compare_exchange_weak(expected, desired)` on a counter that holds `m`: when `m`
equals `expected` it stores `desired`, leaves `expected` as it is and returns true;
otherwise it leaves the counter at `m`, writes `m` into `expected` and returns false.
A retry loop `while (!compare_exchange_weak(expected, desired)) {}` therefore ends after
at most two attempts, with `desired` stored and `expected` equal to `m`; so does every
loop of the form `while (cond(count) && !compare_exchange_weak(count, f(count))) {}`. -/
theorem compare_exchange_weak_spec (w m e d fuel : Nat) (hd : d < 2 ^ w) (hf : 2 ≤ fuel) :
    (m = e → CounterThreadUnsafe.compare_exchange_weak w m e d = (true, d, e))
      ∧ (m ≠ e → CounterThreadUnsafe.compare_exchange_weak w m e d = (false, m, m))
      ∧ (m = e → retry_loop w 1 m e d = some (d, m))
      ∧ retry_loop w 2 m e d = some (d, m)
      ∧ retry_loop w fuel m e d = some (d, m)
      ∧ (∀ (cond : Nat → Bool) (desired : Nat → Nat),
          ∃ r, casLoop w cond desired fuel m e = some r) := by
  have hw : wrap w d = d := wrap_of_lt hd
  refine ⟨?_, ?_, ?_, ?_, ?_, ?_⟩
  · intro h
    simp [CounterThreadUnsafe.compare_exchange_weak, h, hw]
  · intro h
    simp [CounterThreadUnsafe.compare_exchange_weak, h]
  · intro h
    subst h
    unfold retry_loop
    rw [casLoop_pos w _ _ 1 m (by omega)]
    simp [hw]
  · unfold retry_loop
    rw [casLoop_two w _ _ 2 m e (le_refl 2)]
    simp [hw]
  · unfold retry_loop
    rw [casLoop_two w _ _ fuel m e hf]
    simp [hw]
  · intro cond desired
    exact ⟨_, casLoop_two w cond desired fuel m e hf⟩

/-- Witness for C32: the `Counter` test on `std::uint8_t`, a counter that holds 18,
`expected` 5 and `desired` 7. -/
theorem compare_exchange_weak_spec_witness :
    CounterThreadUnsafe.compare_exchange_weak 8 18 5 7 = (false, 18, 18)
      ∧ CounterThreadUnsafe.compare_exchange_weak 8 18 18 7 = (true, 7, 18)
      ∧ retry_loop 8 2 18 5 7 = some (7, 18) :=
  ⟨(compare_exchange_weak_spec 8 18 5 7 2 (by decide) (by decide)).2.1 (by decide),
    (compare_exchange_weak_spec 8 18 18 7 2 (by decide) (by decide)).1 rfl,
    (compare_exchange_weak_spec 8 18 5 7 2 (by decide) (by decide)).2.2.2.1⟩

/-- C33: for every storage width `S` in 16, 32, 64 with `usage_bits == S/2` and every
`weak_bits`, exactly one of the two specialisations of `ControlDataStorage` is enabled,
so the primary template is not used, and the usage counter type has exactly `S/2` bits;
and each of the 34 rows of the `ControlData` test passes the static assertions and
selects the usage, weak and data value types the test asserts. -/
theorem layout_selection_spec (c : Config)
    (hS : c.storage_bits = 16 ∨ c.storage_bits = 32 ∨ c.storage_bits = 64)
    (hU : c.usage_bits = c.storage_bits / 2) :
    (c.matchesSeparateUsage = true ∧ c.matchesSeparateAll = false
        ∨ c.matchesSeparateUsage = false ∧ c.matchesSeparateAll = true)
      ∧ c.layout ≠ Layout.single
      ∧ c.usage_type_bits = c.storage_bits / 2
      ∧ tests_ControlData_table.length = 34
      ∧ ∀ row ∈ tests_ControlData_table, row.1.valid = true
          ∧ (row.1.usage_type_bits, row.1.weak_type_bits, row.1.data_type_bits) = row.2 := by
  obtain ⟨S, u, wb, o, sz, al⟩ := c
  simp only at hS hU
  subst hU
  have hx := half_storage_exclusive S wb o sz al hS
  have hcases : Config.matchesSeparateUsage ⟨S, S / 2, wb, o, sz, al⟩ = true
        ∧ Config.matchesSeparateAll ⟨S, S / 2, wb, o, sz, al⟩ = false
      ∨ Config.matchesSeparateUsage ⟨S, S / 2, wb, o, sz, al⟩ = false
        ∧ Config.matchesSeparateAll ⟨S, S / 2, wb, o, sz, al⟩ = true := by
    cases hA : Config.matchesSeparateAll ⟨S, S / 2, wb, o, sz, al⟩ <;> simp [hx, hA]
  refine ⟨hcases, ?_, ?_, by decide, by decide⟩
  · rcases hcases with ⟨a, b⟩ | ⟨a, b⟩ <;> simp [Config.layout, a, b]
  · rcases hcases with ⟨a, b⟩ | ⟨a, b⟩ <;> simp [Config.usage_type_bits, Config.layout, a, b]

/-- Witness for C33: `std::uint64_t` storage with 32 usage bits and 32 weak bits selects
the specialisation with a separate usage counter of type `std::uint32_t`; with 16 weak
bits it selects the one with separate usage and weak counters. -/
theorem layout_selection_spec_witness :
    cfg_u64_32_32_sb.layout = Layout.separateUsage
      ∧ cfg_u64_32_32_sb.usage_type_bits = 64 / 2
      ∧ cfg_u64_32_16_6_6_4.layout = Layout.separateAll
      ∧ cfg_u64_32_16_6_6_4.usage_type_bits = 64 / 2
      ∧ cfg_u64_32_32_sb.layout ≠ Layout.single :=
  ⟨by decide,
    (layout_selection_spec cfg_u64_32_32_sb (by decide) (by decide)).2.2.1,
    by decide,
    (layout_selection_spec cfg_u64_32_16_6_6_4 (by decide) (by decide)).2.2.1,
    (layout_selection_spec cfg_u64_32_32_sb (by decide) (by decide)).2.1⟩

/-- C34 (as stated) fails: one byte with 3 usage and 2 weak bits, usage 0 and weak count 1
(the word `0x08`).  Where `PNTR_ASSERT` is active, the default of `common.hpp`,
`release()` does not return: the decrement gives `0x07`, the assertion
`previous == s_uncontrolled` is false for the previous usage 0, and the program ends before
the increment that would undo the decrement, with weak count 0 in the word. -/
theorem undo_decrement_counterexample :
    use_count cfg_u08_3_2 ⟨0x08, 0, 0, 0⟩ = 0 ∧ weak_count cfg_u08_3_2 ⟨0x08, 0, 0, 0⟩ = 1
      ∧ Assert.release cfg_u08_3_2 ⟨0x08, 0, 0, 0⟩ = Outcome.aborted ⟨0x07, 0, 0, 0⟩
      ∧ weak_count cfg_u08_3_2 ⟨0x07, 0, 0, 0⟩ = 0
      ∧ release cfg_u08_3_2 ⟨0x08, 0, 0, 0⟩ = (true, ⟨0x08, 0, 0, 0⟩) := by
  decide

/-- C34 (amended): `release()` on a control block whose usage is the uncontrolled value
returns true and leaves every word of the storage as it was, with the assertion active or
not.  On a block whose usage is 0, `PNTR_ASSERT(previous == s_uncontrolled)` is false:
where the assertion is compiled out `release()` returns true and leaves every word of the
storage as it was, in each of the three layouts, although in the single-word layout the
decrement has borrowed from the weak field next to the usage (the weak count of the
intermediate word is one less); where the assertion is active the program ends at it with
that intermediate word in place.  Here `release` is the call with the assertion compiled
out and `Assert.release` the call with the assertion active. -/
theorem undo_decrement_frame (c : Config) (s : ControlData) (hc : c.valid = true)
    (hs : s.wf c) (h : use_count c s = c.s_uncontrolled ∨ use_count c s = 0) :
    release c s = (true, s)
      ∧ (use_count c s = c.s_uncontrolled → Assert.release c s = Outcome.returned (true, s))
      ∧ (use_count c s = 0 →
          Assert.release c s
            = Outcome.aborted (set_usage_counter c s
                (CounterThreadUnsafe.decrement c.usage_type_bits (usage_counter c s)
                  s_usage_one).2))
      ∧ (c.layout = Layout.single → use_count c s = 0 → 1 ≤ weak_count c s →
          weak_count c (set_usage_counter c s
              (CounterThreadUnsafe.decrement c.usage_type_bits (usage_counter c s)
                s_usage_one).2)
            = weak_count c s - 1) := by
  have hm := s_usage_max_lt c hc
  have hna : ¬ (1 ≤ use_count c s ∧ use_count c s ≤ get_max_usage_count c) := by
    unfold get_max_usage_count
    rcases h with h | h <;> omega
  have e := release_not_alive c hc s hs hna
  have hA := assert_release_eq c hc s
  refine ⟨e, ?_, ?_, ?_⟩
  · intro hu
    rw [hA, if_pos (Or.inr hu), e]
  · intro h0
    rw [hA, if_neg]
    intro h'
    rcases h' with h' | h'
    · exact hna h'
    · omega
  · intro hL h0 hw
    obtain ⟨u2, ule, _⟩ := valid_usage c hc
    have hsh := (single_shifts c hL).1
    have hU : usage_counter c s = s.m_counter := by
      unfold usage_counter
      rw [hL]
    have hW : ∀ x : ControlData, weak_counter c x = x.m_counter := by
      intro x
      unfold weak_counter
      rw [hL]
    have hS : ∀ y, (set_usage_counter c s y).m_counter = y := by
      intro y
      unfold set_usage_counter
      rw [hL]
    rw [use_count_eq c hc, hU] at h0
    rw [weak_count_eq c hc, hW, hsh] at hw
    obtain ⟨b1, b2⟩ := borrow_low s.m_counter c.s_usage_bits c.s_weak_bits h0 hw
    have hlt : s.m_counter < 2 ^ c.usage_type_bits := by
      have := hs.1
      rw [hU] at this
      exact this
    rw [weak_count_eq c hc, weak_count_eq c hc, hW, hW, hS, hsh, hU,
      decrement_one_pos c.usage_type_bits s.m_counter (by omega) hlt b1]
    exact b2

/-- Witness for C34: one byte with 3 usage bits and 2 weak bits; the uncontrolled block
`0x0f`, on which the call returns with the assertion active as well, and the block `0x08`
with usage 0 and weak count 1. -/
theorem undo_decrement_frame_witness :
    (release cfg_u08_3_2 ⟨0x0f, 0, 0, 0⟩ = (true, ⟨0x0f, 0, 0, 0⟩)
        ∧ Assert.release cfg_u08_3_2 ⟨0x0f, 0, 0, 0⟩ = Outcome.returned (true, ⟨0x0f, 0, 0, 0⟩))
      ∧ release cfg_u08_3_2 ⟨0x08, 0, 0, 0⟩ = (true, ⟨0x08, 0, 0, 0⟩)
      ∧ weak_count cfg_u08_3_2 (set_usage_counter cfg_u08_3_2 ⟨0x08, 0, 0, 0⟩
          (CounterThreadUnsafe.decrement cfg_u08_3_2.usage_type_bits
            (usage_counter cfg_u08_3_2 ⟨0x08, 0, 0, 0⟩) s_usage_one).2) = 1 - 1 :=
  ⟨⟨(undo_decrement_frame cfg_u08_3_2 ⟨0x0f, 0, 0, 0⟩ (by decide) (by decide)
        (Or.inl (by decide))).1,
      (undo_decrement_frame cfg_u08_3_2 ⟨0x0f, 0, 0, 0⟩ (by decide) (by decide)
        (Or.inl (by decide))).2.1 (by decide)⟩,
    (undo_decrement_frame cfg_u08_3_2 ⟨0x08, 0, 0, 0⟩ (by decide) (by decide)
      (Or.inr (by decide))).1,
    (undo_decrement_frame cfg_u08_3_2 ⟨0x08, 0, 0, 0⟩ (by decide) (by decide)
      (Or.inr (by decide))).2.2.2 (by decide) (by decide) (by decide)⟩

/-- C35 (as stated) fails: in the single-byte configuration `(u08, 4, 2, shared_bits)` of the
`ControlData` test, which the static assertions accept, the offset mask `0x07` lies inside
the usage mask `0x0f`, so the six field masks are not pairwise disjoint. -/
theorem single_word_partition_counterexample :
    cfg_u08_4_2_sb.valid = true ∧ cfg_u08_4_2_sb.layout = Layout.single
      ∧ cfg_u08_4_2_sb.s_usage_mask = 0x0f ∧ cfg_u08_4_2_sb.s_offset_mask = 0x07
      ∧ cfg_u08_4_2_sb.s_usage_mask &&& cfg_u08_4_2_sb.s_offset_mask ≠ 0 := by
  decide

/-- C35 (amended): for every configuration of the single-word layout that the static
assertions accept, the widths of usage, weak, offset, size, align and user sum to the
storage width, the six field masks are pairwise disjoint, except that with `shared_bits`
the offset mask is not empty and lies inside the usage mask, and the union of the masks
is the all-ones word. -/
theorem single_word_partition (c : Config) (hc : c.valid = true)
    (hL : c.layout = Layout.single) :
    c.s_usage_bits + c.s_weak_bits + c.s_offset_bits + c.s_size_bits + c.s_align_bits
        + c.s_user_bits = c.storage_bits
      ∧ c.s_usage_mask &&& c.s_weak_mask = 0
      ∧ (c.s_shared_offset = false → c.s_usage_mask &&& c.s_offset_mask = 0)
      ∧ (c.s_shared_offset = true →
          c.s_usage_mask &&& c.s_offset_mask = c.s_offset_mask ∧ c.s_offset_mask ≠ 0)
      ∧ c.s_usage_mask &&& c.s_size_mask = 0
      ∧ c.s_usage_mask &&& c.s_align_mask = 0
      ∧ c.s_usage_mask &&& c.s_user_mask = 0
      ∧ c.s_weak_mask &&& c.s_offset_mask = 0
      ∧ c.s_weak_mask &&& c.s_size_mask = 0
      ∧ c.s_weak_mask &&& c.s_align_mask = 0
      ∧ c.s_weak_mask &&& c.s_user_mask = 0
      ∧ c.s_offset_mask &&& c.s_size_mask = 0
      ∧ c.s_offset_mask &&& c.s_align_mask = 0
      ∧ c.s_offset_mask &&& c.s_user_mask = 0
      ∧ c.s_size_mask &&& c.s_align_mask = 0
      ∧ c.s_size_mask &&& c.s_user_mask = 0
      ∧ c.s_align_mask &&& c.s_user_mask = 0
      ∧ c.s_usage_mask ||| c.s_weak_mask ||| c.s_offset_mask ||| c.s_size_mask
          ||| c.s_align_mask ||| c.s_user_mask = numeric_max c.storage_bits := by
  obtain ⟨hsum, s1, s2, s3, s4, s5⟩ := single_layout c hc hL
  obtain ⟨hu2, _, _⟩ := valid_usage c hc
  have mA := s_usage_mask_eq c hc
  have mW := s_weak_mask_eq c hc
  have mZ := s_size_mask_eq c hc
  have mL := s_align_mask_eq c hc
  have mR := s_user_mask_eq c hc
  rw [s1] at mW
  rw [s3] at mZ
  rw [s4] at mL
  rw [s5] at mR
  obtain ⟨p1, p2, p3, p4, p5, p6, p7, p8, p9, p10, p11, p12, p13, p14, p15, p16⟩ :=
    partition_masks c.s_usage_bits c.s_weak_bits c.s_offset_bits c.s_size_bits
      c.s_align_bits c.s_user_bits
  rw [hsum] at p16
  cases hsh : c.s_shared_offset with
  | false =>
    have mO := s_offset_mask_eq c hc hsh
    rw [s2] at mO
    rw [mA, mW, mO, mZ, mL, mR]
    exact ⟨hsum, p1, fun _ => p2, (fun h => by cases h), p3, p4, p5, p6, p7, p8, p9, p10, p11,
      p12, p13, p14, p15, p16⟩
  | true =>
    obtain ⟨mO, o0⟩ := s_offset_mask_shared c hsh
    have hin := mask_inside (c.s_usage_bits - 1) c.s_usage_bits (by omega)
    have hab := mask_absorb (c.s_usage_bits - 1) c.s_usage_bits (by omega)
    have hne : 2 ^ (c.s_usage_bits - 1) - 1 ≠ 0 := by
      have : 2 ^ 1 ≤ 2 ^ (c.s_usage_bits - 1) := Nat.pow_le_pow_right (by norm_num) (by omega)
      omega
    have hO : (2 ^ (c.s_usage_bits - 1) - 1) = (2 ^ (c.s_usage_bits - 1) - 1) <<< 0 :=
      Nat.shiftLeft_zero.symm
    have d0 : ∀ b sh, c.s_usage_bits ≤ sh →
        (2 ^ (c.s_usage_bits - 1) - 1) &&& ((2 ^ b - 1) <<< sh) = 0 := by
      intro b sh h
      rw [hO]
      exact masks_disjoint _ 0 b sh (by omega)
    have dW : ((2 ^ c.s_weak_bits - 1) <<< c.s_usage_bits) &&& (2 ^ (c.s_usage_bits - 1) - 1)
        = 0 := by
      rw [Nat.land_comm]
      exact d0 _ _ (le_refl _)
    have hunion : (2 ^ c.s_usage_bits - 1) ||| ((2 ^ c.s_weak_bits - 1) <<< c.s_usage_bits)
        ||| (2 ^ (c.s_usage_bits - 1) - 1)
        = (2 ^ c.s_usage_bits - 1) ||| ((2 ^ c.s_weak_bits - 1) <<< c.s_usage_bits)
          ||| ((2 ^ c.s_offset_bits - 1) <<< (c.s_usage_bits + c.s_weak_bits)) := by
      rw [o0, Nat.pow_zero, Nat.sub_self, Nat.zero_shiftLeft, Nat.or_zero,
        Nat.lor_assoc, Nat.lor_comm ((2 ^ c.s_weak_bits - 1) <<< c.s_usage_bits),
        ← Nat.lor_assoc, hab]
    rw [mA, mW, mO, mZ, mL, mR, hunion]
    exact ⟨hsum, p1, (fun h => by cases h), fun _ => ⟨hin, hne⟩, p3, p4, p5, dW, p7, p8, p9,
      d0 _ _ (by omega), d0 _ _ (by omega), d0 _ _ (by omega), p13, p14, p15, p16⟩

/-- Witness for C35: one byte with 3 usage, 2 weak, 1 offset, 1 size and 1 align bit. -/
theorem single_word_partition_witness :
    cfg_u08_3_2_1_1_1.s_usage_bits + cfg_u08_3_2_1_1_1.s_weak_bits
        + cfg_u08_3_2_1_1_1.s_offset_bits + cfg_u08_3_2_1_1_1.s_size_bits
        + cfg_u08_3_2_1_1_1.s_align_bits + cfg_u08_3_2_1_1_1.s_user_bits = 8
      ∧ cfg_u08_3_2_1_1_1.s_usage_mask ||| cfg_u08_3_2_1_1_1.s_weak_mask
          ||| cfg_u08_3_2_1_1_1.s_offset_mask ||| cfg_u08_3_2_1_1_1.s_size_mask
          ||| cfg_u08_3_2_1_1_1.s_align_mask ||| cfg_u08_3_2_1_1_1.s_user_mask = 0xff :=
  ⟨(single_word_partition cfg_u08_3_2_1_1_1 (by decide) (by decide)).1,
    (single_word_partition cfg_u08_3_2_1_1_1 (by decide) (by decide)).2.2.2.2.2.2.2.2.2.2.2.2.2.2.2.2.2⟩

/-- C36: in every state reached from a freshly constructed control block by a sequence of
`try_control`, `try_add_ref`, `release` and `try_revive` (each call returns), the usage
field is the uncontrolled value or at most `get_max_usage_count()`; so `use_count()` of a
block that is alive, and of any block that is not uncontrolled, never exceeds
`get_max_usage_count()`.  This holds with offset bits of their own and with
`shared_bits` alike. -/
theorem usage_range_invariant (c : Config) (fuel : Nat) (hc : c.valid = true) (hf : 0 < fuel)
    (p_user_init : Nat) (ops : List Op) (hops : ∀ op ∈ ops, op.lifecycle = true) :
    ∃ s, run c fuel ops (ControlData.init c p_user_init) = some s
      ∧ (use_count c s = c.s_uncontrolled ∨ use_count c s ≤ get_max_usage_count c)
      ∧ (is_alive c s = true → use_count c s ≤ get_max_usage_count c)
      ∧ (is_uncontrolled c s = false → use_count c s ≤ get_max_usage_count c) := by
  obtain ⟨h0, hw0⟩ := init_usage c hc p_user_init
  obtain ⟨s, e, _, h⟩ := checked_run c hc fuel hf ops _
    (fun op ho => lifecycle_checked op (hops op ho)) hw0 (Or.inl h0)
  refine ⟨s, e, h, fun ha => ((is_alive_iff c s).mp ha).2, fun hu => ?_⟩
  rcases h with h | h
  · rw [(is_uncontrolled_iff c s).mpr h] at hu
    cases hu
  · exact h

/-- Witness for C36: one byte with 3 usage and 2 weak bits; acquire, share twice, release
three times, revive. -/
theorem usage_range_invariant_witness :
    ∃ s, run cfg_u08_3_2 1 [Op.try_control, Op.try_add_ref, Op.try_add_ref, Op.release,
          Op.release, Op.release, Op.try_revive] (ControlData.init cfg_u08_3_2 0) = some s
      ∧ (use_count cfg_u08_3_2 s = cfg_u08_3_2.s_uncontrolled
          ∨ use_count cfg_u08_3_2 s ≤ get_max_usage_count cfg_u08_3_2)
      ∧ (is_alive cfg_u08_3_2 s = true → use_count cfg_u08_3_2 s ≤ get_max_usage_count cfg_u08_3_2)
      ∧ (is_uncontrolled cfg_u08_3_2 s = false
          → use_count cfg_u08_3_2 s ≤ get_max_usage_count cfg_u08_3_2) :=
  usage_range_invariant cfg_u08_3_2 1 (by decide) (by decide) 0
    [Op.try_control, Op.try_add_ref, Op.try_add_ref, Op.release, Op.release, Op.release,
      Op.try_revive] (by decide)

/-- C37 (as stated) fails: with 2 usage bits in one byte (maximum 2) `try_control` followed
by `try_add_ref` on a fresh block reaches usage 2 without a failed assertion, and there
the assertion `usage < max` of both operations is false, so that the next call of either
ends the program where `PNTR_ASSERT` is active; and with 4 usage bits and `shared_bits`
the block that holds the offset 3 after `try_control`, `release`, `try_set_offset(3)` has
usage bits 11 > 7. -/
theorem usage_assertion_counterexample :
    Assert.run cfg_u08_2_2 1 [Op.try_control, Op.try_add_ref] (ControlData.init cfg_u08_2_2 0)
        = some (Outcome.returned ⟨0x06, 0, 0, 0⟩)
      ∧ use_count cfg_u08_2_2 ⟨0x06, 0, 0, 0⟩ = 2 ∧ get_max_usage_count cfg_u08_2_2 = 2
      ∧ try_control_assertion cfg_u08_2_2 1 ⟨0x06, 0, 0, 0⟩ = some false
      ∧ try_add_ref_assertion cfg_u08_2_2 1 ⟨0x06, 0, 0, 0⟩ = some false
      ∧ Assert.try_control cfg_u08_2_2 1 ⟨0x06, 0, 0, 0⟩
          = some (Outcome.aborted ⟨0x06, 0, 0, 0⟩)
      ∧ Assert.try_add_ref cfg_u08_2_2 1 ⟨0x06, 0, 0, 0⟩
          = some (Outcome.aborted ⟨0x06, 0, 0, 0⟩)
      ∧ Assert.run cfg_u08_4_2_sb 1 [Op.try_control, Op.release, Op.try_set_offset 3]
          (ControlData.init cfg_u08_4_2_sb 0) = some (Outcome.returned ⟨0x1b, 0, 0, 0⟩)
      ∧ try_control_assertion cfg_u08_4_2_sb 1 ⟨0x1b, 0, 0, 0⟩ = some false
      ∧ try_add_ref_assertion cfg_u08_4_2_sb 1 ⟨0x1b, 0, 0, 0⟩ = some false := by
  decide

/-- C37 (amended): in every state reached from a freshly constructed control block by a
sequence of `try_control`, `try_add_ref`, `release`, `try_revive` and `try_set_offset`,
whether the assertions are compiled out (`run`; each call returns) or active and none of
them has failed (`Assert.run`), the assertion `usage < max` of `try_control()` holds
exactly when the block is uncontrolled, where `e_acquired` is returned before the
assertion, or its usage is below `get_max_usage_count()`, and on a block that is not
uncontrolled the assertion of `try_add_ref()` holds exactly when the usage is below
`get_max_usage_count()`.  So both hold on every expired block.  A call whose assertion
holds returns the same with the assertion active (`Assert.try_control`,
`Assert.try_add_ref`) as with it compiled out (`try_control`, `try_add_ref`); a call
whose assertion is false ends the program where the assertion is active, and returns
`e_invalid` or `false` and changes nothing where it is compiled out.  The assertion
does fail on a reachable state of every configuration: `try_control` followed by
`get_max_usage_count() - 1` calls of `try_add_ref`, none of which fails an assertion,
leads to usage `get_max_usage_count()`, where both assertions are false. -/
theorem usage_assertion_spec (c : Config) (fuel : Nat) (hc : c.valid = true) (hf : 0 < fuel)
    (p_user_init : Nat) (ops : List Op) (hops : ∀ op ∈ ops, op.lifecycle_offset = true) :
    (∃ s a b, run c fuel ops (ControlData.init c p_user_init) = some s
        ∧ try_control_assertion c fuel s = some a ∧ try_add_ref_assertion c fuel s = some b
        ∧ (a = true ↔ is_uncontrolled c s = true ∨ use_count c s < get_max_usage_count c)
        ∧ (is_uncontrolled c s = false →
            (b = true ↔ use_count c s < get_max_usage_count c))
        ∧ (use_count c s = 0 → a = true ∧ b = true)
        ∧ (∃ r, try_control c fuel s = some r
            ∧ Assert.try_control c fuel s
              = some (if a = true then Outcome.returned r else Outcome.aborted s))
        ∧ (∃ r, try_add_ref c fuel s = some r
            ∧ Assert.try_add_ref c fuel s
              = some (if b = true then Outcome.returned r else Outcome.aborted s))
        ∧ (a = false → try_control c fuel s = some (ControlStatus.e_invalid, s))
        ∧ (b = false → try_add_ref c fuel s = some (false, s)))
      ∧ (∀ s, Assert.run c fuel ops (ControlData.init c p_user_init)
            = some (Outcome.returned s) →
          run c fuel ops (ControlData.init c p_user_init) = some s)
      ∧ ∃ s, Assert.run c fuel
            (Op.try_control :: List.replicate (get_max_usage_count c - 1) Op.try_add_ref)
            (ControlData.init c p_user_init) = some (Outcome.returned s)
          ∧ use_count c s = get_max_usage_count c ∧ is_alive c s = true
          ∧ try_control_assertion c fuel s = some false
          ∧ try_add_ref_assertion c fuel s = some false
          ∧ Assert.try_control c fuel s = some (Outcome.aborted s)
          ∧ Assert.try_add_ref c fuel s = some (Outcome.aborted s) := by
  have hm := s_usage_max_lt c hc
  have hmax : get_max_usage_count c = c.s_usage_max := rfl
  obtain ⟨_, hw0⟩ := init_usage c hc p_user_init
  obtain ⟨s, e, _⟩ := lifecycle_offset_run c hc fuel hf ops _ hops hw0
  refine ⟨⟨s, _, _, e, try_control_assertion_eq c s fuel hf,
    try_add_ref_assertion_eq c s fuel hf, ?_, ?_, ?_, ?_, ?_, ?_, ?_⟩, ?_, ?_⟩
  · simp
  · intro _
    simp
  · intro h0
    simp only [Bool.or_eq_true, decide_eq_true_eq]
    exact ⟨Or.inr (by omega), by omega⟩
  · obtain ⟨r, er, eA⟩ := assert_try_control_eq c s fuel hf
    refine ⟨r, er, ?_⟩
    rw [eA]
    congr 1
    by_cases hu : use_count c s = c.s_uncontrolled
    · have hu' : is_uncontrolled c s = true := (is_uncontrolled_iff c s).mpr hu
      simp [hu, hu']
    · have hu' : is_uncontrolled c s = false := is_uncontrolled_false c s hu
      simp [hu, hu']
  · obtain ⟨r, er, eA⟩ := assert_try_add_ref_eq c s fuel hf
    refine ⟨r, er, ?_⟩
    rw [eA]
    simp
  · intro ha
    simp only [Bool.or_eq_false_iff, decide_eq_false_iff_not] at ha
    refine try_control_invalid c s fuel hf ?_ (by omega)
    intro hu
    rw [(is_uncontrolled_iff c s).mpr hu] at ha
    exact absurd ha.1 (by decide)
  · intro hb
    simp only [decide_eq_false_iff_not] at hb
    exact try_add_ref_fail c s fuel hf (by omega)
  · intro s2 e2
    exact assert_run_returned c hc fuel hf ops _ s2 e2
  · obtain ⟨s2, e2, u2, _⟩ := assert_saturation_reachable c hc fuel hf p_user_init
    have hne : use_count c s2 ≠ c.s_uncontrolled := by omega
    obtain ⟨r1, _, eA1⟩ := assert_try_control_eq c s2 fuel hf
    obtain ⟨r2, _, eA2⟩ := assert_try_add_ref_eq c s2 fuel hf
    refine ⟨s2, e2, u2, (is_alive_iff c s2).mpr (by omega), ?_, ?_, ?_, ?_⟩
    · rw [try_control_assertion_eq c s2 fuel hf, is_uncontrolled_false c s2 hne, u2]
      simp
    · rw [try_add_ref_assertion_eq c s2 fuel hf, u2]
      simp
    · rw [eA1, if_neg]
      omega
    · rw [eA2, if_neg]
      omega

/-- Witness for C37: one byte with 3 usage and 2 weak bits; acquire, share, release twice. -/
theorem usage_assertion_spec_witness :
    (∃ s a b, run cfg_u08_3_2 1 [Op.try_control, Op.try_add_ref, Op.release, Op.release]
          (ControlData.init cfg_u08_3_2 0) = some s
        ∧ try_control_assertion cfg_u08_3_2 1 s = some a
        ∧ try_add_ref_assertion cfg_u08_3_2 1 s = some b
        ∧ (use_count cfg_u08_3_2 s = 0 → a = true ∧ b = true)
        ∧ (a = false → try_control cfg_u08_3_2 1 s = some (ControlStatus.e_invalid, s))
        ∧ (b = false → try_add_ref cfg_u08_3_2 1 s = some (false, s)))
      ∧ ∃ s, Assert.run cfg_u08_3_2 1
            (Op.try_control
              :: List.replicate (get_max_usage_count cfg_u08_3_2 - 1) Op.try_add_ref)
            (ControlData.init cfg_u08_3_2 0) = some (Outcome.returned s)
          ∧ use_count cfg_u08_3_2 s = get_max_usage_count cfg_u08_3_2
          ∧ Assert.try_control cfg_u08_3_2 1 s = some (Outcome.aborted s)
          ∧ Assert.try_add_ref cfg_u08_3_2 1 s = some (Outcome.aborted s) := by
  obtain ⟨⟨s, a, b, e, ea, eb, _, _, h0, _, _, ha, hb⟩, _, s2, e2, u2, _, _, _, A1, A2⟩ :=
    usage_assertion_spec cfg_u08_3_2 1 (by decide) (by decide) 0
      [Op.try_control, Op.try_add_ref, Op.release, Op.release] (by decide)
  exact ⟨⟨s, a, b, e, ea, eb, h0, ha, hb⟩, s2, e2, u2, A1, A2⟩

/-- C38 (as stated) fails: one byte with 4 usage bits shared with the offset and 2 weak
bits.  The block `0x1b`, which holds the offset 3 after `try_control`, `release`,
`try_set_offset(3)` on a fresh block (no assertion fails on the way), has usage bits
11 > 7; on it `try_control()` and `try_add_ref()` do not fail with a returned value where
`PNTR_ASSERT` is active, the default of `common.hpp`: the assertion `11 < 7` is false and
the program ends there.  Only with the assertion compiled out do they return `e_invalid`
and false. -/
theorem shared_offset_counterexample :
    Assert.run cfg_u08_4_2_sb 1 [Op.try_control, Op.release, Op.try_set_offset 3]
        (ControlData.init cfg_u08_4_2_sb 0) = some (Outcome.returned ⟨0x1b, 0, 0, 0⟩)
      ∧ use_count cfg_u08_4_2_sb ⟨0x1b, 0, 0, 0⟩ = 11
      ∧ get_max_usage_count cfg_u08_4_2_sb = 7
      ∧ Assert.try_control cfg_u08_4_2_sb 1 ⟨0x1b, 0, 0, 0⟩
          = some (Outcome.aborted ⟨0x1b, 0, 0, 0⟩)
      ∧ Assert.try_add_ref cfg_u08_4_2_sb 1 ⟨0x1b, 0, 0, 0⟩
          = some (Outcome.aborted ⟨0x1b, 0, 0, 0⟩)
      ∧ try_control cfg_u08_4_2_sb 1 ⟨0x1b, 0, 0, 0⟩
          = some (ControlStatus.e_invalid, ⟨0x1b, 0, 0, 0⟩)
      ∧ try_add_ref cfg_u08_4_2_sb 1 ⟨0x1b, 0, 0, 0⟩ = some (false, ⟨0x1b, 0, 0, 0⟩) := by
  decide

/-- C38 (amended): with offset bits configured as `shared_bits`, for every offset
`p <= get_max_offset()` the value `s_offset_bit | p` written into the usage bits (top usage
bit set, `p` in the bits below) is greater than `get_max_usage_count()`, not 0 and not the
uncontrolled value.  On a block that is neither alive nor uncontrolled `try_set_offset(p)`
returns true and the usage bits then hold that value: the block is neither alive nor
uncontrolled, `get_offset()` returns `p`, and `try_revive` returns false and leaves the
storage unchanged.  On that block `PNTR_ASSERT(usage < max)` of `try_control` and
`try_add_ref` is false: where the assertion is active (`Assert.try_control`,
`Assert.try_add_ref`) the program ends at it with the storage unchanged, and where it is
compiled out (`try_control`, `try_add_ref`) the calls return `e_invalid` and false and
leave the storage unchanged. -/
theorem shared_offset_inert (c : Config) (s : ControlData) (fuel p : Nat)
    (hc : c.valid = true) (hs : s.wf c) (hf : 0 < fuel) (hsh : c.s_shared_offset = true)
    (hp : p ≤ get_max_offset c) (ha : is_alive c s = false)
    (hu : is_uncontrolled c s = false) :
    get_max_usage_count c < (c.s_offset_bit ||| wrap c.offset_type_bits p)
      ∧ (c.s_offset_bit ||| wrap c.offset_type_bits p) ≠ 0
      ∧ (c.s_offset_bit ||| wrap c.offset_type_bits p) ≠ c.s_uncontrolled
      ∧ (c.s_offset_bit ||| wrap c.offset_type_bits p) / 2 ^ (c.s_usage_bits - 1) = 1
      ∧ (c.s_offset_bit ||| wrap c.offset_type_bits p) % 2 ^ (c.s_usage_bits - 1) = p
      ∧ ∃ s', try_set_offset c fuel p s = some (true, s')
          ∧ use_count c s' = (c.s_offset_bit ||| wrap c.offset_type_bits p)
          ∧ is_alive c s' = false ∧ is_uncontrolled c s' = false
          ∧ get_offset c s' = p
          ∧ try_revive c fuel s' = some (false, s')
          ∧ Assert.try_control c fuel s' = some (Outcome.aborted s')
          ∧ Assert.try_add_ref c fuel s' = some (Outcome.aborted s')
          ∧ try_control c fuel s' = some (ControlStatus.e_invalid, s')
          ∧ try_add_ref c fuel s' = some (false, s') := by
  obtain ⟨hv, hmax, hmaxo, hunc, h2⟩ := shared_offset_value c hc hsh p hp
  have hlt : p < 2 ^ (c.s_usage_bits - 1) := by omega
  have hpos := Nat.two_pow_pos (c.s_usage_bits - 1)
  rw [hv]
  refine ⟨by omega, by omega, by omega, ?_, ?_, ?_⟩
  · rw [Nat.add_comm, Nat.add_div_right _ hpos, Nat.div_eq_of_lt hlt]
  · rw [Nat.add_mod_left, Nat.mod_eq_of_lt hlt]
  · obtain ⟨r, s', e, hr, _, ht, _⟩ := try_set_offset_shared c hc s hs fuel hf p hsh
    have hnu : use_count c s ≠ c.s_uncontrolled := by
      intro h
      rw [(is_uncontrolled_iff c s).mpr h] at hu
      cases hu
    have hna : ¬ (1 ≤ use_count c s ∧ use_count c s ≤ get_max_usage_count c) := by
      intro h
      rw [(is_alive_iff c s).mpr h] at ha
      cases ha
    have hrt : r = true := hr.mpr ⟨hp, hnu, hna⟩
    subst hrt
    obtain ⟨u1, _⟩ := ht rfl
    have hne : use_count c s' ≠ c.s_uncontrolled := by omega
    obtain ⟨r1, _, eA1⟩ := assert_try_control_eq c s' fuel hf
    obtain ⟨r2, _, eA2⟩ := assert_try_add_ref_eq c s' fuel hf
    refine ⟨s', e, u1, ?_, is_uncontrolled_false c s' hne,
      get_offset_shared_stored c hc s' hsh p hp u1, ?_, ?_, ?_,
      try_control_invalid c s' fuel hf hne (by omega),
      try_add_ref_fail c s' fuel hf (by omega)⟩
    · rw [← Bool.not_eq_true, is_alive_iff]
      omega
    · rw [try_revive_other c s' fuel hf (by omega)]
      simp [hne]
    · rw [eA1, if_neg]
      omega
    · rw [eA2, if_neg]
      omega

/-- Witness for C38: one byte with 4 usage bits shared with the offset and 2 weak bits, an
expired block with weak count 1 (the word `0x10`) and the offset 3: the usage bits become
11 and `try_revive` leaves the word `0x1b` alone. -/
theorem shared_offset_inert_witness :
    get_max_usage_count cfg_u08_4_2_sb = 7 ∧ get_max_offset cfg_u08_4_2_sb = 6
      ∧ cfg_u08_4_2_sb.s_uncontrolled = 15
      ∧ (cfg_u08_4_2_sb.s_offset_bit ||| wrap cfg_u08_4_2_sb.offset_type_bits 3) = 11
      ∧ try_set_offset cfg_u08_4_2_sb 1 3 ⟨0x10, 0, 0, 0⟩ = some (true, ⟨0x1b, 0, 0, 0⟩)
      ∧ get_max_usage_count cfg_u08_4_2_sb
          < (cfg_u08_4_2_sb.s_offset_bit ||| wrap cfg_u08_4_2_sb.offset_type_bits 3)
      ∧ ∃ s', try_set_offset cfg_u08_4_2_sb 1 3 ⟨0x10, 0, 0, 0⟩ = some (true, s')
          ∧ use_count cfg_u08_4_2_sb s'
              = (cfg_u08_4_2_sb.s_offset_bit ||| wrap cfg_u08_4_2_sb.offset_type_bits 3)
          ∧ is_alive cfg_u08_4_2_sb s' = false ∧ is_uncontrolled cfg_u08_4_2_sb s' = false
          ∧ get_offset cfg_u08_4_2_sb s' = 3
          ∧ try_revive cfg_u08_4_2_sb 1 s' = some (false, s')
          ∧ Assert.try_control cfg_u08_4_2_sb 1 s' = some (Outcome.aborted s')
          ∧ Assert.try_add_ref cfg_u08_4_2_sb 1 s' = some (Outcome.aborted s')
          ∧ try_control cfg_u08_4_2_sb 1 s' = some (ControlStatus.e_invalid, s')
          ∧ try_add_ref cfg_u08_4_2_sb 1 s' = some (false, s') :=
  ⟨by decide, by decide, by decide, by decide, by decide,
    (shared_offset_inert cfg_u08_4_2_sb ⟨0x10, 0, 0, 0⟩ 1 3 (by decide) (by decide)
      (by decide) (by decide) (by decide) (by decide) (by decide)).1,
    (shared_offset_inert cfg_u08_4_2_sb ⟨0x10, 0, 0, 0⟩ 1 3 (by decide) (by decide)
      (by decide) (by decide) (by decide) (by decide) (by decide)).2.2.2.2.2⟩

end Pntr
